import Mathlib

/-!
# Grading engine of the music rater (geniusgrading.h / geniusgrading.c)

A C `double` is NaN, one of the two infinities, or a finite value held as a
rational number.  The operations `Dbl.add`, `Dbl.sub`, `Dbl.mul` and `Dbl.div`
give the exact result; `Dbl.r64` rounds a result to binary64 (nearest, halfway
cases to even, an infinity beyond the largest finite value).  The rounding is
applied after every operation of `scale_to_100` and of the weighted aggregate
of `compute_genius_rating`, and the decimal literals of the weight tables and
of `compute_penalties` are the binary64 values they denote.  The Gaussian
bonus and the confidence are continuous values and keep the exact results.
The sign of zero is not represented.  C `int` values are unbounded integers;
every integer that the grading engine computes stays far inside the 32-bit
range.
-/

namespace GeniusRater

/-! ## Direct paths to the algebraic structures of ℚ and ℤ

The arithmetic tactics look up the ring structures of the rationals and the
integers by class; the instances below take them directly from the commutative
ring structures, so that the terms of the proofs do not pass through the
normed-field hierarchy. -/

/-- The ring structure of the rationals. -/
instance (priority := 2000) instRingRat : Ring ℚ := CommRing.toRing

/-- The non-unital commutative ring structure of the rationals. -/
instance (priority := 2000) instNonUnitalCommRingRat : NonUnitalCommRing ℚ :=
  CommRing.toNonUnitalCommRing

/-- The non-unital ring structure of the rationals. -/
instance (priority := 2000) instNonUnitalRingRat : NonUnitalRing ℚ := Ring.toNonUnitalRing

/-- The non-unital commutative ring structure of the integers. -/
instance (priority := 2000) instNonUnitalCommRingInt : NonUnitalCommRing ℤ :=
  CommRing.toNonUnitalCommRing

/-- The non-unital ring structure of the integers. -/
instance (priority := 2000) instNonUnitalRingInt : NonUnitalRing ℤ := Ring.toNonUnitalRing

/-! ## Doubles -/

/-- C `double`: NaN, minus infinity, plus infinity, or a finite value. -/
inductive Dbl where
  | nan : Dbl
  | ninf : Dbl
  | pinf : Dbl
  | fin (q : ℚ) : Dbl
  deriving DecidableEq

namespace Dbl

/-- Function `isnan(x)`. -/
def isnan : Dbl → Bool
  | nan => true
  | ninf => false
  | pinf => false
  | fin _ => false

/-- Conversion `(double)n` of an integer. -/
def ofInt (n : Int) : Dbl := fin (n : ℚ)

/-- Comparison `a < b`; false as soon as one side is NaN. -/
def lt : Dbl → Dbl → Bool
  | nan, _ => false
  | ninf, nan => false
  | ninf, ninf => false
  | ninf, pinf => true
  | ninf, fin _ => true
  | pinf, _ => false
  | fin _, nan => false
  | fin _, ninf => false
  | fin _, pinf => true
  | fin a, fin b => decide (a < b)

/-- Comparison `a <= b`; false as soon as one side is NaN. -/
def le : Dbl → Dbl → Bool
  | nan, _ => false
  | ninf, nan => false
  | ninf, ninf => true
  | ninf, pinf => true
  | ninf, fin _ => true
  | pinf, nan => false
  | pinf, ninf => false
  | pinf, pinf => true
  | pinf, fin _ => false
  | fin _, nan => false
  | fin _, ninf => false
  | fin _, pinf => true
  | fin a, fin b => decide (a ≤ b)

/-- Comparison `a > b`. -/
def gt (a b : Dbl) : Bool := lt b a

/-- Comparison `a >= b`. -/
def ge (a b : Dbl) : Bool := le b a

/-- Unary minus. -/
def neg : Dbl → Dbl
  | nan => nan
  | ninf => pinf
  | pinf => ninf
  | fin q => fin (-q)

/-- Sum `a + b`; opposite infinities give NaN. -/
def add : Dbl → Dbl → Dbl
  | nan, _ => nan
  | ninf, nan => nan
  | ninf, ninf => ninf
  | ninf, pinf => nan
  | ninf, fin _ => ninf
  | pinf, nan => nan
  | pinf, ninf => nan
  | pinf, pinf => pinf
  | pinf, fin _ => pinf
  | fin _, nan => nan
  | fin _, ninf => ninf
  | fin _, pinf => pinf
  | fin a, fin b => fin (a + b)

/-- Difference `a - b`. -/
def sub (a b : Dbl) : Dbl := add a (neg b)

/-- An infinity times the finite value `q`: NaN for zero, otherwise the
infinity whose sign is the product of the signs (`positive` is the sign of the
infinite factor). -/
def infTimes (positive : Bool) (q : ℚ) : Dbl :=
  if q = 0 then nan
  else if (decide (0 < q)) = positive then pinf
  else ninf

/-- Product `a * b`. -/
def mul : Dbl → Dbl → Dbl
  | nan, _ => nan
  | ninf, nan => nan
  | ninf, ninf => pinf
  | ninf, pinf => ninf
  | ninf, fin q => infTimes false q
  | pinf, nan => nan
  | pinf, ninf => ninf
  | pinf, pinf => pinf
  | pinf, fin q => infTimes true q
  | fin _, nan => nan
  | fin q, ninf => infTimes false q
  | fin q, pinf => infTimes true q
  | fin a, fin b => fin (a * b)

/-- Quotient `a / b`.  A zero divisor counts as `+0.0`. -/
def div : Dbl → Dbl → Dbl
  | nan, _ => nan
  | ninf, nan => nan
  | ninf, ninf => nan
  | ninf, pinf => nan
  | ninf, fin q => if 0 ≤ q then ninf else pinf
  | pinf, nan => nan
  | pinf, ninf => nan
  | pinf, pinf => nan
  | pinf, fin q => if 0 ≤ q then pinf else ninf
  | fin _, nan => nan
  | fin _, ninf => fin 0
  | fin _, pinf => fin 0
  | fin a, fin b =>
    if b = 0 then (if a = 0 then nan else if 0 < a then pinf else ninf)
    else fin (a / b)

/-- Function `fabs(x)`. -/
def fabs : Dbl → Dbl
  | nan => nan
  | ninf => pinf
  | pinf => pinf
  | fin q => fin |q|

end Dbl

/-! ## Rounding to binary64 and binary32 -/

/-- Nearest integer of a value, halfway cases to the even neighbour. -/
def rne (q : ℚ) : Int :=
  if q - ⌊q⌋ < 1 / 2 then ⌊q⌋
  else if 1 / 2 < q - ⌊q⌋ then ⌊q⌋ + 1
  else if ⌊q⌋ % 2 = 0 then ⌊q⌋ else ⌊q⌋ + 1

/-- The power `2 ^ e` for an integer exponent. -/
def pow2 (e : Int) : ℚ :=
  if 0 ≤ e then ((2 ^ e.toNat : Nat) : ℚ) else 1 / ((2 ^ (-e).toNat : Nat) : ℚ)

/-- Number of halvings that bring `n` below 2, with `fuel` steps left. -/
def log2_loop : Nat → Nat → Nat
  | 0, _ => 0
  | fuel + 1, n => if 2 ≤ n then log2_loop fuel (n / 2) + 1 else 0

/-- The exponent `k` with `2 ^ k <= n < 2 ^ (k + 1)` of a positive integer. -/
def nat_log2 (n : Nat) : Nat := log2_loop n n

/-- The exponent `k` with `2 ^ k <= |q| < 2 ^ (k + 1)` of a non-zero value. -/
def ilog2 (q : ℚ) : Int :=
  if pow2 ((nat_log2 q.num.natAbs : Int) - (nat_log2 q.den : Int)) ≤ |q|
  then (nat_log2 q.num.natAbs : Int) - (nat_log2 q.den : Int)
  else (nat_log2 q.num.natAbs : Int) - (nat_log2 q.den : Int) - 1

/-- The exponent of the last place of a value in the binary floating-point
format with `p` significant bits whose smallest positive value is
`2 ^ emin`. -/
def fp_exp (p : Nat) (emin : Int) (q : ℚ) : Int :=
  max (ilog2 q - ((p : Int) - 1)) emin

/-- Rounding to a binary floating-point format with `p` significant bits
whose smallest positive value is `2 ^ emin`: the nearest value of the format,
halfway cases to the even significand, with no upper limit on the exponent. -/
def fp_round (p : Nat) (emin : Int) (q : ℚ) : ℚ :=
  if q < 0 then -((rne (-q / pow2 (fp_exp p emin q)) : ℚ) * pow2 (fp_exp p emin q))
  else (rne (q / pow2 (fp_exp p emin q)) : ℚ) * pow2 (fp_exp p emin q)

/-- Rounding to binary64 (C `double`), overflow aside. -/
def b64r (q : ℚ) : ℚ := fp_round 53 (-1074) q

/-- Rounding to binary32 (C `float`), overflow aside. -/
def f32r (q : ℚ) : ℚ := fp_round 24 (-149) q

/-- Conversion of an exact value to `double`: the binary64 value nearest to it,
an infinity when that value lies beyond the largest finite `double`. -/
def to_b64 (q : ℚ) : Dbl :=
  if ((2 ^ 1024 : Nat) : ℚ) ≤ |b64r q| then (if 0 < q then Dbl.pinf else Dbl.ninf)
  else Dbl.fin (b64r q)

/-- Conversion of an exact value to `float`: the binary32 value nearest to it,
an infinity when that value lies beyond the largest finite `float`. -/
def to_f32 (q : ℚ) : Dbl :=
  if ((2 ^ 128 : Nat) : ℚ) ≤ |f32r q| then (if 0 < q then Dbl.pinf else Dbl.ninf)
  else Dbl.fin (f32r q)

/-- The `double` that an operation with the exact result `x` gives. -/
def Dbl.r64 : Dbl → Dbl
  | Dbl.fin q => to_b64 q
  | x => x

/-- The `float` that an operation with the exact result `x` gives. -/
def Dbl.r32 : Dbl → Dbl
  | Dbl.fin q => to_f32 q
  | x => x

/-- Sum `a + b` of two doubles. -/
def Dbl.add64 (a b : Dbl) : Dbl := Dbl.r64 (Dbl.add a b)

/-- Difference `a - b` of two doubles. -/
def Dbl.sub64 (a b : Dbl) : Dbl := Dbl.r64 (Dbl.sub a b)

/-- Product `a * b` of two doubles. -/
def Dbl.mul64 (a b : Dbl) : Dbl := Dbl.r64 (Dbl.mul a b)

/-- Quotient `a / b` of two doubles. -/
def Dbl.div64 (a b : Dbl) : Dbl := Dbl.r64 (Dbl.div a b)

/-! ## Conversions -/

/-- Function `round` of math.h on a finite value: nearest integer, halfway cases away
from zero. -/
def c_round (q : ℚ) : Int :=
  if 0 ≤ q then ⌊q + 1 / 2⌋ else ⌈q - 1 / 2⌉

/-- Function `round(x)` on doubles. -/
def Dbl.round : Dbl → Dbl
  | Dbl.nan => Dbl.nan
  | Dbl.ninf => Dbl.ninf
  | Dbl.pinf => Dbl.pinf
  | Dbl.fin q => Dbl.fin (c_round q : ℚ)

/-- Value that the conversion to `int` produces when the C standard leaves it
undefined (NaN, infinities, values outside the `int` range): the "integer
indefinite" value of the x86-64 conversion instruction. -/
def INT_INDEFINITE : Int := -2147483648

/-- Truncation toward zero of a finite value. -/
def c_trunc (q : ℚ) : Int :=
  if 0 ≤ q then ⌊q⌋ else ⌈q⌉

/-- Conversion `(int)x` of a double. -/
def d2i : Dbl → Int
  | Dbl.nan => INT_INDEFINITE
  | Dbl.ninf => INT_INDEFINITE
  | Dbl.pinf => INT_INDEFINITE
  | Dbl.fin q =>
    if -2147483648 ≤ c_trunc q ∧ c_trunc q ≤ 2147483647 then c_trunc q
    else INT_INDEFINITE

/-! ## Normalization helpers (geniusgrading.h) -/

/-- Function `clampd(x, lo, hi)`. -/
def clampd (x lo hi : Dbl) : Dbl :=
  if Dbl.lt x lo then lo
  else if Dbl.gt x hi then hi
  else x

/-- Function `scale_to_100(x, min, max)`, every operation rounded to binary64.
The bounds are finite: every caller passes numeric literals. -/
def scale_to_100 (x : Dbl) (min max : ℚ) : Int :=
  if x.isnan || Dbl.le (Dbl.fin max) (Dbl.fin min) then 50
  else
    let norm := Dbl.div64 (Dbl.sub64 x (Dbl.fin min)) (Dbl.sub64 (Dbl.fin max) (Dbl.fin min))
    let norm := clampd norm (Dbl.fin 0) (Dbl.fin 1)
    d2i (Dbl.round (Dbl.mul64 norm (Dbl.fin 100)))

/-- Function `inverse_scale_to_100(x, min, max)`. -/
def inverse_scale_to_100 (x : Dbl) (min max : ℚ) : Int :=
  let val := scale_to_100 x min max
  100 - val

/-! ## Gaussian bonus (geniusgrading.c) -/

/-- Function `exp` of math.h on doubles, over a function `E` that gives its value on
finite arguments. -/
def c_exp (E : ℚ → ℚ) : Dbl → Dbl
  | Dbl.nan => Dbl.nan
  | Dbl.ninf => Dbl.fin 0
  | Dbl.pinf => Dbl.pinf
  | Dbl.fin q => Dbl.fin (E q)

/-- Function `gaussian_score(x, mu, sigma, peak)`. -/
def gaussian_score (E : ℚ → ℚ) (x : Dbl) (mu sigma : ℚ) (peak : Int) : Int :=
  if x.isnan then 50
  else
    let z := Dbl.div (Dbl.sub x (Dbl.fin mu)) (Dbl.fin sigma)
    let val := Dbl.mul (Dbl.ofInt peak)
      (c_exp E (Dbl.mul (Dbl.mul (Dbl.fin (-(1 / 2))) z) z))
    let val := if Dbl.lt val (Dbl.fin 0) then Dbl.fin 0 else val
    let val := if Dbl.gt val (Dbl.fin 100) then Dbl.fin 100 else val
    d2i (Dbl.round val)

/-! ## Feature records (include/*.h) -/

/-- Record `SpectralFeatures` of feature_extractor.h. -/
structure SpectralFeatures where
  centroid : Dbl := Dbl.fin 0
  rolloff : Dbl := Dbl.fin 0
  brightness : Dbl := Dbl.fin 0
  mfcc : List Dbl := List.replicate 13 (Dbl.fin 0)

/-- Record `RhythmFeatures` of rhythm.h. -/
structure RhythmFeatures where
  tempo_bpm : Dbl := Dbl.fin 0
  tempo_confidence : Dbl := Dbl.fin 0
  beat_strength : Dbl := Dbl.fin 0
  pulse_clarity : Dbl := Dbl.fin 0
  syncopation : Dbl := Dbl.fin 0
  swing_ratio : Dbl := Dbl.fin 0

/-- Record `ChordLabel` of harmony.h. -/
structure ChordLabel where
  name : String := ""
  time_sec : Dbl := Dbl.fin 0

/-- Record `HarmonyFeatures` of harmony.h; `chord_count` is the length of `chords`. -/
structure HarmonyFeatures where
  global_key : String := ""
  key_stability : Dbl := Dbl.fin 0
  modulation_count : Dbl := Dbl.fin 0
  harmonic_motion : Dbl := Dbl.fin 0
  tension : Dbl := Dbl.fin 0
  chords : List ChordLabel := []

/-- Record `MelodyFeatures` of melody.h. -/
structure MelodyFeatures where
  median_f0 : Dbl := Dbl.fin 0
  mean_f0 : Dbl := Dbl.fin 0
  f0_confidence : Dbl := Dbl.fin 0
  pitch_range_semitones : Dbl := Dbl.fin 0
  contour_count : Int := 0
  avg_contour_length_sec : Dbl := Dbl.fin 0
  longest_contour_sec : Dbl := Dbl.fin 0
  avg_interval_semitones : Dbl := Dbl.fin 0
  avg_abs_interval_semitones : Dbl := Dbl.fin 0
  melodic_entropy : Dbl := Dbl.fin 0
  motif_repetition_rate : Dbl := Dbl.fin 0
  motif_count : Int := 0
  hook_strength : Dbl := Dbl.fin 0

/-- Record `Section` of structure.h. -/
structure Section where
  start_sec : Dbl := Dbl.fin 0
  end_sec : Dbl := Dbl.fin 0
  label : String := ""

/-- Record `StructureFeatures` of structure.h; the array `sections` of
`section_count` elements is a list. -/
structure StructureFeatures where
  sections : List Section := []
  arc_complexity : Dbl := Dbl.fin 0
  repetition_ratio : Dbl := Dbl.fin 0

/-- The field `section_count`. -/
def StructureFeatures.section_count (s : StructureFeatures) : Nat :=
  s.sections.length

/-- Record `PsychoacousticFeatures` of psychoacoustics.h. -/
structure PsychoacousticFeatures where
  roughness : Dbl := Dbl.fin 0
  dissonance : Dbl := Dbl.fin 0
  loudness_lu : Dbl := Dbl.fin 0
  dynamic_range : Dbl := Dbl.fin 0

/-- Record `ProductionFeatures` of production.h. -/
structure ProductionFeatures where
  loudness_db : Dbl := Dbl.fin 0
  dynamic_range_db : Dbl := Dbl.fin 0
  stereo_width : Dbl := Dbl.fin 0
  spectral_balance : Dbl := Dbl.fin 0
  masking_index : Dbl := Dbl.fin 0

/-- Record `GeniusInputs` of geniusgrading.h.  The validity flags are C ints: zero is
false, anything else is true.  The field `structure` is spelled `structure_`. -/
structure GeniusInputs where
  duration_sec : Dbl := Dbl.fin 0
  rms : Dbl := Dbl.fin 0
  peak : Dbl := Dbl.fin 0
  dc_offset : Dbl := Dbl.fin 0
  zcr : Dbl := Dbl.fin 0
  spectral : SpectralFeatures := {}
  rhythm : RhythmFeatures := {}
  harmony : HarmonyFeatures := {}
  melody : MelodyFeatures := {}
  melody_valid : Int := 0
  structure_ : StructureFeatures := {}
  structure_valid : Int := 0
  psy : PsychoacousticFeatures := {}
  prod : ProductionFeatures := {}
  prod_valid : Int := 0

/-- Capacity of each explanation list. -/
def GENIUS_MAX_EXPLAIN : Int := 10

/-- Size of one explanation buffer, terminator included. -/
def GENIUS_MAX_TEXT : Nat := 80

/-- Record `GeniusResult` of geniusgrading.h.  The arrays `positives` and
`negatives` hold the texts written so far, in order. -/
structure GeniusResult where
  harmony_score : Int := 0
  progression_score : Int := 0
  melody_score : Int := 0
  rhythm_score : Int := 0
  structure_score : Int := 0
  timbre_score : Int := 0
  creativity_score : Int := 0
  overall_score : Int := 0
  is_genius : Int := 0
  confidence : Dbl := Dbl.fin 0
  originality_score : Int := 0
  complexity_score : Int := 0
  genre_distance_score : Int := 0
  emotion_score : Int := 0
  pos_count : Int := 0
  neg_count : Int := 0
  positives : List String := []
  negatives : List String := []

/-- Enumeration `GeniusGenre`, held as its integer value. -/
abbrev GeniusGenre := Int

/-- Enumerator 0. -/
def GENIUS_GENRE_DEFAULT : GeniusGenre := 0
/-- Enumerator 1. -/
def GENIUS_GENRE_RAP : GeniusGenre := 1
/-- Enumerator 2. -/
def GENIUS_GENRE_VGM : GeniusGenre := 2
/-- Enumerator 3. -/
def GENIUS_GENRE_POP : GeniusGenre := 3
/-- Enumerator 4. -/
def GENIUS_GENRE_EXPERIMENTAL : GeniusGenre := 4
/-- Enumerator 5. -/
def GENIUS_GENRE_PHONK : GeniusGenre := 5

/-- Record `GeniusWeights`; each field of a table is the binary64 value of its
decimal literal. -/
structure GeniusWeights where
  w_harmony : ℚ
  w_progression : ℚ
  w_melody : ℚ
  w_rhythm : ℚ
  w_structure : ℚ
  w_timbre : ℚ
  w_creativity : ℚ
  bias : ℚ

/-! ## Category scorers (geniusgrading.c) -/

/-- Integer division of C: the quotient is truncated toward zero. -/
def c_div (a b : Int) : Int := Int.tdiv a b

/-- Function `compute_harmony_score`. -/
def compute_harmony_score (E : ℚ → ℚ) (inp : GeniusInputs) : Int :=
  let stability := scale_to_100 inp.harmony.key_stability 0 1
  let tension := gaussian_score E inp.harmony.tension (1 / 2) (1 / 5) 100
  let has_key : Int := if inp.harmony.global_key ≠ "unknown" then 15 else 0
  let base := c_div (stability + tension) 2 + has_key
  d2i (clampd (Dbl.ofInt base) (Dbl.fin 0) (Dbl.fin 100))

/-- Function `compute_progression_score`. -/
def compute_progression_score (inp : GeniusInputs) : Int :=
  let motion := scale_to_100 inp.harmony.harmonic_motion 0 1
  let mod_bonus : Int :=
    if Dbl.gt inp.harmony.modulation_count (Dbl.fin 0)
        && Dbl.le inp.harmony.modulation_count (Dbl.fin 3) then 15 else 0
  let tempo_score := scale_to_100 inp.rhythm.tempo_bpm 60 180
  let base := c_div (motion + tempo_score) 2 + mod_bonus
  d2i (clampd (Dbl.ofInt base) (Dbl.fin 0) (Dbl.fin 100))

/-- Function `compute_melody_score`. -/
def compute_melody_score (E : ℚ → ℚ) (inp : GeniusInputs) : Int :=
  if inp.melody_valid = 0 then 50
  else
    let conf := scale_to_100 inp.melody.f0_confidence 0 1
    let range := gaussian_score E inp.melody.pitch_range_semitones 12 5 100
    let motif := gaussian_score E inp.melody.motif_repetition_rate (1 / 2) (15 / 100) 100
    let hook := scale_to_100 inp.melody.hook_strength 0 1
    let base := c_div (conf + range + motif + hook) 4
    base

/-- Function `compute_rhythm_score`. -/
def compute_rhythm_score (E : ℚ → ℚ) (inp : GeniusInputs) : Int :=
  let conf := scale_to_100 inp.rhythm.tempo_confidence 0 1
  let beat := scale_to_100 inp.rhythm.beat_strength 0 1
  let clarity := scale_to_100 inp.rhythm.pulse_clarity 0 1
  let sync := gaussian_score E inp.rhythm.syncopation (1 / 2) (1 / 5) 100
  let s_ratio_dev := Dbl.fabs (Dbl.sub inp.rhythm.swing_ratio (Dbl.fin 1))
  let swing := inverse_scale_to_100 s_ratio_dev 0 (1 / 2)
  let base := c_div (conf + beat + clarity + sync + swing) 5
  base

/-- The loop of `compute_structure_score` over the sections: 15 at the first
section labelled "chorus", 0 when there is none. -/
def chorus_bonus : List Section → Int
  | [] => 0
  | s :: rest => if s.label = "chorus" then 15 else chorus_bonus rest

/-- Function `compute_structure_score`. -/
def compute_structure_score (E : ℚ → ℚ) (inp : GeniusInputs) : Int :=
  if inp.structure_valid = 0 ∨ inp.structure_.section_count = 0 then 50
  else
    let sec_bonus :=
      gaussian_score E (Dbl.ofInt (inp.structure_.section_count : Int)) 5 2 100
    let arc := scale_to_100 inp.structure_.arc_complexity 0 1
    let rep := gaussian_score E inp.structure_.repetition_ratio (1 / 2) (1 / 5) 100
    let chorus := chorus_bonus inp.structure_.sections
    let base := c_div (sec_bonus + arc + rep) 3 + chorus
    d2i (clampd (Dbl.ofInt base) (Dbl.fin 0) (Dbl.fin 100))

/-- Function `compute_timbre_score`. -/
def compute_timbre_score (E : ℚ → ℚ) (inp : GeniusInputs) : Int :=
  let rough := inverse_scale_to_100 inp.psy.roughness 0 (1 / 2)
  let diss := inverse_scale_to_100 inp.psy.dissonance 0 (1 / 2)
  let loud := gaussian_score E inp.psy.loudness_lu (-14) 4 100
  let drng := gaussian_score E inp.psy.dynamic_range 9 3 100
  let stereo := scale_to_100 inp.prod.stereo_width 0 1
  let bal := scale_to_100 inp.prod.spectral_balance 0 1
  let base := c_div (rough + diss + loud + drng + stereo + bal) 6
  base

/-- Function `compute_creativity_score`. -/
def compute_creativity_score (E : ℚ → ℚ) (inp : GeniusInputs) : Int :=
  if inp.melody_valid = 0 then 50
  else
    let entropy := scale_to_100 inp.melody.melodic_entropy 0 5
    let interval := gaussian_score E inp.melody.avg_abs_interval_semitones 4 2 100
    let sync := gaussian_score E inp.rhythm.syncopation (1 / 2) (1 / 5) 100
    let mask := inverse_scale_to_100 inp.prod.masking_index 0 1
    let base := c_div (entropy + interval + sync + mask) 4
    base

/-! ## Genre weight profiles -/

/-- Table `GENIUS_DEFAULT_WEIGHTS`. -/
def GENIUS_DEFAULT_WEIGHTS : GeniusWeights :=
  { w_harmony := 1, w_progression := 1, w_melody := 1,
    w_rhythm := 1, w_structure := 1, w_timbre := 1,
    w_creativity := 1, bias := 0 }

/-- Table `GENIUS_RAP_WEIGHTS`. -/
def GENIUS_RAP_WEIGHTS : GeniusWeights :=
  { w_harmony := b64r (8 / 10), w_progression := b64r (8 / 10), w_melody := b64r (9 / 10),
    w_rhythm := b64r (13 / 10), w_structure := b64r (7 / 10), w_timbre := 1,
    w_creativity := b64r (15 / 10), bias := 5 }

/-- Table `GENIUS_VGM_WEIGHTS`. -/
def GENIUS_VGM_WEIGHTS : GeniusWeights :=
  { w_harmony := b64r (9 / 10), w_progression := b64r (9 / 10), w_melody := b64r (12 / 10),
    w_rhythm := b64r (9 / 10), w_structure := b64r (13 / 10), w_timbre := b64r (12 / 10),
    w_creativity := 1, bias := 0 }

/-- Table `GENIUS_POP_WEIGHTS`. -/
def GENIUS_POP_WEIGHTS : GeniusWeights :=
  { w_harmony := b64r (9 / 10), w_progression := 1, w_melody := b64r (14 / 10),
    w_rhythm := 1, w_structure := b64r (9 / 10), w_timbre := b64r (14 / 10),
    w_creativity := 1, bias := 3 }

/-- Table `GENIUS_EXPERIMENTAL_WEIGHTS`. -/
def GENIUS_EXPERIMENTAL_WEIGHTS : GeniusWeights :=
  { w_harmony := b64r (7 / 10), w_progression := b64r (7 / 10), w_melody := b64r (8 / 10),
    w_rhythm := b64r (9 / 10), w_structure := b64r (8 / 10), w_timbre := b64r (7 / 10),
    w_creativity := 2, bias := 0 }

/-- Table `GENIUS_PHONK_WEIGHTS`. -/
def GENIUS_PHONK_WEIGHTS : GeniusWeights :=
  { w_harmony := b64r (8 / 10), w_progression := b64r (12 / 10), w_melody := b64r (9 / 10),
    w_rhythm := b64r (14 / 10), w_structure := b64r (8 / 10), w_timbre := b64r (13 / 10),
    w_creativity := 1, bias := 2 }

/-- The `switch (genre)` of `compute_genius_rating` that picks the weight
profile. -/
def select_weights (genre : GeniusGenre) : GeniusWeights :=
  if genre = GENIUS_GENRE_RAP then GENIUS_RAP_WEIGHTS
  else if genre = GENIUS_GENRE_VGM then GENIUS_VGM_WEIGHTS
  else if genre = GENIUS_GENRE_POP then GENIUS_POP_WEIGHTS
  else if genre = GENIUS_GENRE_EXPERIMENTAL then GENIUS_EXPERIMENTAL_WEIGHTS
  else if genre = GENIUS_GENRE_PHONK then GENIUS_PHONK_WEIGHTS
  else GENIUS_DEFAULT_WEIGHTS

/-! ## Penalties -/

/-- Function `compute_penalties`; the thresholds are the binary64 values of the
literals `0.99`, `0.05` and `0.3`. -/
def compute_penalties (inp : GeniusInputs) : Int :=
  let penalty : Int := 0
  let penalty :=
    if Dbl.ge inp.peak (Dbl.fin (b64r (99 / 100)))
        && Dbl.lt inp.psy.dynamic_range (Dbl.fin 3) then penalty + 10 else penalty
  let penalty :=
    if Dbl.gt (Dbl.fabs inp.dc_offset) (Dbl.fin (b64r (5 / 100))) then penalty + 5
    else penalty
  let penalty :=
    if Dbl.lt inp.rhythm.tempo_confidence (Dbl.fin (b64r (3 / 10))) then penalty + 7
    else penalty
  let penalty := if inp.melody_valid = 0 then penalty + 8 else penalty
  let penalty := if inp.prod_valid = 0 then penalty + 5 else penalty
  penalty

/-! ## Originality, complexity, genre distance, emotion -/

/-- Function `compute_originality_score`. -/
def compute_originality_score (inp : GeniusInputs) : Int :=
  let arc := scale_to_100 inp.structure_.arc_complexity 0 1
  let ent := scale_to_100 inp.melody.melodic_entropy 0 5
  let sync := scale_to_100 inp.rhythm.syncopation 0 1
  c_div (arc + ent + sync) 3

/-- Function `compute_complexity_score`. -/
def compute_complexity_score (inp : GeniusInputs) : Int :=
  let motifs := scale_to_100 (Dbl.ofInt inp.melody.motif_count) 0 50
  let ent := scale_to_100 inp.melody.melodic_entropy 0 5
  let motion := scale_to_100 inp.harmony.harmonic_motion 0 1
  c_div (motifs + ent + motion) 3

/-- Function `compute_genre_distance_score`. -/
def compute_genre_distance_score (inp : GeniusInputs) (genre : GeniusGenre) : Int :=
  let centroid_tempo : ℚ :=
    if genre = GENIUS_GENRE_RAP then 90
    else if genre = GENIUS_GENRE_VGM then 110
    else if genre = GENIUS_GENRE_PHONK then 100
    else if genre = GENIUS_GENRE_EXPERIMENTAL then 0
    else 120
  let diff : Dbl :=
    if centroid_tempo > 0 then Dbl.fabs (Dbl.sub inp.rhythm.tempo_bpm (Dbl.fin centroid_tempo))
    else Dbl.fin 0
  let novelty := scale_to_100 diff 0 60
  let novelty := if genre = GENIUS_GENRE_EXPERIMENTAL then 80 else novelty
  novelty

/-- Function `compute_emotion_score`. -/
def compute_emotion_score (E : ℚ → ℚ) (inp : GeniusInputs) : Int :=
  let tension := gaussian_score E inp.harmony.tension (1 / 2) (1 / 5) 100
  let pulse := scale_to_100 inp.rhythm.pulse_clarity 0 1
  let beat := scale_to_100 inp.rhythm.beat_strength 0 1
  let dyn := gaussian_score E inp.psy.dynamic_range 9 3 100
  let arc := scale_to_100 inp.structure_.arc_complexity 0 1
  let base := c_div (tension + pulse + beat + dyn + arc) 5
  base

/-! ## Explanations -/

/-- The text `snprintf` leaves in a buffer of `GENIUS_MAX_TEXT` bytes. -/
def snprintf_text (s : String) : String := s.take (GENIUS_MAX_TEXT - 1)

/-- One positive reason: `snprintf(out->positives[out->pos_count++], ...)`
behind its guard. -/
def add_positive (out : GeniusResult) (trigger : Bool) (text : String) : GeniusResult :=
  if trigger && decide (out.pos_count < GENIUS_MAX_EXPLAIN) then
    { out with positives := out.positives ++ [snprintf_text text],
               pos_count := out.pos_count + 1 }
  else out

/-- One negative reason: `snprintf(out->negatives[out->neg_count++], ...)`
behind its guard. -/
def add_negative (out : GeniusResult) (trigger : Bool) (text : String) : GeniusResult :=
  if trigger && decide (out.neg_count < GENIUS_MAX_EXPLAIN) then
    { out with negatives := out.negatives ++ [snprintf_text text],
               neg_count := out.neg_count + 1 }
  else out

/-- Function `fill_explanations`. -/
def fill_explanations (out : GeniusResult) (penalty : Int) : GeniusResult :=
  let out := { out with pos_count := 0, neg_count := 0, positives := [], negatives := [] }
  let out := add_positive out (decide (out.melody_score ≥ 85))
    ("Strong melody (score " ++ toString out.melody_score ++ ")")
  let out := add_positive out (decide (out.creativity_score ≥ 85))
    ("High creativity (score " ++ toString out.creativity_score ++ ")")
  let out := add_positive out (decide (out.emotion_score ≥ 85))
    ("High emotional impact (score " ++ toString out.emotion_score ++ ")")
  let out := add_positive out (decide (out.originality_score ≥ 80))
    ("Original structure/motifs (originality " ++ toString out.originality_score ++ ")")
  let out := add_negative out (decide (penalty > 0))
    ("Technical penalties applied (" ++ toString penalty ++ ")")
  let out := add_negative out (decide (out.timbre_score < 60))
    ("Weak production/timbre (score " ++ toString out.timbre_score ++ ")")
  let out := add_negative out (decide (out.rhythm_score < 60))
    ("Unstable rhythm/pulse (score " ++ toString out.rhythm_score ++ ")")
  let out := add_negative out (decide (out.structure_score < 50))
    ("Poor or unclear structure (score " ++ toString out.structure_score ++ ")")
  out

/-! ## Top-level scorer -/

/-- The weighted aggregate `num` of `compute_genius_rating` over the seven
category scores: every product and every sum, from left to right, rounded to
binary64. -/
def weighted_num (W : GeniusWeights) (h p m r s t c : Int) : Dbl :=
  Dbl.add64 (Dbl.add64 (Dbl.add64 (Dbl.add64 (Dbl.add64 (Dbl.add64 (Dbl.add64
    (Dbl.mul64 (Dbl.ofInt h) (Dbl.fin W.w_harmony))
    (Dbl.mul64 (Dbl.ofInt p) (Dbl.fin W.w_progression)))
    (Dbl.mul64 (Dbl.ofInt m) (Dbl.fin W.w_melody)))
    (Dbl.mul64 (Dbl.ofInt r) (Dbl.fin W.w_rhythm)))
    (Dbl.mul64 (Dbl.ofInt s) (Dbl.fin W.w_structure)))
    (Dbl.mul64 (Dbl.ofInt t) (Dbl.fin W.w_timbre)))
    (Dbl.mul64 (Dbl.ofInt c) (Dbl.fin W.w_creativity)))
    (Dbl.fin W.bias)

/-- The sum `den` of the seven weights in `compute_genius_rating`, every sum
rounded to binary64. -/
def weighted_den (W : GeniusWeights) : Dbl :=
  Dbl.add64 (Dbl.add64 (Dbl.add64 (Dbl.add64 (Dbl.add64 (Dbl.add64
    (Dbl.fin W.w_harmony) (Dbl.fin W.w_progression)) (Dbl.fin W.w_melody))
    (Dbl.fin W.w_rhythm)) (Dbl.fin W.w_structure)) (Dbl.fin W.w_timbre))
    (Dbl.fin W.w_creativity)

/-- The local `overall = (int)round(num / den)` of `compute_genius_rating` over
the seven category scores. -/
def weighted_round (W : GeniusWeights) (h p m r s t c : Int) : Int :=
  d2i (Dbl.round (Dbl.div64 (weighted_num W h p m r s t c) (weighted_den W)))

/-- Function `compute_genius_rating` called with two valid pointers: the record it
leaves in `*out` (the function then returns 0).  The fields of `*out` that the
function assigns one after the other are local values here, gathered into the
record before `fill_explanations` runs.  The sums `num` and `den` are
`weighted_num` and `weighted_den`. -/
def compute_genius_rating (E : ℚ → ℚ) (inp : GeniusInputs) (genre : GeniusGenre) :
    GeniusResult :=
  let harmony_score := compute_harmony_score E inp
  let progression_score := compute_progression_score inp
  let melody_score := compute_melody_score E inp
  let rhythm_score := compute_rhythm_score E inp
  let structure_score := compute_structure_score E inp
  let timbre_score := compute_timbre_score E inp
  let creativity_score := compute_creativity_score E inp
  let W := select_weights genre
  let num := weighted_num W harmony_score progression_score melody_score rhythm_score
    structure_score timbre_score creativity_score
  let den := weighted_den W
  let overall := d2i (Dbl.round (Dbl.div64 num den))
  let penalty := compute_penalties inp
  let overall_score := if overall - penalty ≥ 0 then overall - penalty else 0
  let is_genius : Int :=
    if overall_score ≥ 85 ∧
        (melody_score ≥ 80 ∨ creativity_score ≥ 80 ∨ harmony_score ≥ 80)
    then 1 else 0
  let conf := Dbl.div (Dbl.add inp.rhythm.tempo_confidence inp.melody.f0_confidence) (Dbl.fin 2)
  let conf := if inp.melody_valid = 0 then Dbl.mul conf (Dbl.fin (8 / 10)) else conf
  let conf := if inp.structure_valid = 0 then Dbl.mul conf (Dbl.fin (9 / 10)) else conf
  let conf := if inp.prod_valid = 0 then Dbl.mul conf (Dbl.fin (9 / 10)) else conf
  let confidence := conf
  let originality_score := compute_originality_score inp
  let complexity_score := compute_complexity_score inp
  let genre_distance_score := compute_genre_distance_score inp genre
  let is_genius : Int :=
    if is_genius = 0 ∧ originality_score ≥ 85 ∧ complexity_score ≥ 85 then 1 else is_genius
  let emotion_score := compute_emotion_score E inp
  let is_genius : Int :=
    if is_genius = 0 ∧ emotion_score ≥ 90 ∧ overall_score ≥ 80 then 1 else is_genius
  fill_explanations
    { harmony_score := harmony_score,
      progression_score := progression_score,
      melody_score := melody_score,
      rhythm_score := rhythm_score,
      structure_score := structure_score,
      timbre_score := timbre_score,
      creativity_score := creativity_score,
      overall_score := overall_score,
      is_genius := is_genius,
      confidence := confidence,
      originality_score := originality_score,
      complexity_score := complexity_score,
      genre_distance_score := genre_distance_score,
      emotion_score := emotion_score }
    penalty

/-! ## A concrete `exp` for evaluating examples -/

/-- Truncated sum `1 + q/k * (1 + q/(k+1) * (...))` with `n` further terms. -/
def exp_horner (q : ℚ) : Nat → Nat → ℚ
  | _, 0 => 1
  | k, n + 1 => 1 + q / k * exp_horner q (k + 1) n

/-- A rational stand-in for `exp` of math.h, only used to evaluate the engine
on concrete records: the Taylor polynomial of degree 24 for positive arguments
and its reciprocal for the others, so that `exp(0) = 1` exactly. -/
def exp_model (q : ℚ) : ℚ :=
  if q ≤ 0 then 1 / exp_horner (-q) 1 24 else exp_horner q 1 24

/-! ## Auxiliary definitions for the proofs -/

/-- The local `overall` of `compute_genius_rating`, before the penalties. -/
def weighted_overall (E : ℚ → ℚ) (inp : GeniusInputs) (genre : GeniusGenre) : Int :=
  weighted_round (select_weights genre) (compute_harmony_score E inp)
    (compute_progression_score inp) (compute_melody_score E inp) (compute_rhythm_score E inp)
    (compute_structure_score E inp) (compute_timbre_score E inp)
    (compute_creativity_score E inp)

/-- The weighted aggregate in finite values: every product and sum rounded by
`b64r`. -/
def weighted_num_q (W : GeniusWeights) (h p m r s t c : Int) : ℚ :=
  b64r (b64r (b64r (b64r (b64r (b64r (b64r (b64r ((h : ℚ) * W.w_harmony)
    + b64r ((p : ℚ) * W.w_progression))
    + b64r ((m : ℚ) * W.w_melody))
    + b64r ((r : ℚ) * W.w_rhythm))
    + b64r ((s : ℚ) * W.w_structure))
    + b64r ((t : ℚ) * W.w_timbre))
    + b64r ((c : ℚ) * W.w_creativity))
    + W.bias)

/-- The sum of the weights in finite values, every sum rounded by `b64r`. -/
def weighted_den_q (W : GeniusWeights) : ℚ :=
  b64r (b64r (b64r (b64r (b64r (b64r (W.w_harmony + W.w_progression) + W.w_melody)
    + W.w_rhythm) + W.w_structure) + W.w_timbre) + W.w_creativity)

/-- What the proofs use of a weight profile: weights in [0,2], a bias in [0,5],
and a finite sum of the weights that is at least 1. -/
def weights_ok (W : GeniusWeights) : Prop :=
  (0 ≤ W.w_harmony ∧ W.w_harmony ≤ 2) ∧ (0 ≤ W.w_progression ∧ W.w_progression ≤ 2) ∧
  (0 ≤ W.w_melody ∧ W.w_melody ≤ 2) ∧ (0 ≤ W.w_rhythm ∧ W.w_rhythm ≤ 2) ∧
  (0 ≤ W.w_structure ∧ W.w_structure ≤ 2) ∧ (0 ≤ W.w_timbre ∧ W.w_timbre ≤ 2) ∧
  (0 ≤ W.w_creativity ∧ W.w_creativity ≤ 2) ∧ (0 ≤ W.bias ∧ W.bias ≤ 5) ∧
  weighted_den W = Dbl.fin (weighted_den_q W) ∧ 1 ≤ weighted_den_q W

/-- The three assignments to `out->is_genius` in `compute_genius_rating`, in
their order, as a function of the scores they read. -/
def genius_verdict (overall melody creativity harmony originality complexity emotion : Int) :
    Int :=
  let is_genius : Int :=
    if overall ≥ 85 ∧ (melody ≥ 80 ∨ creativity ≥ 80 ∨ harmony ≥ 80) then 1 else 0
  let is_genius : Int :=
    if is_genius = 0 ∧ originality ≥ 85 ∧ complexity ≥ 85 then 1 else is_genius
  let is_genius : Int :=
    if is_genius = 0 ∧ emotion ≥ 90 ∧ overall ≥ 80 then 1 else is_genius
  is_genius

/-- A record on which every sub-score is at its maximum and no penalty
applies. -/
def peak_input : GeniusInputs :=
  { harmony :=
      { global_key := "C", key_stability := Dbl.fin 1, harmonic_motion := Dbl.fin 1,
        tension := Dbl.fin (1 / 2) },
    rhythm :=
      { tempo_bpm := Dbl.fin 180, tempo_confidence := Dbl.fin 1, beat_strength := Dbl.fin 1,
        pulse_clarity := Dbl.fin 1, syncopation := Dbl.fin (1 / 2), swing_ratio := Dbl.fin 1 },
    melody :=
      { f0_confidence := Dbl.fin 1, pitch_range_semitones := Dbl.fin 12,
        motif_repetition_rate := Dbl.fin (1 / 2), hook_strength := Dbl.fin 1,
        melodic_entropy := Dbl.fin 5, avg_abs_interval_semitones := Dbl.fin 4 },
    melody_valid := 1,
    structure_ :=
      { sections :=
          [{ label := "intro" }, { label := "verse" }, { label := "chorus" },
           { label := "verse" }, { label := "outro" }],
        arc_complexity := Dbl.fin 1, repetition_ratio := Dbl.fin (1 / 2) },
    structure_valid := 1,
    psy := { loudness_lu := Dbl.fin (-14), dynamic_range := Dbl.fin 9 },
    prod := { stereo_width := Dbl.fin 1, spectral_balance := Dbl.fin 1 },
    prod_valid := 1 }

/-- Order of two doubles neither of which is NaN. -/
def Dbl.le_nn (x y : Dbl) : Prop :=
  x.isnan = false ∧ y.isnan = false ∧ Dbl.le x y = true

/-- The value `norm` of `scale_to_100` before clamping. -/
def scale_norm (x : Dbl) (min max : ℚ) : Dbl :=
  Dbl.div64 (Dbl.sub64 x (Dbl.fin min)) (Dbl.sub64 (Dbl.fin max) (Dbl.fin min))

/-- The width `max - min` of a range of `scale_to_100` is a positive finite
double. -/
def scale_ok (min max : ℚ) : Prop :=
  ∃ d : ℚ, Dbl.sub64 (Dbl.fin max) (Dbl.fin min) = Dbl.fin d ∧ 0 < d

/-- The record `peak_input` with the melodic entropy at 1, the top of the range
that the melody extractor produces. -/
def peak_input_unit : GeniusInputs :=
  { peak_input with melody := { peak_input.melody with melodic_entropy := Dbl.fin 1 } }

/-- The clamp of `scale_to_100` on a finite ratio. -/
def unit_clamp (t : ℚ) : ℚ :=
  if t < 0 then 0 else if 1 < t then 1 else t

/-- The clamp of `scale_to_100` on a double that is not NaN, as a finite
value. -/
def clamp01 : Dbl → ℚ
  | Dbl.nan => 0
  | Dbl.ninf => 0
  | Dbl.pinf => 1
  | Dbl.fin t => unit_clamp t

/-- The value `peak * exp(-0.5 * z * z)` of `gaussian_score` before clamping. -/
def gaussian_val (E : ℚ → ℚ) (x : Dbl) (mu sigma : ℚ) (peak : Int) : Dbl :=
  Dbl.mul (Dbl.ofInt peak)
    (c_exp E (Dbl.mul (Dbl.mul (Dbl.fin (-(1 / 2)))
      (Dbl.div (Dbl.sub x (Dbl.fin mu)) (Dbl.fin sigma)))
      (Dbl.div (Dbl.sub x (Dbl.fin mu)) (Dbl.fin sigma))))

/-- Clamp to [0,100] and conversion at the end of `gaussian_score`. -/
def gaussian_tail (val : Dbl) : Int :=
  let val := if Dbl.lt val (Dbl.fin 0) then Dbl.fin 0 else val
  let val := if Dbl.gt val (Dbl.fin 100) then Dbl.fin 100 else val
  d2i (Dbl.round val)

/-! ## Framing helpers (feature_extractor.c) -/

/-- Tempo centroid that `compute_genre_distance_score` expects for a genre with
one: rap 90, vgm 110, phonk 100, every other selector 120. -/
def genre_centroid (genre : GeniusGenre) : ℚ :=
  if genre = GENIUS_GENRE_RAP then 90
  else if genre = GENIUS_GENRE_VGM then 110
  else if genre = GENIUS_GENRE_PHONK then 100
  else 120

/-- Function `compute_num_frames(total, frame, hop)` on `size_t` values; the
subtraction is guarded, so nothing wraps. -/
def compute_num_frames (total frame hop : Nat) : Nat :=
  if total = 0 then 0
  else if total ≤ frame then 1
  else 1 + (total - frame) / hop

/-! ## Signal processing: conventions

Inside the extractors a `float` or `double` is a finite value held as a rational
number.  Where a result depends on it, the rounding of the code is applied and
the definition says so: in `estimate_tempo_from_odf` (the products are rounded
to `float`, the sums and the confidence to `double`), in the pulse clarity,
syncopation and swing descriptors of rhythm.c, in the mono mix of
audio_decoder.c (the sum and the quotient are rounded to `double`, the result
to `float`), in `spectral_features_from_frame`, in the motif repetition rate,
in `compute_harmonic_tension` and in the thresholds and window positions of
production.c.  Elsewhere the arithmetic is exact.
A buffer is a function from the index to the
value, next to its length; a `size_t` is a natural number, reduced modulo
`2^64` where a subtraction can wrap.  The math.h functions are parameters,
gathered in `Libm`.  An allocation whose result the code tests is granted or
refused by a parameter that maps the requested number of bytes to success;
every other allocation is taken to succeed. -/

/-- The math.h functions used by the extractors, on finite arguments. -/
structure Libm where
  cos : ℚ → ℚ
  sin : ℚ → ℚ
  sqrt : ℚ → ℚ
  log : ℚ → ℚ
  log10 : ℚ → ℚ
  log2 : ℚ → ℚ
  pow : ℚ → ℚ → ℚ
  tanh : ℚ → ℚ

/-- Constant `M_PI`. -/
def M_PI : ℚ := 314159265358979323846 / 100000000000000000000

/-- Loop `sum = 0; for (n = 0; n < N; ++n) sum += f(n);`. -/
def sum_loop (N : Nat) (f : Nat → ℚ) : ℚ :=
  (List.range N).foldl (fun acc n => acc + f n) 0

/-- Loop `for (k = lo; k < hi; ++k) body` over `int` values. -/
def for_int {σ : Type} (lo hi : Int) (body : Int → σ → σ) (s : σ) : σ :=
  (List.range (hi - lo).toNat).foldl (fun s d => body (lo + (d : Int)) s) s

/-! ## Radix-2 FFT (feature_extractor.c) -/

/-- Record `cpx`, over any type of scalars. -/
structure Cpx (K : Type) where
  r : K
  i : K

/-- Loop `while (m && j >= m) { j -= m; m >>= 1; }` of `bit_reverse`; the
result is the final `(j, m)`. -/
def bit_reverse_carry (j m : Nat) : Nat × Nat :=
  if m ≠ 0 ∧ j ≥ m then bit_reverse_carry (j - m) (m / 2) else (j, m)
termination_by m
decreasing_by omega

/-- Body `cpx t = a[i]; a[i] = a[j]; a[j] = t;`. -/
def cpx_swap {K : Type} (a : Nat → Cpx K) (i j : Nat) : Nat → Cpx K :=
  Function.update (Function.update a i (a j)) j (a i)

/-- The `for` loop of `bit_reverse` from index `i` on, with `fuel` iterations
left. -/
def bit_reverse_loop {K : Type} (n : Nat) : Nat → Nat → Nat → (Nat → Cpx K) → (Nat → Cpx K)
  | 0, _, _, a => a
  | fuel + 1, i, j, a =>
    let a := if i < j then cpx_swap a i j else a
    let jm := bit_reverse_carry j (n / 2)
    bit_reverse_loop n fuel (i + 1) (jm.1 + jm.2) a

/-- Function `bit_reverse(a, n)`. -/
def bit_reverse {K : Type} (a : Nat → Cpx K) (n : Nat) : Nat → Cpx K :=
  bit_reverse_loop n n 0 0 a

/-- Innermost loop of `fft` over `j`, from `j` on with `fuel` iterations left:
the butterflies of the block that starts at `k`, with the running twiddle
factor `w`. -/
def fft_butterflies {K : Type} [Ring K] (wm : Cpx K) (k m : Nat) :
    Nat → Nat → Cpx K → (Nat → Cpx K) → (Nat → Cpx K)
  | 0, _, _, a => a
  | fuel + 1, j, w, a =>
    let t : Cpx K :=
      { r := w.r * (a (k + j + m / 2)).r - w.i * (a (k + j + m / 2)).i,
        i := w.r * (a (k + j + m / 2)).i + w.i * (a (k + j + m / 2)).r }
    let u := a (k + j)
    let a := Function.update a (k + j) { r := u.r + t.r, i := u.i + t.i }
    let a := Function.update a (k + j + m / 2) { r := u.r - t.r, i := u.i - t.i }
    let wnext : Cpx K := { r := w.r * wm.r - w.i * wm.i, i := w.r * wm.i + w.i * wm.r }
    fft_butterflies wm k m fuel (j + 1) wnext a

/-- Loop of `fft` over the blocks `k = 0, m, 2m, ...` below `n`, from `k` on. -/
def fft_blocks {K : Type} [Ring K] (wm : Cpx K) (n m : Nat) :
    Nat → Nat → (Nat → Cpx K) → (Nat → Cpx K)
  | 0, _, a => a
  | fuel + 1, k, a =>
    if k < n then
      fft_blocks wm n m fuel (k + m) (fft_butterflies wm k m (m / 2) 0 { r := 1, i := 0 } a)
    else a

/-- Outer loop of `fft` over the stages `s` with `2^s <= n`, from `s` on; the
function `tw` gives `{cos(theta), sin(theta)}` for `theta = -2 pi / m`. -/
def fft_stages {K : Type} [Ring K] (tw : Nat → Cpx K) (n : Nat) :
    Nat → Nat → (Nat → Cpx K) → (Nat → Cpx K)
  | 0, _, a => a
  | fuel + 1, s, a =>
    if 2 ^ s ≤ n then
      fft_stages tw n fuel (s + 1) (fft_blocks (tw (2 ^ s)) n (2 ^ s) n 0 a)
    else a

/-- Function `fft(a, n)`. -/
def fft {K : Type} [Ring K] (tw : Nat → Cpx K) (a : Nat → Cpx K) (n : Nat) : Nat → Cpx K :=
  fft_stages tw n n 1 (bit_reverse a n)

/-- The twiddle factor `{cos(theta), sin(theta)}`, `theta = -2.0 * pi / m`, of
`fft` for a given cosine, sine and value of pi. -/
def twiddle_of {K : Type} [Field K] (c s : K → K) (pi : K) (m : Nat) : Cpx K :=
  { r := c (-2 * pi / (m : K)), i := s (-2 * pi / (m : K)) }

/-- The twiddle factor `{cos(theta), sin(theta)}`, `theta = -2.0 * M_PI / m`,
that `fft` computes with the math library. -/
def fft_twiddle (M : Libm) (m : Nat) : Cpx ℚ := twiddle_of M.cos M.sin M_PI m

/-! ## Spectral features (feature_extractor.c) -/

/-- Function `hann(w, n)`: the window as a function of the index. -/
def hann (M : Libm) (n : Nat) (i : Nat) : ℚ :=
  1 / 2 * (1 - M.cos (2 * M_PI * (i : ℚ) / (n : ℚ)))

/-- Function `hz_to_mel(f)`. -/
def hz_to_mel (M : Libm) (f : ℚ) : ℚ := 2595 * M.log10 (1 + f / 700)

/-- Function `mel_to_hz(m)`. -/
def mel_to_hz (M : Libm) (m : ℚ) : ℚ := 700 * (M.pow 10 (m / 2595) - 1)

/-- The array `bins` of `mel_filterbank`:
`bins[i] = (int)floor((n_fft+1) * mel_points[i] / sr)`. -/
def mel_bins (M : Libm) (sr n_fft n_filters : Int) (fmin fmax : ℚ) (i : Int) : Int :=
  let mel_min := hz_to_mel M fmin
  let mel_max := hz_to_mel M fmax
  let mel_step := (mel_max - mel_min) / ((n_filters + 1 : Int) : ℚ)
  let mel_point := mel_to_hz M (mel_min + mel_step * (i : ℚ))
  ⌊((n_fft + 1 : Int) : ℚ) * mel_point / (sr : ℚ)⌋

/-- One filter of `mel_filterbank`: the body of the loop over `m`, which writes
the rising and the falling slope of filter `m` into `weights`. -/
def mel_filter (M : Libm) (sr n_fft n_filters : Int) (fmin fmax : ℚ) (m : Int)
    (weights : Nat → ℚ) : Nat → ℚ :=
  let f_m_minus := mel_bins M sr n_fft n_filters fmin fmax (m - 1)
  let f_m := mel_bins M sr n_fft n_filters fmin fmax m
  let f_m_plus := mel_bins M sr n_fft n_filters fmin fmax (m + 1)
  let weights := for_int f_m_minus f_m (fun k w =>
    if k ≥ 0 ∧ k ≤ n_fft / 2 then
      Function.update w ((m - 1) * (n_fft / 2 + 1) + k).toNat
        (((k - f_m_minus : Int) : ℚ) / ((f_m - f_m_minus : Int) : ℚ))
    else w) weights
  for_int f_m f_m_plus (fun k w =>
    if k ≥ 0 ∧ k ≤ n_fft / 2 then
      Function.update w ((m - 1) * (n_fft / 2 + 1) + k).toNat
        (((f_m_plus - k : Int) : ℚ) / ((f_m_plus - f_m : Int) : ℚ))
    else w) weights

/-- Function `mel_filterbank(sr, n_fft, n_filters, fmin, fmax)`: the array
`weights` of the filterbank it returns, or nothing when the allocation of the
24-byte `MelFB` record or of the weights is refused. -/
def mel_filterbank (M : Libm) (A : Nat → Bool) (sr n_fft n_filters : Int) (fmin fmax : ℚ) :
    Option (Nat → ℚ) :=
  if A 24 = false then none
  else if A (8 * (n_filters * (n_fft / 2 + 1)).toNat) = false then none
  else
    some (for_int 1 (n_filters + 1)
      (fun m w => mel_filter M sr n_fft n_filters fmin fmax m w) (fun _ => 0))

/-- Function `dct(in, n_in, out, n_out)`: the coefficient `out[k]`. -/
def dct (M : Libm) (inp : Nat → ℚ) (n_in : Nat) (k : Nat) : ℚ :=
  sum_loop n_in (fun n => inp n * M.cos (M_PI / (n_in : ℚ) * ((n : ℚ) + 1 / 2) * (k : ℚ)))

/-- The frequency `(double)k * sr / (double)nfft` of bin `k` in
`spectral_features_from_frame`, product and quotient rounded to binary64. -/
def bin_frequency (nfft : Int) (sr : Int) (k : Nat) : ℚ :=
  b64r (b64r ((k : ℚ) * (sr : ℚ)) / (nfft : ℚ))

/-- The power `mag[k] * mag[k]` of bin `k`, rounded to binary64. -/
def bin_power (mag : Nat → ℚ) (k : Nat) : ℚ := b64r (mag k * mag k)

/-- Loop `acc = 0; for (k = 0; k < n; ++k) acc += f(k);` in double: every sum
is rounded to binary64. -/
def sum_loop64 (n : Nat) (f : Nat → ℚ) : ℚ :=
  (List.range n).foldl (fun acc k => b64r (acc + f k)) 0

/-- The rolloff loop of `spectral_features_from_frame`, from bin `k` on with the
running sum `acc`: the frequency of the first bin at which `acc >= target`,
or 0 when the loop ends without one. -/
def rolloff_scan (mag : Nat → ℚ) (nfft : Int) (sr : Int) (target : ℚ) :
    Nat → Nat → ℚ → ℚ
  | 0, _, _ => 0
  | fuel + 1, k, acc =>
    let p := bin_power mag k
    let acc := b64r (acc + p)
    if acc ≥ target then bin_frequency nfft sr k
    else rolloff_scan mag nfft sr target fuel (k + 1) acc

/-- Function `spectral_features_from_frame(mag, nfft, sr, ...)` on finite
magnitudes: the triple `(centroid, rolloff, brightness)`.  Every product, sum
and quotient is rounded to binary64, and the constants are the doubles of the
literals `1e-12` and `0.85`. -/
def spectral_features_from_frame (mag : Nat → ℚ) (nfft : Int) (sr : Int) : ℚ × ℚ × ℚ :=
  let n := (nfft / 2 + 1).toNat
  let energy_tot := sum_loop64 n (bin_power mag)
  let weighted_sum := sum_loop64 n (fun k => b64r (bin_frequency nfft sr k * bin_power mag k))
  let centroid :=
    if energy_tot > b64r (1 / 1000000000000) then b64r (weighted_sum / energy_tot) else 0
  let target := b64r (b64r (85 / 100) * energy_tot)
  let rolloff := rolloff_scan mag nfft sr target n 0 0
  let bright_energy := (List.range n).foldl
    (fun acc k => if bin_frequency nfft sr k ≥ 1500 then b64r (acc + bin_power mag k) else acc) 0
  let brightness :=
    if energy_tot > b64r (1 / 1000000000000) then b64r (bright_energy / energy_tot) else 0
  (centroid, rolloff, brightness)

/-- Number of MFCC coefficients, `FEATURE_MFCC_COUNT`. -/
def FEATURE_MFCC_COUNT : Nat := 13

/-- The magnitude spectrum of one frame of `compute_spectral_features`: the
windowed samples from `offset` on, transformed by `fft`, bin by bin. -/
def frame_magnitude (M : Libm) (mono : Nat → ℚ) (n_fft : Nat) (offset : Nat) (k : Nat) : ℚ :=
  let X : Nat → Cpx ℚ := fun i =>
    if i < n_fft then { r := mono (offset + i) * hann M n_fft i, i := 0 }
    else { r := 0, i := 0 }
  let Y := fft (fft_twiddle M) X n_fft
  M.sqrt ((Y k).r * (Y k).r + (Y k).i * (Y k).i)

/-- The MFCC vector of one frame of `compute_spectral_features`: log mel
energies of the magnitude spectrum, then `dct`. -/
def frame_mfcc (M : Libm) (weights : Nat → ℚ) (mag : Nat → ℚ) (n_bins n_filters : Nat)
    (i : Nat) : ℚ :=
  let melE : Nat → ℚ := fun m =>
    M.log (sum_loop n_bins (fun k => mag k * mag k * weights (m * n_bins + k))
      + 1 / 1000000000)
  dct M melE n_filters i

/-- Accumulators of the frame loop of `compute_spectral_features`. -/
structure SpectralAcc where
  centroid_sum : ℚ := 0
  rolloff_sum : ℚ := 0
  bright_sum : ℚ := 0
  mfcc_acc : Nat → ℚ := fun _ => 0
  n_frames : Nat := 0

/-- The frame loop of `compute_spectral_features`, from frame `fi` on with
`fuel` iterations left. -/
def spectral_frame_loop (M : Libm) (weights : Nat → ℚ) (mono : Nat → ℚ) (frames : Nat)
    (sr : Int) : Nat → Nat → SpectralAcc → SpectralAcc
  | 0, _, acc => acc
  | fuel + 1, fi, acc =>
    let offset := fi * 512
    if offset + 1024 > frames then acc
    else
      let mag := frame_magnitude M mono 1024 offset
      let crb := spectral_features_from_frame mag 1024 sr
      let mfcc_frame := frame_mfcc M weights mag 513 26
      spectral_frame_loop M weights mono frames sr fuel (fi + 1)
        { centroid_sum := acc.centroid_sum + crb.1,
          rolloff_sum := acc.rolloff_sum + crb.2.1,
          bright_sum := acc.bright_sum + crb.2.2,
          mfcc_acc := fun i => acc.mfcc_acc i + mfcc_frame i,
          n_frames := acc.n_frames + 1 }

/-- Function `compute_spectral_features(mono, frames, sr, out)` with non-null
pointers: the error code, or the record left in `*out` on success. -/
def compute_spectral_features (M : Libm) (A : Nat → Bool) (mono : Nat → ℚ) (frames : Nat)
    (sr : Int) : Except Int SpectralFeatures :=
  if frames = 0 ∨ sr ≤ 0 then Except.error (-1)
  else
    match mel_filterbank M A sr 1024 26 0 ((sr : ℚ) / 2) with
    | none => Except.error (-2)
    | some weights =>
      let num_frames := compute_num_frames frames 1024 512
      let acc := spectral_frame_loop M weights mono frames sr num_frames 0 {}
      if acc.n_frames = 0 then Except.error (-3)
      else
        Except.ok
          { centroid := Dbl.fin (acc.centroid_sum / (acc.n_frames : ℚ)),
            rolloff := Dbl.fin (acc.rolloff_sum / (acc.n_frames : ℚ)),
            brightness := Dbl.fin (acc.bright_sum / (acc.n_frames : ℚ)),
            mfcc := (List.range FEATURE_MFCC_COUNT).map
              (fun i => Dbl.fin (acc.mfcc_acc i / (acc.n_frames : ℚ))) }

/-! ## Rhythm (rhythm.c) -/

/-- Conversion `(size_t)x` of a non-negative finite double: truncation. -/
def d2sz (q : ℚ) : Nat := (c_trunc q).toNat

/-- Step 1 of `compute_onset_envelope_energy`: the RMS energy of frame `f`. -/
def onset_rms (M : Libm) (mono : Nat → ℚ) (frames hop_size : Nat) (f : Nat) : ℚ :=
  M.sqrt (sum_loop hop_size (fun i =>
    if f * hop_size + i < frames then mono (f * hop_size + i) * mono (f * hop_size + i)
    else 0) / (hop_size : ℚ))

/-- Step 2 of `compute_onset_envelope_energy`: the loop `for (f = num_frames-1;
f > 0; f--)` that replaces `env[f]` by the positive part of `env[f] -
env[f-1]`, from `f` downward. -/
def onset_diff_loop : Nat → (Nat → ℚ) → (Nat → ℚ)
  | 0, env => env
  | f + 1, env =>
    let diff := env (f + 1) - env f
    onset_diff_loop f (Function.update env (f + 1) (if diff > 0 then diff else 0))

/-- Function `compute_onset_envelope_energy(mono, frames, sample_rate,
hop_size, out_len)`: the envelope and its length, or nothing when it returns
NULL. -/
def compute_onset_envelope_energy (M : Libm) (A : Nat → Bool) (mono : Nat → ℚ)
    (frames hop_size : Nat) : Option ((Nat → ℚ) × Nat) :=
  if frames < hop_size then none
  else
    let num_frames := frames / hop_size
    if A (4 * num_frames) = false then none
    else
      let env : Nat → ℚ := fun f =>
        if f < num_frames then onset_rms M mono frames hop_size f else 0
      let env := onset_diff_loop (num_frames - 1) env
      some (Function.update env 0 0, num_frames)

/-- State of the lag loop of `estimate_tempo_from_odf`; `best_val` and
`second_val` are doubles. -/
structure TempoState where
  best_val : Dbl := Dbl.fin (-1)
  second_val : Dbl := Dbl.fin (-1)
  best_lag : Nat := 0

/-- The inner loop `for (i = 0; i + lag < odf_len; i++) sum += odf[i] *
odf[i+lag];` of `estimate_tempo_from_odf`: each product of two `float` values
is formed in `float`, converted to `double` and added to the `double` sum. -/
def lag_corr (odf : Nat → ℚ) (odf_len lag : Nat) : Dbl :=
  (List.range (odf_len - lag)).foldl
    (fun sum i => Dbl.add64 sum (to_f32 (odf i * odf (i + lag)))) (Dbl.fin 0)

/-- The lag loop of `estimate_tempo_from_odf`, from `lag` on with `fuel`
iterations left.  The quotients `sec` and `bpm` are kept exact. -/
def tempo_lag_loop (odf : Nat → ℚ) (odf_len : Nat) (sample_rate : Int) (hop_size : Nat)
    (max_lag : Nat) : Nat → Nat → TempoState → TempoState
  | 0, _, st => st
  | fuel + 1, lag, st =>
    if lag < max_lag then
      let sum := lag_corr odf odf_len lag
      let sec : ℚ := ((lag * hop_size : Nat) : ℚ) / (sample_rate : ℚ)
      let bpm : ℚ := if sec > 0 then 60 / sec else 0
      let st :=
        if bpm < 40 ∨ bpm > 200 then st
        else if Dbl.gt sum st.best_val then
          { best_val := sum, second_val := st.best_val, best_lag := lag }
        else if Dbl.gt sum st.second_val then { st with second_val := sum }
        else st
      tempo_lag_loop odf odf_len sample_rate hop_size max_lag fuel (lag + 1) st
    else st

/-- The confidence that `estimate_tempo_from_odf` derives from the two best
values once a lag is found. -/
def tempo_confidence (best_val second_val : Dbl) : Dbl :=
  if Dbl.gt second_val (Dbl.fin 0) then
    let ratio := Dbl.div64 best_val second_val
    let confidence := if Dbl.gt ratio (Dbl.fin 2) then Dbl.fin 1 else Dbl.sub64 ratio (Dbl.fin 1)
    let confidence := if Dbl.lt confidence (Dbl.fin 0) then Dbl.fin 0 else confidence
    let confidence := if Dbl.gt confidence (Dbl.fin 1) then Dbl.fin 1 else confidence
    confidence
  else Dbl.fin 1

/-- Function `estimate_tempo_from_odf(odf, odf_len, sample_rate, hop_size,
tempo_bpm, confidence)` with a non-null envelope of finite values: the pair
`(tempo_bpm, confidence)`.  The tempo is kept exact; the confidence is the
double that the code computes, NaN included. -/
def estimate_tempo_from_odf (odf : Nat → ℚ) (odf_len : Nat) (sample_rate : Int)
    (hop_size : Nat) : ℚ × Dbl :=
  if odf_len = 0 then (0, Dbl.fin 0)
  else
    let max_lag := odf_len / 2
    let st := tempo_lag_loop odf odf_len sample_rate hop_size max_lag max_lag 1 {}
    if st.best_lag > 0 then
      let sec : ℚ := ((st.best_lag * hop_size : Nat) : ℚ) / (sample_rate : ℚ)
      let tempo := 60 / sec
      (tempo, tempo_confidence st.best_val st.second_val)
    else (0, Dbl.fin 0)

/-- Loop `for (i = start; i <= end; i++) if (odf[i] > m) m = odf[i];` with the
running maximum `m`. -/
def local_max (odf : Nat → ℚ) (start end_ : Nat) : ℚ :=
  (List.range (end_ + 1 - start)).foldl
    (fun m d => if odf (start + d) > m then odf (start + d) else m) 0

/-- The value `beat_period_frames` of the rhythm descriptors: `60.0 /
tempo_bpm` divided by `hop_size / sample_rate`, with the three quotients
rounded to binary64. -/
def beat_period_frames (tempo_bpm : ℚ) (sample_rate : Int) (hop_size : Nat) : ℚ :=
  b64r (b64r (60 / tempo_bpm) / b64r ((hop_size : ℚ) / (sample_rate : ℚ)))

/-- Accumulators of the beat loop of `compute_pulse_clarity` and
`compute_syncopation`; the two energies are doubles. -/
structure BeatAcc where
  beat_energy : ℚ := 0
  offbeat_energy : ℚ := 0
  beat_count : Int := 0
  offbeat_count : Int := 0

/-- The beat loop shared by `compute_pulse_clarity` and `compute_syncopation`
(the two functions spell out the same loop), from beat position `b` on.  The
two running sums are rounded to binary64. -/
def beat_loop (odf : Nat → ℚ) (odf_len : Nat) (beat_period_frames : ℚ) (half_window : Nat) :
    Nat → Nat → BeatAcc → BeatAcc
  | 0, _, acc => acc
  | fuel + 1, b, acc =>
    if b < odf_len then
      let center := b
      let start := if center > half_window then center - half_window else 0
      let end_ := if center + half_window < odf_len then center + half_window else odf_len - 1
      let acc := { acc with
        beat_energy := b64r (acc.beat_energy + local_max odf start end_),
        beat_count := acc.beat_count + 1 }
      let mid := center + d2sz (b64r (beat_period_frames / 2))
      let acc :=
        if mid < odf_len then
          let start := if mid > half_window then mid - half_window else 0
          let end_ := if mid + half_window < odf_len then mid + half_window else odf_len - 1
          { acc with
            offbeat_energy := b64r (acc.offbeat_energy + local_max odf start end_),
            offbeat_count := acc.offbeat_count + 1 }
        else acc
      beat_loop odf odf_len beat_period_frames half_window fuel
        (b + d2sz beat_period_frames) acc
    else acc

/-- The accumulators that `compute_pulse_clarity` and `compute_syncopation`
hold after their beat loop, with the tolerance window `(size_t)(0.1 *
beat_period_frames)`. -/
def beat_scan (odf : Nat → ℚ) (odf_len : Nat) (tempo_bpm : ℚ) (sample_rate : Int)
    (hop_size : Nat) : BeatAcc :=
  beat_loop odf odf_len (beat_period_frames tempo_bpm sample_rate hop_size)
    (d2sz (b64r (b64r (1 / 10) * beat_period_frames tempo_bpm sample_rate hop_size)))
    odf_len 0 {}

/-- Function `compute_pulse_clarity(odf, odf_len, tempo_bpm, sample_rate,
hop_size)` with a non-null envelope of finite values and a finite tempo; the
averages, the sums of the denominator and the quotient are rounded to
binary64. -/
def compute_pulse_clarity (odf : Nat → ℚ) (odf_len : Nat) (tempo_bpm : ℚ) (sample_rate : Int)
    (hop_size : Nat) : ℚ :=
  if odf_len = 0 ∨ tempo_bpm ≤ 0 then 0
  else if beat_period_frames tempo_bpm sample_rate hop_size < 2 then 0
  else
    let acc := beat_scan odf odf_len tempo_bpm sample_rate hop_size
    if acc.beat_count = 0 then 0
    else
      let avg_beat := b64r (acc.beat_energy / (acc.beat_count : ℚ))
      let avg_off :=
        if acc.offbeat_count > 0 then b64r (acc.offbeat_energy / (acc.offbeat_count : ℚ))
        else 0
      if avg_beat > 0 then
        b64r (avg_beat / b64r (b64r (avg_beat + avg_off) + b64r (1 / 1000000000)))
      else 0

/-- Function `compute_syncopation(odf, odf_len, tempo_bpm, sample_rate,
hop_size)` with a non-null envelope of finite values and a finite tempo, with
the same roundings as `compute_pulse_clarity`. -/
def compute_syncopation (odf : Nat → ℚ) (odf_len : Nat) (tempo_bpm : ℚ) (sample_rate : Int)
    (hop_size : Nat) : ℚ :=
  if odf_len = 0 ∨ tempo_bpm ≤ 0 then 0
  else if beat_period_frames tempo_bpm sample_rate hop_size < 2 then 0
  else
    let acc := beat_scan odf odf_len tempo_bpm sample_rate hop_size
    if acc.beat_count = 0 ∨ acc.offbeat_count = 0 then 0
    else
      let avg_beat := b64r (acc.beat_energy / (acc.beat_count : ℚ))
      let avg_off := b64r (acc.offbeat_energy / (acc.offbeat_count : ℚ))
      b64r (avg_off / b64r (b64r (avg_beat + avg_off) + b64r (1 / 1000000000)))

/-- Accumulators of the beat loop of `compute_swing_ratio`; the two sums are
doubles. -/
structure SwingAcc where
  half1 : ℚ := 0
  half2 : ℚ := 0
  count1 : Int := 0
  count2 : Int := 0

/-- Loop `for (i = lo; i < hi && i < odf_len; i++) sum += odf[i];` where the
bound `hi` is a double, the index is converted to double for the comparison and
the sum is rounded to binary64. -/
def swing_sum (odf : Nat → ℚ) (odf_len : Nat) (lo : Nat) (hi : ℚ) : ℚ :=
  (List.range (odf_len - lo)).foldl
    (fun (st : ℚ × Bool) d =>
      if st.2 ∧ b64r ((lo + d : Nat) : ℚ) < hi then (b64r (st.1 + odf (lo + d)), true)
      else (st.1, false))
    (0, true) |>.1

/-- The beat loop of `compute_swing_ratio`, from beat position `b` on.  The
position `b` is converted to double where it meets `beat_period_frames`, and
every sum, difference and quotient is rounded to binary64. -/
def swing_loop (odf : Nat → ℚ) (odf_len : Nat) (beat_period_frames : ℚ) :
    Nat → Nat → SwingAcc → SwingAcc
  | 0, _, acc => acc
  | fuel + 1, b, acc =>
    if b < odf_len then
      let half_point := d2sz (b64r (b64r (b : ℚ) + b64r (beat_period_frames / 2)))
      if half_point ≥ odf_len then acc
      else
        let sum1 := swing_sum odf odf_len b (b64r (half_point : ℚ))
        let acc :=
          if half_point > b then
            { acc with
              half1 := b64r (acc.half1 + b64r (sum1 / b64r ((half_point - b : Nat) : ℚ))),
              count1 := acc.count1 + 1 }
          else acc
        let beat_end := b64r (b64r (b : ℚ) + beat_period_frames)
        let sum2 := swing_sum odf odf_len half_point beat_end
        let acc :=
          if beat_end > b64r (half_point : ℚ) then
            { acc with
              half2 := b64r (acc.half2
                + b64r (sum2 / b64r (beat_end - b64r (half_point : ℚ)))),
              count2 := acc.count2 + 1 }
          else acc
        swing_loop odf odf_len beat_period_frames fuel (b + d2sz beat_period_frames) acc
    else acc

/-- The accumulators that `compute_swing_ratio` holds after its beat loop. -/
def swing_scan (odf : Nat → ℚ) (odf_len : Nat) (tempo_bpm : ℚ) (sample_rate : Int)
    (hop_size : Nat) : SwingAcc :=
  swing_loop odf odf_len (beat_period_frames tempo_bpm sample_rate hop_size) odf_len 0 {}

/-- Function `compute_swing_ratio(odf, odf_len, tempo_bpm, sample_rate,
hop_size)` with a non-null envelope of finite values and a finite tempo; the
averages and the ratio are rounded to binary64, and the threshold is the double
of the literal `1e-6`. -/
def compute_swing_ratio (odf : Nat → ℚ) (odf_len : Nat) (tempo_bpm : ℚ) (sample_rate : Int)
    (hop_size : Nat) : ℚ :=
  if odf_len = 0 ∨ tempo_bpm ≤ 0 then 1
  else if beat_period_frames tempo_bpm sample_rate hop_size < 4 then 1
  else
    let acc := swing_scan odf odf_len tempo_bpm sample_rate hop_size
    if acc.count1 = 0 ∨ acc.count2 = 0 then 1
    else
      let avg1 := b64r (acc.half1 / (acc.count1 : ℚ))
      let avg2 := b64r (acc.half2 / (acc.count2 : ℚ))
      if avg1 < b64r (1 / 1000000) ∨ avg2 < b64r (1 / 1000000) then 1
      else
        let ratio := if avg1 > avg2 then b64r (avg1 / avg2) else b64r (avg2 / avg1)
        let ratio := if ratio < 1 / 2 then 1 / 2 else ratio
        let ratio := if ratio > 3 then 3 else ratio
        ratio

/-- Function `compute_rhythm_features(mono, frames, sample_rate, out)` with
non-null pointers: the return code and the record left in `*out`, which is
not written when the code is -1. -/
def compute_rhythm_features (M : Libm) (A : Nat → Bool) (mono : Nat → ℚ) (frames : Nat)
    (sample_rate : Int) : Int × Option RhythmFeatures :=
  if frames = 0 ∨ sample_rate ≤ 0 then (-1, none)
  else
    let hop_size := 512
    match compute_onset_envelope_energy M A mono frames hop_size with
    | none => (-2, some {})
    | some (onset_env, odf_len) =>
      if odf_len = 0 then (-2, some {})
      else
        let sum := sum_loop odf_len onset_env
        let avg_flux := if odf_len > 0 then sum / (odf_len : ℚ) else 0
        let tc := estimate_tempo_from_odf onset_env odf_len sample_rate hop_size
        let tempo_bpm := tc.1
        let tempo_conf := tc.2
        let clarity := compute_pulse_clarity onset_env odf_len tempo_bpm sample_rate hop_size
        (0, some
          { tempo_bpm := Dbl.fin tempo_bpm,
            tempo_confidence := tempo_conf,
            beat_strength := Dbl.fin avg_flux,
            pulse_clarity := Dbl.fin clarity,
            syncopation :=
              Dbl.fin (compute_syncopation onset_env odf_len tempo_bpm sample_rate hop_size),
            swing_ratio :=
              Dbl.fin (compute_swing_ratio onset_env odf_len tempo_bpm sample_rate hop_size) })

/-! ## Melody (melody.c) -/

/-- Constant `MELODY_FRAME_SIZE`. -/
def MELODY_FRAME_SIZE : Nat := 2048
/-- Constant `MELODY_HOP`. -/
def MELODY_HOP : Nat := 512
/-- Constant `YIN_THRESHOLD`. -/
def YIN_THRESHOLD : ℚ := 12 / 100
/-- Constant `YIN_FMIN`. -/
def YIN_FMIN : ℚ := 80
/-- Constant `YIN_FMAX`. -/
def YIN_FMAX : ℚ := 1200
/-- Constant `MEDIAN_WINDOW`. -/
def MEDIAN_WINDOW : Int := 7
/-- Constant `MOTIF_N`. -/
def MOTIF_N : Nat := 4

/-- Function `safe_log2(x)`. -/
def safe_log2 (M : Libm) (x : ℚ) : ℚ := M.log x / M.log 2

/-- Function `fill_hann(w, N)`: the window as a function of the index. -/
def fill_hann (M : Libm) (N : Nat) (i : Nat) : ℚ :=
  1 / 2 - 1 / 2 * M.cos (2 * M_PI * (i : ℚ) / ((N : ℚ) - 1))

/-- The values `buf[0..n)` after `qsort` with `cmp_double`: ascending order. -/
def qsort_double (buf : List ℚ) : List ℚ := buf.insertionSort (fun x y => x ≤ y)

/-- Function `median_filter(in, out, n, win)`: the value `out[i]`, for `i <
n`. -/
def median_filter (inp : Nat → ℚ) (n : Int) (win : Int) (i : Nat) : ℚ :=
  if win ≤ 1 then inp i
  else
    let half := win / 2
    let a : Int := (i : Int) - half
    let b : Int := (i : Int) + half
    let a := if a < 0 then 0 else a
    let b := if b ≥ n then n - 1 else b
    let buf := (List.range (b + 1 - a).toNat).map (fun d => inp (a.toNat + d))
    let m := buf.length
    (qsort_double buf).getD (m / 2) 0

/-- The difference function `d[tau]` of `yin_get_pitch`. -/
def yin_difference (frame : Nat → ℚ) (N : Nat) (tau : Nat) : ℚ :=
  sum_loop (N - tau) (fun j => (frame j - frame (j + tau)) * (frame j - frame (j + tau)))

/-- The loop of `yin_get_pitch` that fills `cmnd[1..max_tau]`, from `tau` on
with the running sum `running`; entries that the loop does not reach stay 0. -/
def yin_cmnd_loop (d : Nat → ℚ) : Nat → Nat → ℚ → (Nat → ℚ) → (Nat → ℚ)
  | 0, _, _, cmnd => cmnd
  | fuel + 1, tau, running, cmnd =>
    let running := running + d tau
    let v := if running = 0 then 1 else d tau * ((tau : ℚ) / running)
    yin_cmnd_loop d fuel (tau + 1) running (Function.update cmnd tau v)

/-- Loop `while (tau + 1 <= max_tau && cmnd[tau + 1] < cmnd[tau]) tau++;`. -/
def yin_refine (cmnd : Nat → ℚ) (max_tau : Nat) : Nat → Nat → Nat
  | 0, tau => tau
  | fuel + 1, tau =>
    if tau + 1 ≤ max_tau ∧ cmnd (tau + 1) < cmnd tau then yin_refine cmnd max_tau fuel (tau + 1)
    else tau

/-- The search of `yin_get_pitch` for the first dip below the threshold, from
`tau` on: the refined lag, or -1 when there is no dip. -/
def yin_first_dip (cmnd : Nat → ℚ) (max_tau : Nat) : Nat → Nat → Int
  | 0, _ => -1
  | fuel + 1, tau =>
    if tau ≤ max_tau then
      if cmnd tau < YIN_THRESHOLD then (yin_refine cmnd max_tau max_tau tau : Int)
      else yin_first_dip cmnd max_tau fuel (tau + 1)
    else -1

/-- The fallback loop of `yin_get_pitch` for the global minimum, from `tau` on:
the pair `(minv, mint)`. -/
def yin_global_min (cmnd : Nat → ℚ) (max_tau : Nat) : Nat → Nat → ℚ × Int → ℚ × Int
  | 0, _, st => st
  | fuel + 1, tau, st =>
    if tau ≤ max_tau then
      yin_global_min cmnd max_tau fuel (tau + 1)
        (if cmnd tau < st.1 then (cmnd tau, (tau : Int)) else st)
    else st

/-- Function `yin_get_pitch(frame, N, sr, fmin, fmax, out_confidence)` with a
non-null frame: the pair `(frequency, confidence)`. -/
def yin_get_pitch (A : Nat → Bool) (frame : Nat → ℚ) (N : Int) (sr : Int) (fmin fmax : ℚ) :
    ℚ × ℚ :=
  if N < 32 then (0, 0)
  else
    let max_tau : Int := c_trunc ((sr : ℚ) / fmin)
    let max_tau := if max_tau > N - 2 then N - 2 else max_tau
    let min_tau : Int := c_trunc ((sr : ℚ) / fmax)
    let min_tau := if min_tau < 2 then 2 else min_tau
    let range := max_tau + 1
    if A (8 * range.toNat) = false then (0, 0)
    else
      let d : Nat → ℚ := fun tau =>
        if 1 ≤ tau ∧ (tau : Int) ≤ max_tau then yin_difference frame N.toNat tau else 0
      let cmnd := yin_cmnd_loop d max_tau.toNat 1 0 (fun _ => 0)
      let tau_est :=
        yin_first_dip cmnd max_tau.toNat (max_tau + 1 - min_tau).toNat min_tau.toNat
      let fallback :=
        yin_global_min cmnd max_tau.toNat (max_tau + 1 - min_tau).toNat min_tau.toNat
          (1000000000000000000000000000000 ^ 10, -1)
      if tau_est = -1 ∧ fallback.1 > 45 / 100 then (0, 0)
      else
        let tau_est := if tau_est = -1 then fallback.2 else tau_est
        let better_tau : ℚ := (tau_est : ℚ)
        let better_tau :=
          if tau_est > 1 ∧ tau_est < max_tau then
            let x0 := cmnd (tau_est - 1).toNat
            let x1 := cmnd tau_est.toNat
            let x2 := cmnd (tau_est + 1).toNat
            let denom := 2 * x1 - x0 - x2
            if |denom| > 1 / 1000000000000 then
              let bt := (tau_est : ℚ) + (x0 - x2) / (2 * denom)
              if bt < 1 then (tau_est : ℚ) else bt
            else better_tau
          else better_tau
        let freq := (sr : ℚ) / better_tau
        let confidence := 1 - cmnd tau_est.toNat
        let confidence := if confidence < 0 then 0 else confidence
        let confidence := if confidence > 1 then 1 else confidence
        (freq, confidence)

/-- The rounded MIDI note that `compute_melody_features` derives from a pitch
`p`: `floor(69 + 12 * safe_log2(p / 440) + 0.5)` clamped to 0..127. -/
def midi_of_pitch (M : Libm) (p : ℚ) : Int :=
  let midi_f := 69 + 12 * safe_log2 M (p / 440)
  let midi_r : Int := ⌊midi_f + 1 / 2⌋
  let midi_r := if midi_r < 0 then 0 else midi_r
  if midi_r > 127 then 127 else midi_r

/-- State of the contour and interval loop of `compute_melody_features`. -/
structure ContourState where
  prev_midi : Int := -1
  interval_sum : ℚ := 0
  abs_interval_sum : ℚ := 0
  interval_count : Int := 0
  contour_cnt : Int := 0
  total_contour_len : ℚ := 0
  longest_contour : ℚ := 0
  midi_seq_len : Int := 0

/-- The end of a contour in `compute_melody_features`: the block run when
`midi_seq_len > 0`, without the reset of `midi_seq_len`. -/
def finish_contour (sample_rate : Int) (st : ContourState) : ContourState :=
  let len_sec := (st.midi_seq_len : ℚ) * (MELODY_HOP : ℚ) / (sample_rate : ℚ)
  { st with
    contour_cnt := st.contour_cnt + 1,
    total_contour_len := st.total_contour_len + len_sec,
    longest_contour := if len_sec > st.longest_contour then len_sec else st.longest_contour }

/-- One iteration of the contour and interval loop of
`compute_melody_features`. -/
def contour_step (M : Libm) (f0_smoothed conf : Nat → ℚ) (sample_rate : Int) (i : Nat)
    (st : ContourState) : ContourState :=
  let p := f0_smoothed i
  if p ≤ 0 ∨ conf i < 18 / 100 then
    let st :=
      if st.midi_seq_len > 0 then { finish_contour sample_rate st with midi_seq_len := 0 }
      else st
    { st with prev_midi := -1 }
  else
    let midi_r := midi_of_pitch M p
    let st :=
      if st.prev_midi ≥ 0 then
        let interval : ℚ := ((midi_r - st.prev_midi : Int) : ℚ)
        { st with
          interval_sum := st.interval_sum + interval,
          abs_interval_sum := st.abs_interval_sum + |interval|,
          interval_count := st.interval_count + 1 }
      else st
    { st with prev_midi := midi_r, midi_seq_len := st.midi_seq_len + 1 }

/-- The array `all_midi` of `compute_melody_features`: the rounded MIDI notes
of the frames with positive smoothed pitch and confidence at least 0.18. -/
def all_midi_notes (M : Libm) (f0_smoothed conf : Nat → ℚ) (n_frames : Nat) : List Int :=
  ((List.range n_frames).filter
    (fun i => ¬ (f0_smoothed i ≤ 0 ∨ conf i < 18 / 100))).map
    (fun i => midi_of_pitch M (f0_smoothed i))

/-- The key of a motif: `key = (key << 8) | (note & 0xFF)` over its notes, on
64 bits. -/
def motif_key (notes : List Int) : Nat :=
  notes.foldl (fun key note => ((key <<< 8) % 2 ^ 64) ||| (note % 256).toNat) 0

/-- Record `Motif`. -/
structure Motif where
  key : Nat
  count : Int

/-- State of the motif loop of `compute_melody_features`. -/
structure MotifState where
  motifs : List Motif := []
  motifs_alloc : Nat := 0
  total_motif_occurrences : Int := 0
  stopped : Bool := false

/-- One iteration of the motif loop of `compute_melody_features` for the
n-gram with key `key`; `stopped` records the `break` on a refused
`realloc`. -/
def motif_step (A : Nat → Bool) (key : Nat) (st : MotifState) : MotifState :=
  if st.stopped then st
  else
    match st.motifs.findIdx? (fun m => m.key = key) with
    | some found =>
      { st with
        motifs := st.motifs.modify (fun m => { m with count := m.count + 1 }) found,
        total_motif_occurrences := st.total_motif_occurrences + 1 }
    | none =>
      if st.motifs.length ≥ st.motifs_alloc then
        let newcap := if st.motifs_alloc ≠ 0 then st.motifs_alloc * 2 else 64
        if A (16 * newcap) = false then { st with stopped := true }
        else
          { st with
            motifs := st.motifs ++ [{ key := key, count := 1 }],
            motifs_alloc := newcap,
            total_motif_occurrences := st.total_motif_occurrences + 1 }
      else
        { st with
          motifs := st.motifs ++ [{ key := key, count := 1 }],
          total_motif_occurrences := st.total_motif_occurrences + 1 }

/-- The sliding windows `all_midi[i .. i + MOTIF_N)` for `i + MOTIF_N <=
all_midi_len`, in order. -/
def motif_windows (all_midi : List Int) : List (List Int) :=
  (List.range (all_midi.length + 1 - MOTIF_N)).map (fun i => (all_midi.drop i).take MOTIF_N)

/-- The part of `compute_melody_features` that runs when there is voiced
material: it fills every field but `f0_confidence`. The quotient of the motif
repetition rate, a division of two counters converted to double, is rounded to
binary64. -/
def melody_voiced_stats (M : Libm) (A : Nat → Bool) (f0_smoothed conf frame_energy : Nat → ℚ)
    (n_frames : Nat) (sample_rate : Int) (voiced_f0_list : List ℚ) (sum_f0 : ℚ)
    (voiced_count : Int) (f0_confidence : ℚ) : MelodyFeatures :=
  let sorted := qsort_double voiced_f0_list
  let median_list_size := sorted.length
  let median_f0 : ℚ :=
    if median_list_size > 0 then
      if median_list_size % 2 = 1 then sorted.getD (median_list_size / 2) 0
      else 1 / 2 * (sorted.getD (median_list_size / 2 - 1) 0
        + sorted.getD (median_list_size / 2) 0)
    else 0
  let mean_f0 := sum_f0 / (voiced_count : ℚ)
  let st := (List.range n_frames).foldl
    (fun st i => contour_step M f0_smoothed conf sample_rate i st) {}
  let st := if st.midi_seq_len > 0 then finish_contour sample_rate st else st
  let all_midi := all_midi_notes M f0_smoothed conf n_frames
  let ms := (motif_windows all_midi).foldl (fun ms w => motif_step A (motif_key w) ms) {}
  let repeated_occurrences : Int :=
    ms.motifs.foldl (fun acc m => if m.count > 1 then acc + (m.count - 1) else acc) 0
  let motif_rep_rate : ℚ :=
    if ms.total_motif_occurrences > 0 then
      b64r ((repeated_occurrences : ℚ) / (ms.total_motif_occurrences : ℚ))
    else 0
  let eng_copy := qsort_double ((List.range n_frames).map frame_energy)
  let median_eng := eng_copy.getD (n_frames / 2) 0
  let voiced_eng_sum := sum_loop n_frames (fun i =>
    if f0_smoothed i > 0 ∧ conf i ≥ 18 / 100 then frame_energy i else 0)
  let avg_voiced_energy := voiced_eng_sum / (voiced_count : ℚ)
  let energy_factor := if median_eng > 0 then avg_voiced_energy / median_eng else 1
  let energy_factor := if energy_factor < 0 then 0 else energy_factor
  let hist : Int → Int := fun b => (all_midi.filter (fun m => m = b)).length
  let hist_total : Int := all_midi.length
  let entropy : ℚ :=
    if hist_total > 0 then
      let e := (List.range 128).foldl
        (fun e b =>
          if hist (b : Int) = 0 then e
          else
            let p := (hist (b : Int) : ℚ) / (hist_total : ℚ)
            e - p * safe_log2 M p) 0
      let max_entropy := safe_log2 M 128
      if max_entropy > 0 then e / max_entropy else e
    else 0
  let avg_int : ℚ :=
    if st.interval_count > 0 then st.interval_sum / (st.interval_count : ℚ) else 0
  let avg_abs_int : ℚ :=
    if st.interval_count > 0 then st.abs_interval_sum / (st.interval_count : ℚ) else 0
  let min_m : Int := all_midi.foldl (fun m x => if x < m then x else m) 127
  let max_m : Int := all_midi.foldl (fun m x => if x > m then x else m) 0
  let pitch_range : ℚ := if max_m ≥ min_m then ((max_m - min_m : Int) : ℚ) else 0
  let avg_contour_len : ℚ :=
    if st.contour_cnt > 0 then st.total_contour_len / (st.contour_cnt : ℚ) else 0
  let length_factor := avg_contour_len / 4
  let length_factor := if length_factor > 1 then 1 else length_factor
  let hook_strength :=
    motif_rep_rate * length_factor
      * (1 / 2 + 1 / 2 * (if energy_factor > 1 then 1 else energy_factor))
  { median_f0 := Dbl.fin median_f0,
    mean_f0 := Dbl.fin mean_f0,
    f0_confidence := Dbl.fin f0_confidence,
    pitch_range_semitones := Dbl.fin pitch_range,
    contour_count := st.contour_cnt,
    avg_contour_length_sec := Dbl.fin avg_contour_len,
    longest_contour_sec := Dbl.fin st.longest_contour,
    avg_interval_semitones := Dbl.fin avg_int,
    avg_abs_interval_semitones := Dbl.fin avg_abs_int,
    melodic_entropy := Dbl.fin entropy,
    motif_repetition_rate := Dbl.fin motif_rep_rate,
    motif_count := ms.motifs.length,
    hook_strength := Dbl.fin hook_strength }

/-- The windowed frame `frame_buf` of frame `i` of `compute_melody_features`. -/
def melody_frame (M : Libm) (mono : Nat → ℚ) (i : Nat) (j : Nat) : ℚ :=
  mono (i * MELODY_HOP + j) * fill_hann M MELODY_FRAME_SIZE j

/-- Function `compute_melody_features(mono, frames, sample_rate, out)` with
non-null pointers: the return code and the record left in `*out`, which is
not written when the arguments are rejected. -/
def compute_melody_features (M : Libm) (A : Nat → Bool) (mono : Nat → ℚ) (frames : Nat)
    (sample_rate : Int) : Int × Option MelodyFeatures :=
  if frames = 0 ∨ sample_rate ≤ 0 then (1, none)
  else if frames < MELODY_FRAME_SIZE then (0, some {})
  else
    let n_frames := (frames - MELODY_FRAME_SIZE) / MELODY_HOP + 1
    if A (8 * n_frames) = false then (1, some {})
    else if A (4 * MELODY_FRAME_SIZE) = false then (1, some {})
    else
      let frame_energy : Nat → ℚ := fun i =>
        M.sqrt (sum_loop MELODY_FRAME_SIZE
          (fun j => melody_frame M mono i j * melody_frame M mono i j)
          / (MELODY_FRAME_SIZE : ℚ))
      let pitch : Nat → ℚ × ℚ := fun i =>
        yin_get_pitch A (melody_frame M mono i) MELODY_FRAME_SIZE sample_rate YIN_FMIN YIN_FMAX
      let f0 : Nat → ℚ := fun i => (pitch i).1
      let conf : Nat → ℚ := fun i => (pitch i).2
      let f0_smoothed : Nat → ℚ := fun i => median_filter f0 n_frames MEDIAN_WINDOW i
      let voiced := (List.range n_frames).filter
        (fun i => f0_smoothed i > 0 ∧ conf i ≥ 5 / 100)
      let voiced_f0_list := voiced.map f0_smoothed
      let sum_f0 := voiced.foldl (fun s i => s + f0_smoothed i) 0
      let voiced_count : Int := voiced.length
      let f0_confidence : ℚ := (voiced_count : ℚ) / (n_frames : ℚ)
      if voiced_count = 0 then (0, some { f0_confidence := Dbl.fin f0_confidence })
      else
        (0, some (melody_voiced_stats M A f0_smoothed conf frame_energy n_frames sample_rate
          voiced_f0_list sum_f0 voiced_count f0_confidence))

/-! ## Harmony (harmony.c) -/

/-- Subtraction of two `size_t` values, which wraps modulo `2^64`. -/
def sz_sub (a b : Nat) : Nat := (a + 2 ^ 64 - b % 2 ^ 64) % 2 ^ 64

/-- Whether `calloc(nmemb, size)` returns a buffer: the product must not
overflow `size_t` and the allocator must grant it. -/
def calloc_ok (A : Nat → Bool) (nmemb size : Nat) : Bool :=
  decide (nmemb * size < 2 ^ 64) && A (nmemb * size)

/-- Function `hann_windowf(w, N)`: the window as a function of the index. -/
def hann_windowf (M : Libm) (N : Nat) (i : Nat) : ℚ :=
  1 / 2 * (1 - M.cos (2 * M_PI * (i : ℚ) / ((N : ℚ) - 1)))

/-- The Goertzel recurrence of `compute_chroma_goertzel` over the windowed
frame `xw`: the pair `(s_prev, s_prev2)` after `win_size` samples. -/
def goertzel_state (xw : Nat → ℚ) (coeff : ℚ) (win_size : Nat) : ℚ × ℚ :=
  (List.range win_size).foldl
    (fun (st : ℚ × ℚ) n => (xw n + coeff * st.1 - st.2, st.1)) (0, 0)

/-- The loop of `compute_chroma_goertzel` over the MIDI notes, from `midi` on
up to note 88, with its `break` beyond the Nyquist frequency: the chroma row
after adding the power of every analysed note. -/
def goertzel_notes (M : Libm) (xw : Nat → ℚ) (win_size : Nat) (ds_rate : Int) :
    Nat → Int → (Nat → ℚ) → (Nat → ℚ)
  | 0, _, row => row
  | fuel + 1, midi, row =>
    if midi ≤ 88 then
      let freq := 440 * M.pow 2 (((midi - 69 : Int) : ℚ) / 12)
      if freq ≥ (ds_rate : ℚ) / 2 then row
      else
        let k : ℚ := 1 / 2 + (win_size : ℚ) * freq / (ds_rate : ℚ)
        let K : Int := c_trunc k
        let w := 2 * M_PI * (K : ℚ) / (win_size : ℚ)
        let c := M.cos w
        let coeff := 2 * c
        let st := goertzel_state xw coeff win_size
        let s_prev := st.1
        let s_prev2 := st.2
        let power := s_prev2 * s_prev2 + s_prev * s_prev - coeff * s_prev * s_prev2
        let pc := (midi % 12).toNat
        goertzel_notes M xw win_size ds_rate fuel (midi + 1)
          (Function.update row pc (row pc + power))
    else row

/-- One frame of `compute_chroma_goertzel`: the normalised chroma row of frame
`fi` of the decimated signal `ds`. -/
def chroma_frame (M : Libm) (ds : Nat → ℚ) (win_size hop_size : Nat) (ds_rate : Int)
    (fi : Nat) : Nat → ℚ :=
  let xw : Nat → ℚ := fun n => ds (fi * hop_size + n) * hann_windowf M win_size n
  let row := goertzel_notes M xw win_size ds_rate 49 40 (fun _ => 0)
  let norm := M.sqrt (sum_loop 12 (fun p => row p * row p))
  if norm > 0 then fun p => row p / norm else row

/-- Function `compute_chroma_goertzel(mono, frames, sample_rate, win_size,
hop_size, decim, out_chroma, out_frames)` with non-null pointers: nothing when
the behaviour is undefined (a granted chroma buffer for a decimated signal
shorter than the window, whose first frame is read past the end of `ds`),
otherwise the return code with the chroma rows and their number. -/
def compute_chroma_goertzel (M : Libm) (A : Nat → Bool) (mono : Nat → ℚ) (frames : Nat)
    (sample_rate : Int) (win_size hop_size : Nat) (decim : Int) :
    Option (Int × (Nat → Nat → ℚ) × Nat) :=
  if frames < win_size then some (-1, fun _ _ => 0, 0)
  else
    let decim := if decim < 1 then 1 else decim
    let ds_frames := frames / decim.toNat
    if A (4 * ds_frames) = false then some (-2, fun _ _ => 0, 0)
    else
      let ds : Nat → ℚ := fun i => mono (i * decim.toNat)
      let ds_rate := Int.tdiv sample_rate decim
      let num_frames := (sz_sub ds_frames win_size / hop_size + 1) % 2 ^ 64
      if calloc_ok A ((num_frames * 12) % 2 ^ 64) 8 = false then
        some (-3, fun _ _ => 0, num_frames)
      else if ds_frames < win_size then none
      else some (0, fun fi => chroma_frame M ds win_size hop_size ds_rate fi, num_frames)

/-- Table `PC_NAMES`. -/
def PC_NAMES : List String :=
  ["C", "C#", "D", "D#", "E", "F"] ++ ["F#", "G", "G#", "A", "A#", "B"]

/-- Function `fill_chord_templates`: the template of index `t` (major triads
at the even indices, minor triads at the odd ones), as a function of the pitch
class. -/
def chord_template (t : Nat) (p : Nat) : ℚ :=
  let root := t / 2
  let third := if t % 2 = 0 then (root + 4) % 12 else (root + 3) % 12
  if p = root ∨ p = third ∨ p = (root + 7) % 12 then 1 else 0

/-- Function `fill_chord_templates`: the name of the template of index `t`. -/
def chord_name (t : Nat) : String :=
  if t % 2 = 0 then PC_NAMES.getD (t / 2) "" else PC_NAMES.getD (t / 2) "" ++ "m"

/-- Function `cosine_similarity(a, b)` of harmony.c, over 12 values. -/
def cosine_similarity (M : Libm) (a b : Nat → ℚ) : ℚ :=
  let dot := sum_loop 12 (fun i => a i * b i)
  let na := sum_loop 12 (fun i => a i * a i)
  let nb := sum_loop 12 (fun i => b i * b i)
  if na = 0 ∨ nb = 0 then 0 else dot / (M.sqrt na * M.sqrt nb)

/-- Table `KEY_PROFILE_MAJOR`. -/
def KEY_PROFILE_MAJOR : List ℚ :=
  [635 / 100, 223 / 100, 348 / 100, 233 / 100, 438 / 100, 409 / 100, 252 / 100, 519 / 100,
   239 / 100, 366 / 100, 229 / 100, 288 / 100]

/-- Table `KEY_PROFILE_MINOR`. -/
def KEY_PROFILE_MINOR : List ℚ :=
  [633 / 100, 268 / 100, 352 / 100, 538 / 100, 260 / 100, 353 / 100, 254 / 100, 475 / 100,
   398 / 100, 269 / 100, 334 / 100, 317 / 100]

/-- Function `rotate_profile(base, offset, out)`: `out[(i + offset) % 12] =
base[i]`, read at index `p` of `out`. -/
def rotate_profile (base : List ℚ) (offset : Nat) (p : Nat) : ℚ :=
  (List.range 12).foldl
    (fun (out : Nat → ℚ) i => Function.update out ((i + offset) % 12) (base.getD i 0))
    (fun _ => 0) p

/-- State of the search of `detect_key_from_chroma`: the best similarity and
the name that goes with it. -/
structure KeyState where
  best_sim : ℚ := -1
  best_name : String := "C"

/-- One candidate of `detect_key_from_chroma`: mode `mode` (0 major, 1 minor)
and tonic `tonic`. -/
def key_candidate (M : Libm) (chroma : Nat → ℚ) (mode tonic : Nat) (st : KeyState) :
    KeyState :=
  let base := if mode = 0 then KEY_PROFILE_MAJOR else KEY_PROFILE_MINOR
  let profile := rotate_profile base tonic
  let dot := sum_loop 12 (fun i => chroma i * profile i)
  let na := sum_loop 12 (fun i => chroma i * chroma i)
  let nb := sum_loop 12 (fun i => profile i * profile i)
  let sim := if na > 0 ∧ nb > 0 then dot / (M.sqrt na * M.sqrt nb) else 0
  if sim > st.best_sim then
    { best_sim := sim,
      best_name := PC_NAMES.getD tonic "" ++ (if mode = 0 then "" else "m") }
  else st

/-- Function `detect_key_from_chroma(chroma, out_key, out_sz, best_score)`:
the pair `(out_key, best_score)`. -/
def detect_key_from_chroma (M : Libm) (chroma : Nat → ℚ) : String × ℚ :=
  let st := (List.range 2).foldl
    (fun st mode => (List.range 12).foldl
      (fun st tonic => key_candidate M chroma mode tonic st) st) {}
  (st.best_name, st.best_sim)

/-- The index of a name in `PC_NAMES`, or -1. -/
def pc_index (buf : String) : Int :=
  match PC_NAMES.indexOf? buf with
  | some i => (i : Int)
  | none => -1

/-- Function `chord_to_pcset(name, pcs, count)`: the pitch classes written,
`count` being the length of the list. -/
def chord_to_pcset (name : String) : List Int :=
  let cs := name.toList
  if cs.length < 1 then []
  else
    let buf : String :=
      if cs.length ≥ 2 ∧ cs.getD 1 ' ' = '#' then String.mk [cs.getD 0 ' ', '#']
      else String.mk [cs.getD 0 ' ']
    let root := pc_index buf
    if root < 0 then []
    else
      let minor := cs.getLast? = some 'm'
      [root, if minor then (root + 3) % 12 else (root + 4) % 12, (root + 7) % 12]

/-- State of the loop of `compute_harmonic_motion`. -/
structure MotionState where
  total : ℚ := 0
  steps : Int := 0

/-- Function `compute_harmonic_motion(chords, n)`. -/
def compute_harmonic_motion (chords : List ChordLabel) : ℚ :=
  if chords.length < 2 then 0
  else
    let st := (List.range (chords.length - 1)).foldl
      (fun (st : MotionState) i =>
        let pcs1 := chord_to_pcset ((chords.getD i {}).name)
        let pcs2 := chord_to_pcset ((chords.getD (i + 1) {}).name)
        if pcs1.length = 0 ∨ pcs2.length = 0 then st
        else
          let common : Int :=
            pcs1.foldl (fun c a => pcs2.foldl (fun c b => if a = b then c + 1 else c) c) 0
          let total_notes : Int := (pcs1.length : Int) + (pcs2.length : Int) - common
          let dist : ℚ :=
            if total_notes > 0 then 1 - (common : ℚ) / (total_notes : ℚ) else 0
          { total := st.total + dist, steps := st.steps + 1 }) {}
    if st.steps > 0 then st.total / (st.steps : ℚ) else 0

/-- Function `build_diatonic_scale(key, scale, scale_size)`: the scale
written, `scale_size` being the length of the list. -/
def build_diatonic_scale (key : String) : List Int :=
  let cs := key.toList
  if cs.length < 1 then []
  else
    let rootbuf : String :=
      if cs.getD 1 (Char.ofNat 0) = '#' then String.mk [cs.getD 0 ' ', '#']
      else String.mk [cs.getD 0 ' ']
    let minor := cs.contains 'm'
    let tonic := pc_index rootbuf
    if tonic < 0 then []
    else
      let major_steps : List Int := [0, 2, 4, 5, 7, 9, 11]
      let minor_steps : List Int := [0, 2, 3, 5, 7, 8, 10]
      (if minor then minor_steps else major_steps).map (fun s => (tonic + s) % 12)

/-- Function `pc_in_scale(pc, scale, size)`. -/
def pc_in_scale (pc : Int) (scale : List Int) : Bool := scale.contains pc

/-- The value `local_tension` that `compute_harmonic_tension` adds for a chord
whose name parses to the pitch classes `pcs`: the fraction of them outside the
scale, plus the double `0.2` for a minor chord, clamped to 1; the quotient and
the sum are rounded to binary64. -/
def local_tension (scale : List Int) (name : String) (pcs : List Int) : ℚ :=
  let out_notes : Int :=
    pcs.foldl (fun c pc => if pc_in_scale pc scale then c else c + 1) 0
  let instability : ℚ := b64r ((out_notes : ℚ) / (pcs.length : ℚ))
  let is_minor := name.toList.getLast? = some 'm'
  let local_tension := b64r (instability + (if is_minor then b64r (2 / 10) else 0))
  if local_tension > 1 then 1 else local_tension

/-- Function `compute_harmonic_tension(chords, n, global_key)`; the running
sum and the final quotient are rounded to binary64. -/
def compute_harmonic_tension (chords : List ChordLabel) (global_key : String) : ℚ :=
  if chords.length = 0 then 0
  else
    let scale := build_diatonic_scale global_key
    if scale.length = 0 then 0
    else
      let st := chords.foldl
        (fun (st : MotionState) ch =>
          let pcs := chord_to_pcset ch.name
          if pcs.length = 0 then st
          else
            { total := b64r (st.total + local_tension scale ch.name pcs),
              steps := st.steps + 1 }) {}
      if st.steps > 0 then b64r (st.total / (st.steps : ℚ)) else 0

/-- The chord loop of `compute_harmony_features` over `f = 0, step, 2 step,
...` below `chroma_frames`, from `f` on: the chord labels appended. -/
def chord_loop (M : Libm) (chroma : Nat → Nat → ℚ) (chroma_frames : Nat) (step : Nat)
    (hop_time : Dbl) : Nat → Nat → List ChordLabel → List ChordLabel
  | 0, _, chords => chords
  | fuel + 1, f, chords =>
    if f < chroma_frames then
      let best := (List.range 24).foldl
        (fun (st : ℚ × Int) t =>
          let sim := cosine_similarity M (chroma f) (chord_template t)
          if sim > st.1 then (sim, (t : Int)) else st) (-1, -1)
      let chords :=
        if best.2 ≥ 0 then
          chords ++ [{ name := chord_name best.2.toNat,
                       time_sec := Dbl.mul (Dbl.fin (f : ℚ)) hop_time }]
        else chords
      chord_loop M chroma chroma_frames step hop_time fuel (f + step) chords
    else chords

/-- The block loop of `compute_harmony_features` that counts the modulations,
from `f` on: the pair `(last_key, mods)`. -/
def modulation_loop (M : Libm) (chroma : Nat → Nat → ℚ) (chroma_frames : Nat) (window : Nat) :
    Nat → Nat → String × Int → String × Int
  | 0, _, st => st
  | fuel + 1, f, st =>
    if f < chroma_frames then
      let block_frames := min (f + window) chroma_frames - f
      let block_chroma : Nat → ℚ := fun p => sum_loop block_frames (fun d => chroma (f + d) p)
      let st :=
        if block_frames > 0 then
          let block_key := (detect_key_from_chroma M block_chroma).1
          if st.1 = "" then (block_key, st.2)
          else if block_key ≠ st.1 then (block_key, st.2 + 1)
          else st
        else st
      modulation_loop M chroma chroma_frames window fuel (f + window) st
    else st

/-- Function `compute_harmony_features(mono, frames, sample_rate, out)` with
non-null pointers: nothing when the behaviour is undefined, otherwise the
return code and the record left in `*out`. -/
def compute_harmony_features (M : Libm) (A : Nat → Bool) (mono : Nat → ℚ) (frames : Nat)
    (sample_rate : Int) : Option (Int × HarmonyFeatures) :=
  match compute_chroma_goertzel M A mono frames sample_rate 2048 1024 4 with
  | none => none
  | some (rc, chroma, chroma_frames) =>
    if rc ≠ 0 then
      some (rc, { global_key := "unknown", key_stability := Dbl.fin 0,
                  modulation_count := Dbl.fin 0, harmonic_motion := Dbl.fin 0,
                  tension := Dbl.fin 0, chords := [] })
    else
      let avg_chroma : Nat → ℚ := fun p => sum_loop chroma_frames (fun f => chroma f p)
      let hop_time : Dbl := Dbl.div (Dbl.fin (1024 * 4)) (Dbl.ofInt sample_rate)
      let step : Int := d2i (Dbl.div (Dbl.fin 1) hop_time)
      let step := if step < 1 then 1 else step
      let chords := chord_loop M chroma chroma_frames step.toNat hop_time chroma_frames 0 []
      let key := detect_key_from_chroma M avg_chroma
      let window : Int := d2i (Dbl.div (Dbl.fin 10) hop_time)
      let window := if window < 1 then 1 else window
      let mods :=
        (modulation_loop M chroma chroma_frames window.toNat chroma_frames 0 ("", 0)).2
      some (0, { global_key := key.1,
                 key_stability := Dbl.fin key.2,
                 modulation_count := Dbl.ofInt mods,
                 harmonic_motion := Dbl.fin (compute_harmonic_motion chords),
                 tension := Dbl.fin (compute_harmonic_tension chords key.1),
                 chords := chords })

/-! ## Structure (structure.c) -/

/-- Function `compute_magnitude_spectrum(frame, N, mag)`: the value
`mag[k]`. -/
def compute_magnitude_spectrum (M : Libm) (frame : Nat → ℚ) (N : Nat) (k : Nat) : ℚ :=
  let real := sum_loop N (fun n => frame n * M.cos (-2 * M_PI * (k : ℚ) * (n : ℚ) / (N : ℚ)))
  let imag := sum_loop N (fun n => frame n * M.sin (-2 * M_PI * (k : ℚ) * (n : ℚ) / (N : ℚ)))
  M.sqrt (real * real + imag * imag)

/-- The frame loop of `compute_novelty_curve`: the flux `novelty[f]`, the
rectified difference between the magnitude spectra of frame `f` and of the
frame before it (all zero before frame 0). -/
def novelty_flux (M : Libm) (mono : Nat → ℚ) (hop_size : Nat) (f : Nat) : ℚ :=
  let mag : Nat → ℚ := fun k =>
    compute_magnitude_spectrum M (fun n => mono (f * hop_size + n)) 1024 k
  let prev_mag : Nat → ℚ := fun k =>
    if f = 0 then 0
    else compute_magnitude_spectrum M (fun n => mono ((f - 1) * hop_size + n)) 1024 k
  sum_loop 512 (fun k => if mag k - prev_mag k > 0 then mag k - prev_mag k else 0)

/-- Function `compute_novelty_curve(mono, frames, sr, hop_sec, out_curve,
out_len)`: nothing when the behaviour is undefined (a granted curve for a
signal shorter than the window, whose first frame is read past the end of
`mono`), otherwise the return code with the curve and its length. -/
def compute_novelty_curve (M : Libm) (A : Nat → Bool) (mono : Nat → ℚ) (frames : Nat)
    (sr : Int) (hop_sec : ℚ) : Option (Int × (Nat → ℚ) × Nat) :=
  let win_size : Nat := 1024
  let hop_size : Int := c_trunc (hop_sec * (sr : ℚ))
  let hop_size := if hop_size ≤ 0 then 512 else hop_size
  let n_frames := sz_sub frames win_size / hop_size.toNat
  if calloc_ok A n_frames 8 = false then some (1, fun _ => 0, 0)
  else if n_frames > 0 ∧ frames < win_size then none
  else some (0, fun f => novelty_flux M mono hop_size.toNat f, n_frames)

/-- State of the boundary loop of `compute_structure_features`. -/
structure BoundaryState where
  sections : List Section := []
  last_boundary : ℚ := 0

/-- The text that `snprintf(label, 32, "segment_%zu", n)` leaves. -/
def segment_label (n : Nat) : String := ("segment_" ++ toString n).take 31

/-- The boundary loop of `compute_structure_features` over `i = 1, 2, ...`
below `n_frames - 1` (a `size_t` difference), from `i` on; nothing when
`novelty[i + 1]` lies past the end of the curve. -/
def boundary_loop (novelty : Nat → ℚ) (n_frames : Nat) (max_sections : Nat) :
    Nat → Nat → BoundaryState → Option BoundaryState
  | 0, _, st => some st
  | fuel + 1, i, st =>
    if i < sz_sub n_frames 1 then
      if i + 1 < n_frames then
        let st :=
          if novelty i > 1 / 2 ∧ novelty i > novelty (i - 1) ∧ novelty i > novelty (i + 1) then
            let time_sec : ℚ := (i : ℚ) * (1 / 2)
            if time_sec - st.last_boundary > 20 then
              if st.sections.length < max_sections then
                { sections := st.sections ++
                    [{ start_sec := Dbl.fin st.last_boundary, end_sec := Dbl.fin time_sec,
                       label := segment_label (st.sections.length + 1) }],
                  last_boundary := time_sec }
              else st
            else st
          else st
        boundary_loop novelty n_frames max_sections fuel (i + 1) st
      else none
    else some st

/-- The finite value of a double that the segmenter wrote. -/
def Dbl.toRat : Dbl → ℚ
  | Dbl.fin q => q
  | _ => 0

/-- The length `end_sec - start_sec` of a section. -/
def section_length (s : Section) : ℚ := s.end_sec.toRat - s.start_sec.toRat

/-- The loop of `compute_structure_features` that finds the longest section:
the pair `(longest_idx, max_len)`. -/
def longest_section (sections : List Section) : Nat × ℚ :=
  (List.range sections.length).foldl
    (fun (st : Nat × ℚ) i =>
      if section_length (sections.getD i {}) > st.2
      then (i, section_length (sections.getD i {})) else st) (0, 0)

/-- The label that the heuristics of `compute_structure_features` give to
section `i` of `sec_count`. -/
def heuristic_label (sections : List Section) (longest_idx : Nat) (i : Nat) : String :=
  let sec_count := sections.length
  let len := section_length (sections.getD i {})
  if i = 0 then (if len < 40 then "intro" else "verse")
  else if i = sec_count - 1 then (if len < 30 then "outro" else "verse")
  else if i = longest_idx then "chorus"
  else if sec_count ≥ 4 ∧ i = sec_count / 2 then "bridge"
  else "verse"

/-- Function `cosine_similarity(a, b, dim)` of structure.c. -/
def cosine_similarity_dim (M : Libm) (a b : Nat → ℚ) (dim : Nat) : ℚ :=
  let dot := sum_loop dim (fun i => a i * b i)
  let na := sum_loop dim (fun i => a i * a i)
  let nb := sum_loop dim (fun i => b i * b i)
  if na < 1 / 1000000000 ∨ nb < 1 / 1000000000 then 0
  else dot / (M.sqrt na * M.sqrt nb)

/-- The row `mfcc_means[i]` of `compute_structure_features`: the averaged MFCC
of the slice of section `s`, all zero when `compute_spectral_features` fails
on it. -/
def section_mfcc (M : Libm) (A : Nat → Bool) (mono : Nat → ℚ) (frames : Nat)
    (sample_rate : Int) (s : Section) (k : Nat) : ℚ :=
  let start_idx := d2sz (s.start_sec.toRat * (sample_rate : ℚ))
  let end_idx := d2sz (s.end_sec.toRat * (sample_rate : ℚ))
  let end_idx := if end_idx > frames then frames else end_idx
  match compute_spectral_features M A (fun n => mono (start_idx + n))
      (sz_sub end_idx start_idx) sample_rate with
  | Except.ok feat => (feat.mfcc.getD k (Dbl.fin 0)).toRat
  | Except.error _ => 0

/-- Function `compute_structure_features(mono, frames, sample_rate, out)` with
non-null pointers: nothing when the behaviour is undefined, otherwise the
return code and the record left in `*out`. -/
def compute_structure_features (M : Libm) (A : Nat → Bool) (mono : Nat → ℚ) (frames : Nat)
    (sample_rate : Int) : Option (Int × Option StructureFeatures) :=
  if frames = 0 ∨ sample_rate ≤ 0 then some (1, none)
  else
    match compute_novelty_curve M A mono frames sample_rate (1 / 2) with
    | none => none
    | some (rc, novelty, n_frames) =>
      if rc ≠ 0 then some (2, some {})
      else
        let maxval := (List.range n_frames).foldl
          (fun m i => if novelty i > m then novelty i else m) (1 / 1000000000)
        let novelty : Nat → ℚ := fun i => novelty i / maxval
        let max_sections : Nat := 128
        if A (max_sections * 48) = false then some (3, some {})
        else
          let duration_sec : ℚ := (frames : ℚ) / (sample_rate : ℚ)
          match boundary_loop novelty n_frames max_sections (sz_sub n_frames 1) 1 {} with
          | none => none
          | some st =>
            let sections :=
              if st.sections.length < max_sections then
                st.sections ++
                  [{ start_sec := Dbl.fin st.last_boundary, end_sec := Dbl.fin duration_sec,
                     label := segment_label (st.sections.length + 1) }]
              else st.sections
            let sec_count := sections.length
            let longest_idx := (longest_section sections).1
            let sections := (List.range sec_count).map
              (fun i => { sections.getD i {} with
                label := heuristic_label sections longest_idx i })
            if A (sec_count * 48) = false then some (4, some {})
            else
              let total := duration_sec
              let entropy := sections.foldl
                (fun e s =>
                  let p := section_length s / total
                  if p > 1 / 1000000 then e - p * M.log p else e) 0
              let arc_complexity :=
                entropy / M.log (if sec_count > 1 then (sec_count : ℚ) else 2)
              let mfcc_means : Nat → Nat → ℚ := fun i k =>
                section_mfcc M A mono frames sample_rate (sections.getD i {}) k
              let repeated_time := (List.range sec_count).foldl
                (fun rt i =>
                  let len_i := section_length (sections.getD i {})
                  (List.range (sec_count - (i + 1))).foldl
                    (fun rt d =>
                      let j := i + 1 + d
                      let sim := cosine_similarity_dim M (mfcc_means i) (mfcc_means j)
                        FEATURE_MFCC_COUNT
                      if sim > 85 / 100 then
                        rt + min len_i (section_length (sections.getD j {}))
                      else rt) rt) 0
              let repetition_ratio :=
                if total > 1 / 1000000 then min 1 (repeated_time / total) else 0
              some (0, some
                { sections := sections,
                  arc_complexity := Dbl.fin arc_complexity,
                  repetition_ratio := Dbl.fin repetition_ratio })

/-! ## Concrete stand-ins for evaluating examples

Rational stand-ins for the math library and the allocator, only used to
evaluate the extractors on concrete signals; the general theorems hold for
every `Libm`. -/

/-- Truncated sum `1 - x/(k(k+1)) * (1 - x/((k+2)(k+3)) * (...))` with `n`
further terms, for the cosine (`k = 1`) and sine (`k = 2`) series in `x =
q^2`. -/
def trig_horner (x : ℚ) : Nat → Nat → ℚ
  | _, 0 => 1
  | k, n + 1 => 1 - x / ((k : ℚ) * ((k : ℚ) + 1)) * trig_horner x (k + 2) n

/-- Stand-in for `cos`: Taylor polynomial of degree 40. -/
def cos_model (q : ℚ) : ℚ := trig_horner (q * q) 1 20

/-- Stand-in for `sin`: Taylor polynomial of degree 41. -/
def sin_model (q : ℚ) : ℚ := q * trig_horner (q * q) 2 20

/-- Newton iteration `x -> (x + q/x) / 2`, `n` times. -/
def sqrt_newton (q : ℚ) : Nat → ℚ → ℚ
  | 0, x => x
  | n + 1, x => sqrt_newton q n ((x + q / x) / 2)

/-- Stand-in for `sqrt`: 0 at 0, otherwise 12 Newton steps from `(q + 1) / 2`. -/
def sqrt_model (q : ℚ) : ℚ := if q ≤ 0 then 0 else sqrt_newton q 12 ((q + 1) / 2)

/-- Truncated sum `1/k + y2/(k+2) + y2^2/(k+4) + ...` with `n` further terms. -/
def atanh_horner (y2 : ℚ) : Nat → Nat → ℚ
  | k, 0 => 1 / (k : ℚ)
  | k, n + 1 => 1 / (k : ℚ) + y2 * atanh_horner y2 (k + 2) n

/-- The series `2 * atanh((q - 1) / (q + 1))` for the logarithm, 12 terms. -/
def log_series (q : ℚ) : ℚ :=
  let y := (q - 1) / (q + 1)
  2 * y * atanh_horner (y * y) 1 12

/-- Range reduction for the logarithm: halve or double `q` into [1/2, 2],
adding the matching multiple of `ln 2`. -/
def log_reduce : Nat → ℚ → ℚ
  | 0, q => log_series q
  | n + 1, q =>
    if q < 1 / 2 then log_reduce n (2 * q) - 6931471805599453 / 10000000000000000
    else if q > 2 then log_reduce n (q / 2) + 6931471805599453 / 10000000000000000
    else log_series q

/-- Stand-in for `log`: 0 for non-positive arguments. -/
def log_model (q : ℚ) : ℚ := if q ≤ 0 then 0 else log_reduce 64 q

/-- The stand-in math library. -/
def libm_model : Libm :=
  { cos := cos_model,
    sin := sin_model,
    sqrt := sqrt_model,
    log := log_model,
    log10 := fun q => log_model q / log_model 10,
    log2 := fun q => log_model q / log_model 2,
    pow := fun a b => if a ≤ 0 then 0 else exp_model (b * log_model a),
    tanh := fun q => (exp_model (2 * q) - 1) / (exp_model (2 * q) + 1) }

/-- The stand-in allocator: a request is granted exactly when it is smaller
than the 47-bit user address space of a 64-bit process, zero-size requests
included. -/
def heap_model (bytes : Nat) : Bool := decide (bytes < 2 ^ 47)

/-! ## Auxiliary definitions for the correctness of the FFT -/

/-- Reversal of the `u` low bits of `p`: the index that `bit_reverse` pairs
with `p` in a buffer of `2^u` elements. -/
def bit_rev : Nat → Nat → Nat
  | 0, _ => 0
  | u + 1, p => (p % 2) * 2 ^ u + bit_rev u (p / 2)

/-- The complex number held by a `cpx` with real components. -/
def Cpx.toComplex (z : Cpx ℝ) : ℂ := ⟨z.r, z.i⟩

/-! ## Auxiliary definitions for the pitch refinement of `yin_get_pitch` -/

/-- The parabolic interpolation of `yin_get_pitch` around `tau_est`: the value
of `better_tau` after the block `if (tau_est > 1 && tau_est < max_tau)`. -/
def yin_parabolic (cmnd : Nat → ℚ) (tau_est max_tau : Int) : ℚ :=
  if tau_est > 1 ∧ tau_est < max_tau then
    let x0 := cmnd (tau_est - 1).toNat
    let x1 := cmnd tau_est.toNat
    let x2 := cmnd (tau_est + 1).toNat
    let denom := 2 * x1 - x0 - x2
    if |denom| > 1 / 1000000000000 then
      let bt := (tau_est : ℚ) + (x0 - x2) / (2 * denom)
      if bt < 1 then (tau_est : ℚ) else bt
    else (tau_est : ℚ)
  else (tau_est : ℚ)

/-- The abscissa of the vertex of the parabola through `(tau - 1, x0)`,
`(tau, x1)` and `(tau + 1, x2)`. -/
def parabola_vertex (tau x0 x1 x2 : ℚ) : ℚ := tau + (x0 - x2) / (2 * (x0 - 2 * x1 + x2))

/-- The array `cmnd` that `yin_get_pitch` builds for a frame, with `max_tau`
already clamped. -/
def yin_cmnd (frame : Nat → ℚ) (N : Int) (max_tau : Int) : Nat → ℚ :=
  yin_cmnd_loop
    (fun tau => if 1 ≤ tau ∧ (tau : Int) ≤ max_tau then yin_difference frame N.toNat tau else 0)
    max_tau.toNat 1 0 (fun _ => 0)

/-- A 32-sample test frame: a ramp of period 5. -/
def ramp_frame (j : Nat) : ℚ := ((j % 5 : Nat) : ℚ)

/-! ## Mono mix and resampling (audio_decoder.c) -/

/-- Record `AudioBuffer` of audio_decoder.h with a non-null `pcm`: the
interleaved `float` samples, finite, as a function of the index. -/
structure AudioBuffer where
  pcm : Nat → ℚ
  frames : Nat
  sample_rate : Int
  channels : Int

/-- Function `mix_to_mono(interleaved, frames, channels)`: nothing when the
function returns `NULL`, otherwise the mono buffer, read at an index below
`frames`.  The samples of a frame are accumulated in `double`, the sum is
divided by `(double)channels` and the quotient is stored as `float`. -/
def mix_to_mono (A : Nat → Bool) (interleaved : Nat → ℚ) (frames : Nat) (channels : Int) :
    Option (Nat → Dbl) :=
  if channels ≤ 0 then none
  else if A (4 * frames) = false then none
  else
    some (fun i =>
      Dbl.r32 (Dbl.div64
        (for_int 0 channels
          (fun c acc => Dbl.add64 acc (Dbl.fin (interleaved (i * channels.toNat + c.toNat))))
          (Dbl.fin 0))
        (Dbl.fin (channels : ℚ))))

/-- The output loop of `resample_and_mix_mono`: the value `out[n]` of the
linear interpolation, computed in `double` and stored as `float`. -/
def resample_sample (mono : Nat → Dbl) (frames : Nat) (ratio : ℚ) (n : Nat) : Dbl :=
  let src_pos : ℚ := b64r (b64r (n : ℚ) * ratio)
  let i0 : Nat := ⌊src_pos⌋.toNat
  let frac : ℚ := b64r (src_pos - b64r (i0 : ℚ))
  if i0 ≥ frames - 1 then mono (frames - 1)
  else
    Dbl.r32 (Dbl.add64 (Dbl.mul64 (Dbl.fin (b64r (1 - frac))) (mono i0))
      (Dbl.mul64 (Dbl.fin frac) (mono (i0 + 1))))

/-- Function `resample_and_mix_mono(in, target_sr, out_pcm, out_frames)` with
non-null pointers: the return code with, on success, the output buffer and its
length; nothing when the behaviour is undefined (a frame count that is
converted to `size_t` from an infinite, negative or too large value, for an
input sample rate that is not positive). -/
def resample_and_mix_mono (A : Nat → Bool) (inp : AudioBuffer) (target_sr : Int) :
    Option (Int × Option ((Nat → Dbl) × Nat)) :=
  if inp.frames = 0 ∨ target_sr ≤ 0 then some (-1, none)
  else
    match mix_to_mono A inp.pcm inp.frames inp.channels with
    | none => some (-2, none)
    | some mono =>
      if inp.sample_rate = target_sr then some (0, some (mono, inp.frames))
      else if inp.sample_rate ≤ 0 then none
      else
        let in_sr : ℚ := (inp.sample_rate : ℚ)
        let out_sr : ℚ := (target_sr : ℚ)
        let ratio := b64r (in_sr / out_sr)
        let n_out_f : Int := ⌊b64r (b64r (inp.frames : ℚ) * b64r (out_sr / in_sr))⌋
        if n_out_f ≥ 2 ^ 64 then none
        else
          let n_out := if n_out_f.toNat = 0 then 1 else n_out_f.toNat
          if A (4 * n_out) = false then some (-3, none)
          else some (0, some (fun n => resample_sample mono inp.frames ratio n, n_out))

/-- The mean of the `channels` samples of frame `i` as `mix_to_mono` computes
it: the sum accumulated in `double` from 0, divided by the number of channels
in `double`, rounded to `float`. -/
def frame_mean (pcm : Nat → ℚ) (channels i : Nat) : Dbl :=
  Dbl.r32 (Dbl.div64
    ((List.range channels).foldl
      (fun acc c => Dbl.add64 acc (Dbl.fin (pcm (i * channels + c)))) (Dbl.fin 0))
    (Dbl.fin (channels : ℚ)))

/-! ## Auxiliary definitions for the tempo estimate -/

/-- The tempo `bpm` that `estimate_tempo_from_odf` attaches to a lag. -/
def lag_bpm (sample_rate : Int) (hop_size lag : Nat) : ℚ :=
  if ((lag * hop_size : Nat) : ℚ) / (sample_rate : ℚ) > 0 then
    60 / (((lag * hop_size : Nat) : ℚ) / (sample_rate : ℚ))
  else 0

/-- The lags that `estimate_tempo_from_odf` considers: those that imply 40 to
200 BPM. -/
def lag_in_range (sample_rate : Int) (hop_size lag : Nat) : Prop :=
  ¬ (lag_bpm sample_rate hop_size lag < 40 ∨ lag_bpm sample_rate hop_size lag > 200)

/-- Whether a lag is in range is decided by two comparisons of rationals. -/
instance lag_in_range_decidable (sample_rate : Int) (hop_size lag : Nat) :
    Decidable (lag_in_range sample_rate hop_size lag) := by
  unfold lag_in_range
  infer_instance

/-- The end of the section list of `compute_structure_features`: the final
section from the last boundary to the end of the track, which is added while
fewer than 128 sections are held. -/
def add_final_section (st : BoundaryState) (duration_sec : ℚ) : List Section :=
  if st.sections.length < 128 then
    st.sections ++
      [{ start_sec := Dbl.fin st.last_boundary, end_sec := Dbl.fin duration_sec,
         label := segment_label (st.sections.length + 1) }]
  else st.sections

/-- The section list that `compute_structure_features` builds from the
normalised novelty curve, before the labels are rewritten: the boundary loop,
then the final section; nothing when the boundary loop reads past the end of
the curve. -/
def collect_sections (novelty : Nat → ℚ) (n_frames : Nat) (duration_sec : ℚ) :
    Option (List Section) :=
  (boundary_loop novelty n_frames 128 (sz_sub n_frames 1) 1 {}).map
    (fun st => add_final_section st duration_sec)

/-- What holds of the sections gathered so far and of the last boundary: each
section starts where the one before ends, has `start < end`, the first starts
at 0 and the last ends at the last boundary. -/
def sections_chain (secs : List Section) (last : ℚ) : Prop :=
  List.Chain' (fun s t => s.end_sec = t.start_sec) secs ∧
  (∀ s ∈ secs, ∃ a b : ℚ, s.start_sec = Dbl.fin a ∧ s.end_sec = Dbl.fin b ∧ a < b) ∧
  (∀ s ∈ secs.head?, s.start_sec = Dbl.fin 0) ∧
  (∀ s ∈ secs.getLast?, s.end_sec = Dbl.fin last) ∧
  (secs = [] → last = 0)

/-- A novelty curve with a peak every 41 frames (20.5 s). -/
def peaks_every_41 (i : Nat) : ℚ := if i % 41 = 0 then 1 else 0

/-- The value `maxval` by which `compute_structure_features` divides the
novelty curve: its largest value, at least `1e-9`. -/
def novelty_max (novelty : Nat → ℚ) (n_frames : Nat) : ℚ :=
  (List.range n_frames).foldl (fun m i => if novelty i > m then novelty i else m)
    (1 / 1000000000)

/-- The normalised novelty curve of `compute_structure_features`. -/
def normalized_novelty (novelty : Nat → ℚ) (n_frames : Nat) : Nat → ℚ :=
  fun i => novelty i / novelty_max novelty n_frames

/-- The label heuristics of `compute_structure_features`: every section keeps
its bounds and receives the label of `heuristic_label`. -/
def relabel_sections (sections : List Section) : List Section :=
  (List.range sections.length).map
    (fun i => { sections.getD i {} with
      label := heuristic_label sections (longest_section sections).1 i })

/-- The number of novelty frames that `compute_novelty_curve` computes for a
signal of at least 1024 samples at an even sample rate: the hop is half a
second, `sample_rate / 2` samples. -/
def novelty_frames (frames : Nat) (sample_rate : Int) : Nat :=
  (frames - 1024) / (sample_rate / 2).toNat

/-- A signal of unit impulses at the start of the marked novelty hops of
22050 samples (half a second at 44100 Hz), zero elsewhere. -/
def frame_clicks (marks : Nat → Bool) (i : Nat) : ℚ :=
  if i % 22050 = 0 ∧ marks (i / 22050) = true then 1 else 0

/-- A click track as signal: a unit impulse every 41 hops of 22050 samples
(20.5 s at 44100 Hz), zero elsewhere. -/
def click_signal : Nat → ℚ := frame_clicks (fun f => decide (f % 41 = 0))

/-- A novelty curve with peaks at frames 41 and 141 only (20.5 s and 70.5 s). -/
def two_peaks (i : Nat) : ℚ := if i = 41 ∨ i = 141 then 1 else 0

/-- A signal with two unit impulses, at 20.5 s and 70.5 s at 44100 Hz. -/
def two_clicks : Nat → ℚ := frame_clicks (fun f => decide (f = 41 ∨ f = 141))

/-- Equality of two `Section` records is decided field by field. -/
instance section_decidable_eq : DecidableEq Section := fun a b =>
  decidable_of_iff (a.start_sec = b.start_sec ∧ a.end_sec = b.end_sec ∧ a.label = b.label)
    (by cases a; cases b; simp)

/-! ## Production (production.c)

The transform of production.c runs the same butterfly loops as the one of
feature_extractor.c (`fft_stages`), after its own bit reversal.  Its buffer
holds `n` elements: touching an index that is not below `n` is undefined
behaviour. -/

/-- Loop `while (j >= m && m >= 2) { j -= m; m >>= 1; }` of the bit reversal of
`fft` in production.c, with `fuel` iterations left (`m` halves every time); the
result is the final `(j, m)`. -/
def production_carry_loop : Nat → Nat → Nat → Nat × Nat
  | 0, j, m => (j, m)
  | fuel + 1, j, m =>
    if j ≥ m ∧ m ≥ 2 then production_carry_loop fuel (j - m) (m / 2) else (j, m)

/-- Loop `while (j >= m && m >= 2) { j -= m; m >>= 1; }` from `(j, m)`. -/
def production_carry (j m : Nat) : Nat × Nat := production_carry_loop m j m

/-- The bit reversal loop of `fft` in production.c from index `i` on, with
`fuel` iterations left: the buffer. -/
def production_bit_reverse_loop (n : Nat) :
    Nat → Nat → Nat → (Nat → Cpx ℚ) → (Nat → Cpx ℚ)
  | 0, _, _, buf => buf
  | fuel + 1, i, j, buf =>
    let buf := if i < j then cpx_swap buf i j else buf
    let jm := production_carry j (n / 2)
    production_bit_reverse_loop n fuel (i + 1) (jm.1 + jm.2) buf

/-- Whether the swaps `buf[i] <-> buf[j]` of the bit reversal loop, from index
`i` on, stay inside the buffer of `n` elements. -/
def production_bit_reverse_ok (n : Nat) : Nat → Nat → Nat → Bool
  | 0, _, _ => true
  | fuel + 1, i, j =>
    (decide (i < j → j < n)) &&
      production_bit_reverse_ok n fuel (i + 1)
        ((production_carry j (n / 2)).1 + (production_carry j (n / 2)).2)

/-- Whether the butterflies of the blocks `k, k + m, ...` below `n` stay inside
the buffer of `n` elements: the largest index `k + j + m/2` of a block, at
`j = m/2 - 1`, must be below `n`. -/
def production_blocks_ok (n m : Nat) : Nat → Nat → Bool
  | 0, _ => true
  | fuel + 1, k =>
    if k < n then
      decide (k + (m / 2 - 1) + m / 2 < n) && production_blocks_ok n m fuel (k + m)
    else true

/-- Whether the butterflies of the stages `m = 2^s, 2^(s+1), ...` up to `n`
stay inside the buffer of `n` elements. -/
def production_stages_ok (n : Nat) : Nat → Nat → Bool
  | 0, _ => true
  | fuel + 1, s =>
    if 2 ^ s ≤ n then
      production_blocks_ok n (2 ^ s) n 0 && production_stages_ok n fuel (s + 1)
    else true

/-- Whether `fft(buf, n)` of production.c touches only indices below `n`. -/
def production_fft_in_bounds (n : Nat) : Bool :=
  production_bit_reverse_ok n n 0 0 && production_stages_ok n n 1

/-- Function `fft(buf, n)` of production.c: nothing when an index outside the
buffer is touched. -/
def production_fft (M : Libm) (buf : Nat → Cpx ℚ) (n : Nat) : Option (Nat → Cpx ℚ) :=
  if production_fft_in_bounds n then
    some (fft_stages (fft_twiddle M) n n 1 (production_bit_reverse_loop n n 0 0 buf))
  else none

/-- The transform size `N` of `compute_production_features`: 4096, or the
number of frames of a shorter input. -/
def production_fft_size (frames : Nat) : Nat := if 4096 > frames then frames else 4096

/-- The loudness block of `compute_production_features`: the pair
`(loudness_db, dynamic_range_db)`. -/
def production_loudness (M : Libm) (stereo : Nat → ℚ) (frames : Nat) (channels : Nat) :
    ℚ × ℚ :=
  let total_samples := frames * channels
  let sumsq := sum_loop total_samples (fun i => stereo i * stereo i)
  let peak := (List.range total_samples).foldl
    (fun peak i => if |stereo i| > peak then |stereo i| else peak) 0
  let rms := if total_samples ≠ 0 then M.sqrt (sumsq / (total_samples : ℚ)) else 0
  (if rms > b64r (1 / 1000000000000) then 20 * M.log10 rms else -120,
   if rms > b64r (1 / 1000000000000) ∧ peak > b64r (1 / 1000000000000)
   then 20 * M.log10 (peak / rms) else 0)

/-- The stereo width block of `compute_production_features`: the correlation
of the first two channels, 0 when one of the variances is at most `1e-12`,
and 1 for fewer than two channels.  Every product, sum, difference and
quotient is rounded to binary64. -/
def production_stereo_width (M : Libm) (stereo : Nat → ℚ) (frames : Nat) (channels : Nat) : ℚ :=
  if channels ≥ 2 then
    let sumL := sum_loop64 frames (fun i => stereo (i * channels + 0))
    let sumR := sum_loop64 frames (fun i => stereo (i * channels + 1))
    let sumL2 := sum_loop64 frames
      (fun i => b64r (stereo (i * channels + 0) * stereo (i * channels + 0)))
    let sumR2 := sum_loop64 frames
      (fun i => b64r (stereo (i * channels + 1) * stereo (i * channels + 1)))
    let sumLR := sum_loop64 frames
      (fun i => b64r (stereo (i * channels + 0) * stereo (i * channels + 1)))
    let meanL := b64r (sumL / b64r (frames : ℚ))
    let meanR := b64r (sumR / b64r (frames : ℚ))
    let cov := b64r (b64r (sumLR / b64r (frames : ℚ)) - b64r (meanL * meanR))
    let varL := b64r (b64r (sumL2 / b64r (frames : ℚ)) - b64r (meanL * meanL))
    let varR := b64r (b64r (sumR2 / b64r (frames : ℚ)) - b64r (meanR * meanR))
    if varL > b64r (1 / 1000000000000) ∧ varR > b64r (1 / 1000000000000)
    then b64r (cov / b64r (M.sqrt varL * M.sqrt varR)) else 0
  else 1

/-- The Hann-windowed mono mix of the window that starts at frame `start`, as
complex buffer of `N` elements. -/
def production_window_buf (M : Libm) (stereo : Nat → ℚ) (channels N start : Nat) (i : Nat) :
    Cpx ℚ :=
  let sample := sum_loop channels (fun c => stereo ((start + i) * channels + c))
  let sample := sample / (channels : ℚ)
  let wHann := 1 / 2 * (1 - M.cos (2 * M_PI * (i : ℚ) / ((N : ℚ) - 1)))
  { r := sample * wHann, i := 0 }

/-- The spectral loop of one window of `compute_production_features` over the
bins `1 <= k < N/2` of the transformed buffer: the pair `(bal, flatness)`. -/
def production_window_ratios (M : Libm) (E : ℚ → ℚ) (Y : Nat → Cpx ℚ) (N : Nat)
    (sample_rate : Int) : ℚ × ℚ :=
  let bins := N / 2 - 1
  let freq : Nat → ℚ := fun k => (k : ℚ) * (sample_rate : ℚ) / (N : ℚ)
  let psd : Nat → ℚ := fun k =>
    (Y k).r * (Y k).r + (Y k).i * (Y k).i + b64r (1 / 1000000000000000)
  let lowE := sum_loop bins (fun d => if freq (d + 1) < 200 then psd (d + 1) else 0)
  let highE := sum_loop bins (fun d =>
    if freq (d + 1) < 200 then 0 else if freq (d + 1) > 2000 then psd (d + 1) else 0)
  let sumLin := sum_loop bins (fun d => psd (d + 1))
  let sumLog := sum_loop bins (fun d => M.log (psd (d + 1)))
  let denom := lowE + highE
  let bal := if denom > b64r (1 / 1000000000000) then lowE / denom else 1 / 2
  let geoMean := E (sumLog / (bins : ℚ))
  let arithMean := sumLin / (bins : ℚ)
  let flatness :=
    if arithMean > b64r (1 / 1000000000000000) then geoMean / arithMean else 0
  (bal, flatness)

/-- State of the window loop of `compute_production_features`; `stopped`
records a `break`. -/
structure WindowState where
  balanceSum : ℚ := 0
  flatnessSum : ℚ := 0
  validWindows : Int := 0
  stopped : Bool := false

/-- One iteration of the window loop of `compute_production_features`, for the
window `w`: nothing when the transform leaves its buffer. -/
def production_window_step (M : Libm) (E : ℚ → ℚ) (A : Nat → Bool) (stereo : Nat → ℚ)
    (frames : Nat) (sample_rate : Int) (channels N : Nat) (w : Nat) (st : WindowState) :
    Option WindowState :=
  if st.stopped then some st
  else
    let start := d2sz (b64r (b64r ((frames - N : Nat) : ℚ) * b64r ((w : ℚ) / 9)))
    if start + N > frames then some { st with stopped := true }
    else if A (16 * N) = false then some { st with stopped := true }
    else
      match production_fft M (production_window_buf M stereo channels N start) N with
      | none => none
      | some Y =>
        if N / 2 - 1 > 0 then
          some { st with
            balanceSum := st.balanceSum + (production_window_ratios M E Y N sample_rate).1,
            flatnessSum := st.flatnessSum + (production_window_ratios M E Y N sample_rate).2,
            validWindows := st.validWindows + 1 }
        else some st

/-- Function `compute_production_features(stereo, frames, sample_rate,
channels, out)` with non-null pointers, for a positive number of channels:
nothing when the behaviour is undefined, otherwise the return code and the
record left in `*out`, which is not written when the arguments are rejected.
The exponential is the parameter `E`. -/
def compute_production_features (M : Libm) (E : ℚ → ℚ) (A : Nat → Bool) (stereo : Nat → ℚ)
    (frames : Nat) (sample_rate : Int) (channels : Nat) :
    Option (Int × Option ProductionFeatures) :=
  if frames = 0 ∨ sample_rate ≤ 0 then some (-1, none)
  else
    let N := production_fft_size frames
    match (List.range 10).foldl
        (fun (st : Option WindowState) w =>
          st.bind (production_window_step M E A stereo frames sample_rate channels N w))
        (some {}) with
    | none => none
    | some st =>
      some (0, some
        { loudness_db := Dbl.fin (production_loudness M stereo frames channels).1,
          dynamic_range_db := Dbl.fin (production_loudness M stereo frames channels).2,
          stereo_width := Dbl.fin (production_stereo_width M stereo frames channels),
          spectral_balance :=
            Dbl.fin (if st.validWindows > 0 then st.balanceSum / (st.validWindows : ℚ)
              else 1 / 2),
          masking_index :=
            Dbl.fin (if st.validWindows > 0 then st.flatnessSum / (st.validWindows : ℚ)
              else 0) })

/-- The variance `varL` of the first channel in the stereo width block of
`compute_production_features`, as the code computes it in double. -/
def production_var_left (stereo : Nat → ℚ) (frames channels : Nat) : ℚ :=
  b64r (b64r (sum_loop64 frames
        (fun i => b64r (stereo (i * channels + 0) * stereo (i * channels + 0)))
      / b64r (frames : ℚ))
    - b64r (b64r (sum_loop64 frames (fun i => stereo (i * channels + 0)) / b64r (frames : ℚ))
      * b64r (sum_loop64 frames (fun i => stereo (i * channels + 0)) / b64r (frames : ℚ))))

/-! ## Motifs: the counts in the words of the documentation -/

/-- The number of occurrences of the n-gram `w` among the n-grams `W`. -/
def ngram_occurrences (W : List (List Int)) (w : List Int) : Nat :=
  W.countP (fun v => decide (v = w))

/-- The number of repeated motif occurrences of a note sequence in the words
of the documentation: the sum, over the distinct 4-note n-grams that occur more
than once, of the occurrences minus one. -/
def repeated_ngrams (all_midi : List Int) : Nat :=
  (((motif_windows all_midi).dedup.filter
      (fun w => decide (ngram_occurrences (motif_windows all_midi) w > 1))).map
    (fun w => ngram_occurrences (motif_windows all_midi) w - 1)).sum

/-- The state of the motif loop of `compute_melody_features` after the sliding
n-grams of the note sequence `all_midi`. -/
def motif_scan (A : Nat → Bool) (all_midi : List Int) : MotifState :=
  (motif_windows all_midi).foldl (fun ms w => motif_step A (motif_key w) ms) {}

/-- The invariant of the motif loop after the keys `ks`: no stop, one entry per
distinct key, every count at least 1, and the counts add up to the number of
keys seen. -/
def motif_inv (st : MotifState) (ks : List Nat) : Prop :=
  st.stopped = false ∧ (st.motifs.map Motif.key).Nodup ∧
  (∀ k, k ∈ st.motifs.map Motif.key ↔ k ∈ ks) ∧
  (∀ m ∈ st.motifs, 1 ≤ m.count) ∧
  (st.motifs.map Motif.count).sum = st.total_motif_occurrences ∧
  st.total_motif_occurrences = (ks.length : Int)

/-! ## Rhythm descriptors: test envelopes -/

/-- The onset envelope of a signal whose level rises by 2^-10 per hop in the
first half of every 26 hops and by 2^-9 per hop in the second half; frame 0 is
0, as in every envelope of `compute_onset_envelope_energy`. -/
def staircase_envelope (i : Nat) : ℚ :=
  if i = 0 then 0 else if i % 26 < 13 then 1 / 1024 else 1 / 512

/-- The tension of one chord against a scale in the words of the
documentation: the fraction of its three pitch classes that lie outside the
scale, plus 0.2 if the chord is minor, clamped to 1; evaluated in double. -/
def chord_tension (scale : List Int) (name : String) : ℚ :=
  min 1 (b64r
    (b64r ((((chord_to_pcset name).filter (fun pc => !(scale.contains pc))).length : ℚ) / 3)
      + (if name.toList.getLast? = some 'm' then b64r (2 / 10) else 0)))

/-- The mean of the chord tensions of a chord sequence, summed and divided in
double. -/
def mean_chord_tension (scale : List Int) (chords : List ChordLabel) : ℚ :=
  b64r (chords.foldl (fun t ch => b64r (t + chord_tension scale ch.name)) 0
    / (chords.length : ℚ))

/-! ## Psychoacoustics (psychoacoustics.c) -/

/-- Rounding to `long double`, taken as the 80-bit extended format of the
x86-64 ABI (64 significant bits), overflow aside. -/
def ldr (q : ℚ) : ℚ := fp_round 64 (-16445) q

/-- The number `n_frames` of analysis frames of `compute_psychoacoustics`
(window 4096, hop 2048). -/
def psy_frame_count (frames : Nat) : Nat :=
  if frames ≤ 4096 then 1 else 1 + (frames - 4096) / 2048

/-- The length `wlen` of analysis frame `f` of `compute_psychoacoustics`. -/
def psy_window_length (frames : Nat) (f : Nat) : Nat :=
  if f * 2048 + 4096 > frames then sz_sub frames (f * 2048) else 4096

/-- The value `rms[f]` of `compute_psychoacoustics`: the squares are summed in
`long double`, the mean is converted to `double`, then `sqrt`. -/
def psy_rms (M : Libm) (mono : Nat → ℚ) (frames : Nat) (f : Nat) : ℚ :=
  if psy_window_length frames f = 0 then 0
  else
    M.sqrt (b64r (ldr
      ((List.range (psy_window_length frames f)).foldl
          (fun acc i => ldr (acc + ldr (mono (f * 2048 + i) * mono (f * 2048 + i)))) 0
        / (psy_window_length frames f : ℚ))))

/-- The value `rms_db[f]` of `compute_psychoacoustics`. -/
def psy_rms_db (M : Libm) (mono : Nat → ℚ) (frames : Nat) (f : Nat) : ℚ :=
  if psy_window_length frames f = 0 then -120
  else b64r (20 * M.log10 (b64r (psy_rms M mono frames f + b64r (1 / 1000000000000))))

/-- The index `(size_t)floor(perc * (double)(n_frames - 1))` of the dynamic
range of `compute_psychoacoustics`, for the double `perc` of a literal. -/
def psy_percentile_index (perc : ℚ) (n_frames : Nat) : Nat :=
  (⌊b64r (b64r perc * b64r ((sz_sub n_frames 1 : Nat) : ℚ))⌋).toNat

/-- The loudness `loudness_lu` of `compute_psychoacoustics`: the mean square of
the frames above -70 dB (of all frames when there is none), summed in `long
double`. -/
def psy_loudness (M : Libm) (rms rms_db : Nat → ℚ) (n_frames : Nat) : ℚ :=
  let gated := (List.range n_frames).filter (fun f => decide (rms_db f > -70))
  let used := if gated.length = 0 then List.range n_frames else gated
  let sum_ms := used.foldl (fun s f => ldr (s + ldr (rms f * rms f))) 0
  let count_ms : Nat :=
    if gated.length = 0 then (if n_frames ≠ 0 then n_frames else 1) else gated.length
  let mean_ms := b64r (ldr (sum_ms / (count_ms : ℚ)))
  b64r (b64r (-(691 / 1000))
    + b64r (10 * M.log10 (b64r (mean_ms + b64r (1 / 1000000000000)))))

/-- The roughness of `compute_psychoacoustics`: `tanh` of a sixth of the mean
absolute frame-to-frame change of the level. -/
def psy_roughness (M : Libm) (rms_db : Nat → ℚ) (n_frames : Nat) : ℚ :=
  let mad := (List.range (n_frames - 1)).foldl
    (fun s i => b64r (s + |b64r (rms_db (i + 1) - rms_db i)|)) 0
  let mad := if n_frames > 1 then b64r (mad / b64r ((n_frames - 1 : Nat) : ℚ)) else 0
  M.tanh (b64r (mad / 6))

/-- The dissonance proxy of `compute_psychoacoustics`: `tanh` of an eighth of
the standard deviation of the frame-to-frame change of the level. -/
def psy_dissonance (M : Libm) (rms_db : Nat → ℚ) (n_frames : Nat) : ℚ :=
  let sum_d := (List.range (n_frames - 1)).foldl
    (fun s i => b64r (s + b64r (rms_db (i + 1) - rms_db i))) 0
  let sum_d2 := (List.range (n_frames - 1)).foldl
    (fun s i => b64r (s + b64r (b64r (rms_db (i + 1) - rms_db i)
      * b64r (rms_db (i + 1) - rms_db i)))) 0
  let mean_d := if n_frames > 1 then b64r (sum_d / b64r ((n_frames - 1 : Nat) : ℚ)) else 0
  let var_d :=
    if n_frames > 1 then
      b64r (b64r (sum_d2 / b64r ((n_frames - 1 : Nat) : ℚ)) - b64r (mean_d * mean_d))
    else 0
  let var_d := if var_d < 0 then 0 else var_d
  M.tanh (b64r (M.sqrt var_d / 8))

/-- Function `compute_psychoacoustics(mono, frames, sr, out)` with non-null
pointers and finite samples: the return code and the record written to `*out`
(nothing is written when the code is not 0).  The two `calloc` calls ask for
`8 * n_frames` bytes each, and so does the `malloc` of the sorted copy. -/
def compute_psychoacoustics (M : Libm) (A : Nat → Bool) (mono : Nat → ℚ) (frames : Nat)
    (sr : Int) : Int × Option PsychoacousticFeatures :=
  if frames = 0 ∨ sr ≤ 0 then (-1, none)
  else
    let n_frames := psy_frame_count frames
    if A (8 * n_frames) = false then (-2, none)
    else
      let rms := psy_rms M mono frames
      let rms_db := psy_rms_db M mono frames
      let loudness_lu := psy_loudness M rms rms_db n_frames
      if A (8 * n_frames) = false then (-3, none)
      else
        let sorted_db := qsort_double ((List.range n_frames).map rms_db)
        let idx05 := psy_percentile_index (5 / 100) n_frames
        let idx95 := psy_percentile_index (95 / 100) n_frames
        let p05 := sorted_db.getD idx05 0
        let p95 := sorted_db.getD idx95 0
        let dynamic_range_db := b64r (p95 - p05)
        (0, some
          { roughness := Dbl.fin (psy_roughness M rms_db n_frames),
            dissonance := Dbl.fin (psy_dissonance M rms_db n_frames),
            loudness_lu := Dbl.fin loudness_lu,
            dynamic_range := Dbl.fin dynamic_range_db })

/-- The ascending sort of the per-frame dB values of a signal. -/
def psy_sorted_db (M : Libm) (mono : Nat → ℚ) (frames : Nat) : List ℚ :=
  qsort_double ((List.range (psy_frame_count frames)).map (psy_rms_db M mono frames))

/-! ## Key detection under transposition -/

/-- The all-zero complex buffer. -/
def cpx_zero : Nat → Cpx ℚ := fun _ => { r := 0, i := 0 }

/-! # Theorems -/

/-! ## Rounding to the nearest integer -/

theorem rne_intCast (n : Int) : rne (n : ℚ) = n := by
  unfold rne
  simp

theorem rne_zero : rne 0 = 0 := by
  have := rne_intCast 0
  simpa using this

theorem rne_floor_le (q : ℚ) : ⌊q⌋ ≤ rne q := by
  unfold rne
  split_ifs <;> omega

theorem rne_le_floor_succ (q : ℚ) : rne q ≤ ⌊q⌋ + 1 := by
  unfold rne
  split_ifs <;> omega

theorem rne_mono {q r : ℚ} (h : q ≤ r) : rne q ≤ rne r := by
  have hf : ⌊q⌋ ≤ ⌊r⌋ := Int.floor_le_floor h
  rcases lt_or_eq_of_le hf with hlt | heq
  · exact le_trans (rne_le_floor_succ q) (le_trans (by omega) (rne_floor_le r))
  · unfold rne
    rw [← heq]
    have hd : q - ⌊q⌋ ≤ r - ⌊q⌋ := by linarith
    split_ifs <;> first | omega | (exfalso; linarith)

theorem rne_le_of_le_int {q : ℚ} {n : Int} (h : q ≤ n) : rne q ≤ n := by
  have := rne_mono h
  rwa [rne_intCast] at this

theorem rne_ge_of_int_le {q : ℚ} {n : Int} (h : (n : ℚ) ≤ q) : n ≤ rne q := by
  have := rne_mono h
  rwa [rne_intCast] at this

theorem rne_nonneg {q : ℚ} (h : 0 ≤ q) : 0 ≤ rne q := by
  have h2 : ((0 : Int) : ℚ) ≤ q := by simpa using h
  exact rne_ge_of_int_le h2

theorem rne_sub_le (q : ℚ) : ((rne q : Int) : ℚ) - q ≤ 1 / 2 := by
  have h1 := Int.floor_le q
  have h2 := Int.lt_floor_add_one q
  unfold rne
  split_ifs with a b c
  · linarith
  · push_cast; linarith
  · linarith
  · push_cast; linarith

theorem sub_rne_le (q : ℚ) : q - ((rne q : Int) : ℚ) ≤ 1 / 2 := by
  have h1 := Int.floor_le q
  have h2 := Int.lt_floor_add_one q
  unfold rne
  split_ifs with a b c
  · linarith
  · push_cast; linarith
  · linarith
  · push_cast; linarith

/-! ## The binary exponent of a value -/

theorem two_zpow_pos (e : Int) : (0 : ℚ) < 2 ^ e := zpow_pos (by norm_num) e

theorem two_zpow_le {a b : Int} (h : a ≤ b) : (2 : ℚ) ^ a ≤ 2 ^ b :=
  zpow_le_zpow_right₀ (by norm_num) h

theorem two_zpow_lt {a b : Int} (h : a < b) : (2 : ℚ) ^ a < 2 ^ b :=
  zpow_lt_zpow_right₀ (by norm_num) h

theorem two_zpow_nat (n : Nat) : (2 : ℚ) ^ (n : Int) = (((2 : Int) ^ n : Int) : ℚ) := by
  rw [zpow_natCast]
  push_cast
  rfl

theorem two_zpow_eq_int {e : Int} (h : 0 ≤ e) : (2 : ℚ) ^ e = (((2 : Int) ^ e.toNat : Int) : ℚ) := by
  obtain ⟨n, rfl⟩ := Int.eq_ofNat_of_zero_le h
  rw [Int.toNat_ofNat]
  exact two_zpow_nat n

theorem pow2_eq_zpow (e : Int) : pow2 e = (2 : ℚ) ^ e := by
  unfold pow2
  by_cases h : 0 ≤ e
  · rw [if_pos h]
    obtain ⟨n, rfl⟩ := Int.eq_ofNat_of_zero_le h
    rw [Int.toNat_ofNat, zpow_natCast]
    push_cast
    rfl
  · rw [if_neg h]
    obtain ⟨n, hn⟩ := Int.eq_ofNat_of_zero_le (show 0 ≤ -e by omega)
    rw [hn, Int.toNat_ofNat, show e = -(n : Int) by omega, zpow_neg, zpow_natCast]
    push_cast
    rw [one_div]

theorem log2_loop_spec : ∀ (fuel n : Nat), n ≤ fuel → n ≠ 0 →
    2 ^ log2_loop fuel n ≤ n ∧ n < 2 ^ (log2_loop fuel n + 1) := by
  intro fuel
  induction fuel with
  | zero =>
    intro n h1 h2
    omega
  | succ fuel ih =>
    intro n h1 h2
    unfold log2_loop
    by_cases h : 2 ≤ n
    · rw [if_pos h]
      obtain ⟨a, b⟩ := ih (n / 2) (by omega) (by omega)
      rw [pow_succ, pow_succ]
      constructor <;> omega
    · rw [if_neg h]
      have : n = 1 := by omega
      rw [this]
      decide

theorem nat_log2_self_le {n : Nat} (h : n ≠ 0) : 2 ^ nat_log2 n ≤ n :=
  (log2_loop_spec n n (Nat.le_refl _) h).1

theorem nat_lt_log2_self {n : Nat} (h : n ≠ 0) : n < 2 ^ (nat_log2 n + 1) :=
  (log2_loop_spec n n (Nat.le_refl _) h).2

theorem ilog2_spec {q : ℚ} (hq : q ≠ 0) :
    (2 : ℚ) ^ (ilog2 q) ≤ |q| ∧ |q| < 2 ^ (ilog2 q + 1) := by
  have hn : q.num.natAbs ≠ 0 := by
    rw [Ne, Int.natAbs_eq_zero, Rat.num_eq_zero]
    exact hq
  have hd : q.den ≠ 0 := q.den_nz
  have a1 : 2 ^ (nat_log2 q.num.natAbs) ≤ q.num.natAbs := nat_log2_self_le hn
  have a2 : q.num.natAbs < 2 ^ (nat_log2 q.num.natAbs + 1) := nat_lt_log2_self hn
  have b1 : 2 ^ (nat_log2 q.den) ≤ q.den := nat_log2_self_le hd
  have b2 : q.den < 2 ^ (nat_log2 q.den + 1) := nat_lt_log2_self hd
  have habs : |q| = (q.num.natAbs : ℚ) / (q.den : ℚ) := by
    conv_lhs => rw [← Rat.num_div_den q]
    rw [abs_div, Nat.abs_cast]
    congr 1
    rw [Nat.cast_natAbs, Int.cast_abs]
  have hdpos : (0 : ℚ) < (q.den : ℚ) := by exact_mod_cast Nat.pos_of_ne_zero hd
  have a1q : (2 : ℚ) ^ ((nat_log2 q.num.natAbs : Nat) : Int) ≤ (q.num.natAbs : ℚ) := by
    rw [zpow_natCast]; exact_mod_cast a1
  have a2q : (q.num.natAbs : ℚ) < (2 : ℚ) ^ (((nat_log2 q.num.natAbs : Nat) : Int) + 1) := by
    have : (2 : ℚ) ^ (((nat_log2 q.num.natAbs : Nat) : Int) + 1)
        = ((2 ^ (nat_log2 q.num.natAbs + 1) : Nat) : ℚ) := by
      rw [show (((nat_log2 q.num.natAbs : Nat) : Int) + 1)
        = ((nat_log2 q.num.natAbs + 1 : Nat) : Int) by push_cast; rfl, zpow_natCast]
      push_cast; rfl
    rw [this]; exact_mod_cast a2
  have b1q : (2 : ℚ) ^ ((nat_log2 q.den : Nat) : Int) ≤ (q.den : ℚ) := by
    rw [zpow_natCast]; exact_mod_cast b1
  have b2q : (q.den : ℚ) < (2 : ℚ) ^ (((nat_log2 q.den : Nat) : Int) + 1) := by
    have : (2 : ℚ) ^ (((nat_log2 q.den : Nat) : Int) + 1)
        = ((2 ^ (nat_log2 q.den + 1) : Nat) : ℚ) := by
      rw [show (((nat_log2 q.den : Nat) : Int) + 1)
        = ((nat_log2 q.den + 1 : Nat) : Int) by push_cast; rfl, zpow_natCast]
      push_cast; rfl
    rw [this]; exact_mod_cast b2
  unfold ilog2
  rw [pow2_eq_zpow]
  generalize (nat_log2 q.num.natAbs : Int) = a at a1q a2q ⊢
  generalize (nat_log2 q.den : Int) = b at b1q b2q ⊢
  have e2 : (2 : ℚ) ≠ 0 := by norm_num
  -- upper bound: |q| < 2 ^ (a - b + 1)
  have hup : |q| < 2 ^ (a - b + 1) := by
    rw [habs, div_lt_iff₀ hdpos]
    have : (2 : ℚ) ^ (a - b + 1) * 2 ^ b = 2 ^ (a + 1) := by
      rw [← zpow_add₀ e2]; congr 1; ring
    calc (q.num.natAbs : ℚ) < 2 ^ (a + 1) := a2q
      _ = 2 ^ (a - b + 1) * 2 ^ b := this.symm
      _ ≤ 2 ^ (a - b + 1) * (q.den : ℚ) :=
        mul_le_mul_of_nonneg_left b1q (le_of_lt (two_zpow_pos _))
  -- lower bound: 2 ^ (a - b - 1) ≤ |q|
  have hlo : (2 : ℚ) ^ (a - b - 1) ≤ |q| := by
    rw [habs, le_div_iff₀ hdpos]
    have : (2 : ℚ) ^ (a - b - 1) * 2 ^ (b + 1) = 2 ^ a := by
      rw [← zpow_add₀ e2]; congr 1; ring
    calc (2 : ℚ) ^ (a - b - 1) * (q.den : ℚ)
        ≤ 2 ^ (a - b - 1) * 2 ^ (b + 1) :=
          mul_le_mul_of_nonneg_left (le_of_lt b2q) (le_of_lt (two_zpow_pos _))
      _ = 2 ^ a := this
      _ ≤ (q.num.natAbs : ℚ) := a1q
  by_cases h : (2 : ℚ) ^ (a - b) ≤ |q|
  · rw [if_pos h]
    exact ⟨h, hup⟩
  · rw [if_neg h]
    refine ⟨hlo, ?_⟩
    rw [show a - b - 1 + 1 = a - b by ring]
    exact not_le.mp h

theorem ilog2_neg (q : ℚ) : ilog2 (-q) = ilog2 q := by
  unfold ilog2
  rw [Rat.num_neg_eq_neg_num, Int.natAbs_neg, Rat.den_neg_eq_den, abs_neg]

theorem ilog2_unique {q : ℚ} {k : Int} (h1 : (2 : ℚ) ^ k ≤ |q|) (h2 : |q| < 2 ^ (k + 1)) :
    ilog2 q = k := by
  have hq : q ≠ 0 := by
    intro e
    rw [e, abs_zero] at h1
    exact absurd h1 (not_le.mpr (two_zpow_pos k))
  obtain ⟨s1, s2⟩ := ilog2_spec hq
  have c1 : ilog2 q < k + 1 := by
    by_contra hc
    have := two_zpow_le (not_lt.mp hc)
    linarith
  have c2 : k < ilog2 q + 1 := by
    by_contra hc
    have := two_zpow_le (not_lt.mp hc)
    linarith
  omega

theorem ilog2_mono {q r : ℚ} (hq : 0 < q) (h : q ≤ r) : ilog2 q ≤ ilog2 r := by
  obtain ⟨s1, _⟩ := ilog2_spec (ne_of_gt hq)
  obtain ⟨_, t2⟩ := ilog2_spec (ne_of_gt (lt_of_lt_of_le hq h))
  rw [abs_of_pos hq] at s1
  rw [abs_of_pos (lt_of_lt_of_le hq h)] at t2
  by_contra hc
  have := two_zpow_le (show ilog2 r + 1 ≤ ilog2 q by omega)
  linarith

/-! ## Rounding to a floating-point format -/

theorem fp_exp_neg (p : Nat) (emin : Int) (q : ℚ) : fp_exp p emin (-q) = fp_exp p emin q := by
  unfold fp_exp
  rw [ilog2_neg]

theorem fp_exp_ge (p : Nat) (emin : Int) (q : ℚ) : emin ≤ fp_exp p emin q :=
  le_max_right _ _

theorem fp_round_zero (p : Nat) (emin : Int) : fp_round p emin 0 = 0 := by
  unfold fp_round
  simp [rne_zero]

theorem fp_round_of_nonneg (p : Nat) (emin : Int) {q : ℚ} (h : 0 ≤ q) :
    fp_round p emin q = (rne (q / 2 ^ fp_exp p emin q) : ℚ) * 2 ^ fp_exp p emin q := by
  unfold fp_round
  rw [if_neg (not_lt.mpr h), pow2_eq_zpow]

theorem fp_round_neg (p : Nat) (emin : Int) (q : ℚ) :
    fp_round p emin (-q) = -fp_round p emin q := by
  rcases lt_trichotomy q 0 with h | h | h
  · have h2 : ¬ (-q < 0) := by linarith
    unfold fp_round
    rw [if_neg h2, if_pos h, fp_exp_neg, neg_neg]
  · rw [h, neg_zero, fp_round_zero, neg_zero]
  · have h2 : -q < 0 := by linarith
    have h3 : ¬ q < 0 := by linarith
    unfold fp_round
    rw [if_pos h2, if_neg h3, fp_exp_neg, neg_neg]

theorem fp_round_nonneg (p : Nat) (emin : Int) {q : ℚ} (h : 0 ≤ q) :
    0 ≤ fp_round p emin q := by
  rw [fp_round_of_nonneg p emin h]
  have h1 : (0 : ℚ) ≤ q / 2 ^ fp_exp p emin q := div_nonneg h (le_of_lt (two_zpow_pos _))
  have h2 : (0 : ℚ) ≤ (rne (q / 2 ^ fp_exp p emin q) : ℚ) := by exact_mod_cast rne_nonneg h1
  exact mul_nonneg h2 (le_of_lt (two_zpow_pos _))

theorem fp_round_nonpos (p : Nat) (emin : Int) {q : ℚ} (h : q ≤ 0) :
    fp_round p emin q ≤ 0 := by
  have := fp_round_nonneg p emin (show 0 ≤ -q by linarith)
  rw [fp_round_neg] at this
  linarith

theorem fp_exp_mono (p : Nat) (emin : Int) {q r : ℚ} (hq : 0 < q) (h : q ≤ r) :
    fp_exp p emin q ≤ fp_exp p emin r := by
  unfold fp_exp
  have := ilog2_mono hq h
  exact max_le_max (by omega) (le_refl _)

theorem fp_round_mono_pos (p : Nat) (hp : 1 ≤ p) (emin : Int) {q r : ℚ} (hq : 0 < q)
    (h : q ≤ r) : fp_round p emin q ≤ fp_round p emin r := by
  have hr : 0 < r := lt_of_lt_of_le hq h
  rw [fp_round_of_nonneg p emin (le_of_lt hq), fp_round_of_nonneg p emin (le_of_lt hr)]
  have he := fp_exp_mono p emin hq h
  rcases lt_or_eq_of_le he with hlt | heq
  · -- different exponents: a power of two lies between the two values
    have hkr : fp_exp p emin r = ilog2 r - ((p : Int) - 1) := by
      unfold fp_exp at hlt ⊢
      have hge : emin ≤ max (ilog2 q - ((p : Int) - 1)) emin := le_max_right _ _
      apply max_eq_left
      by_contra hc
      rw [max_eq_right (le_of_lt (not_le.mp hc))] at hlt
      omega
    have hkq : ilog2 q < ilog2 r := by
      by_contra hc
      have e1 : ilog2 q = ilog2 r := le_antisymm (ilog2_mono hq h) (not_lt.mp hc)
      unfold fp_exp at hlt
      rw [e1] at hlt
      exact lt_irrefl _ hlt
    obtain ⟨_, q2⟩ := ilog2_spec (ne_of_gt hq)
    obtain ⟨r1, _⟩ := ilog2_spec (ne_of_gt hr)
    rw [abs_of_pos hq] at q2
    rw [abs_of_pos hr] at r1
    have e2 : (2 : ℚ) ≠ 0 := by norm_num
    have hpP : (0 : Int) ≤ (p : Int) - 1 := by omega
    -- lower side
    have hq_le : q ≤ 2 ^ (ilog2 r) := le_trans (le_of_lt q2) (two_zpow_le (by omega))
    have hd1 : (0 : Int) ≤ ilog2 r - fp_exp p emin q := by omega
    have hq_div : q / 2 ^ fp_exp p emin q ≤ (((2 : Int) ^ (ilog2 r - fp_exp p emin q).toNat : Int) : ℚ) := by
      rw [← two_zpow_eq_int hd1, div_le_iff₀ (two_zpow_pos _), ← zpow_add₀ e2]
      rw [show ilog2 r - fp_exp p emin q + fp_exp p emin q = ilog2 r by ring]
      exact hq_le
    have hq_rne := rne_le_of_le_int hq_div
    have hq_fin : (rne (q / 2 ^ fp_exp p emin q) : ℚ) * 2 ^ fp_exp p emin q ≤ 2 ^ (ilog2 r) := by
      have : (rne (q / 2 ^ fp_exp p emin q) : ℚ)
          ≤ (((2 : Int) ^ (ilog2 r - fp_exp p emin q).toNat : Int) : ℚ) := by exact_mod_cast hq_rne
      rw [← two_zpow_eq_int hd1] at this
      calc (rne (q / 2 ^ fp_exp p emin q) : ℚ) * 2 ^ fp_exp p emin q
          ≤ 2 ^ (ilog2 r - fp_exp p emin q) * 2 ^ fp_exp p emin q :=
            mul_le_mul_of_nonneg_right this (le_of_lt (two_zpow_pos _))
        _ = 2 ^ (ilog2 r) := by
            rw [← zpow_add₀ e2]; congr 1; ring
    -- upper side
    have hd2 : (0 : Int) ≤ ilog2 r - fp_exp p emin r := by omega
    have hr_div : (((2 : Int) ^ (ilog2 r - fp_exp p emin r).toNat : Int) : ℚ)
        ≤ r / 2 ^ fp_exp p emin r := by
      rw [← two_zpow_eq_int hd2, le_div_iff₀ (two_zpow_pos _), ← zpow_add₀ e2]
      rw [show ilog2 r - fp_exp p emin r + fp_exp p emin r = ilog2 r by ring]
      exact r1
    have hr_rne := rne_ge_of_int_le hr_div
    have hr_fin : (2 : ℚ) ^ (ilog2 r) ≤ (rne (r / 2 ^ fp_exp p emin r) : ℚ) * 2 ^ fp_exp p emin r := by
      have : (((2 : Int) ^ (ilog2 r - fp_exp p emin r).toNat : Int) : ℚ)
          ≤ (rne (r / 2 ^ fp_exp p emin r) : ℚ) := by exact_mod_cast hr_rne
      rw [← two_zpow_eq_int hd2] at this
      calc (2 : ℚ) ^ (ilog2 r) = 2 ^ (ilog2 r - fp_exp p emin r) * 2 ^ fp_exp p emin r := by
            rw [← zpow_add₀ e2]; congr 1; ring
        _ ≤ (rne (r / 2 ^ fp_exp p emin r) : ℚ) * 2 ^ fp_exp p emin r :=
            mul_le_mul_of_nonneg_right this (le_of_lt (two_zpow_pos _))
    exact le_trans hq_fin hr_fin
  · rw [heq]
    have h1 : q / 2 ^ fp_exp p emin r ≤ r / 2 ^ fp_exp p emin r :=
      div_le_div_of_nonneg_right h (le_of_lt (two_zpow_pos _))
    have h2 : (rne (q / 2 ^ fp_exp p emin r) : ℚ) ≤ (rne (r / 2 ^ fp_exp p emin r) : ℚ) := by
      exact_mod_cast rne_mono h1
    exact mul_le_mul_of_nonneg_right h2 (le_of_lt (two_zpow_pos _))

theorem fp_round_mono (p : Nat) (hp : 1 ≤ p) (emin : Int) {q r : ℚ} (h : q ≤ r) :
    fp_round p emin q ≤ fp_round p emin r := by
  rcases lt_trichotomy q 0 with hq | hq | hq
  · rcases lt_or_le r 0 with hr | hr
    · have := fp_round_mono_pos p hp emin (show 0 < -r by linarith) (show -r ≤ -q by linarith)
      rw [fp_round_neg, fp_round_neg] at this
      linarith
    · exact le_trans (fp_round_nonpos p emin (le_of_lt hq)) (fp_round_nonneg p emin hr)
  · rw [hq, fp_round_zero]
    exact fp_round_nonneg p emin (by linarith)
  · exact fp_round_mono_pos p hp emin hq h

theorem fp_round_of_form_pos (p : Nat) (hp : 1 ≤ p) (emin : Int) (m : Int) (e : Int)
    (hm0 : 0 < m) (hm : m ≤ 2 ^ p) (he : emin ≤ e) :
    fp_round p emin ((m : ℚ) * 2 ^ e) = (m : ℚ) * 2 ^ e := by
  have e2 : (2 : ℚ) ≠ 0 := by norm_num
  have hmq : (0 : ℚ) < (m : ℚ) := by exact_mod_cast hm0
  have hq : (0 : ℚ) < (m : ℚ) * 2 ^ e := mul_pos hmq (two_zpow_pos e)
  rw [fp_round_of_nonneg p emin (le_of_lt hq)]
  obtain ⟨s1, s2⟩ := ilog2_spec (ne_of_gt hq)
  rw [abs_of_pos hq] at s1 s2
  have hmq2 : (m : ℚ) ≤ 2 ^ (p : Int) := by
    rw [zpow_natCast]; exact_mod_cast hm
  -- ilog2 ≤ p + e
  have hk : ilog2 ((m : ℚ) * 2 ^ e) ≤ (p : Int) + e := by
    by_contra hc
    have h1 := two_zpow_le (show (p : Int) + e + 1 ≤ ilog2 ((m : ℚ) * 2 ^ e) by omega)
    have h2 : (m : ℚ) * 2 ^ e ≤ 2 ^ ((p : Int) + e) := by
      rw [zpow_add₀ e2]
      exact mul_le_mul_of_nonneg_right hmq2 (le_of_lt (two_zpow_pos e))
    have h3 := two_zpow_lt (show (p : Int) + e < (p : Int) + e + 1 by omega)
    linarith
  -- the scaled value is an integer
  have hint : ∃ n : Int, (m : ℚ) * 2 ^ e / 2 ^ fp_exp p emin ((m : ℚ) * 2 ^ e) = (n : ℚ) := by
    by_cases hc : fp_exp p emin ((m : ℚ) * 2 ^ e) ≤ e
    · refine ⟨m * 2 ^ (e - fp_exp p emin ((m : ℚ) * 2 ^ e)).toNat, ?_⟩
      push_cast
      have hd : (0 : Int) ≤ e - fp_exp p emin ((m : ℚ) * 2 ^ e) := by omega
      have := two_zpow_eq_int hd
      push_cast at this
      rw [← this, mul_div_assoc, ← zpow_sub₀ e2]
    · have hfe : fp_exp p emin ((m : ℚ) * 2 ^ e) = e + 1 := by
        unfold fp_exp at hc ⊢
        have h1 : ¬ (max (ilog2 ((m : ℚ) * 2 ^ e) - ((p : Int) - 1)) emin ≤ e) := hc
        rcases le_total (ilog2 ((m : ℚ) * 2 ^ e) - ((p : Int) - 1)) emin with ht | ht
        · rw [max_eq_right ht] at h1
          omega
        · rw [max_eq_left ht] at h1 ⊢
          omega
      have hk2 : ilog2 ((m : ℚ) * 2 ^ e) = (p : Int) + e := by
        unfold fp_exp at hfe
        rcases le_total (ilog2 ((m : ℚ) * 2 ^ e) - ((p : Int) - 1)) emin with ht | ht
        · rw [max_eq_right ht] at hfe
          omega
        · rw [max_eq_left ht] at hfe
          omega
      rw [hk2, zpow_add₀ e2] at s1
      have hm3 : (2 : ℚ) ^ (p : Int) ≤ (m : ℚ) := le_of_mul_le_mul_right s1 (two_zpow_pos e)
      have hm4 : (m : ℚ) = 2 ^ (p : Int) := le_antisymm hmq2 hm3
      refine ⟨2 ^ (p - 1), ?_⟩
      rw [hfe, hm4, ← zpow_add₀ e2, ← zpow_sub₀ e2]
      push_cast
      rw [← zpow_natCast]
      congr 1
      omega
  obtain ⟨n, hn⟩ := hint
  rw [hn, rne_intCast, ← hn]
  exact div_mul_cancel₀ _ (ne_of_gt (two_zpow_pos _))

theorem fp_round_of_form (p : Nat) (hp : 1 ≤ p) (emin : Int) (m : Int) (e : Int)
    (hm : |m| ≤ 2 ^ p) (he : emin ≤ e) :
    fp_round p emin ((m : ℚ) * 2 ^ e) = (m : ℚ) * 2 ^ e := by
  rcases lt_trichotomy m 0 with h | h | h
  · have h1 : |m| = -m := abs_of_neg h
    have := fp_round_of_form_pos p hp emin (-m) e (by omega) (by omega) he
    have e1 : ((-m : Int) : ℚ) * 2 ^ e = -((m : ℚ) * 2 ^ e) := by push_cast; ring
    rw [e1, fp_round_neg] at this
    linarith
  · rw [h]
    simp [fp_round_zero]
  · have h1 : |m| = m := abs_of_pos h
    exact fp_round_of_form_pos p hp emin m e h (by omega) he

theorem fp_round_form (p : Nat) (hp : 1 ≤ p) (emin : Int) (q : ℚ) :
    ∃ (m e : Int), fp_round p emin q = (m : ℚ) * 2 ^ e ∧ |m| ≤ 2 ^ p ∧ emin ≤ e := by
  have e2 : (2 : ℚ) ≠ 0 := by norm_num
  have key : ∀ q : ℚ, 0 ≤ q →
      ∃ (m e : Int), fp_round p emin q = (m : ℚ) * 2 ^ e ∧ |m| ≤ 2 ^ p ∧ emin ≤ e := by
    intro q hq
    refine ⟨rne (q / 2 ^ fp_exp p emin q), fp_exp p emin q, fp_round_of_nonneg p emin hq, ?_,
      fp_exp_ge p emin q⟩
    have h1 : (0 : ℚ) ≤ q / 2 ^ fp_exp p emin q := div_nonneg hq (le_of_lt (two_zpow_pos _))
    rw [abs_of_nonneg (rne_nonneg h1)]
    rcases eq_or_lt_of_le hq with h0 | hpos
    · rw [← h0, zero_div, rne_zero]
      positivity
    · obtain ⟨_, s2⟩ := ilog2_spec (ne_of_gt hpos)
      rw [abs_of_pos hpos] at s2
      apply rne_le_of_le_int
      push_cast
      rw [div_le_iff₀ (two_zpow_pos _), ← zpow_natCast, ← zpow_add₀ e2]
      refine le_trans (le_of_lt s2) (two_zpow_le ?_)
      have : ilog2 q - ((p : Int) - 1) ≤ fp_exp p emin q := le_max_left _ _
      omega
  rcases lt_or_le q 0 with h | h
  · obtain ⟨m, e, h1, h2, h3⟩ := key (-q) (by linarith)
    refine ⟨-m, e, ?_, by rwa [abs_neg], h3⟩
    rw [fp_round_neg] at h1
    push_cast
    linarith
  · exact key q h

theorem fp_round_idem (p : Nat) (hp : 1 ≤ p) (emin : Int) (q : ℚ) :
    fp_round p emin (fp_round p emin q) = fp_round p emin q := by
  obtain ⟨m, e, h1, h2, h3⟩ := fp_round_form p hp emin q
  rw [h1]
  exact fp_round_of_form p hp emin m e h2 h3

theorem fp_round_le_of_le (p : Nat) (hp : 1 ≤ p) (emin : Int) {q b : ℚ}
    (hb : fp_round p emin b = b) (h : q ≤ b) : fp_round p emin q ≤ b := by
  have := fp_round_mono p hp emin h
  rwa [hb] at this

theorem fp_round_ge_of_ge (p : Nat) (hp : 1 ≤ p) (emin : Int) {q b : ℚ}
    (hb : fp_round p emin b = b) (h : b ≤ q) : b ≤ fp_round p emin q := by
  have := fp_round_mono p hp emin h
  rwa [hb] at this

/-! ## Rounding to binary64 -/

theorem b64r_mono {q r : ℚ} (h : q ≤ r) : b64r q ≤ b64r r :=
  fp_round_mono 53 (by decide) (-1074) h

theorem b64r_neg (q : ℚ) : b64r (-q) = -b64r q := fp_round_neg 53 (-1074) q

theorem b64r_zero : b64r 0 = 0 := fp_round_zero 53 (-1074)

theorem b64r_nonneg {q : ℚ} (h : 0 ≤ q) : 0 ≤ b64r q := fp_round_nonneg 53 (-1074) h

theorem b64r_nonpos {q : ℚ} (h : q ≤ 0) : b64r q ≤ 0 := fp_round_nonpos 53 (-1074) h

theorem b64r_of_form (m e : Int) (hm : |m| ≤ 2 ^ 53) (he : -1074 ≤ e) :
    b64r ((m : ℚ) * 2 ^ e) = (m : ℚ) * 2 ^ e :=
  fp_round_of_form 53 (by decide) (-1074) m e hm he

theorem b64r_idem (q : ℚ) : b64r (b64r q) = b64r q := fp_round_idem 53 (by decide) (-1074) q

theorem b64r_intCast (n : Int) (h : |n| ≤ 2 ^ 53) : b64r (n : ℚ) = n := by
  have := b64r_of_form n 0 h (by decide)
  simpa using this

theorem b64r_le_of_le {q b : ℚ} (hb : b64r b = b) (h : q ≤ b) : b64r q ≤ b :=
  fp_round_le_of_le 53 (by decide) (-1074) hb h

theorem b64r_ge_of_ge {q b : ℚ} (hb : b64r b = b) (h : b ≤ q) : b ≤ b64r q :=
  fp_round_ge_of_ge 53 (by decide) (-1074) hb h

theorem b64r_abs_le {q b : ℚ} (hb : b64r b = b) (h : |q| ≤ b) : |b64r q| ≤ b := by
  rw [abs_le] at h ⊢
  constructor
  · have hb2 : b64r (-b) = -b := by rw [b64r_neg, hb]
    exact b64r_ge_of_ge hb2 h.1
  · exact b64r_le_of_le hb h.2

theorem b64r_one : b64r 1 = 1 := by
  have := b64r_intCast 1 (by decide)
  simpa using this

theorem b64r_hundred : b64r 100 = 100 := by
  have := b64r_intCast 100 (by decide)
  simpa using this

theorem b64r_pow1023 : b64r (2 ^ (1023 : Int)) = 2 ^ (1023 : Int) := by
  have := b64r_of_form 1 1023 (by decide) (by decide)
  simpa using this

theorem pow1023_lt : (2 : ℚ) ^ (1023 : Int) < ((2 ^ 1024 : Nat) : ℚ) := by
  have h : ((2 ^ 1024 : Nat) : ℚ) = (2 : ℚ) ^ (1024 : Int) := by
    rw [show (1024 : Int) = ((1024 : Nat) : Int) by rfl, zpow_natCast]
    push_cast
    rfl
  rw [h]
  exact two_zpow_lt (by decide)

/-! ## Conversion to `double` -/

theorem to_b64_of_lt {q : ℚ} (h : |b64r q| < ((2 ^ 1024 : Nat) : ℚ)) :
    to_b64 q = Dbl.fin (b64r q) := by
  unfold to_b64
  rw [if_neg (not_le.mpr h)]

theorem to_b64_of_bound {q b : ℚ} (hb : b64r b = b) (hb2 : b < ((2 ^ 1024 : Nat) : ℚ))
    (h : |q| ≤ b) : to_b64 q = Dbl.fin (b64r q) ∧ |b64r q| ≤ b := by
  have h1 := b64r_abs_le hb h
  exact ⟨to_b64_of_lt (lt_of_le_of_lt h1 hb2), h1⟩

theorem to_b64_of_abs_le_pow {q : ℚ} (h : |q| ≤ 2 ^ (1023 : Int)) :
    to_b64 q = Dbl.fin (b64r q) :=
  (to_b64_of_bound b64r_pow1023 pow1023_lt h).1

theorem to_b64_zero : to_b64 0 = Dbl.fin 0 := by
  have := to_b64_of_abs_le_pow (q := 0) (by rw [abs_zero]; exact le_of_lt (two_zpow_pos _))
  rw [this, b64r_zero]

theorem to_b64_isnan (q : ℚ) : (to_b64 q).isnan = false := by
  unfold to_b64
  split_ifs <;> rfl

theorem to_b64_mono {q r : ℚ} (h : q ≤ r) : Dbl.le (to_b64 q) (to_b64 r) = true := by
  have hm := b64r_mono h
  unfold to_b64
  by_cases hq : ((2 ^ 1024 : Nat) : ℚ) ≤ |b64r q|
  · rw [if_pos hq]
    by_cases hq0 : 0 < q
    · rw [if_pos hq0]
      have hr0 : 0 < r := lt_of_lt_of_le hq0 h
      have h1 : |b64r q| = b64r q := abs_of_nonneg (b64r_nonneg (le_of_lt hq0))
      have h2 : |b64r r| = b64r r := abs_of_nonneg (b64r_nonneg (le_of_lt hr0))
      rw [if_pos (by rw [h2]; rw [h1] at hq; linarith), if_pos hr0]
      rfl
    · rw [if_neg hq0]
      split_ifs <;> rfl
  · rw [if_neg hq]
    by_cases hr : ((2 ^ 1024 : Nat) : ℚ) ≤ |b64r r|
    · rw [if_pos hr]
      by_cases hr0 : 0 < r
      · rw [if_pos hr0]
        rfl
      · exfalso
        have hr1 : b64r r ≤ 0 := b64r_nonpos (not_lt.mp hr0)
        rw [abs_of_nonpos hr1] at hr
        have hq1 : b64r q ≤ 0 := le_trans hm hr1
        rw [abs_of_nonpos hq1] at hq
        linarith
    · rw [if_neg hr]
      simp only [Dbl.le, decide_eq_true_eq]
      exact hm

/-! ## Order of doubles -/

theorem Dbl.le_nn_refl {x : Dbl} (h : x.isnan = false) : Dbl.le_nn x x := by
  refine ⟨h, h, ?_⟩
  cases x <;> simp [Dbl.le, Dbl.isnan] at h ⊢

theorem Dbl.le_nn_fin {a b : ℚ} (h : a ≤ b) : Dbl.le_nn (Dbl.fin a) (Dbl.fin b) := by
  refine ⟨rfl, rfl, ?_⟩
  simp [Dbl.le, h]

theorem Dbl.le_nn_of_le {x y : Dbl} (hx : x.isnan = false) (hy : y.isnan = false)
    (h : Dbl.le x y = true) : Dbl.le_nn x y := ⟨hx, hy, h⟩

theorem Dbl.le_nn_sub_fin {x y : Dbl} (m : ℚ) (h : Dbl.le_nn x y) :
    Dbl.le_nn (Dbl.sub x (Dbl.fin m)) (Dbl.sub y (Dbl.fin m)) := by
  obtain ⟨hx, hy, hle⟩ := h
  cases x <;> cases y <;>
    simp [Dbl.le_nn, Dbl.sub, Dbl.neg, Dbl.add, Dbl.le, Dbl.isnan] at hx hy hle ⊢
  linarith

theorem Dbl.le_nn_r64 {x y : Dbl} (h : Dbl.le_nn x y) : Dbl.le_nn (Dbl.r64 x) (Dbl.r64 y) := by
  obtain ⟨hx, hy, hle⟩ := h
  cases x with
  | nan => simp [Dbl.isnan] at hx
  | ninf =>
    cases y with
    | nan => simp [Dbl.isnan] at hy
    | ninf => exact ⟨rfl, rfl, rfl⟩
    | pinf => exact ⟨rfl, rfl, rfl⟩
    | fin b =>
      refine ⟨rfl, to_b64_isnan b, ?_⟩
      show Dbl.le Dbl.ninf (to_b64 b) = true
      unfold to_b64
      split_ifs <;> rfl
  | pinf =>
    cases y with
    | nan => simp [Dbl.isnan] at hy
    | ninf => simp [Dbl.le] at hle
    | pinf => exact ⟨rfl, rfl, rfl⟩
    | fin b => simp [Dbl.le] at hle
  | fin a =>
    cases y with
    | nan => simp [Dbl.isnan] at hy
    | ninf => simp [Dbl.le] at hle
    | pinf =>
      refine ⟨to_b64_isnan a, rfl, ?_⟩
      show Dbl.le (to_b64 a) Dbl.pinf = true
      unfold to_b64
      split_ifs <;> rfl
    | fin b =>
      refine ⟨to_b64_isnan a, to_b64_isnan b, ?_⟩
      have hab : a ≤ b := by simpa [Dbl.le] using hle
      exact to_b64_mono hab

theorem Dbl.le_nn_div_fin {x y : Dbl} {d : ℚ} (hd : 0 < d) (h : Dbl.le_nn x y) :
    Dbl.le_nn (Dbl.div x (Dbl.fin d)) (Dbl.div y (Dbl.fin d)) := by
  obtain ⟨hx, hy, hle⟩ := h
  have hd0 : d ≠ 0 := ne_of_gt hd
  have hd1 : 0 ≤ d := le_of_lt hd
  cases x <;> cases y <;>
    simp [Dbl.le_nn, Dbl.div, Dbl.le, Dbl.isnan, hd0, hd1] at hx hy hle ⊢
  exact div_le_div_of_nonneg_right hle hd1

theorem clampd_eq_clamp01 {x : Dbl} (h : x.isnan = false) :
    clampd x (Dbl.fin 0) (Dbl.fin 1) = Dbl.fin (clamp01 x) := by
  cases x with
  | nan => simp [Dbl.isnan] at h
  | ninf => simp [clampd, Dbl.lt, clamp01]
  | pinf => simp [clampd, Dbl.lt, Dbl.gt, clamp01]
  | fin t =>
    simp only [clampd, Dbl.lt, Dbl.gt, clamp01, unit_clamp, decide_eq_true_eq]
    split_ifs <;> rfl

theorem clamp01_bounds (x : Dbl) : 0 ≤ clamp01 x ∧ clamp01 x ≤ 1 := by
  cases x with
  | nan => simp [clamp01]
  | ninf => simp [clamp01]
  | pinf => simp [clamp01]
  | fin t =>
    simp only [clamp01, unit_clamp]
    split_ifs <;> constructor <;> linarith

theorem clamp01_mono {x y : Dbl} (h : Dbl.le_nn x y) : clamp01 x ≤ clamp01 y := by
  obtain ⟨hx, hy, hle⟩ := h
  cases x with
  | nan => simp [Dbl.isnan] at hx
  | ninf => exact (clamp01_bounds y).1
  | pinf =>
    cases y with
    | nan => simp [Dbl.isnan] at hy
    | ninf => simp [Dbl.le] at hle
    | pinf => exact le_refl _
    | fin b => simp [Dbl.le] at hle
  | fin a =>
    cases y with
    | nan => simp [Dbl.isnan] at hy
    | ninf => simp [Dbl.le] at hle
    | pinf => exact (clamp01_bounds (Dbl.fin a)).2
    | fin b =>
      have hab : a ≤ b := by simpa [Dbl.le] using hle
      simp only [clamp01, unit_clamp]
      split_ifs <;> linarith

/-! ## Rounding to binary32 -/

theorem f32r_mono {q r : ℚ} (h : q ≤ r) : f32r q ≤ f32r r :=
  fp_round_mono 24 (by decide) (-149) h

theorem f32r_nonneg {q : ℚ} (h : 0 ≤ q) : 0 ≤ f32r q := fp_round_nonneg 24 (-149) h

theorem f32r_form (q : ℚ) :
    ∃ (m e : Int), f32r q = (m : ℚ) * 2 ^ e ∧ |m| ≤ 2 ^ 24 ∧ -149 ≤ e :=
  fp_round_form 24 (by decide) (-149) q

theorem to_f32_of_lt {q : ℚ} (h : |f32r q| < ((2 ^ 128 : Nat) : ℚ)) :
    to_f32 q = Dbl.fin (f32r q) := by
  unfold to_f32
  rw [if_neg (not_le.mpr h)]

theorem b64r_err {q : ℚ} (hq : 0 ≤ q) : |b64r q - q| ≤ q / 2 ^ 53 + 1 / 2 ^ 1075 := by
  rcases eq_or_lt_of_le hq with h0 | hpos
  · rw [← h0, b64r_zero]
    norm_num
  · have hne : q ≠ 0 := ne_of_gt hpos
    have hform : b64r q = (rne (q / 2 ^ fp_exp 53 (-1074) q) : ℚ) * 2 ^ fp_exp 53 (-1074) q :=
      fp_round_of_nonneg 53 (-1074) hq
    have hP : (0 : ℚ) < 2 ^ fp_exp 53 (-1074) q := two_zpow_pos _
    have h1 := rne_sub_le (q / 2 ^ fp_exp 53 (-1074) q)
    have h2 := sub_rne_le (q / 2 ^ fp_exp 53 (-1074) q)
    have hq' : q = (q / 2 ^ fp_exp 53 (-1074) q) * 2 ^ fp_exp 53 (-1074) q := by
      field_simp
    have habs : |b64r q - q| ≤ 2 ^ fp_exp 53 (-1074) q / 2 := by
      have e : b64r q - q
          = ((rne (q / 2 ^ fp_exp 53 (-1074) q) : ℚ) - q / 2 ^ fp_exp 53 (-1074) q)
            * 2 ^ fp_exp 53 (-1074) q := by
        rw [hform]
        field_simp
      rw [e, abs_mul, abs_of_pos hP]
      have : |(rne (q / 2 ^ fp_exp 53 (-1074) q) : ℚ) - q / 2 ^ fp_exp 53 (-1074) q| ≤ 1 / 2 := by
        rw [abs_le]
        constructor <;> linarith
      nlinarith
    have hP2 : (2 : ℚ) ^ fp_exp 53 (-1074) q / 2 ≤ q / 2 ^ 53 + 1 / 2 ^ 1075 := by
      unfold fp_exp
      rcases le_total (ilog2 q - ((53 : Nat) - 1 : Int)) (-1074) with hc | hc
      · rw [max_eq_right hc]
        have e : (2 : ℚ) ^ (-1074 : Int) / 2 = 1 / 2 ^ 1075 := by
          rw [zpow_neg]
          norm_num
        rw [e]
        have : 0 ≤ q / 2 ^ 53 := by positivity
        linarith
      · rw [max_eq_left hc]
        have hs := (ilog2_spec hne).1
        rw [abs_of_pos hpos] at hs
        have e : (2 : ℚ) ^ (ilog2 q - ((53 : Nat) - 1 : Int)) = 2 ^ ilog2 q / 2 ^ 52 := by
          rw [zpow_sub₀ (by norm_num)]
          norm_num
        rw [e]
        have : (2 : ℚ) ^ ilog2 q / 2 ^ 52 / 2 ≤ q / 2 ^ 53 := by
          rw [div_div, div_le_div_iff₀ (by norm_num) (by norm_num)]
          nlinarith
        have : (0 : ℚ) ≤ 1 / 2 ^ 1075 := by positivity
        linarith
    linarith

theorem b64r_err_le {q : ℚ} (hq : 0 ≤ q) : b64r q ≤ q * (1 + 1 / 2 ^ 53) + 1 / 2 ^ 200 := by
  have h := (abs_le.mp (b64r_err hq)).2
  have e : (1 : ℚ) / 2 ^ 1075 ≤ 1 / 2 ^ 200 :=
    one_div_le_one_div_of_le (by positivity) (pow_le_pow_right₀ (by norm_num) (by norm_num))
  linarith

theorem b64r_err_ge {q : ℚ} (hq : 0 ≤ q) : q * (1 - 1 / 2 ^ 53) - 1 / 2 ^ 200 ≤ b64r q := by
  have h := (abs_le.mp (b64r_err hq)).1
  have e : (1 : ℚ) / 2 ^ 1075 ≤ 1 / 2 ^ 200 :=
    one_div_le_one_div_of_le (by positivity) (pow_le_pow_right₀ (by norm_num) (by norm_num))
  linarith

/-! ## Rounding and conversion lemmas -/

theorem c_trunc_intCast (n : Int) : c_trunc (n : ℚ) = n := by
  unfold c_trunc
  split <;> simp

theorem d2i_fin_intCast (n : Int) (h1 : -2147483648 ≤ n) (h2 : n ≤ 2147483647) :
    d2i (Dbl.fin (n : ℚ)) = n := by
  simp [d2i, c_trunc_intCast, h1, h2]

theorem c_round_mono {q r : ℚ} (h : q ≤ r) : c_round q ≤ c_round r := by
  unfold c_round
  by_cases hq : 0 ≤ q
  · have hr : 0 ≤ r := le_trans hq h
    rw [if_pos hq, if_pos hr]
    exact Int.floor_le_floor (by linarith)
  · rw [if_neg hq]
    by_cases hr : 0 ≤ r
    · rw [if_pos hr]
      have h1 : ⌈q - 1 / 2⌉ ≤ 0 := by
        rw [Int.ceil_le]; push_cast; linarith [not_le.mp hq]
      have h2 : (0 : Int) ≤ ⌊r + 1 / 2⌋ := by
        rw [Int.le_floor]; push_cast; linarith
      exact le_trans h1 h2
    · rw [if_neg hr]
      exact Int.ceil_le_ceil (by linarith)

theorem c_round_intCast (n : Int) : c_round (n : ℚ) = n := by
  unfold c_round
  split
  · rw [Int.floor_eq_iff]; constructor <;> linarith
  · rw [Int.ceil_eq_iff]; constructor <;> linarith

theorem c_round_zero : c_round 0 = 0 := by
  have := c_round_intCast 0
  simpa using this

theorem c_round_hundred : c_round 100 = 100 := by
  have := c_round_intCast 100
  simpa using this

theorem c_round_bounds {q : ℚ} (h0 : 0 ≤ q) (h1 : q ≤ 100) :
    0 ≤ c_round q ∧ c_round q ≤ 100 := by
  constructor
  · have := c_round_mono h0
    rwa [c_round_zero] at this
  · have := c_round_mono h1
    rwa [c_round_hundred] at this

theorem d2i_round_fin {q : ℚ} (h0 : 0 ≤ q) (h1 : q ≤ 100) :
    d2i (Dbl.round (Dbl.fin q)) = c_round q := by
  obtain ⟨a, b⟩ := c_round_bounds h0 h1
  simp only [Dbl.round]
  exact d2i_fin_intCast _ (by omega) (by omega)

/-! ## `scale_to_100` -/

theorem unit_clamp_bounds (t : ℚ) : 0 ≤ unit_clamp t ∧ unit_clamp t ≤ 1 := by
  unfold unit_clamp
  split_ifs <;> constructor <;> linarith

theorem unit_clamp_mono {s t : ℚ} (h : s ≤ t) : unit_clamp s ≤ unit_clamp t := by
  unfold unit_clamp
  split_ifs <;> linarith

theorem scale_to_100_nan (min max : ℚ) : scale_to_100 Dbl.nan min max = 50 := by
  simp [scale_to_100, Dbl.isnan]

theorem scale_to_100_degenerate (x : Dbl) {min max : ℚ} (h : max ≤ min) :
    scale_to_100 x min max = 50 := by
  simp [scale_to_100, Dbl.le, h]

theorem le_pow1023_of_le {b : ℚ} (h : b ≤ 4096) : b ≤ 2 ^ (1023 : Int) := by
  have h1 : (4096 : ℚ) = 2 ^ (12 : Int) := by norm_num
  have h2 := two_zpow_le (show (12 : Int) ≤ 1023 by decide)
  linarith

theorem lt_pow1024_of_le {b : ℚ} (h : b ≤ 4096) : b < ((2 ^ 1024 : Nat) : ℚ) :=
  lt_of_le_of_lt (le_pow1023_of_le h) pow1023_lt

theorem to_b64_small {q : ℚ} (h : |q| ≤ 4096) : to_b64 q = Dbl.fin (b64r q) :=
  to_b64_of_abs_le_pow (le_pow1023_of_le h)

theorem scale_ok_0_1 : scale_ok 0 1 := ⟨1, by decide!, by norm_num⟩

theorem scale_ok_0_half : scale_ok 0 (1 / 2) := ⟨1 / 2, by decide!, by norm_num⟩

theorem scale_ok_0_5 : scale_ok 0 5 := ⟨5, by decide!, by norm_num⟩

theorem scale_ok_0_50 : scale_ok 0 50 := ⟨50, by decide!, by norm_num⟩

theorem scale_ok_0_60 : scale_ok 0 60 := ⟨60, by decide!, by norm_num⟩

theorem scale_ok_60_180 : scale_ok 60 180 := ⟨120, by decide!, by norm_num⟩

theorem scale_norm_le_nn {x y : Dbl} {min max : ℚ} (hok : scale_ok min max)
    (h : Dbl.le_nn x y) : Dbl.le_nn (scale_norm x min max) (scale_norm y min max) := by
  obtain ⟨d, hd, hpos⟩ := hok
  unfold scale_norm Dbl.div64
  rw [hd]
  unfold Dbl.sub64
  exact Dbl.le_nn_r64 (Dbl.le_nn_div_fin hpos (Dbl.le_nn_r64 (Dbl.le_nn_sub_fin min h)))

theorem mul64_hundred {c : ℚ} (h0 : 0 ≤ c) (h1 : c ≤ 1) :
    Dbl.mul64 (Dbl.fin c) (Dbl.fin 100) = Dbl.fin (b64r (c * 100)) ∧
      0 ≤ b64r (c * 100) ∧ b64r (c * 100) ≤ 100 := by
  have habs : |c * 100| ≤ 100 := by
    rw [abs_le]
    constructor <;> nlinarith
  obtain ⟨e1, e2⟩ := to_b64_of_bound b64r_hundred (lt_pow1024_of_le (by norm_num)) habs
  refine ⟨e1, b64r_nonneg (by nlinarith), ?_⟩
  exact (abs_le.mp e2).2

theorem scale_to_100_eq {x : Dbl} {min max : ℚ} (hx : x.isnan = false) (h : min < max)
    (hok : scale_ok min max) :
    scale_to_100 x min max = c_round (b64r (clamp01 (scale_norm x min max) * 100)) := by
  have hnn := (scale_norm_le_nn hok (Dbl.le_nn_refl hx)).1
  have hc := clampd_eq_clamp01 hnn
  obtain ⟨c0, c1⟩ := clamp01_bounds (scale_norm x min max)
  obtain ⟨m1, m2, m3⟩ := mul64_hundred c0 c1
  have e : scale_to_100 x min max
      = d2i (Dbl.round (Dbl.mul64
          (clampd (scale_norm x min max) (Dbl.fin 0) (Dbl.fin 1)) (Dbl.fin 100))) := by
    unfold scale_to_100 scale_norm
    simp only [hx, Dbl.le, not_le.mpr h, decide_False, Bool.or_self, Bool.false_eq_true,
      if_false]
  rw [e, hc, m1]
  exact d2i_round_fin m2 m3

theorem scale_to_100_bounds (x : Dbl) {min max : ℚ} (hok : scale_ok min max) :
    0 ≤ scale_to_100 x min max ∧ scale_to_100 x min max ≤ 100 := by
  by_cases h : min < max
  · by_cases hx : x.isnan = true
    · have e : x = Dbl.nan := by
        cases x <;> simp [Dbl.isnan] at hx ⊢
      rw [e, scale_to_100_nan]
      omega
    · rw [scale_to_100_eq (by simpa using hx) h hok]
      obtain ⟨c0, c1⟩ := clamp01_bounds (scale_norm x min max)
      obtain ⟨_, m2, m3⟩ := mul64_hundred c0 c1
      exact c_round_bounds m2 m3
  · rw [scale_to_100_degenerate x (not_lt.mp h)]
    omega

theorem scale_to_100_mono {x y : Dbl} {min max : ℚ} (h : min < max) (hok : scale_ok min max)
    (hxy : Dbl.le_nn x y) : scale_to_100 x min max ≤ scale_to_100 y min max := by
  rw [scale_to_100_eq hxy.1 h hok, scale_to_100_eq hxy.2.1 h hok]
  apply c_round_mono
  apply b64r_mono
  have := clamp01_mono (scale_norm_le_nn hok hxy)
  linarith

theorem scale_to_100_at_min {min max : ℚ} (h : min < max) (hok : scale_ok min max) :
    scale_to_100 (Dbl.fin min) min max = 0 := by
  obtain ⟨d, hd, hpos⟩ := hok
  have e1 : scale_norm (Dbl.fin min) min max = Dbl.fin 0 := by
    unfold scale_norm
    rw [hd]
    have a : Dbl.sub64 (Dbl.fin min) (Dbl.fin min) = Dbl.fin 0 := by
      show to_b64 (min + -min) = Dbl.fin 0
      rw [add_neg_cancel, to_b64_zero]
    rw [a]
    show Dbl.r64 (Dbl.div (Dbl.fin 0) (Dbl.fin d)) = Dbl.fin 0
    simp only [Dbl.div, ne_of_gt hpos, if_false, zero_div]
    exact to_b64_zero
  rw [scale_to_100_eq (x := Dbl.fin min) rfl h ⟨d, hd, hpos⟩, e1]
  have : clamp01 (Dbl.fin 0) = 0 := by
    simp [clamp01, unit_clamp]
  rw [this, zero_mul, b64r_zero, c_round_zero]

theorem scale_to_100_at_max {min max : ℚ} (h : min < max) (hok : scale_ok min max) :
    scale_to_100 (Dbl.fin max) min max = 100 := by
  obtain ⟨d, hd, hpos⟩ := hok
  have e1 : scale_norm (Dbl.fin max) min max = Dbl.fin 1 := by
    unfold scale_norm
    rw [hd]
    show Dbl.r64 (Dbl.div (Dbl.fin d) (Dbl.fin d)) = Dbl.fin 1
    simp only [Dbl.div, ne_of_gt hpos, if_false, div_self (ne_of_gt hpos)]
    show to_b64 1 = Dbl.fin 1
    rw [to_b64_small (by norm_num), b64r_one]
  rw [scale_to_100_eq (x := Dbl.fin max) rfl h ⟨d, hd, hpos⟩, e1]
  have : clamp01 (Dbl.fin 1) = 1 := by
    simp [clamp01, unit_clamp]
  rw [this, one_mul, b64r_hundred, c_round_hundred]

theorem scale_to_100_ge_max {x : Dbl} {min max : ℚ} (h : min < max) (hok : scale_ok min max)
    (hx : Dbl.ge x (Dbl.fin max) = true) : scale_to_100 x min max = 100 := by
  have hx2 : Dbl.le (Dbl.fin max) x = true := hx
  have hnn : x.isnan = false := by
    cases x <;> simp [Dbl.le, Dbl.isnan] at hx2 ⊢
  have h1 := scale_to_100_mono h hok (Dbl.le_nn_of_le (x := Dbl.fin max) rfl hnn hx2)
  rw [scale_to_100_at_max h hok] at h1
  have h2 := (scale_to_100_bounds x hok).2
  omega

theorem inverse_scale_to_100_bounds (x : Dbl) {min max : ℚ} (hok : scale_ok min max) :
    0 ≤ inverse_scale_to_100 x min max ∧ inverse_scale_to_100 x min max ≤ 100 := by
  have := scale_to_100_bounds x hok
  simp only [inverse_scale_to_100]
  omega

/-! ## `gaussian_score` -/

theorem gaussian_score_eq (E : ℚ → ℚ) (x : Dbl) (mu sigma : ℚ) (peak : Int) :
    gaussian_score E x mu sigma peak
      = if x.isnan then 50 else gaussian_tail (gaussian_val E x mu sigma peak) := rfl

theorem gaussian_val_finite (E : ℚ → ℚ) (x : Dbl) (mu : ℚ) {sigma : ℚ} (peak : Int)
    (hx : x.isnan = false) (hs : sigma ≠ 0) :
    ∃ v : ℚ, gaussian_val E x mu sigma peak = Dbl.fin v := by
  cases x with
  | nan => simp [Dbl.isnan] at hx
  | ninf =>
    by_cases h : 0 ≤ sigma <;>
      norm_num [gaussian_val, Dbl.sub, Dbl.neg, Dbl.add, Dbl.div, Dbl.mul, Dbl.infTimes, c_exp,
        Dbl.ofInt, h]
  | pinf =>
    by_cases h : 0 ≤ sigma <;>
      norm_num [gaussian_val, Dbl.sub, Dbl.neg, Dbl.add, Dbl.div, Dbl.mul, Dbl.infTimes, c_exp,
        Dbl.ofInt, h]
  | fin a =>
    simp [gaussian_val, Dbl.sub, Dbl.neg, Dbl.add, Dbl.div, Dbl.mul, c_exp, Dbl.ofInt, hs]

theorem gaussian_tail_fin (v : ℚ) :
    gaussian_tail (Dbl.fin v)
      = c_round (if v < 0 then 0 else if 100 < v then 100 else v) := by
  unfold gaussian_tail
  by_cases h0 : v < 0
  · have h1 : ¬ (100 : ℚ) < 0 := by norm_num
    simp only [Dbl.lt, Dbl.gt, h0, decide_True, if_true, h1, decide_False,
      Bool.false_eq_true, if_false]
    exact d2i_round_fin (le_refl _) (by norm_num)
  · by_cases h1 : 100 < v
    · simp only [Dbl.lt, Dbl.gt, h0, h1, decide_True, if_true, decide_False,
        Bool.false_eq_true, if_false]
      exact d2i_round_fin (by norm_num) (le_refl _)
    · simp only [Dbl.lt, Dbl.gt, h0, h1, decide_False, Bool.false_eq_true, if_false]
      exact d2i_round_fin (not_lt.mp h0) (not_lt.mp h1)

theorem gaussian_tail_bounds (v : ℚ) :
    0 ≤ gaussian_tail (Dbl.fin v) ∧ gaussian_tail (Dbl.fin v) ≤ 100 := by
  rw [gaussian_tail_fin]
  split_ifs with h0 h1
  · exact c_round_bounds (le_refl _) (by norm_num)
  · exact c_round_bounds (by norm_num) (le_refl _)
  · exact c_round_bounds (not_lt.mp h0) (not_lt.mp h1)

theorem gaussian_score_bounds (E : ℚ → ℚ) (x : Dbl) (mu : ℚ) {sigma : ℚ} (peak : Int)
    (hs : sigma ≠ 0) :
    0 ≤ gaussian_score E x mu sigma peak ∧ gaussian_score E x mu sigma peak ≤ 100 := by
  rw [gaussian_score_eq]
  by_cases hx : x.isnan = true
  · rw [if_pos hx]; omega
  · rw [if_neg hx]
    obtain ⟨v, hv⟩ := gaussian_val_finite E x mu peak (by simpa using hx) hs
    rw [hv]
    exact gaussian_tail_bounds v

/-! ## Bounds of the scorers -/

theorem c_div_bounds {a k : Int} (hk : 0 < k) (h0 : 0 ≤ a) (h1 : a ≤ 100 * k) :
    0 ≤ c_div a k ∧ c_div a k ≤ 100 := by
  unfold c_div
  rw [Int.tdiv_eq_ediv h0 (le_of_lt hk)]
  constructor
  · exact Int.ediv_nonneg h0 (le_of_lt hk)
  · have := Int.ediv_le_ediv hk h1
    rwa [Int.mul_ediv_cancel _ (ne_of_gt hk)] at this

theorem clampd_int (b : Int) :
    d2i (clampd (Dbl.ofInt b) (Dbl.fin 0) (Dbl.fin 100))
      = if b < 0 then 0 else if 100 < b then 100 else b := by
  unfold clampd Dbl.ofInt
  by_cases h0 : b < 0
  · have h0q : (b : ℚ) < 0 := by exact_mod_cast h0
    simp only [Dbl.lt, h0q, decide_True, if_true, h0]
    exact d2i_fin_intCast 0 (by norm_num) (by norm_num)
  · have h0q : ¬ (b : ℚ) < 0 := by exact_mod_cast h0
    by_cases h1 : 100 < b
    · have h1q : (100 : ℚ) < b := by exact_mod_cast h1
      simp only [Dbl.lt, Dbl.gt, h0q, h1q, decide_True, decide_False, Bool.false_eq_true,
        if_true, if_false, h0, h1]
      exact d2i_fin_intCast 100 (by norm_num) (by norm_num)
    · have h1q : ¬ (100 : ℚ) < b := by exact_mod_cast h1
      simp only [Dbl.lt, Dbl.gt, h0q, h1q, decide_False, Bool.false_eq_true, if_false, h0, h1]
      exact d2i_fin_intCast b (by omega) (by omega)

theorem clampd_int_bounds (b : Int) :
    0 ≤ d2i (clampd (Dbl.ofInt b) (Dbl.fin 0) (Dbl.fin 100)) ∧
      d2i (clampd (Dbl.ofInt b) (Dbl.fin 0) (Dbl.fin 100)) ≤ 100 := by
  rw [clampd_int]
  split_ifs <;> omega

theorem compute_harmony_score_bounds (E : ℚ → ℚ) (inp : GeniusInputs) :
    0 ≤ compute_harmony_score E inp ∧ compute_harmony_score E inp ≤ 100 :=
  clampd_int_bounds _

theorem compute_progression_score_bounds (inp : GeniusInputs) :
    0 ≤ compute_progression_score inp ∧ compute_progression_score inp ≤ 100 :=
  clampd_int_bounds _

theorem compute_melody_score_bounds (E : ℚ → ℚ) (inp : GeniusInputs) :
    0 ≤ compute_melody_score E inp ∧ compute_melody_score E inp ≤ 100 := by
  unfold compute_melody_score
  split
  · omega
  · have h1 := scale_to_100_bounds inp.melody.f0_confidence scale_ok_0_1
    have h2 := gaussian_score_bounds E inp.melody.pitch_range_semitones 12 100
      (show (5 : ℚ) ≠ 0 by norm_num)
    have h3 := gaussian_score_bounds E inp.melody.motif_repetition_rate (1 / 2) 100
      (show (15 / 100 : ℚ) ≠ 0 by norm_num)
    have h4 := scale_to_100_bounds inp.melody.hook_strength scale_ok_0_1
    exact c_div_bounds (by norm_num) (by omega) (by omega)

theorem compute_rhythm_score_bounds (E : ℚ → ℚ) (inp : GeniusInputs) :
    0 ≤ compute_rhythm_score E inp ∧ compute_rhythm_score E inp ≤ 100 := by
  unfold compute_rhythm_score
  have h1 := scale_to_100_bounds inp.rhythm.tempo_confidence scale_ok_0_1
  have h2 := scale_to_100_bounds inp.rhythm.beat_strength scale_ok_0_1
  have h3 := scale_to_100_bounds inp.rhythm.pulse_clarity scale_ok_0_1
  have h4 := gaussian_score_bounds E inp.rhythm.syncopation (1 / 2) 100
    (show (1 / 5 : ℚ) ≠ 0 by norm_num)
  have h5 := inverse_scale_to_100_bounds (Dbl.fabs (Dbl.sub inp.rhythm.swing_ratio (Dbl.fin 1))) scale_ok_0_half
  exact c_div_bounds (by norm_num) (by omega) (by omega)

theorem compute_structure_score_bounds (E : ℚ → ℚ) (inp : GeniusInputs) :
    0 ≤ compute_structure_score E inp ∧ compute_structure_score E inp ≤ 100 := by
  unfold compute_structure_score
  split
  · omega
  · exact clampd_int_bounds _

theorem compute_timbre_score_bounds (E : ℚ → ℚ) (inp : GeniusInputs) :
    0 ≤ compute_timbre_score E inp ∧ compute_timbre_score E inp ≤ 100 := by
  unfold compute_timbre_score
  have h1 := inverse_scale_to_100_bounds inp.psy.roughness scale_ok_0_half
  have h2 := inverse_scale_to_100_bounds inp.psy.dissonance scale_ok_0_half
  have h3 := gaussian_score_bounds E inp.psy.loudness_lu (-14) 100
    (show (4 : ℚ) ≠ 0 by norm_num)
  have h4 := gaussian_score_bounds E inp.psy.dynamic_range 9 100
    (show (3 : ℚ) ≠ 0 by norm_num)
  have h5 := scale_to_100_bounds inp.prod.stereo_width scale_ok_0_1
  have h6 := scale_to_100_bounds inp.prod.spectral_balance scale_ok_0_1
  exact c_div_bounds (by norm_num) (by omega) (by omega)

theorem compute_creativity_score_bounds (E : ℚ → ℚ) (inp : GeniusInputs) :
    0 ≤ compute_creativity_score E inp ∧ compute_creativity_score E inp ≤ 100 := by
  unfold compute_creativity_score
  split
  · omega
  · have h1 := scale_to_100_bounds inp.melody.melodic_entropy scale_ok_0_5
    have h2 := gaussian_score_bounds E inp.melody.avg_abs_interval_semitones 4 100
      (show (2 : ℚ) ≠ 0 by norm_num)
    have h3 := gaussian_score_bounds E inp.rhythm.syncopation (1 / 2) 100
      (show (1 / 5 : ℚ) ≠ 0 by norm_num)
    have h4 := inverse_scale_to_100_bounds inp.prod.masking_index scale_ok_0_1
    exact c_div_bounds (by norm_num) (by omega) (by omega)

theorem compute_originality_score_bounds (inp : GeniusInputs) :
    0 ≤ compute_originality_score inp ∧ compute_originality_score inp ≤ 100 := by
  unfold compute_originality_score
  have h1 := scale_to_100_bounds inp.structure_.arc_complexity scale_ok_0_1
  have h2 := scale_to_100_bounds inp.melody.melodic_entropy scale_ok_0_5
  have h3 := scale_to_100_bounds inp.rhythm.syncopation scale_ok_0_1
  exact c_div_bounds (by norm_num) (by omega) (by omega)

theorem compute_complexity_score_bounds (inp : GeniusInputs) :
    0 ≤ compute_complexity_score inp ∧ compute_complexity_score inp ≤ 100 := by
  unfold compute_complexity_score
  have h1 := scale_to_100_bounds (Dbl.ofInt inp.melody.motif_count) scale_ok_0_50
  have h2 := scale_to_100_bounds inp.melody.melodic_entropy scale_ok_0_5
  have h3 := scale_to_100_bounds inp.harmony.harmonic_motion scale_ok_0_1
  exact c_div_bounds (by norm_num) (by omega) (by omega)

theorem compute_genre_distance_score_bounds (inp : GeniusInputs) (genre : GeniusGenre) :
    0 ≤ compute_genre_distance_score inp genre ∧
      compute_genre_distance_score inp genre ≤ 100 := by
  unfold compute_genre_distance_score
  simp only
  split
  · omega
  · exact scale_to_100_bounds _ scale_ok_0_60

theorem compute_emotion_score_bounds (E : ℚ → ℚ) (inp : GeniusInputs) :
    0 ≤ compute_emotion_score E inp ∧ compute_emotion_score E inp ≤ 100 := by
  unfold compute_emotion_score
  have h1 := gaussian_score_bounds E inp.harmony.tension (1 / 2) 100
    (show (1 / 5 : ℚ) ≠ 0 by norm_num)
  have h2 := scale_to_100_bounds inp.rhythm.pulse_clarity scale_ok_0_1
  have h3 := scale_to_100_bounds inp.rhythm.beat_strength scale_ok_0_1
  have h4 := gaussian_score_bounds E inp.psy.dynamic_range 9 100
    (show (3 : ℚ) ≠ 0 by norm_num)
  have h5 := scale_to_100_bounds inp.structure_.arc_complexity scale_ok_0_1
  exact c_div_bounds (by norm_num) (by omega) (by omega)

/-! ## What `fill_explanations` leaves untouched -/

theorem add_positive_eq (out : GeniusResult) (trigger : Bool) (text : String) :
    add_positive out trigger text =
      { out with
        positives :=
          if trigger && decide (out.pos_count < GENIUS_MAX_EXPLAIN)
          then out.positives ++ [snprintf_text text] else out.positives,
        pos_count :=
          if trigger && decide (out.pos_count < GENIUS_MAX_EXPLAIN)
          then out.pos_count + 1 else out.pos_count } := by
  unfold add_positive
  split <;> rfl

theorem add_negative_eq (out : GeniusResult) (trigger : Bool) (text : String) :
    add_negative out trigger text =
      { out with
        negatives :=
          if trigger && decide (out.neg_count < GENIUS_MAX_EXPLAIN)
          then out.negatives ++ [snprintf_text text] else out.negatives,
        neg_count :=
          if trigger && decide (out.neg_count < GENIUS_MAX_EXPLAIN)
          then out.neg_count + 1 else out.neg_count } := by
  unfold add_negative
  split <;> rfl

theorem fill_explanations_harmony_score (out : GeniusResult) (p : Int) :
    (fill_explanations out p).harmony_score = out.harmony_score := by
  simp only [fill_explanations, add_positive_eq, add_negative_eq]

theorem fill_explanations_progression_score (out : GeniusResult) (p : Int) :
    (fill_explanations out p).progression_score = out.progression_score := by
  simp only [fill_explanations, add_positive_eq, add_negative_eq]

theorem fill_explanations_melody_score (out : GeniusResult) (p : Int) :
    (fill_explanations out p).melody_score = out.melody_score := by
  simp only [fill_explanations, add_positive_eq, add_negative_eq]

theorem fill_explanations_rhythm_score (out : GeniusResult) (p : Int) :
    (fill_explanations out p).rhythm_score = out.rhythm_score := by
  simp only [fill_explanations, add_positive_eq, add_negative_eq]

theorem fill_explanations_structure_score (out : GeniusResult) (p : Int) :
    (fill_explanations out p).structure_score = out.structure_score := by
  simp only [fill_explanations, add_positive_eq, add_negative_eq]

theorem fill_explanations_timbre_score (out : GeniusResult) (p : Int) :
    (fill_explanations out p).timbre_score = out.timbre_score := by
  simp only [fill_explanations, add_positive_eq, add_negative_eq]

theorem fill_explanations_creativity_score (out : GeniusResult) (p : Int) :
    (fill_explanations out p).creativity_score = out.creativity_score := by
  simp only [fill_explanations, add_positive_eq, add_negative_eq]

theorem fill_explanations_overall_score (out : GeniusResult) (p : Int) :
    (fill_explanations out p).overall_score = out.overall_score := by
  simp only [fill_explanations, add_positive_eq, add_negative_eq]

theorem fill_explanations_is_genius (out : GeniusResult) (p : Int) :
    (fill_explanations out p).is_genius = out.is_genius := by
  simp only [fill_explanations, add_positive_eq, add_negative_eq]

theorem fill_explanations_originality_score (out : GeniusResult) (p : Int) :
    (fill_explanations out p).originality_score = out.originality_score := by
  simp only [fill_explanations, add_positive_eq, add_negative_eq]

theorem fill_explanations_complexity_score (out : GeniusResult) (p : Int) :
    (fill_explanations out p).complexity_score = out.complexity_score := by
  simp only [fill_explanations, add_positive_eq, add_negative_eq]

theorem fill_explanations_genre_distance_score (out : GeniusResult) (p : Int) :
    (fill_explanations out p).genre_distance_score = out.genre_distance_score := by
  simp only [fill_explanations, add_positive_eq, add_negative_eq]

theorem fill_explanations_emotion_score (out : GeniusResult) (p : Int) :
    (fill_explanations out p).emotion_score = out.emotion_score := by
  simp only [fill_explanations, add_positive_eq, add_negative_eq]

/-! ## The fields of the result -/

theorem result_harmony_score (E : ℚ → ℚ) (inp : GeniusInputs) (genre : GeniusGenre) :
    (compute_genius_rating E inp genre).harmony_score = compute_harmony_score E inp := by
  simp only [compute_genius_rating, fill_explanations_harmony_score]

theorem result_progression_score (E : ℚ → ℚ) (inp : GeniusInputs) (genre : GeniusGenre) :
    (compute_genius_rating E inp genre).progression_score = compute_progression_score inp := by
  simp only [compute_genius_rating, fill_explanations_progression_score]

theorem result_melody_score (E : ℚ → ℚ) (inp : GeniusInputs) (genre : GeniusGenre) :
    (compute_genius_rating E inp genre).melody_score = compute_melody_score E inp := by
  simp only [compute_genius_rating, fill_explanations_melody_score]

theorem result_rhythm_score (E : ℚ → ℚ) (inp : GeniusInputs) (genre : GeniusGenre) :
    (compute_genius_rating E inp genre).rhythm_score = compute_rhythm_score E inp := by
  simp only [compute_genius_rating, fill_explanations_rhythm_score]

theorem result_structure_score (E : ℚ → ℚ) (inp : GeniusInputs) (genre : GeniusGenre) :
    (compute_genius_rating E inp genre).structure_score = compute_structure_score E inp := by
  simp only [compute_genius_rating, fill_explanations_structure_score]

theorem result_timbre_score (E : ℚ → ℚ) (inp : GeniusInputs) (genre : GeniusGenre) :
    (compute_genius_rating E inp genre).timbre_score = compute_timbre_score E inp := by
  simp only [compute_genius_rating, fill_explanations_timbre_score]

theorem result_creativity_score (E : ℚ → ℚ) (inp : GeniusInputs) (genre : GeniusGenre) :
    (compute_genius_rating E inp genre).creativity_score = compute_creativity_score E inp := by
  simp only [compute_genius_rating, fill_explanations_creativity_score]

theorem result_originality_score (E : ℚ → ℚ) (inp : GeniusInputs) (genre : GeniusGenre) :
    (compute_genius_rating E inp genre).originality_score = compute_originality_score inp := by
  simp only [compute_genius_rating, fill_explanations_originality_score]

theorem result_complexity_score (E : ℚ → ℚ) (inp : GeniusInputs) (genre : GeniusGenre) :
    (compute_genius_rating E inp genre).complexity_score = compute_complexity_score inp := by
  simp only [compute_genius_rating, fill_explanations_complexity_score]

theorem result_genre_distance_score (E : ℚ → ℚ) (inp : GeniusInputs) (genre : GeniusGenre) :
    (compute_genius_rating E inp genre).genre_distance_score = compute_genre_distance_score inp genre := by
  simp only [compute_genius_rating, fill_explanations_genre_distance_score]

theorem result_emotion_score (E : ℚ → ℚ) (inp : GeniusInputs) (genre : GeniusGenre) :
    (compute_genius_rating E inp genre).emotion_score = compute_emotion_score E inp := by
  simp only [compute_genius_rating, fill_explanations_emotion_score]

theorem result_overall_score (E : ℚ → ℚ) (inp : GeniusInputs) (genre : GeniusGenre) :
    (compute_genius_rating E inp genre).overall_score
      = if weighted_overall E inp genre - compute_penalties inp ≥ 0
        then weighted_overall E inp genre - compute_penalties inp else 0 := by
  simp only [compute_genius_rating, fill_explanations_overall_score, weighted_overall,
    weighted_round]

theorem result_is_genius (E : ℚ → ℚ) (inp : GeniusInputs) (genre : GeniusGenre) :
    (compute_genius_rating E inp genre).is_genius
      = genius_verdict (compute_genius_rating E inp genre).overall_score
          (compute_melody_score E inp) (compute_creativity_score E inp)
          (compute_harmony_score E inp) (compute_originality_score inp)
          (compute_complexity_score inp) (compute_emotion_score E inp) := by
  rw [result_overall_score]
  simp only [compute_genius_rating, fill_explanations_is_genius, genius_verdict,
    weighted_overall, weighted_round]

theorem genius_verdict_iff (o m c h og cx em : Int) :
    genius_verdict o m c h og cx em = 1 ↔
      (o ≥ 85 ∧ (m ≥ 80 ∨ c ≥ 80 ∨ h ≥ 80)) ∨ (og ≥ 85 ∧ cx ≥ 85) ∨ (em ≥ 90 ∧ o ≥ 80) := by
  unfold genius_verdict
  by_cases h1 : o ≥ 85 ∧ (m ≥ 80 ∨ c ≥ 80 ∨ h ≥ 80)
  · simp [h1]
  · by_cases h2 : og ≥ 85 ∧ cx ≥ 85
    · simp [h1, h2]
    · by_cases h3 : em ≥ 90 ∧ o ≥ 80
      · simp [h1, h2, h3]
      · simp [h1, h2, h3]

theorem genius_verdict_bool (o m c h og cx em : Int) :
    genius_verdict o m c h og cx em = 0 ∨ genius_verdict o m c h og cx em = 1 := by
  unfold genius_verdict
  simp only
  split_ifs <;> simp

/-! ## The weighted aggregate -/

theorem d2i_round_fin_of_bounds {q : ℚ} {n : Int} (h0 : 0 ≤ q) (h1 : q ≤ n)
    (hn : n ≤ 2147483647) : d2i (Dbl.round (Dbl.fin q)) = c_round q := by
  have a := c_round_mono h0
  rw [c_round_zero] at a
  have b := c_round_mono h1
  rw [c_round_intCast] at b
  simp only [Dbl.round]
  exact d2i_fin_intCast _ (by omega) (by omega)

theorem b64r_small_nat (n : Nat) (h : n ≤ 2 ^ 53) : b64r (n : ℚ) = n := by
  have h2 : |(n : Int)| ≤ 2 ^ 53 := by
    rw [abs_of_nonneg (Int.natCast_nonneg n)]
    exact_mod_cast h
  have := b64r_intCast (n : Int) h2
  simpa using this

theorem step_add {x y X Y B : ℚ} (hx : 0 ≤ x ∧ x ≤ X) (hy : 0 ≤ y ∧ y ≤ Y) (hB : b64r B = B)
    (hB2 : B ≤ 4096) (hXY : X + Y ≤ B) :
    Dbl.add64 (Dbl.fin x) (Dbl.fin y) = Dbl.fin (b64r (x + y)) ∧
      0 ≤ b64r (x + y) ∧ b64r (x + y) ≤ B := by
  have habs : |x + y| ≤ B := by
    rw [abs_le]
    constructor <;> linarith [hx.1, hx.2, hy.1, hy.2]
  obtain ⟨e1, e2⟩ := to_b64_of_bound hB (lt_pow1024_of_le hB2) habs
  exact ⟨e1, b64r_nonneg (by linarith [hx.1, hy.1]), (abs_le.mp e2).2⟩

theorem step_mul {s : Int} {w : ℚ} (hs : 0 ≤ s ∧ s ≤ 100) (hw : 0 ≤ w ∧ w ≤ 2) :
    Dbl.mul64 (Dbl.ofInt s) (Dbl.fin w) = Dbl.fin (b64r ((s : ℚ) * w)) ∧
      0 ≤ b64r ((s : ℚ) * w) ∧ b64r ((s : ℚ) * w) ≤ 200 := by
  have s0 : (0 : ℚ) ≤ (s : ℚ) := by exact_mod_cast hs.1
  have s1 : (s : ℚ) ≤ 100 := by exact_mod_cast hs.2
  have hB : b64r 200 = 200 := by
    have := b64r_small_nat 200 (by decide)
    simpa using this
  have habs : |(s : ℚ) * w| ≤ 200 := by
    rw [abs_le]
    constructor <;> nlinarith [hw.1, hw.2]
  obtain ⟨e1, e2⟩ := to_b64_of_bound hB (lt_pow1024_of_le (by norm_num)) habs
  exact ⟨e1, b64r_nonneg (mul_nonneg s0 hw.1), (abs_le.mp e2).2⟩

theorem weighted_num_eq {W : GeniusWeights} (hW : weights_ok W) {h p m r s t c : Int}
    (hh : 0 ≤ h ∧ h ≤ 100) (hp : 0 ≤ p ∧ p ≤ 100) (hm : 0 ≤ m ∧ m ≤ 100)
    (hr : 0 ≤ r ∧ r ≤ 100) (hs : 0 ≤ s ∧ s ≤ 100) (ht : 0 ≤ t ∧ t ≤ 100)
    (hc : 0 ≤ c ∧ c ≤ 100) :
    weighted_num W h p m r s t c = Dbl.fin (weighted_num_q W h p m r s t c) ∧
      0 ≤ weighted_num_q W h p m r s t c ∧ weighted_num_q W h p m r s t c ≤ 1405 := by
  obtain ⟨w1, w2, w3, w4, w5, w6, w7, wb, _, _⟩ := hW
  have r400 : b64r 400 = 400 := by simpa using b64r_small_nat 400 (by decide)
  have r600 : b64r 600 = 600 := by simpa using b64r_small_nat 600 (by decide)
  have r800 : b64r 800 = 800 := by simpa using b64r_small_nat 800 (by decide)
  have r1000 : b64r 1000 = 1000 := by simpa using b64r_small_nat 1000 (by decide)
  have r1200 : b64r 1200 = 1200 := by simpa using b64r_small_nat 1200 (by decide)
  have r1400 : b64r 1400 = 1400 := by simpa using b64r_small_nat 1400 (by decide)
  have r1405 : b64r 1405 = 1405 := by simpa using b64r_small_nat 1405 (by decide)
  obtain ⟨p1, p1a, p1b⟩ := step_mul hh w1
  obtain ⟨p2, p2a, p2b⟩ := step_mul hp w2
  obtain ⟨p3, p3a, p3b⟩ := step_mul hm w3
  obtain ⟨p4, p4a, p4b⟩ := step_mul hr w4
  obtain ⟨p5, p5a, p5b⟩ := step_mul hs w5
  obtain ⟨p6, p6a, p6b⟩ := step_mul ht w6
  obtain ⟨p7, p7a, p7b⟩ := step_mul hc w7
  obtain ⟨a2, a2a, a2b⟩ := step_add ⟨p1a, p1b⟩ ⟨p2a, p2b⟩ r400 (by norm_num) (by norm_num)
  obtain ⟨a3, a3a, a3b⟩ := step_add ⟨a2a, a2b⟩ ⟨p3a, p3b⟩ r600 (by norm_num) (by norm_num)
  obtain ⟨a4, a4a, a4b⟩ := step_add ⟨a3a, a3b⟩ ⟨p4a, p4b⟩ r800 (by norm_num) (by norm_num)
  obtain ⟨a5, a5a, a5b⟩ := step_add ⟨a4a, a4b⟩ ⟨p5a, p5b⟩ r1000 (by norm_num) (by norm_num)
  obtain ⟨a6, a6a, a6b⟩ := step_add ⟨a5a, a5b⟩ ⟨p6a, p6b⟩ r1200 (by norm_num) (by norm_num)
  obtain ⟨a7, a7a, a7b⟩ := step_add ⟨a6a, a6b⟩ ⟨p7a, p7b⟩ r1400 (by norm_num) (by norm_num)
  obtain ⟨a8, a8a, a8b⟩ := step_add ⟨a7a, a7b⟩ wb r1405 (by norm_num) (by norm_num)
  unfold weighted_num weighted_num_q
  rw [p1, p2, p3, p4, p5, p6, p7, a2, a3, a4, a5, a6, a7, a8]
  exact ⟨rfl, a8a, a8b⟩

theorem weighted_round_eq {W : GeniusWeights} (hW : weights_ok W) {h p m r s t c : Int}
    (hh : 0 ≤ h ∧ h ≤ 100) (hp : 0 ≤ p ∧ p ≤ 100) (hm : 0 ≤ m ∧ m ≤ 100)
    (hr : 0 ≤ r ∧ r ≤ 100) (hs : 0 ≤ s ∧ s ≤ 100) (ht : 0 ≤ t ∧ t ≤ 100)
    (hc : 0 ≤ c ∧ c ≤ 100) :
    weighted_round W h p m r s t c
      = c_round (b64r (weighted_num_q W h p m r s t c / weighted_den_q W)) := by
  obtain ⟨n1, n2, n3⟩ := weighted_num_eq hW hh hp hm hr hs ht hc
  obtain ⟨_, _, _, _, _, _, _, _, d1, d2⟩ := hW
  have hd0 : weighted_den_q W ≠ 0 := by linarith
  have hdpos : 0 < weighted_den_q W := by linarith
  have q0 : 0 ≤ weighted_num_q W h p m r s t c / weighted_den_q W :=
    div_nonneg n2 (le_of_lt hdpos)
  have q1 : weighted_num_q W h p m r s t c / weighted_den_q W ≤ 1405 := by
    rw [div_le_iff₀ hdpos]
    nlinarith
  have r1405 : b64r 1405 = 1405 := by simpa using b64r_small_nat 1405 (by decide)
  have habs : |weighted_num_q W h p m r s t c / weighted_den_q W| ≤ 1405 := by
    rw [abs_of_nonneg q0]
    exact q1
  obtain ⟨e1, e2⟩ := to_b64_of_bound r1405 (lt_pow1024_of_le (by norm_num)) habs
  have e3 : Dbl.div64 (weighted_num W h p m r s t c) (weighted_den W)
      = Dbl.fin (b64r (weighted_num_q W h p m r s t c / weighted_den_q W)) := by
    rw [n1, d1]
    show Dbl.r64 (Dbl.div (Dbl.fin _) (Dbl.fin _)) = _
    simp only [Dbl.div, hd0, if_false]
    exact e1
  unfold weighted_round
  rw [e3]
  exact d2i_round_fin_of_bounds (n := 1405) (b64r_nonneg q0) (by exact_mod_cast (abs_le.mp e2).2)
    (by norm_num)

theorem weighted_num_q_mono {W : GeniusWeights} (hW : weights_ok W)
    {h p m r s t c h' p' m' r' s' t' c' : Int}
    (hh : h ≤ h') (hp : p ≤ p') (hm : m ≤ m') (hr : r ≤ r') (hs : s ≤ s') (ht : t ≤ t')
    (hc : c ≤ c') :
    weighted_num_q W h p m r s t c ≤ weighted_num_q W h' p' m' r' s' t' c' := by
  obtain ⟨w1, w2, w3, w4, w5, w6, w7, _, _, _⟩ := hW
  have q1 : b64r ((h : ℚ) * W.w_harmony) ≤ b64r ((h' : ℚ) * W.w_harmony) :=
    b64r_mono (mul_le_mul_of_nonneg_right (by exact_mod_cast hh) w1.1)
  have q2 : b64r ((p : ℚ) * W.w_progression) ≤ b64r ((p' : ℚ) * W.w_progression) :=
    b64r_mono (mul_le_mul_of_nonneg_right (by exact_mod_cast hp) w2.1)
  have q3 : b64r ((m : ℚ) * W.w_melody) ≤ b64r ((m' : ℚ) * W.w_melody) :=
    b64r_mono (mul_le_mul_of_nonneg_right (by exact_mod_cast hm) w3.1)
  have q4 : b64r ((r : ℚ) * W.w_rhythm) ≤ b64r ((r' : ℚ) * W.w_rhythm) :=
    b64r_mono (mul_le_mul_of_nonneg_right (by exact_mod_cast hr) w4.1)
  have q5 : b64r ((s : ℚ) * W.w_structure) ≤ b64r ((s' : ℚ) * W.w_structure) :=
    b64r_mono (mul_le_mul_of_nonneg_right (by exact_mod_cast hs) w5.1)
  have q6 : b64r ((t : ℚ) * W.w_timbre) ≤ b64r ((t' : ℚ) * W.w_timbre) :=
    b64r_mono (mul_le_mul_of_nonneg_right (by exact_mod_cast ht) w6.1)
  have q7 : b64r ((c : ℚ) * W.w_creativity) ≤ b64r ((c' : ℚ) * W.w_creativity) :=
    b64r_mono (mul_le_mul_of_nonneg_right (by exact_mod_cast hc) w7.1)
  unfold weighted_num_q
  apply b64r_mono
  apply add_le_add _ (le_refl _)
  apply b64r_mono
  apply add_le_add _ q7
  apply b64r_mono
  apply add_le_add _ q6
  apply b64r_mono
  apply add_le_add _ q5
  apply b64r_mono
  apply add_le_add _ q4
  apply b64r_mono
  apply add_le_add _ q3
  apply b64r_mono
  exact add_le_add q1 q2

theorem weighted_round_mono {W : GeniusWeights} (hW : weights_ok W)
    {h p m r s t c h' p' m' r' s' t' c' : Int}
    (hh : 0 ≤ h ∧ h ≤ h' ∧ h' ≤ 100) (hp : 0 ≤ p ∧ p ≤ p' ∧ p' ≤ 100)
    (hm : 0 ≤ m ∧ m ≤ m' ∧ m' ≤ 100) (hr : 0 ≤ r ∧ r ≤ r' ∧ r' ≤ 100)
    (hs : 0 ≤ s ∧ s ≤ s' ∧ s' ≤ 100) (ht : 0 ≤ t ∧ t ≤ t' ∧ t' ≤ 100)
    (hc : 0 ≤ c ∧ c ≤ c' ∧ c' ≤ 100) :
    weighted_round W h p m r s t c ≤ weighted_round W h' p' m' r' s' t' c' := by
  rw [weighted_round_eq hW ⟨hh.1, by omega⟩ ⟨hp.1, by omega⟩ ⟨hm.1, by omega⟩ ⟨hr.1, by omega⟩
      ⟨hs.1, by omega⟩ ⟨ht.1, by omega⟩ ⟨hc.1, by omega⟩,
    weighted_round_eq hW ⟨by omega, hh.2.2⟩ ⟨by omega, hp.2.2⟩ ⟨by omega, hm.2.2⟩
      ⟨by omega, hr.2.2⟩ ⟨by omega, hs.2.2⟩ ⟨by omega, ht.2.2⟩ ⟨by omega, hc.2.2⟩]
  have hd : 0 ≤ weighted_den_q W := by
    have := hW.2.2.2.2.2.2.2.2.2
    linarith
  exact c_round_mono (b64r_mono (div_le_div_of_nonneg_right
    (weighted_num_q_mono hW hh.2.1 hp.2.1 hm.2.1 hr.2.1 hs.2.1 ht.2.1 hc.2.1) hd))

theorem weights_ok_default : weights_ok GENIUS_DEFAULT_WEIGHTS := by
  unfold weights_ok
  decide!

theorem weights_ok_rap : weights_ok GENIUS_RAP_WEIGHTS := by
  unfold weights_ok
  decide!

theorem weights_ok_vgm : weights_ok GENIUS_VGM_WEIGHTS := by
  unfold weights_ok
  decide!

theorem weights_ok_pop : weights_ok GENIUS_POP_WEIGHTS := by
  unfold weights_ok
  decide!

theorem weights_ok_experimental : weights_ok GENIUS_EXPERIMENTAL_WEIGHTS := by
  unfold weights_ok
  decide!

theorem weights_ok_phonk : weights_ok GENIUS_PHONK_WEIGHTS := by
  unfold weights_ok
  decide!

theorem select_weights_ok (genre : GeniusGenre) : weights_ok (select_weights genre) := by
  unfold select_weights
  split_ifs
  · exact weights_ok_rap
  · exact weights_ok_vgm
  · exact weights_ok_pop
  · exact weights_ok_experimental
  · exact weights_ok_phonk
  · exact weights_ok_default

theorem weighted_round_zero (genre : GeniusGenre) :
    0 ≤ weighted_round (select_weights genre) 0 0 0 0 0 0 0 := by
  unfold select_weights
  split_ifs <;> decide!

theorem weighted_round_top (genre : GeniusGenre) :
    weighted_round (select_weights genre) 100 100 100 100 100 100 100 ≤ 101 ∧
    (genre ≠ GENIUS_GENRE_RAP →
      weighted_round (select_weights genre) 100 100 100 100 100 100 100 ≤ 100) := by
  unfold select_weights
  split_ifs with h1 <;> first
    | exact ⟨by decide!, fun hg => absurd h1 hg⟩
    | exact (fun h => ⟨le_trans h (by decide), fun _ => h⟩) (by decide!)

theorem weighted_overall_scores (E : ℚ → ℚ) (inp : GeniusInputs) :
    (0 ≤ compute_harmony_score E inp ∧ compute_harmony_score E inp ≤ 100) ∧
    (0 ≤ compute_progression_score inp ∧ compute_progression_score inp ≤ 100) ∧
    (0 ≤ compute_melody_score E inp ∧ compute_melody_score E inp ≤ 100) ∧
    (0 ≤ compute_rhythm_score E inp ∧ compute_rhythm_score E inp ≤ 100) ∧
    (0 ≤ compute_structure_score E inp ∧ compute_structure_score E inp ≤ 100) ∧
    (0 ≤ compute_timbre_score E inp ∧ compute_timbre_score E inp ≤ 100) ∧
    (0 ≤ compute_creativity_score E inp ∧ compute_creativity_score E inp ≤ 100) :=
  ⟨compute_harmony_score_bounds E inp, compute_progression_score_bounds inp,
    compute_melody_score_bounds E inp, compute_rhythm_score_bounds E inp,
    compute_structure_score_bounds E inp, compute_timbre_score_bounds E inp,
    compute_creativity_score_bounds E inp⟩

theorem weighted_overall_eq (E : ℚ → ℚ) (inp : GeniusInputs) (genre : GeniusGenre) :
    weighted_overall E inp genre
      = c_round (b64r (weighted_num_q (select_weights genre) (compute_harmony_score E inp)
          (compute_progression_score inp) (compute_melody_score E inp)
          (compute_rhythm_score E inp) (compute_structure_score E inp)
          (compute_timbre_score E inp) (compute_creativity_score E inp)
          / weighted_den_q (select_weights genre))) := by
  obtain ⟨c1, c2, c3, c4, c5, c6, c7⟩ := weighted_overall_scores E inp
  unfold weighted_overall
  exact weighted_round_eq (select_weights_ok genre) c1 c2 c3 c4 c5 c6 c7

theorem weighted_overall_bounds (E : ℚ → ℚ) (inp : GeniusInputs) (genre : GeniusGenre) :
    0 ≤ weighted_overall E inp genre ∧ weighted_overall E inp genre ≤ 101 := by
  obtain ⟨c1, c2, c3, c4, c5, c6, c7⟩ := weighted_overall_scores E inp
  have hW := select_weights_ok genre
  unfold weighted_overall
  constructor
  · exact le_trans (weighted_round_zero genre)
      (weighted_round_mono hW ⟨le_refl _, c1.1, c1.2⟩ ⟨le_refl _, c2.1, c2.2⟩
        ⟨le_refl _, c3.1, c3.2⟩ ⟨le_refl _, c4.1, c4.2⟩ ⟨le_refl _, c5.1, c5.2⟩
        ⟨le_refl _, c6.1, c6.2⟩ ⟨le_refl _, c7.1, c7.2⟩)
  · exact le_trans
      (weighted_round_mono hW ⟨c1.1, c1.2, le_refl _⟩ ⟨c2.1, c2.2, le_refl _⟩
        ⟨c3.1, c3.2, le_refl _⟩ ⟨c4.1, c4.2, le_refl _⟩ ⟨c5.1, c5.2, le_refl _⟩
        ⟨c6.1, c6.2, le_refl _⟩ ⟨c7.1, c7.2, le_refl _⟩)
      (weighted_round_top genre).1

theorem weighted_overall_le_100 (E : ℚ → ℚ) (inp : GeniusInputs) {genre : GeniusGenre}
    (hg : genre ≠ GENIUS_GENRE_RAP) : weighted_overall E inp genre ≤ 100 := by
  obtain ⟨c1, c2, c3, c4, c5, c6, c7⟩ := weighted_overall_scores E inp
  have hW := select_weights_ok genre
  unfold weighted_overall
  exact le_trans
    (weighted_round_mono hW ⟨c1.1, c1.2, le_refl _⟩ ⟨c2.1, c2.2, le_refl _⟩
      ⟨c3.1, c3.2, le_refl _⟩ ⟨c4.1, c4.2, le_refl _⟩ ⟨c5.1, c5.2, le_refl _⟩
      ⟨c6.1, c6.2, le_refl _⟩ ⟨c7.1, c7.2, le_refl _⟩)
    ((weighted_round_top genre).2 hg)

theorem compute_penalties_nonneg (inp : GeniusInputs) : 0 ≤ compute_penalties inp := by
  unfold compute_penalties
  simp only
  split_ifs <;> decide

/-- The overall score is never negative and never above 101; it stays within
100 for every genre selector other than rap. -/
theorem overall_score_bounds (E : ℚ → ℚ) (inp : GeniusInputs) (genre : GeniusGenre) :
    0 ≤ (compute_genius_rating E inp genre).overall_score ∧
    (compute_genius_rating E inp genre).overall_score ≤ 101 ∧
    (genre ≠ GENIUS_GENRE_RAP → (compute_genius_rating E inp genre).overall_score ≤ 100) := by
  have hp := compute_penalties_nonneg inp
  have hb := weighted_overall_bounds E inp genre
  rw [result_overall_score]
  refine ⟨?_, ?_, ?_⟩
  · split_ifs with h
    · exact h
    · exact le_refl _
  · split_ifs <;> omega
  · intro hg
    have h100 := weighted_overall_le_100 E inp hg
    split_ifs <;> omega

/-! ## Evaluating the engine on `peak_input` -/

theorem exp_horner_zero (k n : Nat) : exp_horner 0 k n = 1 := by
  induction n generalizing k with
  | zero => rfl
  | succ n ih => simp [exp_horner]

theorem exp_model_zero : exp_model 0 = 1 := by
  simp [exp_model, exp_horner_zero]

theorem gaussian_score_at_mu {E : ℚ → ℚ} (hE : E 0 = 1) (mu : ℚ) {sigma : ℚ}
    (hs : sigma ≠ 0) : gaussian_score E (Dbl.fin mu) mu sigma 100 = 100 := by
  rw [gaussian_score_eq]
  have hv : gaussian_val E (Dbl.fin mu) mu sigma 100 = Dbl.fin 100 := by
    simp [gaussian_val, Dbl.sub, Dbl.neg, Dbl.add, Dbl.div, Dbl.mul, c_exp, Dbl.ofInt, hs, hE]
  rw [hv, gaussian_tail_fin]
  norm_num [Dbl.isnan, c_round_hundred]

theorem peak_harmony_score : compute_harmony_score exp_model peak_input = 100 := by
  have g := gaussian_score_at_mu exp_model_zero (1 / 2) (show (1 / 5 : ℚ) ≠ 0 by norm_num)
  have s := scale_to_100_at_max (show (0 : ℚ) < 1 by norm_num) scale_ok_0_1
  simp only [compute_harmony_score, peak_input, g, s, clampd_int, c_div]
  decide

theorem peak_progression_score : compute_progression_score peak_input = 100 := by
  have s := scale_to_100_at_max (show (0 : ℚ) < 1 by norm_num) scale_ok_0_1
  have t := scale_to_100_at_max (show (60 : ℚ) < 180 by norm_num) scale_ok_60_180
  simp only [compute_progression_score, peak_input, s, t, clampd_int, c_div]
  norm_num [Dbl.gt, Dbl.lt, Dbl.le]
  decide

theorem peak_melody_score : compute_melody_score exp_model peak_input = 100 := by
  have g1 := gaussian_score_at_mu exp_model_zero 12 (show (5 : ℚ) ≠ 0 by norm_num)
  have g2 := gaussian_score_at_mu exp_model_zero (1 / 2) (show (15 / 100 : ℚ) ≠ 0 by norm_num)
  have s := scale_to_100_at_max (show (0 : ℚ) < 1 by norm_num) scale_ok_0_1
  simp only [compute_melody_score, peak_input, g1, g2, s, c_div]
  decide

theorem peak_rhythm_score : compute_rhythm_score exp_model peak_input = 100 := by
  have g := gaussian_score_at_mu exp_model_zero (1 / 2) (show (1 / 5 : ℚ) ≠ 0 by norm_num)
  have s := scale_to_100_at_max (show (0 : ℚ) < 1 by norm_num) scale_ok_0_1
  have t := scale_to_100_at_min (show (0 : ℚ) < 1 / 2 by norm_num) scale_ok_0_half
  have d : Dbl.fabs (Dbl.sub (Dbl.fin 1) (Dbl.fin 1)) = Dbl.fin 0 := by
    simp [Dbl.fabs, Dbl.sub, Dbl.neg, Dbl.add]
  simp only [compute_rhythm_score, peak_input, g, s, d, t, inverse_scale_to_100, c_div]
  decide

theorem peak_structure_score : compute_structure_score exp_model peak_input = 100 := by
  have g1 := gaussian_score_at_mu exp_model_zero 5 (show (2 : ℚ) ≠ 0 by norm_num)
  have g2 := gaussian_score_at_mu exp_model_zero (1 / 2) (show (1 / 5 : ℚ) ≠ 0 by norm_num)
  have s := scale_to_100_at_max (show (0 : ℚ) < 1 by norm_num) scale_ok_0_1
  have n : Dbl.ofInt ((5 : Nat) : Int) = Dbl.fin 5 := by simp [Dbl.ofInt]
  have c : chorus_bonus peak_input.structure_.sections = 15 := by
    simp [chorus_bonus, peak_input]
  have l : peak_input.structure_.section_count = 5 := rfl
  have v : peak_input.structure_valid = 1 := rfl
  have a : peak_input.structure_.arc_complexity = Dbl.fin 1 := rfl
  have r : peak_input.structure_.repetition_ratio = Dbl.fin (1 / 2) := rfl
  simp only [compute_structure_score, l, v, a, r, c, n, g1, g2, s, clampd_int, c_div]
  decide

theorem peak_timbre_score : compute_timbre_score exp_model peak_input = 100 := by
  have g1 := gaussian_score_at_mu exp_model_zero (-14) (show (4 : ℚ) ≠ 0 by norm_num)
  have g2 := gaussian_score_at_mu exp_model_zero 9 (show (3 : ℚ) ≠ 0 by norm_num)
  have s := scale_to_100_at_max (show (0 : ℚ) < 1 by norm_num) scale_ok_0_1
  have t := scale_to_100_at_min (show (0 : ℚ) < 1 / 2 by norm_num) scale_ok_0_half
  simp only [compute_timbre_score, peak_input, g1, g2, s, t, inverse_scale_to_100, c_div]
  decide

theorem peak_creativity_score : compute_creativity_score exp_model peak_input = 100 := by
  have g1 := gaussian_score_at_mu exp_model_zero 4 (show (2 : ℚ) ≠ 0 by norm_num)
  have g2 := gaussian_score_at_mu exp_model_zero (1 / 2) (show (1 / 5 : ℚ) ≠ 0 by norm_num)
  have s := scale_to_100_at_max (show (0 : ℚ) < 5 by norm_num) scale_ok_0_5
  have t := scale_to_100_at_min (show (0 : ℚ) < 1 by norm_num) scale_ok_0_1
  simp only [compute_creativity_score, peak_input, g1, g2, s, t, inverse_scale_to_100, c_div]
  decide

theorem peak_penalties : compute_penalties peak_input = 0 := by
  decide!

/-! ## Claims -/

theorem c_div_le {a k b : Int} (hk : 0 < k) (h0 : 0 ≤ a) (h1 : a ≤ b * k) : c_div a k ≤ b := by
  unfold c_div
  rw [Int.tdiv_eq_ediv h0 (le_of_lt hk)]
  have := Int.ediv_le_ediv hk h1
  rwa [Int.mul_ediv_cancel _ (ne_of_gt hk)] at this

theorem scale_to_100_entropy_one : scale_to_100 (Dbl.fin 1) 0 5 = 20 := by decide!

theorem entropy_score_le {e : Dbl} (h : Dbl.le e (Dbl.fin 1) = true) :
    scale_to_100 e 0 5 ≤ 20 := by
  have hnn : e.isnan = false := by
    cases e <;> simp [Dbl.le, Dbl.isnan] at h ⊢
  have := scale_to_100_mono (show (0 : ℚ) < 5 by norm_num) scale_ok_0_5
    (Dbl.le_nn_of_le (y := Dbl.fin 1) hnn rfl h)
  rwa [scale_to_100_entropy_one] at this

theorem compute_creativity_score_le_80 (E : ℚ → ℚ) (inp : GeniusInputs)
    (hent : Dbl.le inp.melody.melodic_entropy (Dbl.fin 1) = true) :
    compute_creativity_score E inp ≤ 80 := by
  unfold compute_creativity_score
  split
  · omega
  · have h0 := scale_to_100_bounds inp.melody.melodic_entropy scale_ok_0_5
    have h1 := entropy_score_le hent
    have h2 := gaussian_score_bounds E inp.melody.avg_abs_interval_semitones 4 100
      (show (2 : ℚ) ≠ 0 by norm_num)
    have h3 := gaussian_score_bounds E inp.rhythm.syncopation (1 / 2) 100
      (show (1 / 5 : ℚ) ≠ 0 by norm_num)
    have h4 := inverse_scale_to_100_bounds inp.prod.masking_index scale_ok_0_1
    exact c_div_le (by norm_num) (by omega) (by omega)

/-- The model at the weighted tie of the VGM profile: the category scores 17, 0,
1, 10, 50, 33, 29 give `159.1 / 7.4`, which is 21.5 in exact arithmetic and
`21.499999999999996` in binary64, so the rounded aggregate is 21. -/
theorem weighted_round_vgm_tie : weighted_round GENIUS_VGM_WEIGHTS 17 0 1 10 50 33 29 = 21 := by
  decide!

/-- On `peak_input_unit` the rap profile gives `round(675 / 7) = 96`. -/
theorem peak_unit_rap_overall :
    (compute_genius_rating exp_model peak_input_unit GENIUS_GENRE_RAP).overall_score = 96 := by
  have e1 : compute_harmony_score exp_model peak_input_unit = 100 := peak_harmony_score
  have e2 : compute_progression_score peak_input_unit = 100 := peak_progression_score
  have e3 : compute_melody_score exp_model peak_input_unit = 100 := peak_melody_score
  have e4 : compute_rhythm_score exp_model peak_input_unit = 100 := peak_rhythm_score
  have e5 : compute_structure_score exp_model peak_input_unit = 100 := peak_structure_score
  have e6 : compute_timbre_score exp_model peak_input_unit = 100 := peak_timbre_score
  have e7 : compute_creativity_score exp_model peak_input_unit = 80 := by
    have g1 := gaussian_score_at_mu exp_model_zero 4 (show (2 : ℚ) ≠ 0 by norm_num)
    have g2 := gaussian_score_at_mu exp_model_zero (1 / 2) (show (1 / 5 : ℚ) ≠ 0 by norm_num)
    have t := scale_to_100_at_min (show (0 : ℚ) < 1 by norm_num) scale_ok_0_1
    simp only [compute_creativity_score, peak_input_unit, peak_input, g1, g2,
      scale_to_100_entropy_one, t, inverse_scale_to_100, c_div]
    decide
  have e8 : compute_penalties peak_input_unit = 0 := by decide!
  rw [result_overall_score, e8]
  unfold weighted_overall
  rw [e1, e2, e3, e4, e5, e6, e7]
  decide!

/-- C2: for every input record and every genre selector, the seven category
scores and the originality, complexity, genre-distance and emotion scores that
`compute_genius_rating` writes lie in [0,100]. -/
theorem C2_scores_in_range (E : ℚ → ℚ) (inp : GeniusInputs) (genre : GeniusGenre) :
    (0 ≤ (compute_genius_rating E inp genre).harmony_score ∧ (compute_genius_rating E inp genre).harmony_score ≤ 100) ∧
    (0 ≤ (compute_genius_rating E inp genre).progression_score ∧ (compute_genius_rating E inp genre).progression_score ≤ 100) ∧
    (0 ≤ (compute_genius_rating E inp genre).melody_score ∧ (compute_genius_rating E inp genre).melody_score ≤ 100) ∧
    (0 ≤ (compute_genius_rating E inp genre).rhythm_score ∧ (compute_genius_rating E inp genre).rhythm_score ≤ 100) ∧
    (0 ≤ (compute_genius_rating E inp genre).structure_score ∧ (compute_genius_rating E inp genre).structure_score ≤ 100) ∧
    (0 ≤ (compute_genius_rating E inp genre).timbre_score ∧ (compute_genius_rating E inp genre).timbre_score ≤ 100) ∧
    (0 ≤ (compute_genius_rating E inp genre).creativity_score ∧ (compute_genius_rating E inp genre).creativity_score ≤ 100) ∧
    (0 ≤ (compute_genius_rating E inp genre).originality_score ∧ (compute_genius_rating E inp genre).originality_score ≤ 100) ∧
    (0 ≤ (compute_genius_rating E inp genre).complexity_score ∧ (compute_genius_rating E inp genre).complexity_score ≤ 100) ∧
    (0 ≤ (compute_genius_rating E inp genre).genre_distance_score ∧ (compute_genius_rating E inp genre).genre_distance_score ≤ 100) ∧
    (0 ≤ (compute_genius_rating E inp genre).emotion_score ∧ (compute_genius_rating E inp genre).emotion_score ≤ 100) := by
  rw [result_harmony_score, result_progression_score, result_melody_score,
    result_rhythm_score, result_structure_score, result_timbre_score,
    result_creativity_score, result_originality_score, result_complexity_score,
    result_genre_distance_score, result_emotion_score]
  exact ⟨compute_harmony_score_bounds E inp, compute_progression_score_bounds inp,
    compute_melody_score_bounds E inp, compute_rhythm_score_bounds E inp,
    compute_structure_score_bounds E inp, compute_timbre_score_bounds E inp,
    compute_creativity_score_bounds E inp, compute_originality_score_bounds inp,
    compute_complexity_score_bounds inp, compute_genre_distance_score_bounds inp genre,
    compute_emotion_score_bounds E inp⟩

/-- C3: `is_genius` is 1 exactly when overall >= 85 with melody, creativity or
harmony >= 80, or originality and complexity are both >= 85, or emotion >= 90
with overall >= 80, and it is 0 otherwise; so overall >= 85 with melody >= 80
gives 1, and overall < 80 with originality < 85 or complexity < 85 gives 0. -/
theorem C3_is_genius_iff (E : ℚ → ℚ) (inp : GeniusInputs) (genre : GeniusGenre) :
    ((compute_genius_rating E inp genre).is_genius = 1 ↔ (((compute_genius_rating E inp genre).overall_score ≥ 85 ∧
          ((compute_genius_rating E inp genre).melody_score ≥ 80 ∨
           (compute_genius_rating E inp genre).creativity_score ≥ 80 ∨
           (compute_genius_rating E inp genre).harmony_score ≥ 80)) ∨
        ((compute_genius_rating E inp genre).originality_score ≥ 85 ∧
          (compute_genius_rating E inp genre).complexity_score ≥ 85) ∨
        ((compute_genius_rating E inp genre).emotion_score ≥ 90 ∧
          (compute_genius_rating E inp genre).overall_score ≥ 80))) ∧
    ((compute_genius_rating E inp genre).is_genius = 0 ∨ (compute_genius_rating E inp genre).is_genius = 1) ∧
    ((compute_genius_rating E inp genre).overall_score ≥ 85 → (compute_genius_rating E inp genre).melody_score ≥ 80 → (compute_genius_rating E inp genre).is_genius = 1) ∧
    ((compute_genius_rating E inp genre).overall_score < 80 →
      ((compute_genius_rating E inp genre).originality_score < 85 ∨ (compute_genius_rating E inp genre).complexity_score < 85) → (compute_genius_rating E inp genre).is_genius = 0) := by
  have key := genius_verdict_iff (compute_genius_rating E inp genre).overall_score
    (compute_melody_score E inp) (compute_creativity_score E inp)
    (compute_harmony_score E inp) (compute_originality_score inp)
    (compute_complexity_score inp) (compute_emotion_score E inp)
  have hb := genius_verdict_bool (compute_genius_rating E inp genre).overall_score
    (compute_melody_score E inp) (compute_creativity_score E inp)
    (compute_harmony_score E inp) (compute_originality_score inp)
    (compute_complexity_score inp) (compute_emotion_score E inp)
  rw [← result_is_genius] at key hb
  rw [result_melody_score, result_creativity_score, result_harmony_score,
    result_originality_score, result_complexity_score, result_emotion_score]
  refine ⟨key, hb, ?_, ?_⟩
  · intro h1 h2
    exact key.mpr (Or.inl ⟨h1, Or.inl h2⟩)
  · intro h1 h2
    rcases hb with h0 | h1g
    · exact h0
    · exfalso
      rcases key.mp h1g with ⟨a, _⟩ | ⟨a, b⟩ | ⟨_, b⟩
      · omega
      · omega
      · omega

/-- C3, non-vacuity: on `peak_input` with the default profile the overall score
is at least 85 and the melody score at least 80, and the verdict is 1. -/
theorem C3_is_genius_witness :
    (compute_genius_rating exp_model peak_input GENIUS_GENRE_DEFAULT).overall_score ≥ 85 ∧
    (compute_genius_rating exp_model peak_input GENIUS_GENRE_DEFAULT).melody_score ≥ 80 ∧
    (compute_genius_rating exp_model peak_input GENIUS_GENRE_DEFAULT).is_genius = 1 := by
  have ho : (compute_genius_rating exp_model peak_input GENIUS_GENRE_DEFAULT).overall_score
      = 100 := by
    rw [result_overall_score, peak_penalties]
    unfold weighted_overall
    rw [peak_harmony_score, peak_progression_score, peak_melody_score, peak_rhythm_score,
      peak_structure_score, peak_timbre_score, peak_creativity_score]
    decide!
  have hm : (compute_genius_rating exp_model peak_input GENIUS_GENRE_DEFAULT).melody_score
      = 100 := by
    rw [result_melody_score, peak_melody_score]
  have h1 : (compute_genius_rating exp_model peak_input GENIUS_GENRE_DEFAULT).overall_score
      ≥ 85 := by rw [ho]; decide
  have h2 : (compute_genius_rating exp_model peak_input GENIUS_GENRE_DEFAULT).melody_score
      ≥ 80 := by rw [hm]; decide
  exact ⟨h1, h2,
    (C3_is_genius_iff exp_model peak_input GENIUS_GENRE_DEFAULT).2.2.1 h1 h2⟩

theorem c_round_mean7 (s : Int) (hs : 0 ≤ s) : c_round ((s : ℚ) / 7) = (2 * s + 7) / 14 := by
  unfold c_round
  have h0 : (0 : ℚ) ≤ (s : ℚ) / 7 := by
    apply div_nonneg
    · exact_mod_cast hs
    · norm_num
  rw [if_pos h0, Int.floor_eq_iff]
  have e1 : 14 * ((2 * s + 7) / 14) ≤ 2 * s + 7 := by omega
  have e2 : 2 * s + 7 < 14 * ((2 * s + 7) / 14) + 14 := by omega
  have q1 : (14 : ℚ) * (((2 * s + 7) / 14 : Int) : ℚ) ≤ 2 * (s : ℚ) + 7 := by
    exact_mod_cast e1
  have q2 : 2 * (s : ℚ) + 7 < (14 : ℚ) * (((2 * s + 7) / 14 : Int) : ℚ) + 14 := by
    exact_mod_cast e2
  constructor <;> linarith

theorem select_weights_default {genre : GeniusGenre}
    (h : genre ≠ GENIUS_GENRE_RAP ∧ genre ≠ GENIUS_GENRE_VGM ∧ genre ≠ GENIUS_GENRE_POP ∧
      genre ≠ GENIUS_GENRE_EXPERIMENTAL ∧ genre ≠ GENIUS_GENRE_PHONK) :
    select_weights genre = GENIUS_DEFAULT_WEIGHTS := by
  obtain ⟨h1, h2, h3, h4, h5⟩ := h
  simp [select_weights, h1, h2, h3, h4, h5]

theorem c_round_b64r_mean7 : ∀ s : Fin 701,
    c_round (b64r ((s.val : ℚ) / 7)) = (2 * (s.val : Int) + 7) / 14 := by
  intro s
  have hs : s.val ≤ 700 := Nat.le_of_lt_succ s.isLt
  have hq0 : (0 : ℚ) ≤ (s.val : ℚ) / 7 := by positivity
  have hq1 : (s.val : ℚ) / 7 ≤ 100 := by
    rw [div_le_iff₀ (by norm_num)]
    exact_mod_cast (by omega : s.val ≤ 100 * 7)
  have hb0 : 0 ≤ b64r ((s.val : ℚ) / 7) := b64r_nonneg hq0
  have hle := b64r_err_le hq0
  have hge := b64r_err_ge hq0
  have e1 : 14 * ((2 * (s.val : Int) + 7) / 14) + 1 ≤ 2 * (s.val : Int) + 7 := by omega
  have e2 : 2 * (s.val : Int) + 7 + 1 ≤ 14 * ((2 * (s.val : Int) + 7) / 14) + 14 := by omega
  have q1 : (14 : ℚ) * (((2 * (s.val : Int) + 7) / 14 : Int) : ℚ) + 1 ≤ 2 * (s.val : ℚ) + 7 := by
    exact_mod_cast e1
  have q2 : 2 * (s.val : ℚ) + 7 + 1
      ≤ (14 : ℚ) * (((2 * (s.val : Int) + 7) / 14 : Int) : ℚ) + 14 := by
    exact_mod_cast e2
  have hsq : (s.val : ℚ) = 7 * ((s.val : ℚ) / 7) := by ring
  unfold c_round
  rw [if_pos hb0, Int.floor_eq_iff]
  constructor
  · nlinarith
  · nlinarith

theorem b64r_int_add (a b : Int) (h : |a + b| ≤ 2 ^ 53) :
    b64r ((a : ℚ) + (b : ℚ)) = ((a + b : Int) : ℚ) := by
  have := b64r_intCast (a + b) h
  push_cast at this ⊢
  exact this

theorem weighted_default_q {h p m r s t c : Int}
    (hh : 0 ≤ h ∧ h ≤ 100) (hp : 0 ≤ p ∧ p ≤ 100) (hm : 0 ≤ m ∧ m ≤ 100)
    (hr : 0 ≤ r ∧ r ≤ 100) (hs : 0 ≤ s ∧ s ≤ 100) (ht : 0 ≤ t ∧ t ≤ 100)
    (hc : 0 ≤ c ∧ c ≤ 100) :
    weighted_num_q GENIUS_DEFAULT_WEIGHTS h p m r s t c = ((h + p + m + r + s + t + c : Int) : ℚ) ∧
      weighted_den_q GENIUS_DEFAULT_WEIGHTS = 7 := by
  constructor
  · unfold weighted_num_q
    simp only [GENIUS_DEFAULT_WEIGHTS, mul_one, add_zero]
    have i1 : ∀ n : Int, 0 ≤ n ∧ n ≤ 100 → b64r (n : ℚ) = n := by
      intro n hn
      exact b64r_intCast n (by rw [abs_of_nonneg hn.1]; omega)
    have big : ∀ n : Int, 0 ≤ n ∧ n ≤ 700 → |n| ≤ 2 ^ 53 := by
      intro n hn
      rw [abs_of_nonneg hn.1]
      omega
    rw [i1 h hh, i1 p hp, i1 m hm, i1 r hr, i1 s hs, i1 t ht, i1 c hc]
    rw [b64r_int_add h p (big _ ⟨by omega, by omega⟩)]
    rw [b64r_int_add (h + p) m (big _ ⟨by omega, by omega⟩)]
    rw [b64r_int_add (h + p + m) r (big _ ⟨by omega, by omega⟩)]
    rw [b64r_int_add (h + p + m + r) s (big _ ⟨by omega, by omega⟩)]
    rw [b64r_int_add (h + p + m + r + s) t (big _ ⟨by omega, by omega⟩)]
    rw [b64r_int_add (h + p + m + r + s + t) c (big _ ⟨by omega, by omega⟩)]
    exact b64r_intCast _ (big _ ⟨by omega, by omega⟩)
  · decide!

/-- C4: `overall_score` is `max(0, round((sum of category score * weight +
bias) / (sum of weights)) - penalty)` over the profile that the genre selects,
where every product, every sum (from left to right) and the quotient are
rounded to binary64 (`b64r`) as the code computes them in `double`; the five
named genres select their own profile and every other selector value the
default one, for which nothing is rounded away and the score is the rounded
mean of the seven category scores (in integers `(2 * sum + 7) / 14`) minus the
penalty, floored at 0. -/
theorem C4_overall_score_formula (E : ℚ → ℚ) (inp : GeniusInputs) (genre : GeniusGenre) :
    (compute_genius_rating E inp genre).overall_score
      = max 0 (c_round (b64r
            (b64r (b64r (b64r (b64r (b64r (b64r (b64r (b64r (((compute_genius_rating E inp genre).harmony_score : ℚ) * (select_weights genre).w_harmony)
                + b64r (((compute_genius_rating E inp genre).progression_score : ℚ) * (select_weights genre).w_progression))
                + b64r (((compute_genius_rating E inp genre).melody_score : ℚ) * (select_weights genre).w_melody))
                + b64r (((compute_genius_rating E inp genre).rhythm_score : ℚ) * (select_weights genre).w_rhythm))
                + b64r (((compute_genius_rating E inp genre).structure_score : ℚ) * (select_weights genre).w_structure))
                + b64r (((compute_genius_rating E inp genre).timbre_score : ℚ) * (select_weights genre).w_timbre))
                + b64r (((compute_genius_rating E inp genre).creativity_score : ℚ) * (select_weights genre).w_creativity))
                + (select_weights genre).bias)
              / b64r (b64r (b64r (b64r (b64r (b64r ((select_weights genre).w_harmony + (select_weights genre).w_progression)
                + (select_weights genre).w_melody) + (select_weights genre).w_rhythm) + (select_weights genre).w_structure) + (select_weights genre).w_timbre)
                + (select_weights genre).w_creativity)))
          - compute_penalties inp) ∧
    (select_weights GENIUS_GENRE_RAP = GENIUS_RAP_WEIGHTS ∧
      select_weights GENIUS_GENRE_VGM = GENIUS_VGM_WEIGHTS ∧
      select_weights GENIUS_GENRE_POP = GENIUS_POP_WEIGHTS ∧
      select_weights GENIUS_GENRE_EXPERIMENTAL = GENIUS_EXPERIMENTAL_WEIGHTS ∧
      select_weights GENIUS_GENRE_PHONK = GENIUS_PHONK_WEIGHTS ∧
      select_weights GENIUS_GENRE_DEFAULT = GENIUS_DEFAULT_WEIGHTS) ∧
    ((genre ≠ GENIUS_GENRE_RAP ∧ genre ≠ GENIUS_GENRE_VGM ∧ genre ≠ GENIUS_GENRE_POP ∧
        genre ≠ GENIUS_GENRE_EXPERIMENTAL ∧ genre ≠ GENIUS_GENRE_PHONK) →
      select_weights genre = GENIUS_DEFAULT_WEIGHTS ∧
      (compute_genius_rating E inp genre).overall_score
        = max 0 (c_round ((((compute_genius_rating E inp genre).harmony_score : ℚ) +
              ((compute_genius_rating E inp genre).progression_score : ℚ) +
              ((compute_genius_rating E inp genre).melody_score : ℚ) +
              ((compute_genius_rating E inp genre).rhythm_score : ℚ) +
              ((compute_genius_rating E inp genre).structure_score : ℚ) +
              ((compute_genius_rating E inp genre).timbre_score : ℚ) +
              ((compute_genius_rating E inp genre).creativity_score : ℚ)) / 7)
            - compute_penalties inp) ∧
      (compute_genius_rating E inp genre).overall_score
        = max 0 ((2 * ((compute_genius_rating E inp genre).harmony_score +
            (compute_genius_rating E inp genre).progression_score +
            (compute_genius_rating E inp genre).melody_score +
            (compute_genius_rating E inp genre).rhythm_score +
            (compute_genius_rating E inp genre).structure_score +
            (compute_genius_rating E inp genre).timbre_score +
            (compute_genius_rating E inp genre).creativity_score) + 7) / 14
            - compute_penalties inp)) := by
  have main : (compute_genius_rating E inp genre).overall_score
      = max 0 (c_round (b64r (weighted_num_q (select_weights genre)
          (compute_harmony_score E inp) (compute_progression_score inp)
          (compute_melody_score E inp) (compute_rhythm_score E inp)
          (compute_structure_score E inp) (compute_timbre_score E inp)
          (compute_creativity_score E inp)
          / weighted_den_q (select_weights genre))) - compute_penalties inp) := by
    rw [result_overall_score, weighted_overall_eq]
    split_ifs with h
    · exact (max_eq_right h).symm
    · exact (max_eq_left (le_of_lt (not_le.mp h))).symm
  rw [result_harmony_score, result_progression_score, result_melody_score,
    result_rhythm_score, result_structure_score, result_timbre_score,
    result_creativity_score]
  refine ⟨main, ⟨rfl, rfl, rfl, rfl, rfl, rfl⟩, ?_⟩
  intro hg
  have hW := select_weights_default hg
  obtain ⟨c1, c2, c3, c4, c5, c6, c7⟩ := weighted_overall_scores E inp
  obtain ⟨qn, qd⟩ := weighted_default_q c1 c2 c3 c4 c5 c6 c7
  have hsum : 0 ≤ compute_harmony_score E inp + compute_progression_score inp +
      compute_melody_score E inp + compute_rhythm_score E inp +
      compute_structure_score E inp + compute_timbre_score E inp +
      compute_creativity_score E inp ∧
      compute_harmony_score E inp + compute_progression_score inp +
      compute_melody_score E inp + compute_rhythm_score E inp +
      compute_structure_score E inp + compute_timbre_score E inp +
      compute_creativity_score E inp ≤ 700 := by
    constructor <;> omega
  obtain ⟨n, hn⟩ := Int.eq_ofNat_of_zero_le hsum.1
  have hn700 : n < 701 := by omega
  have hmean := c_round_b64r_mean7 ⟨n, hn700⟩
  simp only at hmean
  have hmain2 : (compute_genius_rating E inp genre).overall_score
      = max 0 ((2 * (compute_harmony_score E inp + compute_progression_score inp +
          compute_melody_score E inp + compute_rhythm_score E inp +
          compute_structure_score E inp + compute_timbre_score E inp +
          compute_creativity_score E inp) + 7) / 14 - compute_penalties inp) := by
    rw [main, hW, qn, qd, hn]
    push_cast
    rw [hmean]
  refine ⟨hW, ?_, hmain2⟩
  rw [hmain2, ← c_round_mean7 _ hsum.1]
  push_cast
  rfl

/-- C4, non-vacuity: selector value 9 names no profile, and on the all-zero
record it gives the rounded mean of the category scores minus the penalty. -/
theorem C4_overall_score_witness :
    ((9 : GeniusGenre) ≠ GENIUS_GENRE_RAP ∧ (9 : GeniusGenre) ≠ GENIUS_GENRE_VGM ∧
      (9 : GeniusGenre) ≠ GENIUS_GENRE_POP ∧ (9 : GeniusGenre) ≠ GENIUS_GENRE_EXPERIMENTAL ∧
      (9 : GeniusGenre) ≠ GENIUS_GENRE_PHONK) ∧
    select_weights 9 = GENIUS_DEFAULT_WEIGHTS :=
  ⟨by decide, ((C4_overall_score_formula exp_model {} 9).2.2 (by decide)).1⟩

theorem penalty_thresholds :
    b64r (99 / 100) = 4458563631096791 / 4503599627370496 ∧
    b64r (5 / 100) = 3602879701896397 / 72057594037927936 ∧
    b64r (3 / 10) = 5404319552844595 / 18014398509481984 := by
  decide!

/-- C5: the penalty is `10*[peak >= 0.99 and dynamic range < 3] +
5*[|dc_offset| > 0.05] + 7*[tempo_confidence < 0.3] + 8*[melody not valid] +
5*[production not valid]`, the thresholds being the doubles that the literals
`0.99`, `0.05` and `0.3` denote; it lies between 0 and 35; and the five
conditions are independent: every combination of their truth values is met by
a record. -/
theorem C5_penalties_formula (inp : GeniusInputs) :
    compute_penalties inp
      = (if Dbl.ge inp.peak (Dbl.fin (b64r (99 / 100)))
            && Dbl.lt inp.psy.dynamic_range (Dbl.fin 3)
          then 10 else 0)
        + (if Dbl.gt (Dbl.fabs inp.dc_offset) (Dbl.fin (b64r (5 / 100))) then 5 else 0)
        + (if Dbl.lt inp.rhythm.tempo_confidence (Dbl.fin (b64r (3 / 10))) then 7 else 0)
        + (if inp.melody_valid = 0 then 8 else 0)
        + (if inp.prod_valid = 0 then 5 else 0) ∧
    (b64r (99 / 100) = 4458563631096791 / 4503599627370496 ∧
      b64r (5 / 100) = 3602879701896397 / 72057594037927936 ∧
      b64r (3 / 10) = 5404319552844595 / 18014398509481984) ∧
    0 ≤ compute_penalties inp ∧ compute_penalties inp ≤ 35 ∧
    (∀ b1 b2 b3 b4 b5 : Bool, ∃ r : GeniusInputs,
      (Dbl.ge r.peak (Dbl.fin (b64r (99 / 100)))
        && Dbl.lt r.psy.dynamic_range (Dbl.fin 3)) = b1 ∧
      Dbl.gt (Dbl.fabs r.dc_offset) (Dbl.fin (b64r (5 / 100))) = b2 ∧
      Dbl.lt r.rhythm.tempo_confidence (Dbl.fin (b64r (3 / 10))) = b3 ∧
      decide (r.melody_valid = 0) = b4 ∧
      decide (r.prod_valid = 0) = b5 ∧
      compute_penalties r
        = (if b1 then 10 else 0) + (if b2 then 5 else 0) + (if b3 then 7 else 0)
          + (if b4 then 8 else 0) + (if b5 then 5 else 0)) := by
  have formula : ∀ r : GeniusInputs, compute_penalties r
      = (if Dbl.ge r.peak (Dbl.fin (b64r (99 / 100)))
            && Dbl.lt r.psy.dynamic_range (Dbl.fin 3)
          then 10 else 0)
        + (if Dbl.gt (Dbl.fabs r.dc_offset) (Dbl.fin (b64r (5 / 100))) then 5 else 0)
        + (if Dbl.lt r.rhythm.tempo_confidence (Dbl.fin (b64r (3 / 10))) then 7 else 0)
        + (if r.melody_valid = 0 then 8 else 0)
        + (if r.prod_valid = 0 then 5 else 0) := by
    intro r
    unfold compute_penalties
    simp only
    split_ifs <;> rfl
  obtain ⟨t1, t2, t3⟩ := penalty_thresholds
  refine ⟨formula inp, ⟨t1, t2, t3⟩, ?_, ?_, ?_⟩
  · rw [formula inp]
    split_ifs <;> decide
  · rw [formula inp]
    split_ifs <;> decide
  · intro b1 b2 b3 b4 b5
    refine ⟨{ peak := if b1 then Dbl.fin 1 else Dbl.fin 0,
              dc_offset := if b2 then Dbl.fin 1 else Dbl.fin 0,
              rhythm := { tempo_confidence := if b3 then Dbl.fin 0 else Dbl.fin 1 },
              melody_valid := if b4 then 0 else 1,
              prod_valid := if b5 then 0 else 1 }, ?_⟩
    rw [formula, t1, t2, t3]
    cases b1 <;> cases b2 <;> cases b3 <;> cases b4 <;> cases b5 <;>
      norm_num [Dbl.ge, Dbl.le, Dbl.lt, Dbl.gt, Dbl.fabs]

/-- C8: whatever the other features are, `melody_score` and `creativity_score`
are 50 when `melody_valid` is false, and `structure_score` is 50 when
`structure_valid` is false or the record has no section. -/
theorem C8_invalid_modules_score_50 (E : ℚ → ℚ) (inp : GeniusInputs) (genre : GeniusGenre) :
    (inp.melody_valid = 0 →
      (compute_genius_rating E inp genre).melody_score = 50 ∧ (compute_genius_rating E inp genre).creativity_score = 50) ∧
    (inp.structure_valid = 0 ∨ inp.structure_.section_count = 0 →
      (compute_genius_rating E inp genre).structure_score = 50) := by
  rw [result_melody_score, result_creativity_score, result_structure_score]
  refine ⟨?_, ?_⟩
  · intro h
    simp [compute_melody_score, compute_creativity_score, h]
  · intro h
    simp only [compute_structure_score, if_pos h]

/-- C8 on the all-zero record, where both flags are false and there is no
section. -/
theorem C8_invalid_modules_witness :
    (compute_genius_rating exp_model {} GENIUS_GENRE_POP).melody_score = 50 ∧
    (compute_genius_rating exp_model {} GENIUS_GENRE_POP).creativity_score = 50 ∧
    (compute_genius_rating exp_model {} GENIUS_GENRE_POP).structure_score = 50 :=
  ⟨((C8_invalid_modules_score_50 exp_model {} GENIUS_GENRE_POP).1 rfl).1,
    ((C8_invalid_modules_score_50 exp_model {} GENIUS_GENRE_POP).1 rfl).2,
    (C8_invalid_modules_score_50 exp_model {} GENIUS_GENRE_POP).2 (Or.inl rfl)⟩

theorem fill_explanations_counts (out : GeniusResult) (penalty : Int) :
    (fill_explanations out penalty).pos_count
      = (if out.melody_score ≥ 85 then 1 else 0)
        + (if out.creativity_score ≥ 85 then 1 else 0)
        + (if out.emotion_score ≥ 85 then 1 else 0)
        + (if out.originality_score ≥ 80 then 1 else 0) ∧
    (fill_explanations out penalty).neg_count
      = (if penalty > 0 then 1 else 0)
        + (if out.timbre_score < 60 then 1 else 0)
        + (if out.rhythm_score < 60 then 1 else 0)
        + (if out.structure_score < 50 then 1 else 0) ∧
    ((fill_explanations out penalty).positives.length : Int)
      = (fill_explanations out penalty).pos_count ∧
    ((fill_explanations out penalty).negatives.length : Int)
      = (fill_explanations out penalty).neg_count := by
  simp only [fill_explanations, add_positive_eq, add_negative_eq, GENIUS_MAX_EXPLAIN]
  refine ⟨?_, ?_, ?_, ?_⟩
  · by_cases h1 : out.melody_score ≥ 85 <;> by_cases h2 : out.creativity_score ≥ 85 <;>
      by_cases h3 : out.emotion_score ≥ 85 <;> by_cases h4 : out.originality_score ≥ 80 <;>
      simp [h1, h2, h3, h4]
  · by_cases h1 : penalty > 0 <;> by_cases h2 : out.timbre_score < 60 <;>
      by_cases h3 : out.rhythm_score < 60 <;> by_cases h4 : out.structure_score < 50 <;>
      simp [h1, h2, h3, h4]
  · by_cases h1 : out.melody_score ≥ 85 <;> by_cases h2 : out.creativity_score ≥ 85 <;>
      by_cases h3 : out.emotion_score ≥ 85 <;> by_cases h4 : out.originality_score ≥ 80 <;>
      simp [h1, h2, h3, h4]
  · by_cases h1 : penalty > 0 <;> by_cases h2 : out.timbre_score < 60 <;>
      by_cases h3 : out.rhythm_score < 60 <;> by_cases h4 : out.structure_score < 50 <;>
      simp [h1, h2, h3, h4]

/-- C10: `pos_count` is the number of the positive triggers that hold (melody
>= 85, creativity >= 85, emotion >= 85, originality >= 80), `neg_count` the
number of the negative triggers that hold (penalty > 0, timbre < 60, rhythm <
60, structure < 50); each list holds exactly that many texts, at most 4, so
neither exceeds the capacity `GENIUS_MAX_EXPLAIN = 10`. -/
theorem C10_explanation_counts (E : ℚ → ℚ) (inp : GeniusInputs) (genre : GeniusGenre) :
    (compute_genius_rating E inp genre).pos_count
      = (if (compute_genius_rating E inp genre).melody_score ≥ 85 then 1 else 0)
        + (if (compute_genius_rating E inp genre).creativity_score ≥ 85 then 1 else 0)
        + (if (compute_genius_rating E inp genre).emotion_score ≥ 85 then 1 else 0)
        + (if (compute_genius_rating E inp genre).originality_score ≥ 80 then 1 else 0) ∧
    (compute_genius_rating E inp genre).neg_count
      = (if compute_penalties inp > 0 then 1 else 0)
        + (if (compute_genius_rating E inp genre).timbre_score < 60 then 1 else 0)
        + (if (compute_genius_rating E inp genre).rhythm_score < 60 then 1 else 0)
        + (if (compute_genius_rating E inp genre).structure_score < 50 then 1 else 0) ∧
    ((compute_genius_rating E inp genre).positives.length : Int) = (compute_genius_rating E inp genre).pos_count ∧
    ((compute_genius_rating E inp genre).negatives.length : Int) = (compute_genius_rating E inp genre).neg_count ∧
    0 ≤ (compute_genius_rating E inp genre).pos_count ∧ (compute_genius_rating E inp genre).pos_count ≤ 4 ∧
    0 ≤ (compute_genius_rating E inp genre).neg_count ∧ (compute_genius_rating E inp genre).neg_count ≤ 4 ∧
    (compute_genius_rating E inp genre).pos_count ≤ GENIUS_MAX_EXPLAIN ∧ (compute_genius_rating E inp genre).neg_count ≤ GENIUS_MAX_EXPLAIN := by
  rw [result_melody_score, result_creativity_score, result_emotion_score,
    result_originality_score, result_timbre_score, result_rhythm_score,
    result_structure_score]
  have hp : (compute_genius_rating E inp genre).pos_count
      = (if compute_melody_score E inp ≥ 85 then 1 else 0)
        + (if compute_creativity_score E inp ≥ 85 then 1 else 0)
        + (if compute_emotion_score E inp ≥ 85 then 1 else 0)
        + (if compute_originality_score inp ≥ 80 then 1 else 0) :=
    (fill_explanations_counts _ _).1
  have hn : (compute_genius_rating E inp genre).neg_count
      = (if compute_penalties inp > 0 then 1 else 0)
        + (if compute_timbre_score E inp < 60 then 1 else 0)
        + (if compute_rhythm_score E inp < 60 then 1 else 0)
        + (if compute_structure_score E inp < 50 then 1 else 0) :=
    (fill_explanations_counts _ _).2.1
  have hpl : ((compute_genius_rating E inp genre).positives.length : Int) = (compute_genius_rating E inp genre).pos_count :=
    (fill_explanations_counts _ _).2.2.1
  have hnl : ((compute_genius_rating E inp genre).negatives.length : Int) = (compute_genius_rating E inp genre).neg_count :=
    (fill_explanations_counts _ _).2.2.2
  have bp : 0 ≤ (compute_genius_rating E inp genre).pos_count ∧ (compute_genius_rating E inp genre).pos_count ≤ 4 := by
    rw [hp]
    split_ifs <;> decide
  have bn : 0 ≤ (compute_genius_rating E inp genre).neg_count ∧ (compute_genius_rating E inp genre).neg_count ≤ 4 := by
    rw [hn]
    split_ifs <;> decide
  have hcap : GENIUS_MAX_EXPLAIN = 10 := rfl
  refine ⟨hp, hn, hpl, hnl, bp.1, bp.2, bn.1, bn.2, ?_, ?_⟩
  · rw [hcap]; omega
  · rw [hcap]; omega

/-- C11: for the experimental genre the genre-distance score is 80 whatever the
input; for every other selector it is `scale_to_100(|tempo_bpm - c|, 0, 60)`
with `c` = 90 (rap), 110 (vgm), 100 (phonk), 120 (pop, default and the rest),
so it is 0 at the centroid and 100 from 60 BPM away on. -/
theorem C11_genre_distance (inp : GeniusInputs) (genre : GeniusGenre) :
    (genre = GENIUS_GENRE_EXPERIMENTAL → compute_genre_distance_score inp genre = 80) ∧
    (genre ≠ GENIUS_GENRE_EXPERIMENTAL →
      compute_genre_distance_score inp genre
        = scale_to_100
            (Dbl.fabs (Dbl.sub inp.rhythm.tempo_bpm (Dbl.fin (genre_centroid genre)))) 0 60) ∧
    (genre_centroid GENIUS_GENRE_RAP = 90 ∧ genre_centroid GENIUS_GENRE_VGM = 110 ∧
      genre_centroid GENIUS_GENRE_PHONK = 100 ∧ genre_centroid GENIUS_GENRE_POP = 120 ∧
      genre_centroid GENIUS_GENRE_DEFAULT = 120) ∧
    (genre ≠ GENIUS_GENRE_EXPERIMENTAL →
      inp.rhythm.tempo_bpm = Dbl.fin (genre_centroid genre) →
      compute_genre_distance_score inp genre = 0) ∧
    (∀ t : ℚ, genre ≠ GENIUS_GENRE_EXPERIMENTAL → inp.rhythm.tempo_bpm = Dbl.fin t →
      60 ≤ |t - genre_centroid genre| → compute_genre_distance_score inp genre = 100) := by
  have hform : genre ≠ GENIUS_GENRE_EXPERIMENTAL →
      compute_genre_distance_score inp genre
        = scale_to_100
            (Dbl.fabs (Dbl.sub inp.rhythm.tempo_bpm (Dbl.fin (genre_centroid genre)))) 0 60 := by
    intro hg
    unfold compute_genre_distance_score genre_centroid
    simp only [if_neg hg]
    split_ifs <;> first | rfl | (exfalso; linarith)
  refine ⟨?_, hform, ⟨rfl, rfl, rfl, rfl, rfl⟩, ?_, ?_⟩
  · intro hg
    unfold compute_genre_distance_score
    simp only [if_pos hg]
  · intro hg ht
    rw [hform hg, ht]
    have h0 : Dbl.fabs (Dbl.sub (Dbl.fin (genre_centroid genre)) (Dbl.fin (genre_centroid genre)))
        = Dbl.fin 0 := by
      simp [Dbl.fabs, Dbl.sub, Dbl.neg, Dbl.add]
    rw [h0]
    exact scale_to_100_at_min (by norm_num) scale_ok_0_60
  · intro t hg ht hfar
    rw [hform hg, ht]
    have h0 : Dbl.fabs (Dbl.sub (Dbl.fin t) (Dbl.fin (genre_centroid genre)))
        = Dbl.fin |t - genre_centroid genre| := by
      simp [Dbl.fabs, Dbl.sub, Dbl.neg, Dbl.add, sub_eq_add_neg]
    rw [h0]
    exact scale_to_100_ge_max (by norm_num) scale_ok_0_60 (by simpa [Dbl.ge, Dbl.le] using hfar)

/-- C11 at concrete tempi for the rap genre: 90 BPM scores 0, 150 BPM scores
100, and the experimental genre scores 80. -/
theorem C11_genre_distance_witness :
    compute_genre_distance_score { rhythm := { tempo_bpm := Dbl.fin 90 } } GENIUS_GENRE_RAP = 0 ∧
    compute_genre_distance_score { rhythm := { tempo_bpm := Dbl.fin 150 } } GENIUS_GENRE_RAP
      = 100 ∧
    compute_genre_distance_score { rhythm := { tempo_bpm := Dbl.fin 150 } }
      GENIUS_GENRE_EXPERIMENTAL = 80 :=
  ⟨(C11_genre_distance { rhythm := { tempo_bpm := Dbl.fin 90 } } GENIUS_GENRE_RAP).2.2.2.1
      (by decide) rfl,
    (C11_genre_distance { rhythm := { tempo_bpm := Dbl.fin 150 } } GENIUS_GENRE_RAP).2.2.2.2
      150 (by decide) rfl (by norm_num [genre_centroid, GENIUS_GENRE_RAP]),
    (C11_genre_distance { rhythm := { tempo_bpm := Dbl.fin 150 } }
      GENIUS_GENRE_EXPERIMENTAL).1 rfl⟩

/-- C13, as stated, fails for the empty signal: `compute_num_frames(0, 1024,
512)` is 0, not 1. -/
theorem C13_num_frames_counterexample :
    (0 : Nat) ≤ 1024 ∧ compute_num_frames 0 1024 512 ≠ 1 := by
  decide

/-- C13 (amended): for every signal length `L >= 1`, window `W > 0` and hop
`H > 0`, `compute_num_frames(L, W, H)` is 1 if `L <= W` and `1 + floor((L -
W) / H)` otherwise; for `L = 0` it is 0. -/
theorem C13_num_frames (L W H : Nat) (hL : 1 ≤ L) (hW : 0 < W) (hH : 0 < H) :
    compute_num_frames L W H = (if L ≤ W then 1 else 1 + (L - W) / H) ∧
    ((compute_num_frames L W H : ℚ)
      = if L ≤ W then 1 else 1 + ⌊((L : ℚ) - W) / H⌋) ∧
    compute_num_frames 0 W H = 0 := by
  have h0 : L ≠ 0 := by omega
  refine ⟨by simp [compute_num_frames, h0], ?_, by simp [compute_num_frames]⟩
  unfold compute_num_frames
  rw [if_neg h0]
  split_ifs with h
  · simp
  · have hle : W ≤ L := by omega
    have hcast : ((L : ℚ) - W) = ((L - W : Nat) : ℚ) := by
      rw [Nat.cast_sub hle]
    rw [hcast, Rat.floor_natCast_div_natCast]
    push_cast
    rfl

/-- C13 (amended) on a 3000-sample signal with window 1024 and hop 512: four
frames. -/
theorem C13_num_frames_witness :
    1 ≤ 3000 ∧ 0 < 1024 ∧ 0 < 512 ∧ compute_num_frames 3000 1024 512 = 4 := by
  refine ⟨by decide, by decide, by decide, ?_⟩
  rw [(C13_num_frames 3000 1024 512 (by decide) (by decide) (by decide)).1]
  decide

/-! ## Loops -/

theorem sum_loop_succ (N : Nat) (f : Nat → ℚ) : sum_loop (N + 1) f = sum_loop N f + f N := by
  simp [sum_loop, List.range_succ, List.foldl_append]

theorem sum_loop_eq_sum (N : Nat) (f : Nat → ℚ) :
    sum_loop N f = ∑ n in Finset.range N, f n := by
  induction N with
  | zero => simp [sum_loop]
  | succ N ih => rw [sum_loop_succ, ih, Finset.sum_range_succ]

theorem sum_loop_zero (N : Nat) (f : Nat → ℚ) (h : ∀ n, n < N → f n = 0) :
    sum_loop N f = 0 := by
  rw [sum_loop_eq_sum]
  apply Finset.sum_eq_zero
  intro n hn
  exact h n (Finset.mem_range.mp hn)

theorem sum_loop_const (N : Nat) (c : ℚ) : sum_loop N (fun _ => c) = (N : ℚ) * c := by
  rw [sum_loop_eq_sum]
  simp

theorem sum_loop_congr (N : Nat) (f g : Nat → ℚ) (h : ∀ n, n < N → f n = g n) :
    sum_loop N f = sum_loop N g := by
  rw [sum_loop_eq_sum, sum_loop_eq_sum]
  apply Finset.sum_congr rfl
  intro n hn
  exact h n (Finset.mem_range.mp hn)

/-! ## The FFT of the zero signal -/

theorem cpx_swap_zero (i j : Nat) : cpx_swap cpx_zero i j = cpx_zero := by
  funext p
  simp only [cpx_swap, cpx_zero, Function.update_apply]
  split_ifs <;> rfl

theorem bit_reverse_loop_zero (n fuel i j : Nat) :
    bit_reverse_loop n fuel i j cpx_zero = cpx_zero := by
  induction fuel generalizing i j with
  | zero => rfl
  | succ fuel ih =>
    simp only [bit_reverse_loop, cpx_swap_zero, ite_self]
    exact ih _ _

theorem fft_butterflies_zero (wm : Cpx ℚ) (k m fuel j : Nat) (w : Cpx ℚ) :
    fft_butterflies wm k m fuel j w cpx_zero = cpx_zero := by
  induction fuel generalizing j w with
  | zero => rfl
  | succ fuel ih =>
    have h : (Function.update
        (Function.update cpx_zero (k + j) ({ r := 0, i := 0 } : Cpx ℚ))
        (k + j + m / 2) ({ r := 0, i := 0 } : Cpx ℚ)) = cpx_zero := by
      funext p
      simp only [cpx_zero, Function.update_apply]
      split_ifs <;> rfl
    simp only [fft_butterflies]
    have e : ∀ p, cpx_zero p = ({ r := 0, i := 0 } : Cpx ℚ) := fun _ => rfl
    simp only [e, mul_zero, sub_zero, add_zero]
    rw [h]
    exact ih _ _

theorem fft_blocks_zero (wm : Cpx ℚ) (n m fuel k : Nat) :
    fft_blocks wm n m fuel k cpx_zero = cpx_zero := by
  induction fuel generalizing k with
  | zero => rfl
  | succ fuel ih =>
    simp only [fft_blocks, fft_butterflies_zero]
    split_ifs
    · exact ih _
    · rfl

theorem fft_stages_zero (tw : Nat → Cpx ℚ) (n fuel s : Nat) :
    fft_stages tw n fuel s cpx_zero = cpx_zero := by
  induction fuel generalizing s with
  | zero => rfl
  | succ fuel ih =>
    simp only [fft_stages, fft_blocks_zero]
    split_ifs
    · exact ih _
    · rfl

theorem fft_zero (tw : Nat → Cpx ℚ) (n : Nat) : fft tw cpx_zero n = cpx_zero := by
  simp only [fft, bit_reverse, bit_reverse_loop_zero, fft_stages_zero]

/-! ## Spectral features: frame counting -/

theorem num_frames_index_valid (frames fi : Nat) (h : 1024 ≤ frames)
    (hfi : fi < compute_num_frames frames 1024 512) : fi * 512 + 1024 ≤ frames := by
  unfold compute_num_frames at hfi
  have h0 : frames ≠ 0 := by omega
  rw [if_neg h0] at hfi
  split_ifs at hfi with h1
  · omega
  · have := Nat.div_mul_le_self (frames - 1024) 512
    omega

theorem spectral_frame_loop_count (M : Libm) (weights mono : Nat → ℚ) (frames : Nat) (sr : Int)
    (fuel fi : Nat) (acc : SpectralAcc)
    (h : ∀ j, j < fuel → (fi + j) * 512 + 1024 ≤ frames) :
    (spectral_frame_loop M weights mono frames sr fuel fi acc).n_frames
      = acc.n_frames + fuel := by
  induction fuel generalizing fi acc with
  | zero => rfl
  | succ fuel ih =>
    have h0 := h 0 (by omega)
    have hlt : ¬ (fi * 512 + 1024 > frames) := by
      simp only [add_zero] at h0
      omega
    simp only [spectral_frame_loop, if_neg hlt]
    rw [ih]
    · simp only
      omega
    · intro j hj
      have := h (j + 1) (by omega)
      have e : fi + (j + 1) = fi + 1 + j := by omega
      rw [e] at this
      exact this

theorem spectral_frame_loop_short (M : Libm) (weights mono : Nat → ℚ) (frames : Nat) (sr : Int)
    (fuel : Nat) (acc : SpectralAcc) (h : frames < 1024) :
    spectral_frame_loop M weights mono frames sr fuel 0 acc = acc := by
  cases fuel with
  | zero => rfl
  | succ fuel =>
    have hlt : 0 * 512 + 1024 > frames := by omega
    simp only [spectral_frame_loop, if_pos hlt]

theorem mel_filterbank_granted (M : Libm) (A : Nat → Bool) (hA : ∀ n, A n = true)
    (sr n_fft n_filters : Int) (fmin fmax : ℚ) :
    mel_filterbank M A sr n_fft n_filters fmin fmax
      = some (for_int 1 (n_filters + 1)
          (fun m w => mel_filter M sr n_fft n_filters fmin fmax m w) (fun _ => 0)) := by
  simp [mel_filterbank, hA]

/-- C14: for a non-empty signal, a positive sample rate and granted
allocations, `compute_spectral_features` fails exactly when the signal has
fewer than 1024 samples; otherwise every frame index below
`compute_num_frames(frames, 1024, 512)` satisfies `fi * 512 + 1024 <= frames`
and the frame loop analyses all of them. -/
theorem C14_spectral_fails_iff_short (M : Libm) (A : Nat → Bool) (mono : Nat → ℚ)
    (frames : Nat) (sr : Int) (hf : frames ≠ 0) (hsr : 0 < sr) (hA : ∀ n, A n = true) :
    ((∃ e, compute_spectral_features M A mono frames sr = Except.error e) ↔ frames < 1024) ∧
    (1024 ≤ frames →
      (∀ fi, fi < compute_num_frames frames 1024 512 → fi * 512 + 1024 ≤ frames) ∧
      ∀ weights acc,
        (spectral_frame_loop M weights mono frames sr
            (compute_num_frames frames 1024 512) 0 acc).n_frames
          = acc.n_frames + compute_num_frames frames 1024 512) := by
  have hsr0 : ¬ sr ≤ 0 := by omega
  have hguard : ¬ (frames = 0 ∨ sr ≤ 0) := by
    intro h
    rcases h with h | h
    · exact hf h
    · exact hsr0 h
  have hcount : 1024 ≤ frames → ∀ weights acc,
      (spectral_frame_loop M weights mono frames sr
          (compute_num_frames frames 1024 512) 0 acc).n_frames
        = acc.n_frames + compute_num_frames frames 1024 512 := by
    intro h weights acc
    apply spectral_frame_loop_count
    intro j hj
    rw [Nat.zero_add]
    exact num_frames_index_valid frames j h hj
  refine ⟨?_, fun h => ⟨fun fi hfi => num_frames_index_valid frames fi h hfi, hcount h⟩⟩
  unfold compute_spectral_features
  rw [if_neg hguard, mel_filterbank_granted M A hA]
  simp only
  by_cases hshort : frames < 1024
  · rw [spectral_frame_loop_short M _ mono frames sr _ _ hshort]
    simp [hshort]
  · have hlong : 1024 ≤ frames := by omega
    have hn := hcount hlong
      (for_int 1 (26 + 1) (fun m w => mel_filter M sr 1024 26 0 ((sr : ℚ) / 2) m w)
        (fun _ => 0)) {}
    have hpos : 0 < compute_num_frames frames 1024 512 := by
      unfold compute_num_frames
      rw [if_neg hf]
      split_ifs <;> omega
    have hne : (spectral_frame_loop M
        (for_int 1 (26 + 1) (fun m w => mel_filter M sr 1024 26 0 ((sr : ℚ) / 2) m w)
          (fun _ => 0)) mono frames sr (compute_num_frames frames 1024 512) 0 {}).n_frames
        ≠ 0 := by
      rw [hn]
      simp only
      omega
    rw [if_neg hne]
    simp [hshort]

/-- C14 on a 1024-sample signal: the single frame is analysed and the call
succeeds; on a 1023-sample signal it fails. -/
theorem C14_spectral_witness :
    (¬ ∃ e, compute_spectral_features libm_model (fun _ => true) (fun _ => 0) 1024 44100
      = Except.error e) ∧
    (∃ e, compute_spectral_features libm_model (fun _ => true) (fun _ => 0) 1023 44100
      = Except.error e) := by
  have h1 := (C14_spectral_fails_iff_short libm_model (fun _ => true) (fun _ => 0) 1024 44100
    (by decide) (by decide) (fun _ => rfl)).1
  have h2 := (C14_spectral_fails_iff_short libm_model (fun _ => true) (fun _ => 0) 1023 44100
    (by decide) (by decide) (fun _ => rfl)).1
  exact ⟨fun h => absurd (h1.mp h) (by decide), h2.mpr (by decide)⟩

/-! ## Spectral features of a silent signal -/

theorem frame_magnitude_silent (M : Libm) (mono : Nat → ℚ) (frames offset : Nat)
    (hz : ∀ i, i < frames → mono i = 0) (hs : M.sqrt 0 = 0) (ho : offset + 1024 ≤ frames)
    (k : Nat) : frame_magnitude M mono 1024 offset k = 0 := by
  have hX : (fun i => if i < 1024
      then ({ r := mono (offset + i) * hann M 1024 i, i := 0 } : Cpx ℚ)
      else { r := 0, i := 0 }) = cpx_zero := by
    funext i
    by_cases hi : i < 1024
    · have : mono (offset + i) = 0 := hz _ (by omega)
      simp [hi, this, cpx_zero]
    · simp [hi, cpx_zero]
  simp only [frame_magnitude, hX, fft_zero, cpx_zero, mul_zero, add_zero, hs]

theorem bin_power_zero (k : Nat) : bin_power (fun _ => 0) k = 0 := by
  unfold bin_power
  rw [mul_zero, b64r_zero]

theorem bin_frequency_zero (nfft sr : Int) : bin_frequency nfft sr 0 = 0 := by
  unfold bin_frequency
  rw [Nat.cast_zero, zero_mul, b64r_zero, zero_div, b64r_zero]

theorem rolloff_scan_zero (nfft sr : Int) (fuel : Nat) :
    rolloff_scan (fun _ => 0) nfft sr 0 (fuel + 1) 0 0 = 0 := by
  unfold rolloff_scan
  simp only [bin_power_zero, add_zero, b64r_zero, ge_iff_le, le_refl, if_true,
    bin_frequency_zero]

theorem sum_loop_zero_fun (N : Nat) : sum_loop N (fun _ => (0 : ℚ)) = 0 :=
  sum_loop_zero _ _ (fun _ _ => rfl)

theorem sum_loop64_succ (n : Nat) (f : Nat → ℚ) :
    sum_loop64 (n + 1) f = b64r (sum_loop64 n f + f n) := by
  unfold sum_loop64
  rw [List.range_succ, List.foldl_append]
  rfl

theorem sum_loop64_nonneg (n : Nat) (f : Nat → ℚ) (h : ∀ k, 0 ≤ f k) : 0 ≤ sum_loop64 n f := by
  induction n with
  | zero => exact le_refl _
  | succ n ih =>
    rw [sum_loop64_succ]
    exact b64r_nonneg (add_nonneg ih (h n))

theorem sum_loop64_rep (n : Nat) (f : Nat → ℚ) : b64r (sum_loop64 n f) = sum_loop64 n f := by
  cases n with
  | zero => exact b64r_zero
  | succ n =>
    rw [sum_loop64_succ]
    exact b64r_idem _

theorem sum_loop64_zero (N : Nat) (f : Nat → ℚ) (hf : ∀ k, f k = 0) : sum_loop64 N f = 0 := by
  unfold sum_loop64
  induction N with
  | zero => rfl
  | succ n ih =>
    rw [List.range_succ, List.foldl_append, ih]
    show b64r (0 + f n) = 0
    rw [hf, add_zero, b64r_zero]

theorem bright_loop_zero (nfft sr : Int) (N : Nat) :
    (List.range N).foldl
      (fun acc k => if bin_frequency nfft sr k ≥ 1500 then b64r (acc + bin_power (fun _ => 0) k)
        else acc) (0 : ℚ) = 0 := by
  induction N with
  | zero => rfl
  | succ n ih =>
    rw [List.range_succ, List.foldl_append, ih]
    show (if bin_frequency nfft sr n ≥ 1500 then b64r (0 + bin_power (fun _ => 0) n) else 0) = 0
    rw [bin_power_zero, add_zero, b64r_zero, ite_self]

theorem spectral_features_from_frame_zero (sr : Int) :
    spectral_features_from_frame (fun _ => 0) 1024 sr = (0, 0, 0) := by
  have hn : ((1024 : Int) / 2 + 1).toNat = 512 + 1 := by decide
  have hr := rolloff_scan_zero 1024 sr 512
  have he : sum_loop64 (512 + 1) (bin_power (fun _ => 0)) = 0 :=
    sum_loop64_zero _ _ bin_power_zero
  have hp : ¬ ((0 : ℚ) > b64r (1 / 1000000000000)) :=
    not_lt.mpr (b64r_nonneg (by norm_num))
  unfold spectral_features_from_frame
  simp only [hn, he, mul_zero, b64r_zero, hr, if_neg hp, bright_loop_zero]

theorem frame_mfcc_zero (M : Libm) (weights : Nat → ℚ) (i : Nat) :
    frame_mfcc M weights (fun _ => 0) 513 26 i
      = dct M (fun _ => M.log (1 / 1000000000)) 26 i := by
  have e : ∀ m : Nat,
      sum_loop 513 (fun k => (0 : ℚ) * 0 * weights (m * 513 + k)) = 0 :=
    fun m => sum_loop_zero _ _ (fun _ _ => by simp)
  simp only [frame_mfcc, e, zero_add]

theorem spectral_frame_loop_silent (M : Libm) (weights mono : Nat → ℚ) (frames : Nat) (sr : Int)
    (hz : ∀ i, i < frames → mono i = 0) (hs : M.sqrt 0 = 0)
    (fuel fi : Nat) (acc : SpectralAcc)
    (h : ∀ j, j < fuel → (fi + j) * 512 + 1024 ≤ frames) :
    spectral_frame_loop M weights mono frames sr fuel fi acc
      = { centroid_sum := acc.centroid_sum,
          rolloff_sum := acc.rolloff_sum,
          bright_sum := acc.bright_sum,
          mfcc_acc := fun i =>
            acc.mfcc_acc i + (fuel : ℚ) * dct M (fun _ => M.log (1 / 1000000000)) 26 i,
          n_frames := acc.n_frames + fuel } := by
  induction fuel generalizing fi acc with
  | zero => simp [spectral_frame_loop]
  | succ fuel ih =>
    have h0 := h 0 (by omega)
    simp only [add_zero] at h0
    have hlt : ¬ (fi * 512 + 1024 > frames) := by omega
    have hmag : frame_magnitude M mono 1024 (fi * 512) = fun _ => 0 := by
      funext k
      exact frame_magnitude_silent M mono frames (fi * 512) hz hs h0 k
    simp only [spectral_frame_loop, if_neg hlt, hmag, spectral_features_from_frame_zero,
      frame_mfcc_zero, add_zero]
    rw [ih]
    · congr 1
      · funext i
        push_cast
        ring
      · dsimp only
        omega
    · intro j hj
      have := h (j + 1) (by omega)
      have e : fi + (j + 1) = fi + 1 + j := by omega
      rw [e] at this
      exact this

theorem dct_const_zero (M : Libm) (hc : M.cos 0 = 1) (c : ℚ) :
    dct M (fun _ => c) 26 0 = 26 * c := by
  have : ∀ n : Nat, c * M.cos (M_PI / ((26 : Nat) : ℚ) * ((n : ℚ) + 1 / 2) * ((0 : Nat) : ℚ))
      = c := by
    intro n
    simp [hc]
  simp only [dct, this, sum_loop_const]
  norm_num

theorem silent_spectral_features (M : Libm) (A : Nat → Bool) (mono : Nat → ℚ) (frames : Nat)
    (sr : Int) (hz : ∀ i, i < frames → mono i = 0) (hlen : 1024 ≤ frames) (hsr : 0 < sr)
    (hA : ∀ n, A n = true) (hs : M.sqrt 0 = 0) :
    ∃ feat, compute_spectral_features M A mono frames sr = Except.ok feat ∧
      feat.centroid = Dbl.fin 0 ∧ feat.rolloff = Dbl.fin 0 ∧ feat.brightness = Dbl.fin 0 ∧
      feat.mfcc.length = 13 ∧
      (∀ k, k < 13 → feat.mfcc.getD k (Dbl.fin 0)
        = Dbl.fin (sum_loop 26 (fun n =>
            M.log (1 / 1000000000) * M.cos (M_PI / 26 * ((n : ℚ) + 1 / 2) * (k : ℚ))))) ∧
      (M.cos 0 = 1 → feat.mfcc.getD 0 (Dbl.fin 0) = Dbl.fin (26 * M.log (1 / 1000000000))) := by
  have hf : frames ≠ 0 := by omega
  have hguard : ¬ (frames = 0 ∨ sr ≤ 0) := by
    intro h
    rcases h with h | h
    · exact hf h
    · omega
  have hpos : 0 < compute_num_frames frames 1024 512 := by
    unfold compute_num_frames
    rw [if_neg hf]
    split_ifs <;> omega
  have hloop := fun weights => spectral_frame_loop_silent M weights mono frames sr hz hs
    (compute_num_frames frames 1024 512) 0 {}
    (fun j hj => by
      rw [Nat.zero_add]
      exact num_frames_index_valid frames j hlen hj)
  have hne : ¬ (0 + compute_num_frames frames 1024 512 = 0) := by omega
  have hq : ((0 + compute_num_frames frames 1024 512 : Nat) : ℚ) ≠ 0 := by
    exact_mod_cast hne
  have hcast : ((compute_num_frames frames 1024 512 : Nat) : ℚ) ≠ 0 := by
    simpa using hq
  have hmf : ∀ k, k < 13 →
      ((List.range FEATURE_MFCC_COUNT).map (fun i => Dbl.fin
        ((0 + ((compute_num_frames frames 1024 512 : Nat) : ℚ)
            * dct M (fun _ => M.log (1 / 1000000000)) 26 i)
          / ((0 + compute_num_frames frames 1024 512 : Nat) : ℚ)))).getD k (Dbl.fin 0)
      = Dbl.fin (dct M (fun _ => M.log (1 / 1000000000)) 26 k) := by
    intro k hk
    have hk' : k < FEATURE_MFCC_COUNT := hk
    rw [List.getD_eq_getElem _ _ (by simpa using hk')]
    simp only [List.getElem_map, List.getElem_range, zero_add]
    congr 1
    field_simp
  unfold compute_spectral_features
  rw [if_neg hguard, mel_filterbank_granted M A hA]
  simp only [hloop, if_neg hne, zero_div]
  refine ⟨_, rfl, rfl, rfl, rfl, by simp [FEATURE_MFCC_COUNT], ?_, ?_⟩
  · intro k hk
    rw [hmf k hk]
    simp only [dct]
    norm_num
  · intro hc
    rw [hmf 0 (by decide), dct_const_zero M hc]

/-- C15 (amended): for an all-silent signal of at least 1024 samples, a positive
sample rate, granted allocations and `sqrt(0) = 0`, `compute_spectral_features`
succeeds with centroid, rolloff and brightness equal to 0, and the averaged
MFCC coefficient `k` equal to the `dct` of the constant log-energy floor
`log(1e-9)`, that is `log(1e-9)` times the sum over the 26 mel bands of
`cos(M_PI / 26 * (n + 0.5) * k)`; coefficient 0 is `26 * log(1e-9)`. -/
theorem C15_silent_spectral (M : Libm) (A : Nat → Bool) (mono : Nat → ℚ) (frames : Nat)
    (sr : Int) (hz : ∀ i, i < frames → mono i = 0) (hlen : 1024 ≤ frames) (hsr : 0 < sr)
    (hA : ∀ n, A n = true) (hs : M.sqrt 0 = 0) :
    ∃ feat, compute_spectral_features M A mono frames sr = Except.ok feat ∧
      feat.centroid = Dbl.fin 0 ∧ feat.rolloff = Dbl.fin 0 ∧ feat.brightness = Dbl.fin 0 ∧
      feat.mfcc.length = 13 ∧
      (∀ k, k < 13 → feat.mfcc.getD k (Dbl.fin 0)
        = Dbl.fin (sum_loop 26 (fun n =>
            M.log (1 / 1000000000) * M.cos (M_PI / 26 * ((n : ℚ) + 1 / 2) * (k : ℚ))))) ∧
      (M.cos 0 = 1 → feat.mfcc.getD 0 (Dbl.fin 0) = Dbl.fin (26 * M.log (1 / 1000000000))) :=
  silent_spectral_features M A mono frames sr hz hlen hsr hA hs

/-- C15 (amended) on 2048 silent samples at 44100 Hz. -/
theorem C15_silent_spectral_witness :
    ∃ feat, compute_spectral_features libm_model (fun _ => true) (fun _ => 0) 2048 44100
        = Except.ok feat ∧
      feat.centroid = Dbl.fin 0 ∧ feat.rolloff = Dbl.fin 0 ∧ feat.brightness = Dbl.fin 0 ∧
      feat.mfcc.getD 0 (Dbl.fin 0) = Dbl.fin (26 * libm_model.log (1 / 1000000000)) := by
  obtain ⟨feat, h1, h2, h3, h4, _, _, h7⟩ :=
    C15_silent_spectral libm_model (fun _ => true) (fun _ => 0) 2048 44100
      (fun _ _ => rfl) (by decide) (by decide) (fun _ => rfl) (by decide!)
  exact ⟨feat, h1, h2, h3, h4, h7 (by decide!)⟩

/-- C15, as stated, fails: on 1024 silent samples at 44100 Hz the call succeeds
and the first averaged MFCC coefficient is `26 * log(1e-9)`, not 0. -/
theorem C15_silent_mfcc_counterexample :
    ∃ feat, compute_spectral_features libm_model (fun _ => true) (fun _ => 0) 1024 44100
        = Except.ok feat ∧
      feat.mfcc.getD 0 (Dbl.fin 0) = Dbl.fin (26 * libm_model.log (1 / 1000000000)) ∧
      feat.mfcc.getD 0 (Dbl.fin 0) ≠ Dbl.fin 0 := by
  obtain ⟨feat, h1, _, _, _, _, _, h7⟩ :=
    silent_spectral_features libm_model (fun _ => true) (fun _ => 0) 1024 44100
      (fun _ _ => rfl) (by decide) (by decide) (fun _ => rfl) (by decide!)
  have h0 := h7 (by decide!)
  refine ⟨feat, h1, h0, ?_⟩
  rw [h0]
  intro h
  injection h with h
  have hl : (26 : ℚ) * libm_model.log (1 / 1000000000) ≠ 0 := by decide!
  exact hl h

/-! ## Rhythm of a silent signal -/

theorem onset_rms_silent (M : Libm) (mono : Nat → ℚ) (frames hop_size : Nat)
    (hz : ∀ i, i < frames → mono i = 0) (hs : M.sqrt 0 = 0) (f : Nat) :
    onset_rms M mono frames hop_size f = 0 := by
  have e : sum_loop hop_size (fun i =>
      if f * hop_size + i < frames then mono (f * hop_size + i) * mono (f * hop_size + i)
      else 0) = 0 := by
    apply sum_loop_zero
    intro i _
    split_ifs with h
    · rw [hz _ h, mul_zero]
    · rfl
  simp only [onset_rms, e, zero_div, hs]

theorem onset_diff_loop_zero (f : Nat) : onset_diff_loop f (fun _ => 0) = fun _ => 0 := by
  induction f with
  | zero => rfl
  | succ f ih =>
    have h : Function.update (fun _ : Nat => (0 : ℚ)) (f + 1) 0 = fun _ => 0 := by
      funext p
      simp [Function.update_apply]
    simp only [onset_diff_loop, sub_self, gt_iff_lt, lt_self_iff_false, if_false, h]
    exact ih

theorem onset_envelope_silent (M : Libm) (A : Nat → Bool) (mono : Nat → ℚ) (frames : Nat)
    (hz : ∀ i, i < frames → mono i = 0) (hs : M.sqrt 0 = 0) (hf : 512 ≤ frames)
    (hA : A (4 * (frames / 512)) = true) :
    compute_onset_envelope_energy M A mono frames 512 = some (fun _ => 0, frames / 512) := by
  have hlt : ¬ frames < 512 := by omega
  have henv : (fun f => if f < frames / 512 then onset_rms M mono frames 512 f else 0)
      = fun _ => (0 : ℚ) := by
    funext f
    simp [onset_rms_silent M mono frames 512 hz hs]
  have hu : Function.update (fun _ : Nat => (0 : ℚ)) 0 0 = fun _ => 0 := by
    funext p
    simp [Function.update_apply]
  simp only [compute_onset_envelope_energy, if_neg hlt, hA, Bool.true_eq_false, if_false, henv,
    onset_diff_loop_zero, hu]

theorem rhythm_silent (M : Libm) (A : Nat → Bool) (mono : Nat → ℚ) (frames : Nat) (sr : Int)
    (hz : ∀ i, i < frames → mono i = 0) (hs : M.sqrt 0 = 0) (hf : 512 ≤ frames)
    (hsr : 0 < sr) (hA : A (4 * (frames / 512)) = true) :
    ∃ r, compute_rhythm_features M A mono frames sr = (0, some r) ∧
      r.tempo_bpm = Dbl.fin (estimate_tempo_from_odf (fun _ => 0) (frames / 512) sr 512).1 ∧
      r.tempo_confidence
        = (estimate_tempo_from_odf (fun _ => 0) (frames / 512) sr 512).2 := by
  have hguard : ¬ (frames = 0 ∨ sr ≤ 0) := by
    intro h
    rcases h with h | h <;> omega
  have hlen : ¬ (frames / 512 = 0) := by
    have := Nat.div_pos hf (by decide : 0 < 512)
    omega
  simp only [compute_rhythm_features, if_neg hguard,
    onset_envelope_silent M A mono frames hz hs hf hA, if_neg hlen]
  exact ⟨_, rfl, rfl, rfl⟩

theorem rhythm_short (M : Libm) (A : Nat → Bool) (mono : Nat → ℚ) (frames : Nat) (sr : Int)
    (h0 : frames ≠ 0) (hf : frames < 512) (hsr : 0 < sr) :
    compute_rhythm_features M A mono frames sr = (-2, some {}) := by
  have hguard : ¬ (frames = 0 ∨ sr ≤ 0) := by
    intro h
    rcases h with h | h <;> omega
  simp [compute_rhythm_features, hguard, compute_onset_envelope_energy, hf]

theorem estimate_tempo_silent_54 :
    estimate_tempo_from_odf (fun _ => 0) 54 44100 512 = (165375 / 832, Dbl.fin 1) := by
  decide!

/-- C16 (the code departs from it): on 27648 silent samples at 44100 Hz the
onset envelope has 54 zero frames, every autocorrelation sum is 0 and beats
the initial best value -1, so `compute_rhythm_features` reports the tempo of
the first lag in the 40..200 BPM range (lag 26, about 198.8 BPM) with
confidence 1 instead of tempo 0 and confidence 0. -/
theorem C16_silent_rhythm_tempo :
    ∃ r, compute_rhythm_features libm_model heap_model (fun _ => 0) 27648 44100 = (0, some r) ∧
      r.tempo_bpm = Dbl.fin (165375 / 832) ∧ r.tempo_confidence = Dbl.fin 1 := by
  obtain ⟨r, h1, h2, h3⟩ := rhythm_silent libm_model heap_model (fun _ => 0) 27648 44100
    (fun _ _ => rfl) (by decide!) (by decide) (by decide) (by decide)
  have e : (27648 : Nat) / 512 = 54 := by decide
  rw [e, estimate_tempo_silent_54] at h2 h3
  exact ⟨r, h1, h2, h3⟩

/-! ## Melody of a silent signal -/

theorem yin_cmnd_loop_zero (fuel : Nat) : ∀ (tau : Nat) (cmnd : Nat → ℚ),
    yin_cmnd_loop (fun _ => 0) fuel tau 0 cmnd
      = fun t => if tau ≤ t ∧ t < tau + fuel then 1 else cmnd t := by
  induction fuel with
  | zero =>
    intro tau cmnd
    funext t
    have h : ¬ (tau ≤ t ∧ t < tau + 0) := by omega
    simp only [yin_cmnd_loop, if_neg h]
  | succ fuel ih =>
    intro tau cmnd
    funext t
    simp only [yin_cmnd_loop, add_zero, if_true, ih, Function.update_apply]
    by_cases h1 : tau + 1 ≤ t ∧ t < tau + 1 + fuel
    · have h2 : tau ≤ t ∧ t < tau + (fuel + 1) := by omega
      rw [if_pos h1, if_pos h2]
    · rw [if_neg h1]
      by_cases h3 : t = tau
      · have h2 : tau ≤ t ∧ t < tau + (fuel + 1) := by omega
        rw [if_pos h3, if_pos h2]
      · have h2 : ¬ (tau ≤ t ∧ t < tau + (fuel + 1)) := by omega
        rw [if_neg h3, if_neg h2]

theorem yin_first_dip_none (cmnd : Nat → ℚ) (max_tau : Nat) (fuel : Nat) :
    ∀ tau : Nat, (∀ t, tau ≤ t → t ≤ max_tau → ¬ cmnd t < YIN_THRESHOLD) →
      yin_first_dip cmnd max_tau fuel tau = -1 := by
  induction fuel with
  | zero =>
    intro tau _
    rfl
  | succ fuel ih =>
    intro tau h
    simp only [yin_first_dip]
    split_ifs with h1 h2
    · exact absurd h2 (h tau (le_refl _) h1)
    · exact ih (tau + 1) (fun t ht1 ht2 => h t (by omega) ht2)
    · rfl

theorem yin_global_min_ge (cmnd : Nat → ℚ) (max_tau : Nat) (fuel : Nat) :
    ∀ (tau : Nat) (st : ℚ × Int), (∀ t, tau ≤ t → t ≤ max_tau → 1 ≤ cmnd t) → 1 ≤ st.1 →
      1 ≤ (yin_global_min cmnd max_tau fuel tau st).1 := by
  induction fuel with
  | zero =>
    intro tau st _ hst
    exact hst
  | succ fuel ih =>
    intro tau st h hst
    simp only [yin_global_min]
    split_ifs with h1 h2
    · exact ih (tau + 1) _ (fun t ht1 ht2 => h t (by omega) ht2) (h tau (le_refl _) h1)
    · exact ih (tau + 1) _ (fun t ht1 ht2 => h t (by omega) ht2) hst
    · exact hst

theorem yin_difference_silent (frame : Nat → ℚ) (N : Nat) (hz : ∀ j, j < N → frame j = 0)
    (tau : Nat) : yin_difference frame N tau = 0 := by
  apply sum_loop_zero
  intro j hj
  have h1 : frame j = 0 := hz j (by omega)
  have h2 : frame (j + tau) = 0 := hz (j + tau) (by omega)
  rw [h1, h2, sub_zero, mul_zero]

theorem yin_get_pitch_silent (A : Nat → Bool) (frame : Nat → ℚ) (N : Int) (sr : Int)
    (hz : ∀ j : Nat, (j : Int) < N → frame j = 0) :
    yin_get_pitch A frame N sr YIN_FMIN YIN_FMAX = (0, 0) := by
  by_cases h1 : N < 32
  · simp only [yin_get_pitch, if_pos h1]
  · have hd : ∀ mt : Int, (fun tau : Nat =>
        if 1 ≤ tau ∧ (tau : Int) ≤ mt then yin_difference frame N.toNat tau else 0)
        = fun _ => (0 : ℚ) := by
      intro mt
      funext tau
      have := yin_difference_silent frame N.toNat (fun j hj => hz j (by omega)) tau
      simp [this]
    have hmn : 2 ≤ (if c_trunc ((sr : ℚ) / YIN_FMAX) < 2 then 2
        else c_trunc ((sr : ℚ) / YIN_FMAX)) := by
      split_ifs <;> omega
    simp only [yin_get_pitch, if_neg h1, hd, yin_cmnd_loop_zero]
    generalize (if c_trunc ((sr : ℚ) / YIN_FMAX) < 2 then 2
        else c_trunc ((sr : ℚ) / YIN_FMAX)) = mn at hmn ⊢
    generalize (if c_trunc ((sr : ℚ) / YIN_FMIN) > N - 2 then N - 2
        else c_trunc ((sr : ℚ) / YIN_FMIN)) = mt
    have hmn2 : 2 ≤ mn.toNat := by omega
    by_cases h2 : A (8 * (mt + 1).toNat) = false
    · rw [if_pos h2]
    · rw [if_neg h2]
      have hc : ∀ t, mn.toNat ≤ t → t ≤ mt.toNat →
          (if 1 ≤ t ∧ t < 1 + mt.toNat then (1 : ℚ) else 0) = 1 := by
        intro t ht1 ht2
        have ht : 1 ≤ t ∧ t < 1 + mt.toNat := by omega
        rw [if_pos ht]
      have hdip := yin_first_dip_none
        (fun t => if 1 ≤ t ∧ t < 1 + mt.toNat then (1 : ℚ) else 0) mt.toNat
        (mt + 1 - mn).toNat mn.toNat
        (by
          intro t ht1 ht2
          simp only [hc t ht1 ht2]
          norm_num [YIN_THRESHOLD])
      have hge := yin_global_min_ge
        (fun t => if 1 ≤ t ∧ t < 1 + mt.toNat then (1 : ℚ) else 0) mt.toNat
        (mt + 1 - mn).toNat mn.toNat (1000000000000000000000000000000 ^ 10, -1)
        (by
          intro t ht1 ht2
          simp only [hc t ht1 ht2, le_refl])
        (by norm_num)
      have hgt : (yin_global_min
          (fun t => if 1 ≤ t ∧ t < 1 + mt.toNat then (1 : ℚ) else 0) mt.toNat
          (mt + 1 - mn).toNat mn.toNat (1000000000000000000000000000000 ^ 10, -1)).1
          > 45 / 100 := lt_of_lt_of_le (by norm_num) hge
      rw [if_pos ⟨hdip, hgt⟩]

theorem qsort_double_getD_zero (buf : List ℚ) (h : ∀ x ∈ buf, x = 0) (k : Nat) :
    (qsort_double buf).getD k 0 = 0 := by
  unfold qsort_double
  rw [List.getD_eq_getElem?_getD]
  cases hk : (List.insertionSort (fun x y => x ≤ y) buf)[k]? with
  | none => rfl
  | some v =>
    have hm : v ∈ List.insertionSort (fun x y => x ≤ y) buf := List.getElem?_mem hk
    have hp := (List.perm_insertionSort (fun x y : ℚ => x ≤ y) buf).mem_iff.mp hm
    simp [h v hp]

theorem median_filter_zero (inp : Nat → ℚ) (n : Nat) (hz : ∀ i, i < n → inp i = 0)
    (i : Nat) (hi : i < n) : median_filter inp (n : Int) MEDIAN_WINDOW i = 0 := by
  have hw : ¬ (MEDIAN_WINDOW ≤ 1) := by decide
  have hh : MEDIAN_WINDOW / 2 = 3 := by decide
  simp only [median_filter, if_neg hw, hh]
  apply qsort_double_getD_zero
  intro x hx
  rw [List.mem_map] at hx
  obtain ⟨d, hd, rfl⟩ := hx
  rw [List.mem_range] at hd
  apply hz
  revert hd
  split_ifs <;> intro hd <;> omega

theorem melody_frame_silent (M : Libm) (mono : Nat → ℚ) (frames : Nat)
    (hz : ∀ i, i < frames → mono i = 0) (hf : MELODY_FRAME_SIZE ≤ frames) (i : Nat)
    (hi : i < (frames - MELODY_FRAME_SIZE) / MELODY_HOP + 1) (j : Nat)
    (hj : (j : Int) < (MELODY_FRAME_SIZE : Int)) : melody_frame M mono i j = 0 := by
  have h1 : i * MELODY_HOP ≤ frames - MELODY_FRAME_SIZE := by
    have h2 : i ≤ (frames - MELODY_FRAME_SIZE) / MELODY_HOP := by omega
    exact (Nat.le_div_iff_mul_le (by decide)).mp h2
  have h3 : i * MELODY_HOP + j < frames := by
    have : j < MELODY_FRAME_SIZE := by exact_mod_cast hj
    omega
  simp only [melody_frame, hz _ h3, zero_mul]

theorem melody_silent (M : Libm) (A : Nat → Bool) (mono : Nat → ℚ) (frames : Nat) (sr : Int)
    (hf : frames ≠ 0) (hsr : 0 < sr) (hz : ∀ i, i < frames → mono i = 0)
    (hA : ∀ n, A n = true) :
    compute_melody_features M A mono frames sr = (0, some {}) := by
  have hguard : ¬ (frames = 0 ∨ sr ≤ 0) := by
    intro h
    rcases h with h | h <;> omega
  unfold compute_melody_features
  rw [if_neg hguard]
  by_cases hshort : frames < MELODY_FRAME_SIZE
  · rw [if_pos hshort]
  · rw [if_neg hshort]
    have hlen : MELODY_FRAME_SIZE ≤ frames := by omega
    simp only [hA, Bool.true_eq_false, if_false]
    have hv : (List.range ((frames - MELODY_FRAME_SIZE) / MELODY_HOP + 1)).filter
        (fun i => decide (median_filter (fun i => (yin_get_pitch A (melody_frame M mono i)
          MELODY_FRAME_SIZE sr YIN_FMIN YIN_FMAX).1)
          (((frames - MELODY_FRAME_SIZE) / MELODY_HOP + 1 : Nat) : Int) MEDIAN_WINDOW i > 0 ∧
          (yin_get_pitch A (melody_frame M mono i) MELODY_FRAME_SIZE sr YIN_FMIN YIN_FMAX).2
            ≥ 5 / 100)) = [] := by
      rw [List.filter_eq_nil_iff]
      intro i hi
      rw [List.mem_range] at hi
      have hm := median_filter_zero (fun i => (yin_get_pitch A (melody_frame M mono i)
          MELODY_FRAME_SIZE sr YIN_FMIN YIN_FMAX).1)
          ((frames - MELODY_FRAME_SIZE) / MELODY_HOP + 1)
          (fun k hk => by
            simp only [yin_get_pitch_silent A (melody_frame M mono k) MELODY_FRAME_SIZE sr
              (fun j hj => melody_frame_silent M mono frames hz hlen k hk j hj)])
          i hi
      simp only [hm, gt_iff_lt, lt_self_iff_false, false_and, decide_False,
        Bool.false_eq_true, not_false_eq_true]
    simp only [hv, List.length_nil, Nat.cast_zero, Int.cast_zero, zero_div, if_true]

/-- C17: for every all-zero mono signal of non-zero length and positive sample
rate (every allocation granted), `compute_melody_features` returns 0 and
leaves a record with `f0_confidence` (the voiced-frame fraction) 0 and every
other field 0. -/
theorem C17_silent_melody (M : Libm) (A : Nat → Bool) (mono : Nat → ℚ) (frames : Nat)
    (sr : Int) (hf : frames ≠ 0) (hsr : 0 < sr) (hz : ∀ i, i < frames → mono i = 0)
    (hA : ∀ n, A n = true) :
    ∃ out, compute_melody_features M A mono frames sr = (0, some out) ∧
      out.f0_confidence = Dbl.fin 0 ∧ out.median_f0 = Dbl.fin 0 ∧ out.mean_f0 = Dbl.fin 0 ∧
      out.pitch_range_semitones = Dbl.fin 0 ∧ out.contour_count = 0 ∧
      out.avg_contour_length_sec = Dbl.fin 0 ∧ out.longest_contour_sec = Dbl.fin 0 ∧
      out.avg_interval_semitones = Dbl.fin 0 ∧ out.avg_abs_interval_semitones = Dbl.fin 0 ∧
      out.melodic_entropy = Dbl.fin 0 ∧ out.motif_repetition_rate = Dbl.fin 0 ∧
      out.motif_count = 0 ∧ out.hook_strength = Dbl.fin 0 :=
  ⟨{}, melody_silent M A mono frames sr hf hsr hz hA, rfl, rfl, rfl, rfl, rfl, rfl, rfl, rfl,
    rfl, rfl, rfl, rfl, rfl⟩

/-- Witness of C17: 4096 silent samples at 44100 Hz. -/
theorem C17_silent_melody_witness :
    ∃ out, compute_melody_features libm_model (fun _ => true) (fun _ => 0) 4096 44100
        = (0, some out) ∧
      out.f0_confidence = Dbl.fin 0 ∧ out.median_f0 = Dbl.fin 0 ∧ out.mean_f0 = Dbl.fin 0 ∧
      out.pitch_range_semitones = Dbl.fin 0 ∧ out.contour_count = 0 ∧
      out.avg_contour_length_sec = Dbl.fin 0 ∧ out.longest_contour_sec = Dbl.fin 0 ∧
      out.avg_interval_semitones = Dbl.fin 0 ∧ out.avg_abs_interval_semitones = Dbl.fin 0 ∧
      out.melodic_entropy = Dbl.fin 0 ∧ out.motif_repetition_rate = Dbl.fin 0 ∧
      out.motif_count = 0 ∧ out.hook_strength = Dbl.fin 0 :=
  C17_silent_melody libm_model (fun _ => true) (fun _ => 0) 4096 44100 (by decide) (by decide)
    (fun _ _ => rfl) (fun _ => rfl)

/-! ## Harmony of a silent signal and of a short signal -/

theorem sz_sub_of_le (a b : Nat) (h : b ≤ a) (ha : a < 2 ^ 64) : sz_sub a b = a - b := by
  unfold sz_sub
  have hb : b % 2 ^ 64 = b := Nat.mod_eq_of_lt (by omega)
  rw [hb]
  have e : a + 2 ^ 64 - b = (a - b) + 2 ^ 64 := by omega
  rw [e, Nat.add_mod_right]
  exact Nat.mod_eq_of_lt (by omega)

theorem sz_sub_of_lt (a b : Nat) (h : a < b) (hb : b < 2 ^ 64) :
    sz_sub a b = a + 2 ^ 64 - b := by
  unfold sz_sub
  have hb2 : b % 2 ^ 64 = b := Nat.mod_eq_of_lt hb
  rw [hb2]
  exact Nat.mod_eq_of_lt (by omega)

theorem goertzel_state_zero (coeff : ℚ) (win_size : Nat) :
    goertzel_state (fun _ => 0) coeff win_size = (0, 0) := by
  unfold goertzel_state
  induction win_size with
  | zero => rfl
  | succ k ih =>
    rw [List.range_succ, List.foldl_append, ih]
    simp

theorem goertzel_notes_zero (M : Libm) (win_size : Nat) (ds_rate : Int) (fuel : Nat) :
    ∀ midi : Int,
      goertzel_notes M (fun _ => 0) win_size ds_rate fuel midi (fun _ => 0) = fun _ => 0 := by
  induction fuel with
  | zero =>
    intro midi
    rfl
  | succ fuel ih =>
    intro midi
    have hu : ∀ p : Nat, Function.update (fun _ : Nat => (0 : ℚ)) p 0 = fun _ => 0 := by
      intro p
      funext q
      simp [Function.update_apply]
    simp only [goertzel_notes, goertzel_state_zero, mul_zero, add_zero, sub_self, hu, ih,
      ite_self]

theorem chroma_frame_zero (M : Libm) (win_size hop_size : Nat) (ds_rate : Int) (fi : Nat) :
    chroma_frame M (fun _ => 0) win_size hop_size ds_rate fi = fun _ => 0 := by
  simp only [chroma_frame, zero_mul, goertzel_notes_zero, zero_div, ite_self]

theorem cosine_similarity_zero (M : Libm) (b : Nat → ℚ) :
    cosine_similarity M (fun _ => 0) b = 0 := by
  simp only [cosine_similarity, mul_zero, sum_loop_zero_fun, true_or, if_true]

theorem key_candidate_zero (M : Libm) (mode tonic : Nat) (st : KeyState) :
    key_candidate M (fun _ => 0) mode tonic st
      = if 0 > st.best_sim then
          { best_sim := 0,
            best_name := PC_NAMES.getD tonic "" ++ (if mode = 0 then "" else "m") }
        else st := by
  simp only [key_candidate, mul_zero, sum_loop_zero_fun, gt_iff_lt, lt_self_iff_false,
    false_and, if_false]

theorem detect_key_zero (M : Libm) : detect_key_from_chroma M (fun _ => 0) = ("C", 0) := by
  simp only [detect_key_from_chroma, key_candidate_zero]
  decide!

theorem chord_loop_nonempty (M : Libm) (chroma : Nat → Nat → ℚ) (cf step : Nat) (ht : Dbl)
    (fuel : Nat) : ∀ (f : Nat) (chords : List ChordLabel), chords ≠ [] →
      chord_loop M chroma cf step ht fuel f chords ≠ [] := by
  induction fuel with
  | zero =>
    intro f chords h
    exact h
  | succ fuel ih =>
    intro f chords h
    simp only [chord_loop]
    split_ifs with h1 h2
    · exact ih _ _ (by simp)
    · exact ih _ _ h
    · exact h

theorem chord_best_zero (M : Libm) :
    (List.range 24).foldl
      (fun (st : ℚ × Int) t =>
        let sim := cosine_similarity M (fun _ => 0) (chord_template t)
        if sim > st.1 then (sim, (t : Int)) else st) (-1, -1) = (0, 0) := by
  simp only [cosine_similarity_zero]
  decide!

theorem chord_loop_zero_nonempty (M : Libm) (cf step : Nat) (ht : Dbl) (hcf : 0 < cf) :
    chord_loop M (fun _ _ => 0) cf step ht cf 0 [] ≠ [] := by
  obtain ⟨k, rfl⟩ : ∃ k, cf = k + 1 := ⟨cf - 1, by omega⟩
  simp only [chord_loop, if_pos hcf, chord_best_zero]
  apply chord_loop_nonempty
  simp

theorem harmony_silent (M : Libm) (A : Nat → Bool) (frames : Nat) (sr : Int)
    (hlen : 8192 ≤ frames) (hsz : frames < 2 ^ 64) (hA : ∀ n, n ≤ frames → A n = true) :
    ∃ r, compute_harmony_features M A (fun _ => 0) frames sr = some (0, r) ∧
      r.global_key = "C" ∧ r.key_stability = Dbl.fin 0 ∧ r.chords ≠ [] := by
  have h1 : ¬ frames < 2048 := by omega
  have h4 : ¬ ((4 : Int) < 1) := by decide
  have h4n : (4 : Int).toNat = 4 := rfl
  have hds : 2048 ≤ frames / 4 := by omega
  have hA1 : A (4 * (frames / 4)) = true := hA _ (by omega)
  have hsub : sz_sub (frames / 4) 2048 = frames / 4 - 2048 := sz_sub_of_le _ _ hds (by omega)
  have hnf : ((frames / 4 - 2048) / 1024 + 1) % 2 ^ 64 = (frames / 4 - 2048) / 1024 + 1 :=
    Nat.mod_eq_of_lt (by omega)
  have hnf12 : ((frames / 4 - 2048) / 1024 + 1) * 12 % 2 ^ 64
      = ((frames / 4 - 2048) / 1024 + 1) * 12 := Nat.mod_eq_of_lt (by omega)
  have hA2 : calloc_ok A (((frames / 4 - 2048) / 1024 + 1) * 12) 8 = true := by
    simp only [calloc_ok, Bool.and_eq_true, decide_eq_true_eq]
    exact ⟨by omega, hA _ (by omega)⟩
  have hds2 : ¬ frames / 4 < 2048 := by omega
  have hcg : compute_chroma_goertzel M A (fun _ => 0) frames sr 2048 1024 4
      = some (0, fun _ _ => 0, (frames / 4 - 2048) / 1024 + 1) := by
    simp only [compute_chroma_goertzel, if_neg h1, if_neg h4, h4n, hA1, Bool.true_eq_false,
      if_false, hsub, hnf, hnf12, hA2, if_neg hds2, chroma_frame_zero]
  simp only [compute_harmony_features, hcg, ne_eq, not_true_eq_false, if_false,
    sum_loop_zero_fun, detect_key_zero]
  exact ⟨_, rfl, rfl, rfl, chord_loop_zero_nonempty M _ _ _ (by omega)⟩

/-- C18 (the code departs from it): on 8192 silent samples at 44100 Hz the
chroma frame is all zero, `cosine_similarity` returns 0 for every template,
which beats the initial best similarity -1, so `compute_harmony_features`
returns 0 with global key "C" (stability 0) and a non-empty chord list:
neither the key "unknown" nor a chord-free record. -/
theorem C18_silent_harmony_key_and_chord :
    ∃ r, compute_harmony_features libm_model heap_model (fun _ => 0) 8192 44100 = some (0, r) ∧
      r.global_key = "C" ∧ r.global_key ≠ "unknown" ∧ r.key_stability = Dbl.fin 0 ∧
      r.chords.length ≠ 0 := by
  obtain ⟨r, h1, h2, h3, h4⟩ := harmony_silent libm_model heap_model 8192 44100 (by decide)
    (by decide) (fun n hn => by
      simp only [heap_model, decide_eq_true_eq]
      omega)
  refine ⟨r, h1, h2, ?_, h3, ?_⟩
  · rw [h2]
    decide
  · intro h
    exact h4 (List.length_eq_zero.mp h)

theorem harmony_short (M : Libm) (A : Nat → Bool) (mono : Nat → ℚ) (frames : Nat) (sr : Int)
    (hf : frames < 8192) (hA : ∀ n, 2 ^ 60 ≤ n → A n = false) :
    ∃ rc : Int, rc ≠ 0 ∧ (frames < 2048 → rc = -1) ∧ (2048 ≤ frames → rc = -2 ∨ rc = -3) ∧
      compute_harmony_features M A mono frames sr
        = some (rc, { global_key := "unknown", key_stability := Dbl.fin 0,
                      modulation_count := Dbl.fin 0, harmonic_motion := Dbl.fin 0,
                      tension := Dbl.fin 0, chords := [] }) := by
  have h4 : ¬ ((4 : Int) < 1) := by decide
  have h4n : (4 : Int).toNat = 4 := rfl
  by_cases h1 : frames < 2048
  · refine ⟨-1, by decide, fun _ => rfl, fun h => absurd h1 (by omega), ?_⟩
    simp only [compute_harmony_features, compute_chroma_goertzel, if_pos h1]
    rfl
  · by_cases h2 : A (4 * (frames / 4)) = false
    · refine ⟨-2, by decide, fun h => absurd h h1, fun _ => Or.inl rfl, ?_⟩
      simp only [compute_harmony_features, compute_chroma_goertzel, if_neg h1, if_neg h4, h4n,
        if_pos h2]
      rfl
    · refine ⟨-3, by decide, fun h => absurd h h1, fun _ => Or.inr rfl, ?_⟩
      have hsub : sz_sub (frames / 4) 2048 = frames / 4 + 2 ^ 64 - 2048 :=
        sz_sub_of_lt _ _ (by omega) (by decide)
      have hnf : ((frames / 4 + 2 ^ 64 - 2048) / 1024 + 1) % 2 ^ 64
          = (frames / 4 + 2 ^ 64 - 2048) / 1024 + 1 := Nat.mod_eq_of_lt (by omega)
      have hnf12 : ((frames / 4 + 2 ^ 64 - 2048) / 1024 + 1) * 12 % 2 ^ 64
          = ((frames / 4 + 2 ^ 64 - 2048) / 1024 + 1) * 12 := Nat.mod_eq_of_lt (by omega)
      have hA2 : calloc_ok A (((frames / 4 + 2 ^ 64 - 2048) / 1024 + 1) * 12) 8 = false := by
        simp only [calloc_ok, Bool.and_eq_false_iff]
        exact Or.inr (hA _ (by omega))
      simp only [compute_harmony_features, compute_chroma_goertzel, if_neg h1, if_neg h4, h4n,
        if_neg h2, hsub, hnf, hnf12, hA2, if_true]
      rfl

/-- C20: for every signal of fewer than 8192 samples, with an allocator that
refuses every request of 2^60 bytes or more, `compute_harmony_features`
returns a non-zero code (-1 below 2048 samples, -2 or -3 from there on) and
leaves global key "unknown", zero key stability, modulation count, motion and
tension, and no chords. From 2048 samples on the guard of
`compute_chroma_goertzel` lets the signal through and the result comes from
the refusal of the chroma buffer, whose frame count has wrapped around. -/
theorem C20_short_signal_harmony (M : Libm) (A : Nat → Bool) (mono : Nat → ℚ) (frames : Nat)
    (sr : Int) (hf : frames < 8192) (hA : ∀ n, 2 ^ 60 ≤ n → A n = false) :
    ∃ rc : Int, rc ≠ 0 ∧ (frames < 2048 → rc = -1) ∧ (2048 ≤ frames → rc = -2 ∨ rc = -3) ∧
      compute_harmony_features M A mono frames sr
        = some (rc, { global_key := "unknown", key_stability := Dbl.fin 0,
                      modulation_count := Dbl.fin 0, harmonic_motion := Dbl.fin 0,
                      tension := Dbl.fin 0, chords := [] }) :=
  harmony_short M A mono frames sr hf hA

/-- Witness of C20: 4096 samples of value 1/2 at 44100 Hz. -/
theorem C20_short_signal_harmony_witness :
    (4096 : Nat) < 8192 ∧ (∀ n, 2 ^ 60 ≤ n → heap_model n = false) ∧
    ∃ rc : Int, rc ≠ 0 ∧ ((4096 : Nat) < 2048 → rc = -1) ∧
      ((2048 : Nat) ≤ 4096 → rc = -2 ∨ rc = -3) ∧
      compute_harmony_features libm_model heap_model (fun _ => 1 / 2) 4096 44100
        = some (rc, { global_key := "unknown", key_stability := Dbl.fin 0,
                      modulation_count := Dbl.fin 0, harmonic_motion := Dbl.fin 0,
                      tension := Dbl.fin 0, chords := [] }) :=
  ⟨by decide,
   fun n hn => by
     simp only [heap_model, decide_eq_false_iff_not]
     omega,
   C20_short_signal_harmony libm_model heap_model (fun _ => 1 / 2) 4096 44100 (by decide)
     (fun n hn => by
       simp only [heap_model, decide_eq_false_iff_not]
       omega)⟩

/-! ## Structure of a signal shorter than one novelty hop -/

theorem boundary_loop_empty (novelty : Nat → ℚ) (max_sections fuel : Nat) (st : BoundaryState) :
    boundary_loop novelty 0 max_sections (fuel + 1) 1 st = none := by
  have h1 : 1 < sz_sub 0 1 := by decide
  have h2 : ¬ (1 + 1 < 0) := by decide
  simp only [boundary_loop, if_pos h1, if_neg h2]

theorem structure_short_undefined (M : Libm) (A : Nat → Bool) (mono : Nat → ℚ) (frames : Nat)
    (sr : Int) (hop : Nat) (hsr : 0 < sr)
    (hhop : (if c_trunc (1 / 2 * (sr : ℚ)) ≤ 0 then 512 else c_trunc (1 / 2 * (sr : ℚ))).toNat
      = hop)
    (h1 : 1024 ≤ frames) (h2 : frames < 1024 + hop) (hsz : frames < 2 ^ 64)
    (hA0 : A 0 = true)
    (hA : A (128 * 48) = true) :
    compute_structure_features M A mono frames sr = none := by
  have hguard : ¬ (frames = 0 ∨ sr ≤ 0) := by
    intro h
    rcases h with h | h <;> omega
  have hsub : sz_sub frames 1024 = frames - 1024 := sz_sub_of_le _ _ h1 (by omega)
  have hdiv : (frames - 1024) / hop = 0 := Nat.div_eq_of_lt (by omega)
  have hc : calloc_ok A 0 8 = true := by
    simp only [calloc_ok, zero_mul, hA0, Bool.and_true, decide_eq_true_eq]
    decide
  have hnc : compute_novelty_curve M A mono frames sr (1 / 2)
      = some (0, fun f => novelty_flux M mono hop f, 0) := by
    simp only [compute_novelty_curve, hhop, hsub, hdiv, hc, Bool.true_eq_false, if_false,
      gt_iff_lt, lt_self_iff_false, false_and]
  have hfuel : sz_sub 0 1 = (2 ^ 64 - 2) + 1 := by decide
  simp only [compute_structure_features, if_neg hguard, hnc, ne_eq, not_true_eq_false, if_false,
    hA, Bool.true_eq_false, hfuel, boundary_loop_empty]

/-- C19 (the code departs from it): on 2048 silent samples at 44100 Hz, which
is less than one window plus one 0.5 s hop, the novelty curve has 0 frames,
the bound `n_frames - 1` of the boundary loop wraps around to 2^64 - 1 and the
loop reads `novelty[1]` past the end of the empty curve: the behaviour of
`compute_structure_features` is undefined instead of a normal return with at
most one section. -/
theorem C19_short_structure_out_of_bounds :
    compute_structure_features libm_model heap_model (fun _ => 0) 2048 44100 = none :=
  structure_short_undefined libm_model heap_model (fun _ => 0) 2048 44100 22050 (by decide)
    (by norm_num [c_trunc]; rfl) (by decide) (by decide) (by decide) (by decide) (by decide)

/-! ## Bit reversal -/

theorem bit_rev_lt (u : Nat) : ∀ p, bit_rev u p < 2 ^ u := by
  induction u with
  | zero =>
    intro p
    simp [bit_rev]
  | succ u ih =>
    intro p
    have h1 := ih (p / 2)
    simp only [bit_rev, pow_succ]
    rcases Nat.mod_two_eq_zero_or_one p with h | h <;> rw [h] <;> omega

theorem bit_rev_alt (u : Nat) : ∀ p, p < 2 ^ (u + 1) →
    bit_rev (u + 1) p = 2 * bit_rev u (p % 2 ^ u) + p / 2 ^ u := by
  induction u with
  | zero =>
    intro p hp
    simp only [bit_rev, pow_zero, Nat.mod_one, Nat.div_one]
    omega
  | succ u ih =>
    intro p hp
    have hp2 : p / 2 < 2 ^ (u + 1) := by
      rw [pow_succ] at hp
      omega
    have e1 : bit_rev (u + 2) p = (p % 2) * 2 ^ (u + 1) + bit_rev (u + 1) (p / 2) := rfl
    have e2 : bit_rev (u + 1) (p % 2 ^ (u + 1))
        = (p % 2 ^ (u + 1) % 2) * 2 ^ u + bit_rev u (p % 2 ^ (u + 1) / 2) := rfl
    have f1 : p % 2 ^ (u + 1) % 2 = p % 2 :=
      Nat.mod_mod_of_dvd p (Dvd.intro_left (2 ^ u) rfl)
    have f2 : p % 2 ^ (u + 1) / 2 = p / 2 % 2 ^ u := by
      rw [pow_succ', Nat.mod_mul_right_div_self]
    have f3 : p / 2 / 2 ^ u = p / 2 ^ (u + 1) := by
      rw [Nat.div_div_eq_div_mul, pow_succ']
    rw [e1, ih (p / 2) hp2, e2, f1, f2, f3, pow_succ]
    ring

theorem bit_rev_invol (u : Nat) : ∀ p, p < 2 ^ u → bit_rev u (bit_rev u p) = p := by
  induction u with
  | zero =>
    intro p hp
    simp only [pow_zero] at hp
    simp only [bit_rev]
    omega
  | succ u ih =>
    intro p hp
    have hp2 : p / 2 < 2 ^ u := by
      rw [pow_succ] at hp
      omega
    have hb := bit_rev_lt u (p / 2)
    have hl : p % 2 < 2 := Nat.mod_lt _ (by decide)
    have e1 : bit_rev (u + 1) p = (p % 2) * 2 ^ u + bit_rev u (p / 2) := rfl
    have hpos : 0 < 2 ^ u := Nat.two_pow_pos u
    have f1 : ((p % 2) * 2 ^ u + bit_rev u (p / 2)) % 2 ^ u = bit_rev u (p / 2) := by
      rw [Nat.mul_add_mod_of_lt hb]
    have f2 : ((p % 2) * 2 ^ u + bit_rev u (p / 2)) / 2 ^ u = p % 2 := by
      rw [Nat.add_comm, Nat.add_mul_div_right _ _ hpos, Nat.div_eq_of_lt hb, Nat.zero_add]
    rw [bit_rev_alt u _ (bit_rev_lt (u + 1) p), e1, f1, f2, ih _ hp2]
    omega

theorem bit_reverse_carry_rev (u : Nat) : ∀ i, i + 1 < 2 ^ u →
    (bit_reverse_carry (bit_rev u i) (2 ^ u / 2)).1
      + (bit_reverse_carry (bit_rev u i) (2 ^ u / 2)).2 = bit_rev u (i + 1) := by
  induction u with
  | zero =>
    intro i hi
    simp only [pow_zero] at hi
    omega
  | succ u ih =>
    intro i hi
    have hpos : 0 < 2 ^ u := Nat.two_pow_pos u
    have hm : 2 ^ (u + 1) / 2 = 2 ^ u := by
      rw [pow_succ]
      omega
    have hb := bit_rev_lt u (i / 2)
    have e1 : bit_rev (u + 1) i = (i % 2) * 2 ^ u + bit_rev u (i / 2) := rfl
    have e2 : bit_rev (u + 1) (i + 1) = ((i + 1) % 2) * 2 ^ u + bit_rev u ((i + 1) / 2) := rfl
    rw [hm, e1, e2]
    rcases Nat.mod_two_eq_zero_or_one i with h | h
    · have h1 : (i + 1) % 2 = 1 := by omega
      have h2 : (i + 1) / 2 = i / 2 := by omega
      rw [h, h1, h2, bit_reverse_carry]
      have hc : ¬ (2 ^ u ≠ 0 ∧ 0 * 2 ^ u + bit_rev u (i / 2) ≥ 2 ^ u) := by omega
      rw [if_neg hc]
      simp only
      omega
    · have h1 : (i + 1) % 2 = 0 := by omega
      have h2 : (i + 1) / 2 = i / 2 + 1 := by omega
      have h3 : i / 2 + 1 < 2 ^ u := by
        rw [pow_succ] at hi
        omega
      rw [h, h1, h2, bit_reverse_carry]
      have hc : 2 ^ u ≠ 0 ∧ 1 * 2 ^ u + bit_rev u (i / 2) ≥ 2 ^ u := by omega
      have hs : 1 * 2 ^ u + bit_rev u (i / 2) - 2 ^ u = bit_rev u (i / 2) := by omega
      rw [if_pos hc, hs, ih _ h3]
      omega

theorem bit_reverse_loop_spec {K : Type} (t : Nat) (a : Nat → Cpx K) :
    ∀ (fuel i j : Nat) (cur : Nat → Cpx K), i + fuel = 2 ^ t →
      (i < 2 ^ t → j = bit_rev t i) →
      (∀ p, p < 2 ^ t → cur p = if p < i ∨ bit_rev t p < i then a (bit_rev t p) else a p) →
      ∀ p, p < 2 ^ t → bit_reverse_loop (2 ^ t) fuel i j cur p = a (bit_rev t p) := by
  intro fuel
  induction fuel with
  | zero =>
    intro i j cur hi _ hinv p hp
    simp only [bit_reverse_loop]
    rw [hinv p hp, if_pos (Or.inl (by omega))]
  | succ fuel ih =>
    intro i j cur hi hj hinv p hp
    have hiN : i < 2 ^ t := by omega
    have hjr := hj hiN
    subst hjr
    have hjN := bit_rev_lt t i
    have hjj := bit_rev_invol t i hiN
    simp only [bit_reverse_loop]
    apply ih (i + 1) _ _ (by omega) _ _ p hp
    · intro h1
      exact bit_reverse_carry_rev t i h1
    · intro q hq
      have hqq := bit_rev_invol t q hq
      by_cases hs : i < bit_rev t i
      · rw [if_pos hs]
        simp only [cpx_swap, Function.update_apply]
        by_cases hqj : q = bit_rev t i
        · rw [if_pos hqj, hinv i hiN, if_neg (by omega), hqj, hjj, if_pos (by omega)]
        · rw [if_neg hqj]
          by_cases hqi : q = i
          · rw [if_pos hqi, hinv _ hjN, hjj, if_neg (by omega), hqi, if_pos (by omega)]
          · rw [if_neg hqi, hinv q hq]
            have hne : bit_rev t q ≠ i := by
              intro h
              apply hqj
              rw [← h, hqq]
            have hc : (q < i ∨ bit_rev t q < i) ↔ (q < i + 1 ∨ bit_rev t q < i + 1) := by omega
            rw [if_congr hc rfl rfl]
      · rw [if_neg hs, hinv q hq]
        by_cases hqi : q = i
        · subst hqi
          by_cases hlt : bit_rev t q < q
          · rw [if_pos (Or.inr hlt), if_pos (by omega)]
          · have he : bit_rev t q = q := by omega
            rw [if_neg (by omega), if_pos (by omega), he]
        · by_cases hri : bit_rev t q = i
          · have hqe : q = bit_rev t i := by rw [← hri, hqq]
            rw [if_pos (by omega), if_pos (by omega)]
          · have hc : (q < i ∨ bit_rev t q < i) ↔ (q < i + 1 ∨ bit_rev t q < i + 1) := by omega
            rw [if_congr hc rfl rfl]

theorem bit_reverse_spec {K : Type} (t : Nat) (a : Nat → Cpx K) (p : Nat) (hp : p < 2 ^ t) :
    bit_reverse a (2 ^ t) p = a (bit_rev t p) := by
  unfold bit_reverse
  apply bit_reverse_loop_spec t a (2 ^ t) 0 0 a (by omega) _ _ p hp
  · intro _
    have h := bit_rev_invol t 0 (Nat.two_pow_pos t)
    have h0 : ∀ u, bit_rev u 0 = 0 := by
      intro u
      induction u with
      | zero => rfl
      | succ u ih => simp [bit_rev, ih]
    exact (h0 t).symm
  · intro q _
    rw [if_neg (by omega)]

/-! ## The butterflies of one block -/

theorem toComplex_mul (w x : Cpx ℝ) :
    Cpx.toComplex { r := w.r * x.r - w.i * x.i, i := w.r * x.i + w.i * x.r }
      = w.toComplex * x.toComplex := by
  apply Complex.ext <;> simp [Cpx.toComplex]

theorem toComplex_bfly_add (u w x : Cpx ℝ) :
    Cpx.toComplex { r := u.r + (w.r * x.r - w.i * x.i), i := u.i + (w.r * x.i + w.i * x.r) }
      = u.toComplex + w.toComplex * x.toComplex := by
  apply Complex.ext <;> simp [Cpx.toComplex]

theorem toComplex_bfly_sub (u w x : Cpx ℝ) :
    Cpx.toComplex { r := u.r - (w.r * x.r - w.i * x.i), i := u.i - (w.r * x.i + w.i * x.r) }
      = u.toComplex - w.toComplex * x.toComplex := by
  apply Complex.ext <;> simp [Cpx.toComplex]

theorem toComplex_one : Cpx.toComplex { r := 1, i := 0 } = 1 := by
  apply Complex.ext <;> simp [Cpx.toComplex]

theorem fft_butterflies_succ (wm : Cpx ℝ) (k m fuel j : Nat) (w : Cpx ℝ) (a : Nat → Cpx ℝ) :
    fft_butterflies wm k m (fuel + 1) j w a
      = fft_butterflies wm k m fuel (j + 1)
          { r := w.r * wm.r - w.i * wm.i, i := w.r * wm.i + w.i * wm.r }
          (Function.update
            (Function.update a (k + j)
              { r := (a (k + j)).r
                  + (w.r * (a (k + j + m / 2)).r - w.i * (a (k + j + m / 2)).i),
                i := (a (k + j)).i
                  + (w.r * (a (k + j + m / 2)).i + w.i * (a (k + j + m / 2)).r) })
            (k + j + m / 2)
            { r := (a (k + j)).r
                - (w.r * (a (k + j + m / 2)).r - w.i * (a (k + j + m / 2)).i),
              i := (a (k + j)).i
                - (w.r * (a (k + j + m / 2)).i + w.i * (a (k + j + m / 2)).r) }) :=
  rfl

theorem fft_butterflies_spec (wm : Cpx ℝ) (k m h : Nat) (hh : m / 2 = h) :
    ∀ (fuel j : Nat) (w : Cpx ℝ) (a : Nat → Cpx ℝ),
      w.toComplex = wm.toComplex ^ j → j + fuel ≤ h → ∀ p,
      (fft_butterflies wm k m fuel j w a p).toComplex
        = if k + j ≤ p ∧ p < k + j + fuel then
            (a p).toComplex + wm.toComplex ^ (p - k) * (a (p + h)).toComplex
          else if k + h + j ≤ p ∧ p < k + h + j + fuel then
            (a (p - h)).toComplex - wm.toComplex ^ (p - k - h) * (a p).toComplex
          else (a p).toComplex := by
  intro fuel
  induction fuel with
  | zero =>
    intro j w a _ _ p
    rw [if_neg (by omega), if_neg (by omega)]
    rfl
  | succ fuel ih =>
    intro j w a hw hle p
    rw [fft_butterflies_succ, hh]
    obtain ⟨a1, ha1⟩ : ∃ a1, a1 = Function.update
        (Function.update a (k + j)
          { r := (a (k + j)).r + (w.r * (a (k + j + h)).r - w.i * (a (k + j + h)).i),
            i := (a (k + j)).i + (w.r * (a (k + j + h)).i + w.i * (a (k + j + h)).r) })
        (k + j + h)
        { r := (a (k + j)).r - (w.r * (a (k + j + h)).r - w.i * (a (k + j + h)).i),
          i := (a (k + j)).i - (w.r * (a (k + j + h)).i + w.i * (a (k + j + h)).r) } :=
      ⟨_, rfl⟩
    rw [← ha1]
    have hU : (a1 (k + j)).toComplex
        = (a (k + j)).toComplex + wm.toComplex ^ j * (a (k + j + h)).toComplex := by
      rw [ha1, Function.update_apply, if_neg (by omega), Function.update_apply, if_pos rfl,
        toComplex_bfly_add, hw]
    have hV : (a1 (k + j + h)).toComplex
        = (a (k + j)).toComplex - wm.toComplex ^ j * (a (k + j + h)).toComplex := by
      rw [ha1, Function.update_apply, if_pos rfl, toComplex_bfly_sub, hw]
    have hO : ∀ x, x ≠ k + j → x ≠ k + j + h → a1 x = a x := by
      intro x h1 h2
      rw [ha1, Function.update_apply, if_neg h2, Function.update_apply, if_neg h1]
    have hw1 : Cpx.toComplex { r := w.r * wm.r - w.i * wm.i, i := w.r * wm.i + w.i * wm.r }
        = wm.toComplex ^ (j + 1) := by
      rw [toComplex_mul, hw, pow_succ]
    rw [ih (j + 1) _ a1 hw1 (by omega) p]
    by_cases h1 : p = k + j
    · have c1 : ¬ (k + (j + 1) ≤ p ∧ p < k + (j + 1) + fuel) := by omega
      have c2 : ¬ (k + h + (j + 1) ≤ p ∧ p < k + h + (j + 1) + fuel) := by omega
      have c3 : k + j ≤ p ∧ p < k + j + (fuel + 1) := by omega
      rw [if_neg c1, if_neg c2, if_pos c3, h1, hU]
      have e2 : k + j - k = j := by omega
      rw [e2]
    · by_cases h2 : p = k + j + h
      · have c1 : ¬ (k + (j + 1) ≤ p ∧ p < k + (j + 1) + fuel) := by omega
        have c2 : ¬ (k + h + (j + 1) ≤ p ∧ p < k + h + (j + 1) + fuel) := by omega
        have c3 : ¬ (k + j ≤ p ∧ p < k + j + (fuel + 1)) := by omega
        have c4 : k + h + j ≤ p ∧ p < k + h + j + (fuel + 1) := by omega
        rw [if_neg c1, if_neg c2, if_neg c3, if_pos c4, h2, hV]
        have e2 : k + j + h - k - h = j := by omega
        have e3 : k + j + h - h = k + j := by omega
        rw [e2, e3]
      · by_cases h3 : k + (j + 1) ≤ p ∧ p < k + (j + 1) + fuel
        · have c3 : k + j ≤ p ∧ p < k + j + (fuel + 1) := by omega
          rw [if_pos h3, if_pos c3, hO p h1 h2, hO (p + h) (by omega) (by omega)]
        · have c3 : ¬ (k + j ≤ p ∧ p < k + j + (fuel + 1)) := by omega
          rw [if_neg h3, if_neg c3]
          by_cases h4 : k + h + (j + 1) ≤ p ∧ p < k + h + (j + 1) + fuel
          · have c4 : k + h + j ≤ p ∧ p < k + h + j + (fuel + 1) := by omega
            rw [if_pos h4, if_pos c4, hO p h1 h2, hO (p - h) (by omega) (by omega)]
          · have c4 : ¬ (k + h + j ≤ p ∧ p < k + h + j + (fuel + 1)) := by omega
            rw [if_neg h4, if_neg c4, hO p h1 h2]

/-! ## One stage of the FFT -/

theorem fft_block_values (wm : Cpx ℝ) (k m h : Nat) (hh : m / 2 = h) (a : Nat → Cpx ℝ)
    (p : Nat) :
    (fft_butterflies wm k m h 0 { r := 1, i := 0 } a p).toComplex
      = if k ≤ p ∧ p < k + h then
          (a p).toComplex + wm.toComplex ^ (p - k) * (a (p + h)).toComplex
        else if k + h ≤ p ∧ p < k + h + h then
          (a (p - h)).toComplex - wm.toComplex ^ (p - k - h) * (a p).toComplex
        else (a p).toComplex := by
  have := fft_butterflies_spec wm k m h hh h 0 { r := 1, i := 0 } a
    (by rw [toComplex_one, pow_zero]) (by omega) p
  simpa using this

theorem fft_blocks_below (wm : Cpx ℝ) (n m h : Nat) (hh : m / 2 = h) :
    ∀ (fuel k : Nat) (a : Nat → Cpx ℝ) (p : Nat), p < k →
      (fft_blocks wm n m fuel k a p).toComplex = (a p).toComplex := by
  intro fuel
  induction fuel with
  | zero =>
    intro k a p _
    rfl
  | succ fuel ih =>
    intro k a p hp
    simp only [fft_blocks]
    split_ifs with hk
    · rw [ih (k + m) _ p (by omega), hh, fft_block_values wm k m h hh a p,
        if_neg (by omega), if_neg (by omega)]
    · rfl

theorem fft_blocks_spec (wm : Cpx ℝ) (N m h : Nat) (hm : m = 2 * h) (hpos : 0 < h) :
    ∀ (fuel c : Nat) (a : Nat → Cpx ℝ), N ≤ c + fuel →
      ∀ c1 r, c ≤ c1 → c1 < N → r < h →
        (fft_blocks wm (N * m) m fuel (c * m) a (c1 * m + r)).toComplex
            = (a (c1 * m + r)).toComplex
              + wm.toComplex ^ r * (a (c1 * m + r + h)).toComplex ∧
        (fft_blocks wm (N * m) m fuel (c * m) a (c1 * m + r + h)).toComplex
            = (a (c1 * m + r)).toComplex
              - wm.toComplex ^ r * (a (c1 * m + r + h)).toComplex := by
  have hh : m / 2 = h := by omega
  intro fuel
  induction fuel with
  | zero =>
    intro c a hN c1 r h1 h2 _
    omega
  | succ fuel ih =>
    intro c a hN c1 r h1 h2 hr
    have hmpos : 0 < m := by omega
    have hlt : c * m < N * m := Nat.mul_lt_mul_of_pos_right (by omega) hmpos
    have hsucc : c * m + m = (c + 1) * m := by rw [Nat.add_mul, Nat.one_mul]
    simp only [fft_blocks, if_pos hlt, hh]
    rw [hsucc]
    by_cases hc : c1 = c
    · subst hc
      have hb1 : c1 * m + r < (c1 + 1) * m := by omega
      have hb2 : c1 * m + r + h < (c1 + 1) * m := by omega
      constructor
      · rw [fft_blocks_below wm (N * m) m h hh fuel _ _ _ hb1,
          fft_block_values wm (c1 * m) m h hh a, if_pos (by omega)]
        have e : c1 * m + r - c1 * m = r := by omega
        rw [e]
      · have c0 : ¬ (c1 * m ≤ c1 * m + r + h ∧ c1 * m + r + h < c1 * m + h) := by omega
        have c2 : c1 * m + h ≤ c1 * m + r + h ∧ c1 * m + r + h < c1 * m + h + h := by omega
        rw [fft_blocks_below wm (N * m) m h hh fuel _ _ _ hb2,
          fft_block_values wm (c1 * m) m h hh a, if_neg c0, if_pos c2]
        have e1 : c1 * m + r + h - h = c1 * m + r := by omega
        have e2 : c1 * m + r + h - c1 * m - h = r := by omega
        rw [e1, e2]
    · have hle : (c + 1) * m ≤ c1 * m := Nat.mul_le_mul_right m (by omega)
      have key := ih (c + 1) (fft_butterflies wm (c * m) m h 0 { r := 1, i := 0 } a)
        (by omega) c1 r (by omega) h2 hr
      have v1 := fft_block_values wm (c * m) m h hh a (c1 * m + r)
      have v2 := fft_block_values wm (c * m) m h hh a (c1 * m + r + h)
      rw [if_neg (by omega), if_neg (by omega)] at v1 v2
      rw [v1, v2] at key
      exact key

/-! ## The stages of the FFT and the discrete Fourier transform -/

theorem sum_range_even_odd (M : Nat) (f : Nat → ℂ) :
    ∑ r in Finset.range (2 * M), f r
      = ∑ r in Finset.range M, f (2 * r) + ∑ r in Finset.range M, f (2 * r + 1) := by
  induction M with
  | zero => simp
  | succ M ih =>
    have e : 2 * (M + 1) = 2 * M + 1 + 1 := by ring
    rw [e, Finset.sum_range_succ, Finset.sum_range_succ, ih, Finset.sum_range_succ,
      Finset.sum_range_succ]
    ring

theorem bit_rev_even (u b : Nat) : bit_rev (u + 1) (2 * b) = bit_rev u b := by
  have h1 : 2 * b % 2 = 0 := by omega
  have h2 : 2 * b / 2 = b := by omega
  simp only [bit_rev, h1, h2, Nat.zero_mul, Nat.zero_add]

theorem bit_rev_odd (u b : Nat) : bit_rev (u + 1) (2 * b + 1) = 2 ^ u + bit_rev u b := by
  have h1 : (2 * b + 1) % 2 = 1 := by omega
  have h2 : (2 * b + 1) / 2 = b := by omega
  simp only [bit_rev, h1, h2, Nat.one_mul]

theorem dft_stage_step (x : Nat → ℂ) (W V : ℂ) (hsq : W ^ 2 = V) (s u : Nat)
    (hneg : W ^ 2 ^ s = -1) (A B : Nat → ℂ)
    (hA : ∀ b q, b < 2 ^ (u + 1) → q < 2 ^ s →
      A (b * 2 ^ s + q)
        = ∑ r in Finset.range (2 ^ s), x (bit_rev (u + 1) b + r * 2 ^ (u + 1)) * V ^ (r * q))
    (hB : ∀ c r, c < 2 ^ u → r < 2 ^ s →
      B (c * 2 ^ (s + 1) + r)
          = A (c * 2 ^ (s + 1) + r) + W ^ r * A (c * 2 ^ (s + 1) + r + 2 ^ s) ∧
      B (c * 2 ^ (s + 1) + r + 2 ^ s)
          = A (c * 2 ^ (s + 1) + r) - W ^ r * A (c * 2 ^ (s + 1) + r + 2 ^ s)) :
    ∀ b q, b < 2 ^ u → q < 2 ^ (s + 1) →
      B (b * 2 ^ (s + 1) + q)
        = ∑ r in Finset.range (2 ^ (s + 1)), x (bit_rev u b + r * 2 ^ u) * W ^ (r * q) := by
  intro b q hb hq
  have hone : V ^ 2 ^ s = 1 := by
    rw [← hsq, ← pow_mul, mul_comm, pow_mul, hneg]
    norm_num
  have hE : ∀ ρ e : Nat, W ^ (2 * ρ * e) = V ^ (ρ * e) := by
    intro ρ e
    rw [mul_assoc, pow_mul, hsq]
  have hO : ∀ ρ e : Nat, W ^ ((2 * ρ + 1) * e) = V ^ (ρ * e) * W ^ e := by
    intro ρ e
    rw [add_mul, one_mul, pow_add, hE]
  have i1 : ∀ r, b * 2 ^ (s + 1) + r = (2 * b) * 2 ^ s + r := by
    intro r
    rw [pow_succ]
    ring
  have i2 : ∀ r, b * 2 ^ (s + 1) + r + 2 ^ s = (2 * b + 1) * 2 ^ s + r := by
    intro r
    rw [pow_succ]
    ring
  have hb0 : 2 * b < 2 ^ (u + 1) := by
    rw [pow_succ]
    omega
  have hb1 : 2 * b + 1 < 2 ^ (u + 1) := by
    rw [pow_succ]
    omega
  have j0 : ∀ ρ, bit_rev u b + 2 * ρ * 2 ^ u = bit_rev u b + ρ * 2 ^ (u + 1) := by
    intro ρ
    rw [pow_succ]
    ring
  have j1 : ∀ ρ, bit_rev u b + (2 * ρ + 1) * 2 ^ u = 2 ^ u + bit_rev u b + ρ * 2 ^ (u + 1) := by
    intro ρ
    rw [pow_succ]
    ring
  have hsplit : 2 ^ (s + 1) = 2 * 2 ^ s := by
    rw [pow_succ]
    ring
  conv_rhs => rw [hsplit, sum_range_even_odd]
  by_cases hlow : q < 2 ^ s
  · rw [(hB b q hb hlow).1, i2, i1, hA _ _ hb0 hlow, hA _ _ hb1 hlow, bit_rev_even, bit_rev_odd,
      Finset.mul_sum]
    congr 1
    · apply Finset.sum_congr rfl
      intro ρ _
      rw [j0, hE]
    · apply Finset.sum_congr rfl
      intro ρ _
      rw [j1, hO]
      ring
  · obtain ⟨r, rfl⟩ : ∃ r, q = r + 2 ^ s := ⟨q - 2 ^ s, by omega⟩
    have hr : r < 2 ^ s := by
      rw [hsplit] at hq
      omega
    have hV : ∀ ρ : Nat, V ^ (ρ * (r + 2 ^ s)) = V ^ (ρ * r) := by
      intro ρ
      rw [mul_add, pow_add, mul_comm ρ (2 ^ s), pow_mul V (2 ^ s) ρ, hone, one_pow, mul_one]
    have hW : W ^ (r + 2 ^ s) = - W ^ r := by
      rw [pow_add, hneg]
      ring
    rw [← add_assoc, (hB b r hb hr).2, i2, i1, hA _ _ hb0 hr, hA _ _ hb1 hr, bit_rev_even,
      bit_rev_odd, Finset.mul_sum, sub_eq_add_neg, ← Finset.sum_neg_distrib]
    congr 1
    · apply Finset.sum_congr rfl
      intro ρ _
      rw [j0, hE, hV]
    · apply Finset.sum_congr rfl
      intro ρ _
      rw [j1, hO, hV, hW]
      ring

theorem fft_stages_spec (tw : Nat → Cpx ℝ) (ω : Nat → ℂ) (x : Nat → ℂ) (t : Nat)
    (htw : ∀ s, (tw (2 ^ s)).toComplex = ω s) (hsq : ∀ s, ω (s + 1) ^ 2 = ω s)
    (hneg : ∀ s, ω (s + 1) ^ 2 ^ s = -1) :
    ∀ (fuel s u : Nat) (a : Nat → Cpx ℝ), s + u = t → u ≤ fuel →
      (∀ b q, b < 2 ^ u → q < 2 ^ s →
        (a (b * 2 ^ s + q)).toComplex
          = ∑ r in Finset.range (2 ^ s), x (bit_rev u b + r * 2 ^ u) * ω s ^ (r * q)) →
      ∀ q, q < 2 ^ t →
        (fft_stages tw (2 ^ t) fuel (s + 1) a q).toComplex
          = ∑ r in Finset.range (2 ^ t), x r * ω t ^ (r * q) := by
  intro fuel
  induction fuel with
  | zero =>
    intro s u a hsu hu hinv q hq
    have hu0 : u = 0 := by omega
    subst hu0
    have hst : s = t := by omega
    subst hst
    have := hinv 0 q (by norm_num) hq
    simpa [fft_stages, bit_rev] using this
  | succ fuel ih =>
    intro s u a hsu hu hinv q hq
    simp only [fft_stages]
    by_cases hle : 2 ^ (s + 1) ≤ 2 ^ t
    · rw [if_pos hle]
      have hst : s + 1 ≤ t := (Nat.pow_le_pow_iff_right (by norm_num)).mp hle
      obtain ⟨v, rfl⟩ : ∃ v, u = v + 1 := ⟨u - 1, by omega⟩
      have hn : 2 ^ t = 2 ^ v * 2 ^ (s + 1) := by
        rw [← pow_add]
        congr 1
        omega
      have hN : 2 ^ v ≤ 0 + 2 ^ t := by
        rw [Nat.zero_add]
        exact Nat.pow_le_pow_right (by norm_num) (by omega)
      apply ih (s + 1) v _ (by omega) (by omega) _ q hq
      apply dft_stage_step x (ω (s + 1)) (ω s) (hsq s) s v (hneg s)
        (fun p => (a p).toComplex)
        (fun p => (fft_blocks (tw (2 ^ (s + 1))) (2 ^ t) (2 ^ (s + 1)) (2 ^ t) 0 a p).toComplex)
        hinv
      intro c r hc hr
      have key := fft_blocks_spec (tw (2 ^ (s + 1))) (2 ^ v) (2 ^ (s + 1)) (2 ^ s)
        (by rw [pow_succ]; ring) (Nat.two_pow_pos s) (2 ^ t) 0 a hN c r (by omega) hc hr
      rw [Nat.zero_mul, ← hn, htw] at key
      exact key
    · rw [if_neg hle]
      have hts : t < s + 1 := by
        by_contra hcon
        exact hle (Nat.pow_le_pow_right (by norm_num) (by omega))
      have hu0 : u = 0 := by omega
      subst hu0
      have hst : s = t := by omega
      subst hst
      have := hinv 0 q (by norm_num) hq
      simpa [bit_rev] using this

theorem twiddle_toComplex (s : Nat) :
    (twiddle_of Real.cos Real.sin Real.pi (2 ^ s)).toComplex
      = Complex.exp (-2 * Real.pi * Complex.I / 2 ^ s) := by
  have e : (-2 * (Real.pi : ℂ) * Complex.I / 2 ^ s)
      = ((-2 * Real.pi / ((2 ^ s : Nat) : ℝ) : ℝ) : ℂ) * Complex.I := by
    push_cast
    ring
  rw [e]
  apply Complex.ext
  · rw [Complex.exp_ofReal_mul_I_re]
    rfl
  · rw [Complex.exp_ofReal_mul_I_im]
    rfl

theorem root_sq (s : Nat) :
    Complex.exp (-2 * Real.pi * Complex.I / 2 ^ (s + 1)) ^ 2
      = Complex.exp (-2 * Real.pi * Complex.I / 2 ^ s) := by
  rw [← Complex.exp_nat_mul]
  congr 1
  rw [pow_succ]
  push_cast
  field_simp
  ring

theorem root_half (s : Nat) :
    Complex.exp (-2 * Real.pi * Complex.I / 2 ^ (s + 1)) ^ 2 ^ s = -1 := by
  rw [← Complex.exp_nat_mul]
  have e : ((2 ^ s : Nat) : ℂ) * (-2 * Real.pi * Complex.I / 2 ^ (s + 1))
      = -(Real.pi * Complex.I) := by
    rw [pow_succ]
    push_cast
    field_simp
    ring
  rw [e, Complex.exp_neg, Complex.exp_pi_mul_I]
  norm_num

theorem fft_is_dft (t : Nat) (a : Nat → Cpx ℝ) (k : Nat) (hk : k < 2 ^ t) :
    (fft (twiddle_of Real.cos Real.sin Real.pi) a (2 ^ t) k).toComplex
      = ∑ j in Finset.range (2 ^ t),
          (a j).toComplex * Complex.exp (-2 * Real.pi * Complex.I * j * k / 2 ^ t) := by
  have hinv : ∀ b q, b < 2 ^ t → q < 2 ^ 0 →
      (bit_reverse a (2 ^ t) (b * 2 ^ 0 + q)).toComplex
        = ∑ r in Finset.range (2 ^ 0),
            (fun j => (a j).toComplex) (bit_rev t b + r * 2 ^ t)
              * (fun s : Nat => Complex.exp (-2 * Real.pi * Complex.I / 2 ^ s)) 0 ^ (r * q) := by
    intro b q hb hq
    have hq0 : q = 0 := by
      rw [pow_zero] at hq
      omega
    subst hq0
    rw [pow_zero, Nat.mul_one, Nat.add_zero, Finset.sum_range_one, Nat.zero_mul, Nat.add_zero,
      Nat.zero_mul, pow_zero, mul_one, bit_reverse_spec t a b hb]
  have key := fft_stages_spec (twiddle_of Real.cos Real.sin Real.pi)
    (fun s : Nat => Complex.exp (-2 * Real.pi * Complex.I / 2 ^ s))
    (fun j => (a j).toComplex) t twiddle_toComplex root_sq root_half (2 ^ t) 0 t
    (bit_reverse a (2 ^ t)) (by omega) (Nat.lt_two_pow t).le hinv k hk
  unfold fft
  rw [key]
  apply Finset.sum_congr rfl
  intro j _
  congr 1
  rw [← Complex.exp_nat_mul]
  congr 1
  push_cast
  ring

/-- C12: for every `n = 2^t` and every buffer `a` of `n` complex numbers with
real components, with the exact cosine, sine and pi, `fft(a, n)` (the
bit-reversal permutation, then the butterfly passes with the running twiddle
factor) leaves at every index `k < n` the discrete Fourier transform of the
input, `sum over j < n of a[j] * exp(-2 pi i j k / n)`. -/
theorem C12_fft_is_dft (n t : Nat) (hn : n = 2 ^ t) (a : Nat → Cpx ℝ) (k : Nat) (hk : k < n) :
    (fft (twiddle_of Real.cos Real.sin Real.pi) a n k).toComplex
      = ∑ j in Finset.range n,
          (a j).toComplex * Complex.exp (-2 * Real.pi * Complex.I * j * k / n) := by
  subst hn
  have h := fft_is_dft t a k hk
  rw [h]
  apply Finset.sum_congr rfl
  intro j _
  push_cast
  rfl

/-- C12 on a buffer of 4 elements holding 1, 2, 3, 4, at index 1. -/
theorem C12_fft_is_dft_witness :
    (4 : Nat) = 2 ^ 2 ∧ (1 : Nat) < 4 ∧
    (fft (twiddle_of Real.cos Real.sin Real.pi)
        (fun j => { r := (j : ℝ) + 1, i := 0 }) 4 1).toComplex
      = ∑ j in Finset.range 4,
          (Cpx.toComplex { r := (j : ℝ) + 1, i := 0 })
            * Complex.exp (-2 * Real.pi * Complex.I * j * (1 : Nat) / (4 : Nat)) :=
  ⟨by norm_num, by norm_num,
    C12_fft_is_dft 4 2 (by norm_num) (fun j => { r := (j : ℝ) + 1, i := 0 }) 1 (by norm_num)⟩

/-! ## The parabolic refinement of `yin_get_pitch` -/

theorem yin_get_pitch_eq_parabolic (A : Nat → Bool) (frame : Nat → ℚ) (N sr : Int)
    (fmin fmax : ℚ) (hN : ¬ N < 32) (mt mn : Int)
    (hmt : mt = (if c_trunc ((sr : ℚ) / fmin) > N - 2 then N - 2 else c_trunc ((sr : ℚ) / fmin)))
    (hmn : mn = (if c_trunc ((sr : ℚ) / fmax) < 2 then 2 else c_trunc ((sr : ℚ) / fmax)))
    (hA : A (8 * (mt + 1).toNat) = true) (tau : Int)
    (hdip : yin_first_dip (yin_cmnd frame N mt) mt.toNat (mt + 1 - mn).toNat mn.toNat = tau)
    (htau : tau ≠ -1) :
    (yin_get_pitch A frame N sr fmin fmax).1
      = (sr : ℚ) / yin_parabolic (yin_cmnd frame N mt) tau mt := by
  subst hmt hmn
  have hA2 : ¬ (A (8 * ((if c_trunc ((sr : ℚ) / fmin) > N - 2 then N - 2
      else c_trunc ((sr : ℚ) / fmin)) + 1).toNat) = false) := by
    rw [hA]
    decide
  simp only [yin_cmnd] at hdip
  simp only [yin_get_pitch, if_neg hN, if_neg hA2, hdip, htau, false_and, if_false,
    yin_parabolic, yin_cmnd]

theorem yin_parabolic_mirror (cmnd : Nat → ℚ) (tau mt : Int) (h1 : 1 < tau) (h2 : tau < mt)
    (hd : |2 * cmnd tau.toNat - cmnd (tau - 1).toNat - cmnd (tau + 1).toNat|
      > 1 / 1000000000000)
    (hb : ¬ ((tau : ℚ) + (cmnd (tau - 1).toNat - cmnd (tau + 1).toNat)
      / (2 * (2 * cmnd tau.toNat - cmnd (tau - 1).toNat - cmnd (tau + 1).toNat)) < 1)) :
    yin_parabolic cmnd tau mt
      = 2 * (tau : ℚ) - parabola_vertex tau (cmnd (tau - 1).toNat) (cmnd tau.toNat)
          (cmnd (tau + 1).toNat) := by
  have hc : tau > 1 ∧ tau < mt := ⟨h1, h2⟩
  simp only [yin_parabolic, if_pos hc, if_pos hd, if_neg hb, parabola_vertex]
  have e : cmnd (tau - 1).toNat - 2 * cmnd tau.toNat + cmnd (tau + 1).toNat
      = -(2 * cmnd tau.toNat - cmnd (tau - 1).toNat - cmnd (tau + 1).toNat) := by ring
  rw [e, mul_neg, div_neg]
  ring

/-- C30 (the code departs from it): on a 32-sample ramp of period 5 (sample
rate 400, lags 2..10) the chosen lag is 5 with `cmnd[4] = 472/595`,
`cmnd[5] = 0`, `cmnd[6] = 101/116`. The vertex of the parabola lies at
`1143127/229694`, below 5 and on the side of the lower neighbour, but
`yin_get_pitch` refines the lag to `1153813/229694`, above 5: the offset has
the opposite sign, because the code divides by `2 * x1 - x0 - x2`. -/
theorem C30_parabolic_refinement_sign :
    yin_cmnd ramp_frame 32 10 4 = 472 / 595 ∧ yin_cmnd ramp_frame 32 10 5 = 0 ∧
    yin_cmnd ramp_frame 32 10 6 = 101 / 116 ∧
    parabola_vertex 5 (472 / 595) 0 (101 / 116) = 1143127 / 229694 ∧
    (1143127 / 229694 : ℚ) < 5 ∧
    yin_parabolic (yin_cmnd ramp_frame 32 10) 5 10 = 1153813 / 229694 ∧
    (5 : ℚ) < 1153813 / 229694 ∧
    yin_get_pitch (fun _ => true) ramp_frame 32 400 40 200
      = (400 / (1153813 / 229694), 1) := by
  decide!

/-! ## Mixing to mono at the target rate -/

theorem for_int_zero_eq_foldl {σ : Type} (n : Nat) (body : Int → σ → σ) (s : σ) :
    for_int 0 (n : Int) body s
      = (List.range n).foldl (fun s (d : Nat) => body (d : Int) s) s := by
  simp only [for_int, sub_zero, Int.toNat_ofNat, zero_add]
  induction n with
  | zero => rfl
  | succ m ih =>
    rw [List.range_succ, List.foldl_append]
    simp only [List.foldl_cons, List.foldl_nil]
    rw [← ih]
    show List.foldl _ s ((List.range m ++ [m]).flatMap _) = _
    rw [List.flatMap_append, List.foldl_append]
    rfl

/-- A finite `float` is a `double`. -/
theorem b64r_of_f32 {x : ℚ} (h : f32r x = x) : b64r x = x := by
  obtain ⟨m, e, hme, hm, he⟩ := f32r_form x
  rw [h] at hme
  rw [hme]
  exact b64r_of_form m e (le_trans hm (by norm_num)) (by omega)

theorem to_b64_of_f32 {x : ℚ} (h : f32r x = x) (hx : |x| < ((2 ^ 128 : Nat) : ℚ)) :
    to_b64 x = Dbl.fin x := by
  have hb := b64r_of_f32 h
  have hlt : |b64r x| < ((2 ^ 1024 : Nat) : ℚ) := by
    rw [hb]
    refine lt_trans hx ?_
    rw [Nat.cast_pow, Nat.cast_pow]
    exact pow_lt_pow_right₀ (by norm_num) (by norm_num)
  rw [to_b64_of_lt hlt, hb]

theorem to_f32_of_f32 {x : ℚ} (h : f32r x = x) (hx : |x| < ((2 ^ 128 : Nat) : ℚ)) :
    to_f32 x = Dbl.fin x := by
  have hlt : |f32r x| < ((2 ^ 128 : Nat) : ℚ) := by
    rw [h]
    exact hx
  rw [to_f32_of_lt hlt, h]

theorem frame_mean_mono (pcm : Nat → ℚ) (i : Nat) (h : f32r (pcm i) = pcm i)
    (hx : |pcm i| < ((2 ^ 128 : Nat) : ℚ)) :
    frame_mean pcm 1 i = Dbl.fin (pcm i) := by
  have e1 : Dbl.add64 (Dbl.fin 0) (Dbl.fin (pcm i)) = Dbl.fin (pcm i) := by
    show to_b64 (0 + pcm i) = _
    rw [zero_add, to_b64_of_f32 h hx]
  have e2 : Dbl.div64 (Dbl.fin (pcm i)) (Dbl.fin ((1 : Nat) : ℚ)) = Dbl.fin (pcm i) := by
    show Dbl.r64 (Dbl.div (Dbl.fin (pcm i)) (Dbl.fin ((1 : Nat) : ℚ))) = _
    simp only [Dbl.div, Nat.cast_one, one_ne_zero, if_false, div_one]
    exact to_b64_of_f32 h hx
  unfold frame_mean
  have er : List.range 1 = [0] := rfl
  simp only [er, List.foldl_cons, List.foldl_nil, mul_one, add_zero]
  rw [e1, e2]
  exact to_f32_of_f32 h hx

theorem abs_add_le_pow1023 {l r : ℚ} (hl : |l| < ((2 ^ 128 : Nat) : ℚ))
    (hr : |r| < ((2 ^ 128 : Nat) : ℚ)) : |l + r| ≤ 2 ^ (1023 : Int) := by
  have h1 : |l + r| ≤ |l| + |r| := abs_add l r
  have h2 : ((2 ^ 128 : Nat) : ℚ) = 2 ^ (128 : Int) := by
    rw [Nat.cast_pow]
    norm_cast
  have h3 : (2 : ℚ) ^ (128 : Int) + 2 ^ (128 : Int) = 2 ^ (129 : Int) := by
    rw [show (129 : Int) = 128 + 1 by norm_num, zpow_add₀ (by norm_num : (2 : ℚ) ≠ 0)]
    ring
  have h4 := two_zpow_le (show (129 : Int) ≤ 1023 by decide)
  rw [h2] at hl hr
  linarith

theorem frame_mean_stereo (pcm : Nat → ℚ) (i : Nat)
    (hl : f32r (pcm (i * 2)) = pcm (i * 2)) (hl2 : |pcm (i * 2)| < ((2 ^ 128 : Nat) : ℚ))
    (hr2 : |pcm (i * 2 + 1)| < ((2 ^ 128 : Nat) : ℚ)) :
    frame_mean pcm 2 i = to_f32 (b64r (b64r (pcm (i * 2) + pcm (i * 2 + 1)) / 2)) := by
  have e1 : Dbl.add64 (Dbl.fin 0) (Dbl.fin (pcm (i * 2))) = Dbl.fin (pcm (i * 2)) := by
    show to_b64 (0 + pcm (i * 2)) = _
    rw [zero_add, to_b64_of_f32 hl hl2]
  have hs := abs_add_le_pow1023 hl2 hr2
  have e2 : Dbl.add64 (Dbl.fin (pcm (i * 2))) (Dbl.fin (pcm (i * 2 + 1)))
      = Dbl.fin (b64r (pcm (i * 2) + pcm (i * 2 + 1))) :=
    to_b64_of_abs_le_pow hs
  have hb : |b64r (pcm (i * 2) + pcm (i * 2 + 1))| ≤ 2 ^ (1023 : Int) :=
    b64r_abs_le b64r_pow1023 hs
  have hq : |b64r (pcm (i * 2) + pcm (i * 2 + 1)) / 2| ≤ 2 ^ (1023 : Int) := by
    rw [abs_div, abs_two]
    have : (0 : ℚ) ≤ |b64r (pcm (i * 2) + pcm (i * 2 + 1))| := abs_nonneg _
    linarith
  have e3 : Dbl.div64 (Dbl.fin (b64r (pcm (i * 2) + pcm (i * 2 + 1)))) (Dbl.fin ((2 : Nat) : ℚ))
      = Dbl.fin (b64r (b64r (pcm (i * 2) + pcm (i * 2 + 1)) / 2)) := by
    show Dbl.r64 (Dbl.div _ _) = _
    have h2 : ((2 : Nat) : ℚ) = 2 := by norm_num
    simp only [Dbl.div, h2, two_ne_zero, if_false]
    exact to_b64_of_abs_le_pow hq
  have er : List.range 2 = [0, 1] := rfl
  unfold frame_mean
  simp only [er, List.foldl_cons, List.foldl_nil, add_zero]
  rw [e1, e2, e3]
  rfl

/-- What `resample_and_mix_mono` returns at the target rate. -/
theorem resample_at_target_rate (A : Nat → Bool) (inp : AudioBuffer) (target_sr : Int)
    (hf : 0 < inp.frames) (hc : 1 ≤ inp.channels) (hsr : inp.sample_rate = target_sr)
    (ht : 0 < target_sr) (hA : A (4 * inp.frames) = true) :
    resample_and_mix_mono A inp target_sr
      = some (0, some (fun i => frame_mean inp.pcm inp.channels.toNat i, inp.frames)) := by
  have hg : ¬ (inp.frames = 0 ∨ target_sr ≤ 0) := by
    intro h
    rcases h with h | h <;> omega
  have hch : ¬ inp.channels ≤ 0 := by omega
  obtain ⟨n, hn⟩ : ∃ n : Nat, inp.channels = (n : Int) := ⟨inp.channels.toNat, by omega⟩
  have hmix : mix_to_mono A inp.pcm inp.frames inp.channels
      = some (fun i => frame_mean inp.pcm inp.channels.toNat i) := by
    simp only [mix_to_mono, if_neg hch, hA, Bool.true_eq_false, if_false, frame_mean]
    congr 1
    funext i
    rw [hn, for_int_zero_eq_foldl]
    simp only [Int.toNat_ofNat, Int.cast_natCast]
  simp only [resample_and_mix_mono, if_neg hg, hmix, hsr, if_true]

/-- C25, as stated, fails on a stereo frame whose mean is not a `float`: for
the samples `0.5` and `0.5 + 2^-24` at 44100 Hz the output is `0.5` (the
`double` mean `0.5 + 2^-25` lies halfway between two floats and is stored as
the even one), not the mean. -/
theorem C25_resample_counterexample :
    ∃ out, resample_and_mix_mono (fun _ => true)
        { pcm := fun j => if j = 0 then 1 / 2 else 1 / 2 + 1 / 2 ^ 24, frames := 1,
          sample_rate := 44100, channels := 2 } 44100
        = some (0, some (out, 1)) ∧
      out 0 = Dbl.fin (1 / 2) ∧
      ((1 / 2 : ℚ) + (1 / 2 + 1 / 2 ^ 24)) / 2 = 1 / 2 + 1 / 2 ^ 25 ∧
      Dbl.fin (1 / 2) ≠ Dbl.fin (1 / 2 + 1 / 2 ^ 25) := by
  refine ⟨_, resample_at_target_rate (fun _ => true)
    { pcm := fun j => if j = 0 then 1 / 2 else 1 / 2 + 1 / 2 ^ 24, frames := 1,
      sample_rate := 44100, channels := 2 } 44100 (by decide) (by decide) rfl (by decide) rfl,
    ?_, by norm_num, ?_⟩
  · decide!
  · intro h
    injection h with h
    norm_num at h

/-- C25 (amended): for every buffer with `frames > 0`, `channels >= 1` and
`sample_rate` equal to a positive `target_sr` (the allocation granted),
`resample_and_mix_mono` returns 0 with `out_frames = frames` and `out[i]` the
mean of the channel samples of frame `i` as computed in floating point: the
sum accumulated in `double`, divided by the number of channels and rounded to
`float` (`frame_mean`); for two channels of finite floats `l`, `r` this is
`(l + r) / 2` with sum and quotient rounded to `double` and the result to
`float`.  A mono input of finite floats is returned unchanged in length and
values. -/
theorem C25_resample_identity (A : Nat → Bool) (inp : AudioBuffer) (target_sr : Int)
    (hf : 0 < inp.frames) (hc : 1 ≤ inp.channels) (hsr : inp.sample_rate = target_sr)
    (ht : 0 < target_sr) (hA : A (4 * inp.frames) = true) :
    ∃ out, resample_and_mix_mono A inp target_sr = some (0, some (out, inp.frames)) ∧
      (∀ i, i < inp.frames → out i = frame_mean inp.pcm inp.channels.toNat i) ∧
      (inp.channels = 2 → ∀ i, i < inp.frames →
        f32r (inp.pcm (i * 2)) = inp.pcm (i * 2) → |inp.pcm (i * 2)| < ((2 ^ 128 : Nat) : ℚ) →
        |inp.pcm (i * 2 + 1)| < ((2 ^ 128 : Nat) : ℚ) →
        out i = to_f32 (b64r (b64r (inp.pcm (i * 2) + inp.pcm (i * 2 + 1)) / 2))) ∧
      (inp.channels = 1 → ∀ i, i < inp.frames →
        f32r (inp.pcm i) = inp.pcm i → |inp.pcm i| < ((2 ^ 128 : Nat) : ℚ) →
        out i = Dbl.fin (inp.pcm i)) := by
  refine ⟨_, resample_at_target_rate A inp target_sr hf hc hsr ht hA, fun _ _ => rfl, ?_, ?_⟩
  · intro h2 i _ hl hl2 hr2
    show frame_mean inp.pcm inp.channels.toNat i = _
    rw [h2]
    exact frame_mean_stereo inp.pcm i hl hl2 hr2
  · intro h1 i _ hfl hx
    show frame_mean inp.pcm inp.channels.toNat i = _
    rw [h1]
    exact frame_mean_mono inp.pcm i hfl hx

/-- C25 (amended) on a two-frame mono buffer at 44100 Hz: the output is the
input. -/
theorem C25_resample_identity_witness :
    ∃ out, resample_and_mix_mono (fun _ => true)
        { pcm := fun j => (j : ℚ) / 4, frames := 2, sample_rate := 44100, channels := 1 } 44100
        = some (0, some (out, 2)) ∧ out 0 = Dbl.fin 0 ∧ out 1 = Dbl.fin (1 / 4) := by
  obtain ⟨out, h1, h2, _, _⟩ := C25_resample_identity (fun _ => true)
    { pcm := fun j => (j : ℚ) / 4, frames := 2, sample_rate := 44100, channels := 1 } 44100
    (by decide) (by decide) rfl (by decide) rfl
  refine ⟨out, h1, ?_, ?_⟩
  · rw [h2 0 (by decide)]
    decide!
  · rw [h2 1 (by decide)]
    decide!

/-! ## The tempo estimate as an argmax of the autocorrelation -/

theorem b64r_two : b64r 2 = 2 := by
  have := b64r_intCast 2 (by decide)
  simpa using this

theorem sections_chain_snoc (secs : List Section) (last t : ℚ) (lbl : String)
    (h : sections_chain secs last) (hlt : last < t) :
    sections_chain
      (secs ++ [{ start_sec := Dbl.fin last, end_sec := Dbl.fin t, label := lbl }]) t := by
  obtain ⟨h1, h2, h3, h4, h5⟩ := h
  refine ⟨?_, ?_, ?_, ?_, ?_⟩
  · apply List.Chain'.append h1 (List.chain'_singleton _)
    intro x hx y hy
    simp only [List.head?_cons, Option.mem_def, Option.some.injEq] at hy
    rw [← hy]
    exact h4 x hx
  · intro s hs
    rw [List.mem_append, List.mem_singleton] at hs
    rcases hs with hs | hs
    · exact h2 s hs
    · exact ⟨last, t, by rw [hs], by rw [hs], hlt⟩
  · intro s hs
    cases secs with
    | nil =>
      simp only [List.nil_append, List.head?_cons, Option.mem_def, Option.some.injEq] at hs
      rw [← hs, h5 rfl]
    | cons x xs =>
      simp only [List.cons_append, List.head?_cons, Option.mem_def, Option.some.injEq] at hs
      exact h3 s (by simp [hs])
  · intro s hs
    rw [List.getLast?_concat] at hs
    simp only [Option.mem_def, Option.some.injEq] at hs
    rw [← hs]
  · intro hnil
    simp at hnil

theorem boundary_loop_chain (novelty : Nat → ℚ) (n : Nat) (hn : 1 ≤ n) :
    ∀ (fuel i : Nat) (st : BoundaryState), sections_chain st.sections st.last_boundary →
      st.last_boundary < (n : ℚ) / 2 → st.sections.length ≤ 128 →
      ∃ st1, boundary_loop novelty n 128 fuel i st = some st1 ∧
        sections_chain st1.sections st1.last_boundary ∧ st1.last_boundary < (n : ℚ) / 2 ∧
        st1.sections.length ≤ 128 := by
  have hsub : sz_sub n 1 ≤ n - 1 := by
    unfold sz_sub
    have e1 : 1 % 2 ^ 64 = 1 := by decide
    have e2 : n + 2 ^ 64 - 1 = (n - 1) + 2 ^ 64 := by omega
    rw [e1, e2, Nat.add_mod_right]
    exact Nat.mod_le _ _
  intro fuel
  induction fuel with
  | zero =>
    intro i st h1 h2 h3
    exact ⟨st, rfl, h1, h2, h3⟩
  | succ fuel ih =>
    intro i st h1 h2 h3
    simp only [boundary_loop]
    by_cases hi : i < sz_sub n 1
    · have hi2 : i + 1 < n := by omega
      rw [if_pos hi, if_pos hi2]
      apply ih
      · split_ifs with c1 c2 c3
        · exact sections_chain_snoc _ _ _ _ h1 (by linarith)
        · exact h1
        · exact h1
        · exact h1
      · split_ifs with c1 c2 c3
        · have : ((i : ℚ)) < (n : ℚ) := by exact_mod_cast (by omega : i < n)
          simp only
          linarith
        · exact h2
        · exact h2
        · exact h2
      · split_ifs with c1 c2 c3
        · simp only [List.length_append, List.length_singleton]
          omega
        · exact h3
        · exact h3
        · exact h3
    · rw [if_neg hi]
      exact ⟨st, rfl, h1, h2, h3⟩

theorem sections_chain_init : sections_chain ([] : List Section) 0 := by
  refine ⟨List.chain'_nil, ?_, ?_, ?_, fun _ => rfl⟩
  · intro s hs
    simp at hs
  · intro s hs
    simp at hs
  · intro s hs
    simp at hs

theorem collect_sections_spec (novelty : Nat → ℚ) (n : Nat) (dur : ℚ) (hn : 1 ≤ n)
    (hd : (n : ℚ) / 2 ≤ dur) :
    ∃ secs, collect_sections novelty n dur = some secs ∧ secs ≠ [] ∧ secs.length ≤ 128 ∧
      List.Chain' (fun s t => s.end_sec = t.start_sec) secs ∧
      (∀ s ∈ secs, ∃ a b : ℚ, s.start_sec = Dbl.fin a ∧ s.end_sec = Dbl.fin b ∧ a < b) ∧
      (∀ s ∈ secs.head?, s.start_sec = Dbl.fin 0) ∧
      (secs.length < 128 → ∀ s ∈ secs.getLast?, s.end_sec = Dbl.fin dur) := by
  have hpos : (0 : ℚ) < (n : ℚ) / 2 := by
    have : (0 : ℚ) < (n : ℚ) := by exact_mod_cast hn
    positivity
  obtain ⟨st, e, c, hl, hlen⟩ := boundary_loop_chain novelty n hn (sz_sub n 1) 1 {}
    sections_chain_init hpos (Nat.zero_le _)
  have hc : collect_sections novelty n dur
      = (boundary_loop novelty n 128 (sz_sub n 1) 1 {}).map
          (fun st => add_final_section st dur) := rfl
  rw [hc, e, Option.map_some']
  unfold add_final_section
  by_cases hcap : st.sections.length < 128
  · rw [if_pos hcap]
    have c2 := sections_chain_snoc st.sections st.last_boundary dur
      (segment_label (st.sections.length + 1)) c (lt_of_lt_of_le hl hd)
    obtain ⟨k1, k2, k3, k4, _⟩ := c2
    refine ⟨st.sections ++
      [{ start_sec := Dbl.fin st.last_boundary, end_sec := Dbl.fin dur,
         label := segment_label (st.sections.length + 1) }], rfl, ?_, ?_, k1, k2, k3,
      fun _ => k4⟩
    · exact List.append_ne_nil_of_right_ne_nil _ (List.cons_ne_nil _ _)
    · rw [List.length_append, List.length_singleton]
      exact hcap
  · rw [if_neg hcap]
    obtain ⟨k1, k2, k3, _, _⟩ := c
    refine ⟨st.sections, rfl, ?_, hlen, k1, k2, k3, fun h => absurd h hcap⟩
    intro hnil
    apply hcap
    rw [hnil]
    exact Nat.zero_lt_succ 127

/-! ## From `compute_structure_features` to its section list -/

theorem relabel_sections_length (secs : List Section) :
    (relabel_sections secs).length = secs.length := by
  simp [relabel_sections]

theorem relabel_sections_getD (secs : List Section) (i : Nat) (hi : i < secs.length) :
    (relabel_sections secs).getD i {}
      = { secs.getD i {} with label := heuristic_label secs (longest_section secs).1 i } := by
  have h : i < (relabel_sections secs).length := by
    rw [relabel_sections_length]
    exact hi
  rw [List.getD_eq_getElem _ _ h]
  simp [relabel_sections]

theorem relabel_sections_bounds (secs : List Section) :
    (relabel_sections secs).map (fun s => (s.start_sec, s.end_sec))
      = secs.map (fun s => (s.start_sec, s.end_sec)) := by
  apply List.ext_getElem
  · simp [relabel_sections]
  · intro i h1 h2
    have hi : i < secs.length := by simpa using h2
    simp [relabel_sections, List.getElem?_eq_getElem hi]

theorem compute_structure_features_sections (M : Libm) (A : Nat → Bool) (mono : Nat → ℚ)
    (frames : Nat) (sr : Int) (hf : 0 < frames) (hsr : 0 < sr) (nov : Nat → ℚ) (n : Nat)
    (hnov : compute_novelty_curve M A mono frames sr (1 / 2) = some (0, nov, n))
    (hA : ∀ k, A k = true) (secs : List Section)
    (hsecs : collect_sections (normalized_novelty nov n) n ((frames : ℚ) / (sr : ℚ))
      = some secs) :
    ∃ sf, compute_structure_features M A mono frames sr = some (0, some sf) ∧
      sf.sections = relabel_sections secs := by
  have hg : ¬ (frames = 0 ∨ sr ≤ 0) := by
    intro h
    rcases h with h | h <;> omega
  unfold collect_sections at hsecs
  cases hbl : boundary_loop (normalized_novelty nov n) n 128 (sz_sub n 1) 1 {} with
  | none =>
    rw [hbl] at hsecs
    simp at hsecs
  | some st =>
    rw [hbl, Option.map_some'] at hsecs
    have hs := Option.some.inj hsecs
    have hbl2 : boundary_loop
        (fun i => nov i / (List.range n).foldl (fun m i => if nov i > m then nov i else m)
          (1 / 1000000000)) n 128 (sz_sub n 1) 1 {} = some st := hbl
    unfold compute_structure_features
    rw [if_neg hg, hnov]
    have h0 : ¬ ((0 : Int) ≠ 0) := fun h => h rfl
    have h128 : ¬ (A (128 * 48) = false) := by
      rw [hA]
      decide
    show ∃ sf, (if (0 : Int) ≠ 0 then _ else _) = some (0, some sf) ∧ _
    rw [if_neg h0]
    show ∃ sf, (if A (128 * 48) = false then _ else _) = some (0, some sf) ∧ _
    rw [if_neg h128, hbl2]
    have hk : ∀ k, ¬ (A (k * 48) = false) := by
      intro k
      rw [hA]
      decide
    show ∃ sf, (if A (_ * 48) = false then _ else _) = some (0, some sf) ∧ _
    rw [if_neg (hk _)]
    refine ⟨_, rfl, ?_⟩
    rw [← hs]
    rfl

/-! ## The novelty curve at an even sample rate -/

theorem compute_novelty_curve_even (M : Libm) (A : Nat → Bool) (mono : Nat → ℚ) (frames : Nat)
    (sr : Int) (hev : sr % 2 = 0) (hsr : 0 < sr) (h1 : 1024 ≤ frames) (h2 : frames < 2 ^ 61)
    (hA : ∀ k, A k = true) :
    compute_novelty_curve M A mono frames sr (1 / 2)
      = some (0, fun f => novelty_flux M mono (sr / 2).toNat f, novelty_frames frames sr) := by
  have hq : (1 / 2 : ℚ) * (sr : ℚ) = ((sr / 2 : Int) : ℚ) := by
    have e : sr = 2 * (sr / 2) := by omega
    conv_lhs => rw [e]
    push_cast
    ring
  have hpos : ¬ (sr / 2 ≤ 0) := by omega
  have hsub : sz_sub frames 1024 = frames - 1024 := sz_sub_of_le _ _ h1 (by omega)
  have hle : (frames - 1024) / (sr / 2).toNat ≤ frames - 1024 := Nat.div_le_self _ _
  have hc : calloc_ok A ((frames - 1024) / (sr / 2).toNat) 8 = true := by
    simp only [calloc_ok, hA, Bool.and_true, decide_eq_true_eq]
    omega
  have hshort : ¬ ((frames - 1024) / (sr / 2).toNat > 0 ∧ frames < 1024) := by
    intro h
    omega
  simp only [compute_novelty_curve, hq, c_trunc_intCast, if_neg hpos, hsub, hc,
    Bool.true_eq_false, if_false, if_neg hshort, novelty_frames]

theorem novelty_frames_bounds (frames : Nat) (sr : Int) (hev : sr % 2 = 0) (hsr : 0 < sr)
    (hfr : 1024 + (sr / 2).toNat ≤ frames) :
    1 ≤ novelty_frames frames sr ∧
      (novelty_frames frames sr : ℚ) / 2 ≤ (frames : ℚ) / (sr : ℚ) := by
  obtain ⟨m, hm⟩ : ∃ m : Nat, sr / 2 = (m : Int) := ⟨(sr / 2).toNat, by omega⟩
  have hm0 : 0 < m := by omega
  have hsr2 : sr = 2 * (m : Int) := by omega
  have hn : novelty_frames frames sr = (frames - 1024) / m := by
    simp only [novelty_frames, hm, Int.toNat_ofNat]
  have hfr2 : 1024 + m ≤ frames := by
    rw [hm, Int.toNat_ofNat] at hfr
    exact hfr
  rw [hn]
  constructor
  · exact (Nat.one_le_div_iff hm0).mpr (by omega)
  · have h1 : (frames - 1024) / m * m ≤ frames - 1024 := Nat.div_mul_le_self _ _
    have h2 : (frames - 1024) / m * m ≤ frames := by omega
    have h3 : (((frames - 1024) / m : Nat) : ℚ) * (m : ℚ) ≤ (frames : ℚ) := by
      exact_mod_cast h2
    have hmq : (0 : ℚ) < (m : ℚ) := by exact_mod_cast hm0
    rw [hsr2]
    push_cast
    rw [div_le_div_iff₀ (by norm_num) (by positivity)]
    calc (((frames - 1024) / m : Nat) : ℚ) * (2 * (m : ℚ))
        = 2 * ((((frames - 1024) / m : Nat) : ℚ) * (m : ℚ)) := by ring
      _ ≤ 2 * (frames : ℚ) := mul_le_mul_of_nonneg_left h3 (by norm_num)
      _ = (frames : ℚ) * 2 := by ring

/-- What `compute_structure_features` returns at an even sample rate on a
signal of at least one novelty hop beyond the first window, every allocation
granted: code 0 and the relabelled section list of the normalised novelty
curve, which is ordered and gap-free. -/
theorem structure_sections_run (M : Libm) (A : Nat → Bool) (mono : Nat → ℚ) (frames : Nat)
    (sr : Int) (hev : sr % 2 = 0) (hsr : 0 < sr) (hfr : 1024 + (sr / 2).toNat ≤ frames)
    (h2 : frames < 2 ^ 61) (hA : ∀ k, A k = true) :
    ∃ secs sf,
      collect_sections
        (normalized_novelty (fun f => novelty_flux M mono (sr / 2).toNat f)
          (novelty_frames frames sr))
        (novelty_frames frames sr) ((frames : ℚ) / (sr : ℚ)) = some secs ∧
      compute_structure_features M A mono frames sr = some (0, some sf) ∧
      sf.sections = relabel_sections secs ∧ secs ≠ [] ∧ secs.length ≤ 128 ∧
      List.Chain' (fun s t => s.end_sec = t.start_sec) secs ∧
      (∀ s ∈ secs, ∃ a b : ℚ, s.start_sec = Dbl.fin a ∧ s.end_sec = Dbl.fin b ∧ a < b) ∧
      (∀ s ∈ secs.head?, s.start_sec = Dbl.fin 0) ∧
      (secs.length < 128 →
        ∀ s ∈ secs.getLast?, s.end_sec = Dbl.fin ((frames : ℚ) / (sr : ℚ))) := by
  obtain ⟨hn, hd⟩ := novelty_frames_bounds frames sr hev hsr hfr
  obtain ⟨secs, e, k1, k2, k3, k4, k5, k6⟩ := collect_sections_spec
    (normalized_novelty (fun f => novelty_flux M mono (sr / 2).toNat f)
      (novelty_frames frames sr))
    (novelty_frames frames sr) ((frames : ℚ) / (sr : ℚ)) hn hd
  obtain ⟨sf, f1, f2⟩ := compute_structure_features_sections M A mono frames sr (by omega) hsr _ _
    (compute_novelty_curve_even M A mono frames sr hev hsr (by omega) h2 hA) hA secs e
  exact ⟨secs, sf, e, f1, f2, k1, k2, k3, k4, k5, k6⟩

/-- The properties of an ordered, gap-free section list depend on the bounds of
the sections only, which the label heuristics keep. -/
theorem relabel_sections_chain (secs : List Section) (dur : ℚ)
    (k1 : secs ≠ []) (k2 : secs.length ≤ 128)
    (k3 : List.Chain' (fun s t => s.end_sec = t.start_sec) secs)
    (k4 : ∀ s ∈ secs, ∃ a b : ℚ, s.start_sec = Dbl.fin a ∧ s.end_sec = Dbl.fin b ∧ a < b)
    (k5 : ∀ s ∈ secs.head?, s.start_sec = Dbl.fin 0)
    (k6 : secs.length < 128 → ∀ s ∈ secs.getLast?, s.end_sec = Dbl.fin dur) :
    relabel_sections secs ≠ [] ∧ (relabel_sections secs).length ≤ 128 ∧
      List.Chain' (fun s t => s.end_sec = t.start_sec) (relabel_sections secs) ∧
      (∀ s ∈ relabel_sections secs,
        ∃ a b : ℚ, s.start_sec = Dbl.fin a ∧ s.end_sec = Dbl.fin b ∧ a < b) ∧
      (∀ s ∈ (relabel_sections secs).head?, s.start_sec = Dbl.fin 0) ∧
      ((relabel_sections secs).length < 128 →
        ∀ s ∈ (relabel_sections secs).getLast?, s.end_sec = Dbl.fin dur) := by
  have hb := relabel_sections_bounds secs
  have hlen := relabel_sections_length secs
  have hmem : ∀ s ∈ relabel_sections secs,
      ∃ t ∈ secs, t.start_sec = s.start_sec ∧ t.end_sec = s.end_sec := by
    intro s hs
    have h1 : (s.start_sec, s.end_sec)
        ∈ (relabel_sections secs).map (fun s => (s.start_sec, s.end_sec)) :=
      List.mem_map.mpr ⟨s, hs, rfl⟩
    rw [hb] at h1
    obtain ⟨t, ht, e⟩ := List.mem_map.mp h1
    exact ⟨t, ht, (Prod.mk.inj e).1, (Prod.mk.inj e).2⟩
  refine ⟨?_, ?_, ?_, ?_, ?_, ?_⟩
  · intro h
    apply k1
    apply List.eq_nil_of_length_eq_zero
    rw [← hlen, h]
    rfl
  · rw [hlen]
    exact k2
  · have c1 : List.Chain' (fun p q : Dbl × Dbl => p.2 = q.1)
        (secs.map (fun s => (s.start_sec, s.end_sec))) :=
      (List.chain'_map _).mpr k3
    rw [← hb] at c1
    exact (List.chain'_map _).mp c1
  · intro s hs
    obtain ⟨t, ht, e1, e2⟩ := hmem s hs
    obtain ⟨a, b, ea, eb, hab⟩ := k4 t ht
    exact ⟨a, b, by rw [← e1, ea], by rw [← e2, eb], hab⟩
  · intro s hs
    have h1 : ((relabel_sections secs).map (fun s => (s.start_sec, s.end_sec))).head?
        = some (s.start_sec, s.end_sec) := by
      rw [List.head?_map, Option.mem_def.mp hs]
      rfl
    rw [hb, List.head?_map] at h1
    cases hh : secs.head? with
    | none =>
      rw [hh] at h1
      simp at h1
    | some t =>
      rw [hh] at h1
      have e := Option.some.inj h1
      have e1 : t.start_sec = s.start_sec := (Prod.mk.inj e).1
      rw [← e1]
      exact k5 t (Option.mem_def.mpr hh)
  · intro hl s hs
    rw [hlen] at hl
    have h1 : ((relabel_sections secs).map (fun s => (s.start_sec, s.end_sec))).getLast?
        = some (s.start_sec, s.end_sec) := by
      rw [List.getLast?_map, Option.mem_def.mp hs]
      rfl
    rw [hb, List.getLast?_map] at h1
    cases hh : secs.getLast? with
    | none =>
      rw [hh] at h1
      simp at h1
    | some t =>
      rw [hh] at h1
      have e := Option.some.inj h1
      have e2 : t.end_sec = s.end_sec := (Prod.mk.inj e).2
      rw [← e2]
      exact k6 hl t (Option.mem_def.mpr hh)

/-! ## The novelty curve of a click track -/

theorem sum_loop_single (N : Nat) (hN : 0 < N) (g : Nat → ℚ) (f : Nat → ℚ)
    (h0 : f 0 = 1) (h : ∀ n, 0 < n → n < N → f n = 0) :
    sum_loop N (fun n => f n * g n) = g 0 := by
  rw [sum_loop_eq_sum, Finset.sum_eq_single 0]
  · rw [h0, one_mul]
  · intro n hn hne
    rw [h n (Nat.pos_of_ne_zero hne) (Finset.mem_range.mp hn), zero_mul]
  · intro h1
    exact absurd (Finset.mem_range.mpr hN) h1

theorem magnitude_silent (M : Libm) (frame : Nat → ℚ) (h : ∀ n, n < 1024 → frame n = 0)
    (k : Nat) :
    compute_magnitude_spectrum M frame 1024 k = M.sqrt 0 := by
  unfold compute_magnitude_spectrum
  rw [sum_loop_zero 1024 _ (fun n hn => by rw [h n hn, zero_mul]),
    sum_loop_zero 1024 _ (fun n hn => by rw [h n hn, zero_mul])]
  norm_num

theorem magnitude_click (M : Libm) (frame : Nat → ℚ) (h0 : frame 0 = 1)
    (h : ∀ n, 0 < n → n < 1024 → frame n = 0) (k : Nat) :
    compute_magnitude_spectrum M frame 1024 k
      = M.sqrt (M.cos 0 * M.cos 0 + M.sin 0 * M.sin 0) := by
  unfold compute_magnitude_spectrum
  rw [sum_loop_single 1024 (by decide) _ frame h0 h, sum_loop_single 1024 (by decide) _ frame h0 h]
  norm_num

theorem libm_model_click :
    libm_model.sqrt (libm_model.cos 0 * libm_model.cos 0 + libm_model.sin 0 * libm_model.sin 0)
      = 1 ∧ libm_model.sqrt 0 = 0 := by
  decide!

theorem frame_clicks_spectrum (marks : Nat → Bool) (f k : Nat) :
    compute_magnitude_spectrum libm_model (fun n => frame_clicks marks (f * 22050 + n)) 1024 k
      = if marks f = true then 1 else 0 := by
  have hdiv : (f * 22050 + 0) / 22050 = f := by omega
  by_cases hf : marks f = true
  · rw [magnitude_click libm_model _ _ _ k, libm_model_click.1, if_pos hf]
    · simp only [frame_clicks]
      rw [hdiv, if_pos ⟨by omega, hf⟩]
    · intro n h1 h2
      simp only [frame_clicks]
      rw [if_neg (fun h => by omega)]
  · rw [magnitude_silent libm_model _ _ k, libm_model_click.2, if_neg hf]
    intro n h2
    simp only [frame_clicks]
    by_cases hn : n = 0
    · subst hn
      rw [hdiv, if_neg (fun h => hf h.2)]
    · rw [if_neg (fun h => by omega)]

/-- The novelty of a signal of impulses, no two in adjacent hops: 512 at the
frames that start with an impulse, 0 elsewhere. -/
theorem frame_clicks_novelty (marks : Nat → Bool)
    (hadj : ∀ f, marks (f + 1) = true → marks f = false) (f : Nat) :
    novelty_flux libm_model (frame_clicks marks) 22050 f
      = 512 * (if marks f = true then 1 else 0) := by
  unfold novelty_flux
  simp only [frame_clicks_spectrum]
  by_cases hf : marks f = true
  · have hprev : (if f = 0 then (0 : ℚ) else if marks (f - 1) = true then 1 else 0) = 0 := by
      by_cases h0 : f = 0
      · rw [if_pos h0]
      · rw [if_neg h0]
        obtain ⟨g, rfl⟩ : ∃ g, f = g + 1 := ⟨f - 1, by omega⟩
        have := hadj g hf
        rw [Nat.add_sub_cancel, this]
        rfl
    rw [hprev, if_pos hf]
    norm_num [sum_loop_const]
  · have hprev : 0 ≤ (if f = 0 then (0 : ℚ) else if marks (f - 1) = true then 1 else 0) := by
      split_ifs <;> norm_num
    rw [if_neg hf]
    have hneg : ¬ (0 - (if f = 0 then (0 : ℚ) else if marks (f - 1) = true then 1 else 0)
        > 0) := by
      intro h
      linarith
    simp only [if_neg hneg]
    norm_num [sum_loop_const]

theorem novelty_max_fold (g : Nat → ℚ) (c : ℚ) (hc : 1 / 1000000000 ≤ c)
    (hle : ∀ i, g i ≤ c) (n : Nat) :
    novelty_max g n ≤ c ∧ ((∃ i, i < n ∧ g i = c) → novelty_max g n = c) := by
  unfold novelty_max
  induction n with
  | zero =>
    refine ⟨hc, ?_⟩
    rintro ⟨i, hi, _⟩
    omega
  | succ m ih =>
    rw [List.range_succ, List.foldl_append]
    simp only [List.foldl_cons, List.foldl_nil]
    obtain ⟨ih1, ih2⟩ := ih
    constructor
    · split_ifs
      · exact hle m
      · exact ih1
    · rintro ⟨i, hi, hgi⟩
      by_cases him : i = m
      · subst him
        split_ifs with h
        · exact hgi
        · rw [hgi] at h
          exact le_antisymm ih1 (not_lt.mp h)
      · have := ih2 ⟨i, by omega, hgi⟩
        rw [this]
        split_ifs with h
        · exact absurd (hle m) (not_le.mpr h)
        · rfl

theorem frame_clicks_normalized (marks : Nat → Bool)
    (hadj : ∀ f, marks (f + 1) = true → marks f = false) (n i0 : Nat) (h0 : i0 < n)
    (hi0 : marks i0 = true) :
    normalized_novelty (fun f => novelty_flux libm_model (frame_clicks marks) 22050 f) n
      = fun i => if marks i = true then 1 else 0 := by
  have e : (fun f => novelty_flux libm_model (frame_clicks marks) 22050 f)
      = fun f => 512 * (if marks f = true then (1 : ℚ) else 0) :=
    funext (frame_clicks_novelty marks hadj)
  have hmax : novelty_max (fun f => 512 * (if marks f = true then (1 : ℚ) else 0)) n = 512 := by
    apply (novelty_max_fold _ 512 (by norm_num) _ n).2 ⟨i0, h0, by simp [hi0]⟩
    intro i
    split_ifs <;> norm_num
  funext i
  unfold normalized_novelty
  rw [e, hmax]
  field_simp

theorem click_normalized_novelty (n : Nat) (hn : 1 ≤ n) :
    normalized_novelty (fun f => novelty_flux libm_model click_signal 22050 f) n
      = peaks_every_41 := by
  unfold click_signal
  rw [frame_clicks_normalized _ _ n 0 (by omega) (by decide)]
  · funext i
    simp [peaks_every_41]
  · intro f h
    simp only [decide_eq_true_eq, decide_eq_false_iff_not] at h ⊢
    omega

theorem two_clicks_normalized_novelty (n : Nat) (hn : 42 ≤ n) :
    normalized_novelty (fun f => novelty_flux libm_model two_clicks 22050 f) n
      = two_peaks := by
  unfold two_clicks
  rw [frame_clicks_normalized _ _ n 41 (by omega) (by decide)]
  · funext i
    simp [two_peaks]
  · intro f h
    simp only [decide_eq_true_eq, decide_eq_false_iff_not] at h ⊢
    omega

theorem collect_sections_peaks :
    (collect_sections peaks_every_41 5250 (115763524 / 44100)).map
        (fun l => (l.length, l.getLast?.map (fun s => s.end_sec)))
      = some (128, some (Dbl.fin 2624)) := by
  decide!

/-- C24, as stated, fails when 128 boundaries are accepted: for a track of
115763524 samples at 44100 Hz (about 2625.02 s) with a unit impulse every
904050 samples (20.5 s) the novelty curve has 5250 frames with a peak every 41
frames, the list that `compute_structure_features` returns holds 128 sections
and the last one ends at 2624 s; the tail up to the end of the track is not
emitted. -/
theorem C24_sections_counterexample :
    ∃ sf, compute_structure_features libm_model (fun _ => true) click_signal 115763524 44100
        = some (0, some sf) ∧
      sf.sections.length = 128 ∧
      sf.sections.getLast?.map (fun s => s.end_sec) = some (Dbl.fin 2624) ∧
      Dbl.fin 2624 ≠ Dbl.fin (115763524 / 44100) := by
  obtain ⟨secs, sf, e, f1, f2, _⟩ := structure_sections_run libm_model (fun _ => true)
    click_signal 115763524 44100 (by decide) (by decide) (by decide) (by norm_num)
    (fun _ => rfl)
  have e1 : (44100 / 2 : Int).toNat = 22050 := by decide
  have e2 : novelty_frames 115763524 44100 = 5250 := by decide
  have e3 : ((115763524 : Nat) : ℚ) / ((44100 : Int) : ℚ) = 115763524 / 44100 := by norm_num
  rw [e1, e2, click_normalized_novelty 5250 (by decide), e3] at e
  have h := collect_sections_peaks
  rw [e, Option.map_some'] at h
  have h2 := Option.some.inj h
  have hlen : secs.length = 128 := (Prod.mk.inj h2).1
  have hlast : secs.getLast?.map (fun s => s.end_sec) = some (Dbl.fin 2624) := (Prod.mk.inj h2).2
  refine ⟨sf, f1, ?_, ?_, ?_⟩
  · rw [f2, relabel_sections_length, hlen]
  · have hb := congrArg (fun l => l.getLast?.map (fun p : Dbl × Dbl => p.2))
      (relabel_sections_bounds secs)
    simp only [List.getLast?_map, Option.map_map] at hb
    rw [f2]
    exact hb.trans hlast
  · intro hc
    injection hc with hc
    norm_num at hc

/-- C24 (amended): for every signal of fewer than `2^61` samples that holds at
least one novelty hop (half a second) beyond the first window of 1024 samples,
at an even positive sample rate and with every allocation granted,
`compute_structure_features` returns 0 with a non-empty list of at most 128
sections in which the first section starts at 0, every section has
`start < end` and starts exactly where the one before ends; when the list
holds fewer than 128 sections its last section ends at the track duration
`frames / sample_rate` (the final section is only added while fewer than 128
boundaries have been accepted). -/
theorem C24_sections_ordered (M : Libm) (A : Nat → Bool) (mono : Nat → ℚ) (frames : Nat)
    (sample_rate : Int) (hev : sample_rate % 2 = 0) (hsr : 0 < sample_rate)
    (hfr : 1024 + (sample_rate / 2).toNat ≤ frames) (hlt : frames < 2 ^ 61)
    (hA : ∀ k, A k = true) :
    ∃ sf, compute_structure_features M A mono frames sample_rate = some (0, some sf) ∧
      sf.sections ≠ [] ∧ sf.sections.length ≤ 128 ∧
      List.Chain' (fun s t => s.end_sec = t.start_sec) sf.sections ∧
      (∀ s ∈ sf.sections, ∃ a b : ℚ, s.start_sec = Dbl.fin a ∧ s.end_sec = Dbl.fin b ∧ a < b) ∧
      (∀ s ∈ sf.sections.head?, s.start_sec = Dbl.fin 0) ∧
      (sf.sections.length < 128 →
        ∀ s ∈ sf.sections.getLast?,
          s.end_sec = Dbl.fin ((frames : ℚ) / (sample_rate : ℚ))) := by
  obtain ⟨secs, sf, _, f1, f2, k1, k2, k3, k4, k5, k6⟩ :=
    structure_sections_run M A mono frames sample_rate hev hsr hfr hlt hA
  refine ⟨sf, f1, ?_⟩
  rw [f2]
  exact relabel_sections_chain secs _ k1 k2 k3 k4 k5 k6

/-- C24 (amended) on one second of silence at 44100 Hz. -/
theorem C24_sections_ordered_witness :
    ∃ sf, compute_structure_features libm_model (fun _ => true) (fun _ => 0) 44100 44100
        = some (0, some sf) ∧
      sf.sections ≠ [] ∧ sf.sections.length ≤ 128 ∧
      List.Chain' (fun s t => s.end_sec = t.start_sec) sf.sections ∧
      (∀ s ∈ sf.sections, ∃ a b : ℚ, s.start_sec = Dbl.fin a ∧ s.end_sec = Dbl.fin b ∧ a < b) ∧
      (∀ s ∈ sf.sections.head?, s.start_sec = Dbl.fin 0) ∧
      (sf.sections.length < 128 →
        ∀ s ∈ sf.sections.getLast?,
          s.end_sec = Dbl.fin (((44100 : Nat) : ℚ) / ((44100 : Int) : ℚ))) :=
  C24_sections_ordered libm_model (fun _ => true) (fun _ => 0) 44100 44100 (by decide)
    (by decide) (by decide) (by norm_num) (fun _ => rfl)

/-! ## Chord names and templates -/

/-- C39: for every root 0..11 and both triad qualities, `chord_to_pcset` applied
to the name that `fill_chord_templates` gives the template returns exactly
root, root + 4 (major) or root + 3 (minor), and root + 7, all modulo 12, and
these are the pitch classes (below 12) at which the template is 1, the
template being 0 at the others. -/
theorem C39_chord_name_roundtrip (root : Fin 12) (minor : Bool) :
    chord_to_pcset (chord_name (2 * root.val + (if minor then 1 else 0)))
      = [(root.val : Int), ((root.val : Int) + (if minor then 3 else 4)) % 12,
          ((root.val : Int) + 7) % 12] ∧
    ∀ p : Fin 12,
      chord_template (2 * root.val + (if minor then 1 else 0)) p.val
        = if (p.val : Int) ∈ chord_to_pcset (chord_name (2 * root.val + (if minor then 1 else 0)))
          then 1 else 0 := by
  revert root minor
  decide!

/-! ## Section labels: where the longest section is the chorus -/

theorem longest_fold_inv (len : Nat → ℚ) (i : Nat) (hpos : 0 < len i)
    (n : Nat) (hlong : ∀ j, j < n → j ≠ i → len j < len i) :
    ∀ k, k ≤ n →
      (k ≤ i → ((List.range k).foldl
          (fun (st : Nat × ℚ) j => if len j > st.2 then (j, len j) else st) (0, 0)).2 < len i) ∧
      (i < k → (List.range k).foldl
          (fun (st : Nat × ℚ) j => if len j > st.2 then (j, len j) else st) (0, 0)
            = (i, len i)) := by
  intro k
  induction k with
  | zero =>
    intro _
    exact ⟨fun _ => hpos, fun h => absurd h (Nat.not_lt_zero _)⟩
  | succ k ih =>
    intro hk
    obtain ⟨ih1, ih2⟩ := ih (Nat.le_of_succ_le hk)
    rw [List.range_succ, List.foldl_append]
    simp only [List.foldl_cons, List.foldl_nil]
    constructor
    · intro hki
      have hk1 : k ≤ i := Nat.le_of_succ_le hki
      have hne : k ≠ i := by omega
      have h1 := ih1 hk1
      have h2 := hlong k (by omega) hne
      split_ifs
      · exact h2
      · exact h1
    · intro hik
      by_cases hki : k = i
      · subst hki
        have h1 := ih1 (Nat.le_refl _)
        rw [if_pos h1]
      · have hik2 : i < k := by omega
        rw [ih2 hik2]
        have h2 := hlong k (by omega) hki
        rw [if_neg (not_lt.mpr (le_of_lt h2))]

theorem longest_section_unique (secs : List Section) (i : Nat) (hi : i < secs.length)
    (hpos : 0 < section_length (secs.getD i {}))
    (hlong : ∀ j, j < secs.length → j ≠ i →
      section_length (secs.getD j {}) < section_length (secs.getD i {})) :
    (longest_section secs).1 = i := by
  have h := (longest_fold_inv (fun j => section_length (secs.getD j {})) i hpos secs.length
    hlong secs.length (Nat.le_refl _)).2 hi
  unfold longest_section
  rw [h]

theorem heuristic_label_chorus (secs : List Section) (i : Nat) (h0 : 0 < i)
    (hl : i + 1 < secs.length) :
    heuristic_label secs i i = "chorus" := by
  unfold heuristic_label
  have h1 : i ≠ 0 := by omega
  have h2 : i ≠ secs.length - 1 := by omega
  simp only [if_neg h1, if_neg h2, if_true]

theorem heuristic_label_first (secs : List Section) (k : Nat) :
    heuristic_label secs k 0 = "intro" ∨ heuristic_label secs k 0 = "verse" := by
  unfold heuristic_label
  simp only [if_true]
  split_ifs
  · exact Or.inl rfl
  · exact Or.inr rfl

theorem heuristic_label_last (secs : List Section) (k i : Nat) (h0 : 0 < i)
    (hl : i = secs.length - 1) :
    heuristic_label secs k i = "outro" ∨ heuristic_label secs k i = "verse" := by
  unfold heuristic_label
  have h1 : i ≠ 0 := by omega
  simp only [if_neg h1, if_pos hl]
  split_ifs
  · exact Or.inl rfl
  · exact Or.inr rfl

theorem section_length_pos_of_chain (secs : List Section) (last : ℚ)
    (h : sections_chain secs last) (i : Nat) (hi : i < secs.length) :
    0 < section_length (secs.getD i {}) := by
  obtain ⟨_, h2, _⟩ := h
  have hm : secs.getD i {} ∈ secs := by
    rw [List.getD_eq_getElem _ _ hi]
    exact List.getElem_mem hi
  obtain ⟨a, b, ea, eb, hab⟩ := h2 _ hm
  unfold section_length
  rw [ea, eb]
  simp only [Dbl.toRat]
  linarith

theorem collect_sections_inner_pos (novelty : Nat → ℚ) (n : Nat) (dur : ℚ) (hn : 1 ≤ n)
    (secs : List Section) (h : collect_sections novelty n dur = some secs)
    (i : Nat) (hi : i + 1 < secs.length) :
    0 < section_length (secs.getD i {}) := by
  have hpos : (0 : ℚ) < (n : ℚ) / 2 := by
    have : (0 : ℚ) < (n : ℚ) := by exact_mod_cast hn
    positivity
  obtain ⟨st, e, c, _, _⟩ := boundary_loop_chain novelty n hn (sz_sub n 1) 1 {}
    sections_chain_init hpos (Nat.zero_le _)
  have hc : collect_sections novelty n dur
      = (boundary_loop novelty n 128 (sz_sub n 1) 1 {}).map
          (fun st => add_final_section st dur) := rfl
  rw [hc, e, Option.map_some'] at h
  have hs : add_final_section st dur = secs := Option.some.inj h
  subst hs
  unfold add_final_section at hi ⊢
  by_cases hlen : st.sections.length < 128
  · rw [if_pos hlen] at hi ⊢
    rw [List.length_append, List.length_singleton] at hi
    have hi2 : i < st.sections.length := by omega
    have e2 : (st.sections ++
        [({ start_sec := Dbl.fin st.last_boundary, end_sec := Dbl.fin dur,
            label := segment_label (st.sections.length + 1) } : Section)]).getD i {}
        = st.sections.getD i {} := by
      rw [List.getD_eq_getElem?_getD, List.getD_eq_getElem?_getD, List.getElem?_append_left hi2]
    rw [e2]
    exact section_length_pos_of_chain _ _ c i hi2
  · rw [if_neg hlen] at hi ⊢
    exact section_length_pos_of_chain _ _ c i (by omega)

theorem relabel_section_length (secs : List Section) (i : Nat) (hi : i < secs.length) :
    section_length ((relabel_sections secs).getD i {}) = section_length (secs.getD i {}) := by
  rw [relabel_sections_getD secs i hi]
  rfl

theorem collect_sections_one (novelty : Nat → ℚ) (dur : ℚ) :
    collect_sections novelty 1 dur
      = some [{ start_sec := Dbl.fin 0, end_sec := Dbl.fin dur, label := "segment_1" }] := by
  have e : sz_sub 1 1 = 0 := by decide
  have hl : segment_label (([] : List Section).length + 1) = "segment_1" := by decide!
  unfold collect_sections
  rw [e]
  show some (add_final_section {} dur) = _
  unfold add_final_section
  rw [if_pos (by decide), hl]
  rfl

/-- C31, as stated, fails: one second of silence at 44100 Hz yields one
section, from 0 to 1 s, which is the single longest one, and its label is
"intro", not "chorus". -/
theorem C31_chorus_counterexample :
    ∃ sf, compute_structure_features libm_model (fun _ => true) (fun _ => 0) 44100 44100
        = some (0, some sf) ∧
      sf.sections = [{ start_sec := Dbl.fin 0, end_sec := Dbl.fin 1, label := "intro" }] ∧
      "intro" ≠ "chorus" := by
  obtain ⟨secs, sf, e, f1, f2, _⟩ := structure_sections_run libm_model (fun _ => true)
    (fun _ => 0) 44100 44100 (by decide) (by decide) (by decide) (by norm_num) (fun _ => rfl)
  have e2 : novelty_frames 44100 44100 = 1 := by decide
  have e3 : ((44100 : Nat) : ℚ) / ((44100 : Int) : ℚ) = 1 := by norm_num
  rw [e2, e3, collect_sections_one] at e
  have hs := Option.some.inj e
  refine ⟨sf, f1, ?_, by decide⟩
  rw [f2, ← hs]
  decide!

/-- C31 (amended): for every signal of fewer than `2^61` samples that holds at
least one novelty hop beyond the first window, at an even positive sample rate
and with every allocation granted, `compute_structure_features` returns 0 with
a section list in which the single longest section carries the label "chorus"
when it is neither the first nor the last section of the list. -/
theorem C31_longest_inner_is_chorus (M : Libm) (A : Nat → Bool) (mono : Nat → ℚ)
    (frames : Nat) (sample_rate : Int) (hev : sample_rate % 2 = 0) (hsr : 0 < sample_rate)
    (hfr : 1024 + (sample_rate / 2).toNat ≤ frames) (hlt : frames < 2 ^ 61)
    (hA : ∀ k, A k = true) :
    ∃ sf, compute_structure_features M A mono frames sample_rate = some (0, some sf) ∧
      ∀ i, 0 < i → i + 1 < sf.sections.length →
        (∀ j, j < sf.sections.length → j ≠ i →
          section_length (sf.sections.getD j {}) < section_length (sf.sections.getD i {})) →
        (sf.sections.getD i {}).label = "chorus" := by
  obtain ⟨secs, sf, e, f1, f2, _⟩ :=
    structure_sections_run M A mono frames sample_rate hev hsr hfr hlt hA
  obtain ⟨hn, _⟩ := novelty_frames_bounds frames sample_rate hev hsr hfr
  refine ⟨sf, f1, ?_⟩
  rw [f2, relabel_sections_length]
  intro i h0 hl hlong
  have hlong2 : ∀ j, j < secs.length → j ≠ i →
      section_length (secs.getD j {}) < section_length (secs.getD i {}) := by
    intro j hj hne
    have := hlong j hj hne
    rwa [relabel_section_length secs j hj, relabel_section_length secs i (by omega)] at this
  have hpos := collect_sections_inner_pos _ _ _ hn secs e i hl
  rw [relabel_sections_getD secs i (by omega)]
  show heuristic_label secs (longest_section secs).1 i = "chorus"
  rw [longest_section_unique secs i (by omega) hpos hlong2]
  exact heuristic_label_chorus secs i h0 hl

/-- C31 (amended) on a track of 3529024 samples at 44100 Hz (about 80 s) with
two impulses, at 20.5 s and 70.5 s: three sections, the middle one of 50 s is
the chorus. -/
theorem C31_longest_inner_is_chorus_witness :
    ∃ sf, compute_structure_features libm_model (fun _ => true) two_clicks 3529024 44100
        = some (0, some sf) ∧
      sf.sections
        = [{ start_sec := Dbl.fin 0, end_sec := Dbl.fin (41 / 2), label := "intro" },
           { start_sec := Dbl.fin (41 / 2), end_sec := Dbl.fin (141 / 2), label := "chorus" },
           { start_sec := Dbl.fin (141 / 2), end_sec := Dbl.fin (3529024 / 44100),
             label := "outro" }] ∧
      (sf.sections.getD 1 {}).label = "chorus" := by
  obtain ⟨sf, h1, h2⟩ := C31_longest_inner_is_chorus libm_model (fun _ => true) two_clicks
    3529024 44100 (by decide) (by decide) (by decide) (by norm_num) (fun _ => rfl)
  obtain ⟨secs, sf1, e, f1, f2, _⟩ := structure_sections_run libm_model (fun _ => true)
    two_clicks 3529024 44100 (by decide) (by decide) (by decide) (by norm_num) (fun _ => rfl)
  have hsf : sf1 = sf := by
    rw [h1] at f1
    exact (Option.some.inj (Prod.mk.inj (Option.some.inj f1)).2).symm
  subst hsf
  have e1 : (44100 / 2 : Int).toNat = 22050 := by decide
  have e2 : novelty_frames 3529024 44100 = 160 := by decide
  have e3 : ((3529024 : Nat) : ℚ) / ((44100 : Int) : ℚ) = 3529024 / 44100 := by norm_num
  rw [e1, e2, two_clicks_normalized_novelty 160 (by decide), e3] at e
  have hc : collect_sections two_peaks 160 (3529024 / 44100)
      = some [{ start_sec := Dbl.fin 0, end_sec := Dbl.fin (41 / 2), label := "segment_1" },
           { start_sec := Dbl.fin (41 / 2), end_sec := Dbl.fin (141 / 2), label := "segment_2" },
           { start_sec := Dbl.fin (141 / 2), end_sec := Dbl.fin (3529024 / 44100),
             label := "segment_3" }] := by
    decide!
  rw [hc] at e
  have hs := Option.some.inj e
  have hsec : sf1.sections
      = [{ start_sec := Dbl.fin 0, end_sec := Dbl.fin (41 / 2), label := "intro" },
         { start_sec := Dbl.fin (41 / 2), end_sec := Dbl.fin (141 / 2), label := "chorus" },
         { start_sec := Dbl.fin (141 / 2), end_sec := Dbl.fin (3529024 / 44100),
           label := "outro" }] := by
    rw [f2, ← hs]
    decide!
  refine ⟨sf1, h1, hsec, h2 1 (by decide) ?_ ?_⟩
  · rw [hsec]
    decide
  · rw [hsec]
    intro j hj hne
    have hj3 : j < 3 := hj
    interval_cases j
    · decide!
    · exact absurd rfl hne
    · decide!

/-! ## The transform size of `compute_production_features` -/

theorem production_fft_size_of_ge (frames : Nat) (h : 4096 ≤ frames) :
    production_fft_size frames = 4096 := by
  unfold production_fft_size
  rw [if_neg (by omega)]

theorem production_fft_size_of_lt (frames : Nat) (h : frames < 4096) :
    production_fft_size frames = frames := by
  unfold production_fft_size
  rw [if_pos (by omega)]

theorem production_fft_in_bounds_4096 : production_fft_in_bounds 4096 = true := by
  decide!

theorem production_fft_1152_out_of_bounds :
    production_fft_in_bounds 1152 = false ∧ production_blocks_ok 1152 256 1152 0 = false := by
  decide!

theorem window_fold_none {α : Type} (f : Nat → α → Option α) (l : List Nat) :
    l.foldl (fun (st : Option α) w => st.bind (f w)) none = none := by
  induction l with
  | nil => rfl
  | cons x xs ih => exact ih

theorem production_fft_none (M : Libm) (buf : Nat → Cpx ℚ) (n : Nat)
    (h : production_fft_in_bounds n = false) : production_fft M buf n = none := by
  unfold production_fft
  rw [h]
  rfl

theorem production_first_window_start (frames : Nat) :
    d2sz (b64r (b64r ((frames - frames : Nat) : ℚ) * b64r (((0 : Nat) : ℚ) / 9))) = 0 := by
  have e : ((frames - frames : Nat) : ℚ) = 0 := by simp
  rw [e, b64r_zero, zero_mul, b64r_zero]
  decide

/-- A signal whose length is below 4096 and makes the transform leave its
buffer has undefined behaviour in the first window. -/
theorem production_short_undefined (M : Libm) (E : ℚ → ℚ) (A : Nat → Bool)
    (stereo : Nat → ℚ) (frames : Nat) (sample_rate : Int) (channels : Nat)
    (hf : 0 < frames) (hlt : frames < 4096) (hsr : 0 < sample_rate)
    (hA : A (16 * frames) = true) (hb : production_fft_in_bounds frames = false) :
    compute_production_features M E A stereo frames sample_rate channels = none := by
  have hg : ¬ (frames = 0 ∨ sample_rate ≤ 0) := by
    intro h
    rcases h with h | h <;> omega
  have hstep : production_window_step M E A stereo frames sample_rate channels frames 0 {}
      = none := by
    unfold production_window_step
    have h1 : ¬ (({} : WindowState).stopped = true) := by decide
    rw [if_neg h1]
    simp only [production_first_window_start, zero_add, gt_iff_lt, lt_self_iff_false, if_false,
      hA, Bool.true_eq_false, production_fft_none M _ frames hb]
  unfold compute_production_features
  rw [if_neg hg]
  simp only [production_fft_size_of_lt frames hlt]
  have hr : List.range 10 = 0 :: [1, 2, 3, 4, 5, 6, 7, 8, 9] := rfl
  rw [hr, List.foldl_cons]
  simp only [Option.some_bind, hstep, window_fold_none]

/-- C33 (the code departs from it): the transform size is 4096 only for inputs
of at least 4096 frames; a shorter input is transformed at its own length.
The size 4096 keeps every index inside the buffer, but for 1152
frames (one MPEG-1 Layer III frame) the size 1152 is not a power of two: the
butterflies of the stage `m = 256` start a block at `k = 1024` and touch the
index `1024 + 0 + 128 = 1152`, outside the buffer of 1152 elements, so the
behaviour of `compute_production_features` is undefined. -/
theorem C33_production_fft_size (M : Libm) (E : ℚ → ℚ) (A : Nat → Bool) (stereo : Nat → ℚ)
    (channels : Nat) (hA : A (16 * 1152) = true) :
    (∀ frames, 4096 ≤ frames → production_fft_size frames = 4096) ∧
    (∀ frames, frames < 4096 → production_fft_size frames = frames) ∧
    production_fft_in_bounds 4096 = true ∧
    production_fft_in_bounds 1152 = false ∧
    production_blocks_ok 1152 256 1152 0 = false ∧
    ¬ (1024 + (256 / 2 - 1) + 256 / 2 < 1152) ∧
    compute_production_features M E A stereo 1152 44100 channels = none :=
  ⟨production_fft_size_of_ge, production_fft_size_of_lt, production_fft_in_bounds_4096,
    production_fft_1152_out_of_bounds.1, production_fft_1152_out_of_bounds.2, by decide,
    production_short_undefined M E A stereo 1152 44100 channels (by decide) (by decide)
      (by decide) hA production_fft_1152_out_of_bounds.1⟩

/-- C33 on 1152 frames of stereo silence. -/
theorem C33_production_fft_size_witness :
    compute_production_features libm_model exp_model (fun _ => true) (fun _ => 0) 1152 44100 2
      = none :=
  (C33_production_fft_size libm_model exp_model (fun _ => true) (fun _ => 0) 2 rfl).2.2.2.2.2.2

/-! ## Stereo width -/

theorem window_fold_some {α : Type} (f : Nat → α → Option α)
    (hf : ∀ w a, ∃ b, f w a = some b) (l : List Nat) (a : α) :
    ∃ b, l.foldl (fun (st : Option α) w => st.bind (f w)) (some a) = some b := by
  induction l generalizing a with
  | nil => exact ⟨a, rfl⟩
  | cons x xs ih =>
    obtain ⟨b, hb⟩ := hf x a
    rw [List.foldl_cons, Option.some_bind, hb]
    exact ih b

theorem production_window_step_some (M : Libm) (E : ℚ → ℚ) (A : Nat → Bool)
    (stereo : Nat → ℚ) (frames : Nat) (sample_rate : Int) (channels N : Nat)
    (hb : production_fft_in_bounds N = true) (w : Nat) (st : WindowState) :
    ∃ st1, production_window_step M E A stereo frames sample_rate channels N w st
      = some st1 := by
  unfold production_window_step production_fft
  rw [hb]
  simp only [if_true]
  split_ifs <;> exact ⟨_, rfl⟩

/-- With a transform that stays inside its buffer, `compute_production_features`
returns 0 and the stereo width of its stereo block. -/
theorem production_features_stereo_width (M : Libm) (E : ℚ → ℚ) (A : Nat → Bool)
    (stereo : Nat → ℚ) (frames : Nat) (sample_rate : Int) (channels : Nat)
    (hf : 0 < frames) (hsr : 0 < sample_rate)
    (hb : production_fft_in_bounds (production_fft_size frames) = true) :
    ∃ pf, compute_production_features M E A stereo frames sample_rate channels
        = some (0, some pf) ∧
      pf.stereo_width = Dbl.fin (production_stereo_width M stereo frames channels) := by
  have hg : ¬ (frames = 0 ∨ sample_rate ≤ 0) := by
    intro h
    rcases h with h | h <;> omega
  obtain ⟨st, hst⟩ := window_fold_some
    (production_window_step M E A stereo frames sample_rate channels
      (production_fft_size frames))
    (production_window_step_some M E A stereo frames sample_rate channels _ hb)
    (List.range 10) {}
  unfold compute_production_features
  rw [if_neg hg]
  simp only [hst]
  exact ⟨_, rfl, rfl⟩

theorem production_fft_4096_in_bounds (frames : Nat) (h : 4096 ≤ frames) :
    production_fft_in_bounds (production_fft_size frames) = true := by
  rw [production_fft_size_of_ge frames h]
  exact production_fft_in_bounds_4096

theorem production_stereo_width_mono (M : Libm) (stereo : Nat → ℚ) (frames : Nat) :
    production_stereo_width M stereo frames 1 = 1 := by
  unfold production_stereo_width
  rw [if_neg (by decide)]

theorem sum_loop64_congr (n : Nat) (f g : Nat → ℚ) (h : ∀ i, i < n → f i = g i) :
    sum_loop64 n f = sum_loop64 n g := by
  induction n with
  | zero => rfl
  | succ n ih =>
    rw [sum_loop64_succ, sum_loop64_succ, ih (fun i hi => h i (by omega)), h n (by omega)]

theorem production_stereo_width_identical (M : Libm) (stereo : Nat → ℚ) (frames : Nat)
    (h : ∀ i, i < frames → stereo (i * 2 + 1) = stereo (i * 2)) :
    production_stereo_width M stereo frames 2
      = if production_var_left stereo frames 2 > b64r (1 / 1000000000000)
        then b64r (production_var_left stereo frames 2
          / b64r (M.sqrt (production_var_left stereo frames 2)
            * M.sqrt (production_var_left stereo frames 2)))
        else 0 := by
  have e1 : sum_loop64 frames (fun i => stereo (i * 2 + 1))
      = sum_loop64 frames (fun i => stereo (i * 2 + 0)) :=
    sum_loop64_congr _ _ _ (fun i hi => by rw [h i hi, add_zero])
  have e2 : sum_loop64 frames (fun i => b64r (stereo (i * 2 + 1) * stereo (i * 2 + 1)))
      = sum_loop64 frames (fun i => b64r (stereo (i * 2 + 0) * stereo (i * 2 + 0))) :=
    sum_loop64_congr _ _ _ (fun i hi => by rw [h i hi, add_zero])
  have e3 : sum_loop64 frames (fun i => b64r (stereo (i * 2 + 0) * stereo (i * 2 + 1)))
      = sum_loop64 frames (fun i => b64r (stereo (i * 2 + 0) * stereo (i * 2 + 0))) :=
    sum_loop64_congr _ _ _ (fun i hi => by rw [h i hi, add_zero])
  unfold production_stereo_width production_var_left
  rw [if_pos (by decide)]
  simp only [e1, e2, e3, and_self]

/-- C28, as stated, fails on stereo silence: for 4096 frames of two identical
all-zero channels at 44100 Hz the variance is 0, not above `1e-12`, and the
stereo width is 0, not 1. -/
theorem C28_stereo_width_counterexample :
    (∀ i, i < 4096 → (fun _ : Nat => (0 : ℚ)) (i * 2 + 1) = (fun _ : Nat => (0 : ℚ)) (i * 2)) ∧
    ∃ pf, compute_production_features libm_model exp_model (fun _ => true) (fun _ => 0) 4096
        44100 2 = some (0, some pf) ∧
      pf.stereo_width = Dbl.fin 0 ∧ Dbl.fin 0 ≠ Dbl.fin 1 := by
  refine ⟨fun _ _ => rfl, ?_⟩
  obtain ⟨pf, h1, h2⟩ := production_features_stereo_width libm_model exp_model (fun _ => true)
    (fun _ => 0) 4096 44100 2 (by decide) (by decide)
    (production_fft_4096_in_bounds 4096 (le_refl _))
  refine ⟨pf, h1, ?_, by decide⟩
  rw [h2, production_stereo_width_identical libm_model (fun _ => 0) 4096 (fun _ _ => rfl)]
  have hv : production_var_left (fun _ => 0) 4096 2 = 0 := by
    unfold production_var_left
    rw [sum_loop64_zero _ _ (fun _ => by rw [mul_zero, b64r_zero]),
      sum_loop64_zero _ _ (fun _ => rfl)]
    simp only [zero_div, b64r_zero, mul_zero, sub_zero]
  rw [hv, if_neg (by
    intro h
    have h0 : (0 : ℚ) ≤ b64r (1 / 1000000000000) := b64r_nonneg (by norm_num)
    exact absurd h (not_lt.mpr h0))]

/-- C28 (amended): for every input of at least 4096 frames at a positive sample
rate, `compute_production_features` returns 0 with `stereo_width = 1` for a
single channel; for two identical channels the stereo width is 0 when the
variance of the channel, as computed in double, is at most `1e-12` and the
double quotient `var / (sqrt(var) * sqrt(var))` otherwise, which is 1 when the
rounded square of the square root gives back the variance. -/
theorem C28_stereo_width (M : Libm) (E : ℚ → ℚ) (A : Nat → Bool) (stereo : Nat → ℚ)
    (frames : Nat) (sample_rate : Int) (hf : 4096 ≤ frames) (hsr : 0 < sample_rate) :
    (∃ pf, compute_production_features M E A stereo frames sample_rate 1 = some (0, some pf) ∧
      pf.stereo_width = Dbl.fin 1) ∧
    ((∀ i, i < frames → stereo (i * 2 + 1) = stereo (i * 2)) →
      ∃ pf, compute_production_features M E A stereo frames sample_rate 2
          = some (0, some pf) ∧
        pf.stereo_width
          = Dbl.fin (if production_var_left stereo frames 2 > b64r (1 / 1000000000000)
              then b64r (production_var_left stereo frames 2
                / b64r (M.sqrt (production_var_left stereo frames 2)
                  * M.sqrt (production_var_left stereo frames 2)))
              else 0) ∧
        (production_var_left stereo frames 2 > b64r (1 / 1000000000000) →
          b64r (M.sqrt (production_var_left stereo frames 2)
            * M.sqrt (production_var_left stereo frames 2))
            = production_var_left stereo frames 2 →
          pf.stereo_width = Dbl.fin 1) ∧
        (¬ production_var_left stereo frames 2 > b64r (1 / 1000000000000) →
          pf.stereo_width = Dbl.fin 0)) := by
  have hb := production_fft_4096_in_bounds frames hf
  constructor
  · obtain ⟨pf, h1, h2⟩ := production_features_stereo_width M E A stereo frames sample_rate 1
      (by omega) hsr hb
    exact ⟨pf, h1, by rw [h2, production_stereo_width_mono]⟩
  · intro hid
    obtain ⟨pf, h1, h2⟩ := production_features_stereo_width M E A stereo frames sample_rate 2
      (by omega) hsr hb
    rw [production_stereo_width_identical M stereo frames hid] at h2
    refine ⟨pf, h1, h2, ?_, ?_⟩
    · intro hv hs
      rw [h2, if_pos hv, hs, div_self, b64r_one]
      intro h0
      rw [h0] at hv
      have h0' : (0 : ℚ) ≤ b64r (1 / 1000000000000) := b64r_nonneg (by norm_num)
      exact absurd hv (not_lt.mpr h0')
    · intro hv
      rw [h2, if_neg hv]

/-- C28 (amended) on 4096 frames of a mono square wave. -/
theorem C28_stereo_width_witness :
    (∃ pf, compute_production_features libm_model exp_model (fun _ => true)
        (fun i => if i % 2 = 0 then 1 else -1) 4096 44100 1 = some (0, some pf) ∧
      pf.stereo_width = Dbl.fin 1) :=
  (C28_stereo_width libm_model exp_model (fun _ => true) (fun i => if i % 2 = 0 then 1 else -1)
    4096 44100 (le_refl _) (by decide)).1

/-! ## Scores under a normalised melodic entropy -/

theorem compute_originality_score_le_73 (inp : GeniusInputs)
    (hent : Dbl.le inp.melody.melodic_entropy (Dbl.fin 1) = true) :
    compute_originality_score inp ≤ 73 := by
  unfold compute_originality_score
  have h0 := scale_to_100_bounds inp.melody.melodic_entropy scale_ok_0_5
  have h1 := entropy_score_le hent
  have h2 := scale_to_100_bounds inp.structure_.arc_complexity scale_ok_0_1
  have h3 := scale_to_100_bounds inp.rhythm.syncopation scale_ok_0_1
  unfold c_div
  rw [Int.tdiv_eq_ediv (by omega) (by norm_num)]
  omega

theorem compute_complexity_score_le_73 (inp : GeniusInputs)
    (hent : Dbl.le inp.melody.melodic_entropy (Dbl.fin 1) = true) :
    compute_complexity_score inp ≤ 73 := by
  unfold compute_complexity_score
  have h0 := scale_to_100_bounds inp.melody.melodic_entropy scale_ok_0_5
  have h1 := entropy_score_le hent
  have h2 := scale_to_100_bounds (Dbl.ofInt inp.melody.motif_count) scale_ok_0_50
  have h3 := scale_to_100_bounds inp.harmony.harmonic_motion scale_ok_0_1
  unfold c_div
  rw [Int.tdiv_eq_ediv (by omega) (by norm_num)]
  omega

theorem fill_explanations_positives (out : GeniusResult) (penalty : Int) :
    (fill_explanations out penalty).positives
      = (if out.melody_score ≥ 85
          then [snprintf_text ("Strong melody (score " ++ toString out.melody_score ++ ")")]
          else [])
        ++ (if out.creativity_score ≥ 85
          then [snprintf_text ("High creativity (score " ++ toString out.creativity_score ++ ")")]
          else [])
        ++ (if out.emotion_score ≥ 85
          then [snprintf_text
            ("High emotional impact (score " ++ toString out.emotion_score ++ ")")]
          else [])
        ++ (if out.originality_score ≥ 80
          then [snprintf_text
            ("Original structure/motifs (originality " ++ toString out.originality_score ++ ")")]
          else []) := by
  simp only [fill_explanations, add_positive_eq, add_negative_eq, GENIUS_MAX_EXPLAIN]
  by_cases h1 : out.melody_score ≥ 85 <;> by_cases h2 : out.creativity_score ≥ 85 <;>
    by_cases h3 : out.emotion_score ≥ 85 <;> by_cases h4 : out.originality_score ≥ 80 <;>
    simp [h1, h2, h3, h4]

theorem result_positives (E : ℚ → ℚ) (inp : GeniusInputs) (genre : GeniusGenre) :
    (compute_genius_rating E inp genre).positives
      = (if compute_melody_score E inp ≥ 85
          then [snprintf_text
            ("Strong melody (score " ++ toString (compute_melody_score E inp) ++ ")")]
          else [])
        ++ (if compute_creativity_score E inp ≥ 85
          then [snprintf_text
            ("High creativity (score " ++ toString (compute_creativity_score E inp) ++ ")")]
          else [])
        ++ (if compute_emotion_score E inp ≥ 85
          then [snprintf_text
            ("High emotional impact (score " ++ toString (compute_emotion_score E inp) ++ ")")]
          else [])
        ++ (if compute_originality_score inp ≥ 80
          then [snprintf_text
            ("Original structure/motifs (originality "
              ++ toString (compute_originality_score inp) ++ ")")]
          else []) :=
  fill_explanations_positives _ _

/-- C34: for every input whose melodic entropy is at most 1 and every genre,
`compute_genius_rating` writes originality_score <= 73, complexity_score <= 73
and creativity_score <= 80; the verdict is then 1 exactly when overall >= 85
with melody, creativity or harmony >= 80, or emotion >= 90 with overall >= 80
(the originality/complexity promotion never decides it); and the positive
reasons are at most the melody and the emotion text, in this order: the
'High creativity' and 'Original structure/motifs' texts are never written. -/
theorem C34_entropy_bounded_scores (E : ℚ → ℚ) (inp : GeniusInputs) (genre : GeniusGenre)
    (hent : Dbl.le inp.melody.melodic_entropy (Dbl.fin 1) = true) :
    (compute_genius_rating E inp genre).originality_score ≤ 73 ∧
    (compute_genius_rating E inp genre).complexity_score ≤ 73 ∧
    (compute_genius_rating E inp genre).creativity_score ≤ 80 ∧
    ¬ ((compute_genius_rating E inp genre).originality_score ≥ 85 ∧
        (compute_genius_rating E inp genre).complexity_score ≥ 85) ∧
    ((compute_genius_rating E inp genre).is_genius = 1 ↔
      ((compute_genius_rating E inp genre).overall_score ≥ 85 ∧
          ((compute_genius_rating E inp genre).melody_score ≥ 80 ∨
           (compute_genius_rating E inp genre).creativity_score ≥ 80 ∨
           (compute_genius_rating E inp genre).harmony_score ≥ 80)) ∨
        ((compute_genius_rating E inp genre).emotion_score ≥ 90 ∧
          (compute_genius_rating E inp genre).overall_score ≥ 80)) ∧
    ¬ ((compute_genius_rating E inp genre).originality_score ≥ 80) ∧
    ¬ ((compute_genius_rating E inp genre).creativity_score ≥ 85) ∧
    (compute_genius_rating E inp genre).positives
      = (if (compute_genius_rating E inp genre).melody_score ≥ 85
          then [snprintf_text ("Strong melody (score "
            ++ toString (compute_genius_rating E inp genre).melody_score ++ ")")]
          else [])
        ++ (if (compute_genius_rating E inp genre).emotion_score ≥ 85
          then [snprintf_text ("High emotional impact (score "
            ++ toString (compute_genius_rating E inp genre).emotion_score ++ ")")]
          else []) ∧
    (compute_genius_rating E inp genre).pos_count
      = (if (compute_genius_rating E inp genre).melody_score ≥ 85 then 1 else 0)
        + (if (compute_genius_rating E inp genre).emotion_score ≥ 85 then 1 else 0) := by
  have ho := compute_originality_score_le_73 inp hent
  have hx := compute_complexity_score_le_73 inp hent
  have hc := compute_creativity_score_le_80 E inp hent
  have key := genius_verdict_iff (compute_genius_rating E inp genre).overall_score
    (compute_melody_score E inp) (compute_creativity_score E inp)
    (compute_harmony_score E inp) (compute_originality_score inp)
    (compute_complexity_score inp) (compute_emotion_score E inp)
  rw [← result_is_genius] at key
  have hpc : (compute_genius_rating E inp genre).pos_count
      = (if compute_melody_score E inp ≥ 85 then 1 else 0)
        + (if compute_creativity_score E inp ≥ 85 then 1 else 0)
        + (if compute_emotion_score E inp ≥ 85 then 1 else 0)
        + (if compute_originality_score inp ≥ 80 then 1 else 0) :=
    (fill_explanations_counts _ _).1
  have hpos := result_positives E inp genre
  rw [result_melody_score, result_creativity_score, result_harmony_score,
    result_originality_score, result_complexity_score, result_emotion_score]
  have n1 : ¬ (compute_originality_score inp ≥ 80) := by omega
  have n2 : ¬ (compute_creativity_score E inp ≥ 85) := by omega
  refine ⟨ho, hx, hc, by omega, ?_, n1, n2, ?_, ?_⟩
  · rw [key]
    constructor
    · rintro (h | h | h)
      · exact Or.inl h
      · omega
      · exact Or.inr h
    · rintro (h | h)
      · exact Or.inl h
      · exact Or.inr (Or.inr h)
  · rw [hpos, if_neg n2, if_neg n1, List.append_nil, List.append_nil]
  · rw [hpc, if_neg n2, if_neg n1, add_zero, add_zero]

/-- C34 on `peak_input_unit` with the rap profile: every other sub-score is at
its maximum and the entropy is 1. -/
theorem C34_entropy_bounded_scores_witness :
    Dbl.le peak_input_unit.melody.melodic_entropy (Dbl.fin 1) = true ∧
    (compute_genius_rating exp_model peak_input_unit GENIUS_GENRE_RAP).originality_score ≤ 73 ∧
    (compute_genius_rating exp_model peak_input_unit GENIUS_GENRE_RAP).complexity_score ≤ 73 ∧
    (compute_genius_rating exp_model peak_input_unit GENIUS_GENRE_RAP).creativity_score ≤ 80 :=
  ⟨by decide!,
    (C34_entropy_bounded_scores exp_model peak_input_unit GENIUS_GENRE_RAP (by decide!)).1,
    (C34_entropy_bounded_scores exp_model peak_input_unit GENIUS_GENRE_RAP (by decide!)).2.1,
    (C34_entropy_bounded_scores exp_model peak_input_unit GENIUS_GENRE_RAP (by decide!)).2.2.1⟩

/-! ## Motif keys and motif counts -/

theorem motif_key_step (key n : Nat) (hk : key < 2 ^ 56) (hn : n < 256) :
    ((key <<< 8) % 2 ^ 64) ||| n = key * 256 + n := by
  rw [Nat.shiftLeft_eq, Nat.mod_eq_of_lt (by omega)]
  have h := Nat.mul_add_lt_is_or (show n < 2 ^ 8 by omega) key
  rw [show key * 2 ^ 8 = 2 ^ 8 * key by ring, ← h]
  ring

theorem motif_key_four (a b c d : Int) (ha : 0 ≤ a ∧ a ≤ 127) (hb : 0 ≤ b ∧ b ≤ 127)
    (hc : 0 ≤ c ∧ c ≤ 127) (hd : 0 ≤ d ∧ d ≤ 127) :
    motif_key [a, b, c, d]
      = ((a.toNat * 256 + b.toNat) * 256 + c.toNat) * 256 + d.toNat := by
  have ea : (a % 256).toNat = a.toNat := by omega
  have eb : (b % 256).toNat = b.toNat := by omega
  have ec : (c % 256).toNat = c.toNat := by omega
  have ed : (d % 256).toNat = d.toNat := by omega
  show ((((((((0 <<< 8) % 2 ^ 64) ||| (a % 256).toNat) <<< 8) % 2 ^ 64 ||| (b % 256).toNat)
    <<< 8) % 2 ^ 64 ||| (c % 256).toNat) <<< 8) % 2 ^ 64 ||| (d % 256).toNat = _
  rw [ea, eb, ec, ed]
  rw [motif_key_step 0 a.toNat (by norm_num) (by omega)]
  rw [motif_key_step _ b.toNat (by omega) (by omega)]
  rw [motif_key_step _ c.toNat (by omega) (by omega)]
  rw [motif_key_step _ d.toNat (by omega) (by omega)]
  omega

theorem motif_key_inj (w1 w2 : List Int) (h1 : w1.length = 4) (h2 : w2.length = 4)
    (r1 : ∀ x ∈ w1, 0 ≤ x ∧ x ≤ 127) (r2 : ∀ x ∈ w2, 0 ≤ x ∧ x ≤ 127)
    (h : motif_key w1 = motif_key w2) : w1 = w2 := by
  match w1, h1 with
  | [a, b, c, d], _ =>
    match w2, h2 with
    | [a2, b2, c2, d2], _ =>
      have ha := r1 a (by simp)
      have hb := r1 b (by simp)
      have hc := r1 c (by simp)
      have hd := r1 d (by simp)
      have ha2 := r2 a2 (by simp)
      have hb2 := r2 b2 (by simp)
      have hc2 := r2 c2 (by simp)
      have hd2 := r2 d2 (by simp)
      rw [motif_key_four a b c d ha hb hc hd, motif_key_four a2 b2 c2 d2 ha2 hb2 hc2 hd2] at h
      have e1 : a = a2 := by omega
      have e2 : b = b2 := by omega
      have e3 : c = c2 := by omega
      have e4 : d = d2 := by omega
      rw [e1, e2, e3, e4]

theorem midi_of_pitch_range (M : Libm) (p : ℚ) :
    0 ≤ midi_of_pitch M p ∧ midi_of_pitch M p ≤ 127 := by
  unfold midi_of_pitch
  simp only
  split_ifs <;> omega

theorem all_midi_notes_range (M : Libm) (f0_smoothed conf : Nat → ℚ) (n_frames : Nat) :
    ∀ x ∈ all_midi_notes M f0_smoothed conf n_frames, 0 ≤ x ∧ x ≤ 127 := by
  intro x hx
  unfold all_midi_notes at hx
  rw [List.mem_map] at hx
  obtain ⟨i, _, rfl⟩ := hx
  exact midi_of_pitch_range M _

theorem all_midi_notes_length (M : Libm) (f0_smoothed conf : Nat → ℚ) (n_frames : Nat) :
    (all_midi_notes M f0_smoothed conf n_frames).length ≤ n_frames := by
  unfold all_midi_notes
  rw [List.length_map]
  calc _ ≤ (List.range n_frames).length := List.length_filter_le _ _
    _ = n_frames := List.length_range _

theorem motif_windows_length (all_midi : List Int) :
    (motif_windows all_midi).length = all_midi.length + 1 - 4 := by
  unfold motif_windows
  rw [List.length_map, List.length_range]
  rfl

theorem motif_windows_mem (all_midi : List Int) (hr : ∀ x ∈ all_midi, 0 ≤ x ∧ x ≤ 127) :
    ∀ w ∈ motif_windows all_midi, w.length = 4 ∧ ∀ x ∈ w, 0 ≤ x ∧ x ≤ 127 := by
  intro w hw
  unfold motif_windows at hw
  rw [List.mem_map] at hw
  obtain ⟨i, hi, rfl⟩ := hw
  rw [List.mem_range] at hi
  have e : MOTIF_N = 4 := rfl
  rw [e] at hi ⊢
  constructor
  · rw [List.length_take, List.length_drop]
    omega
  · intro x hx
    exact hr x (List.mem_of_mem_drop (List.mem_of_mem_take hx))

theorem motif_key_inj_on_windows (all_midi : List Int)
    (hr : ∀ x ∈ all_midi, 0 ≤ x ∧ x ≤ 127) :
    ∀ x ∈ motif_windows all_midi, ∀ y ∈ motif_windows all_midi,
      motif_key x = motif_key y → x = y := by
  intro x hx y hy h
  obtain ⟨lx, rx⟩ := motif_windows_mem all_midi hr x hx
  obtain ⟨ly, ry⟩ := motif_windows_mem all_midi hr y hy
  exact motif_key_inj x y lx ly rx ry h

/-! ### The motif loop -/

theorem modify_count_keys (l : List Motif) (i : Nat) :
    (l.modify (fun m => { m with count := m.count + 1 }) i).map Motif.key = l.map Motif.key := by
  induction l generalizing i with
  | nil => rw [List.modify_nil]
  | cons a l ih =>
    cases i with
    | zero => rfl
    | succ i =>
      rw [List.modify_succ_cons, List.map_cons, List.map_cons, ih]

theorem modify_count_sum (l : List Motif) (i : Nat) (hi : i < l.length) :
    ((l.modify (fun m => { m with count := m.count + 1 }) i).map Motif.count).sum
      = (l.map Motif.count).sum + 1 := by
  induction l generalizing i with
  | nil => simp at hi
  | cons a l ih =>
    cases i with
    | zero =>
      rw [List.modify_zero_cons, List.map_cons, List.map_cons, List.sum_cons, List.sum_cons]
      show a.count + 1 + _ = _
      ring
    | succ i =>
      rw [List.modify_succ_cons, List.map_cons, List.map_cons, List.sum_cons, List.sum_cons,
        ih i (by simpa using hi)]
      ring

theorem modify_count_pos (l : List Motif) (i : Nat) (h : ∀ m ∈ l, 1 ≤ m.count) :
    ∀ m ∈ l.modify (fun m => { m with count := m.count + 1 }) i, 1 ≤ m.count := by
  induction l generalizing i with
  | nil =>
    intro m hm
    simp at hm
  | cons a l ih =>
    cases i with
    | zero =>
      intro m hm
      rw [List.modify_zero_cons, List.mem_cons] at hm
      rcases hm with rfl | hm
      · have := h a (List.mem_cons_self _ _)
        show 1 ≤ a.count + 1
        omega
      · exact h m (List.mem_cons_of_mem _ hm)
    | succ i =>
      intro m hm
      rw [List.modify_succ_cons, List.mem_cons] at hm
      rcases hm with rfl | hm
      · exact h m (List.mem_cons_self _ _)
      · exact ih i (fun m hm => h m (List.mem_cons_of_mem _ hm)) m hm

theorem motif_step_inv (A : Nat → Bool) (hA : ∀ k, A k = true) (key : Nat) (st : MotifState)
    (ks : List Nat) (h : motif_inv st ks) : motif_inv (motif_step A key st) (ks ++ [key]) := by
  obtain ⟨h1, h2, h3, h4, h5, h6⟩ := h
  unfold motif_step
  rw [if_neg (by rw [h1]; decide)]
  cases hf : st.motifs.findIdx? (fun m => decide (m.key = key)) with
  | some found =>
    rw [List.findIdx?_eq_some_iff_getElem] at hf
    obtain ⟨hlt, hp, _⟩ := hf
    have hk : key ∈ st.motifs.map Motif.key := by
      rw [List.mem_map]
      exact ⟨st.motifs[found], List.getElem_mem _, by simpa using hp⟩
    refine ⟨h1, ?_, ?_, ?_, ?_, ?_⟩
    · show (List.map Motif.key (List.modify _ found st.motifs)).Nodup
      rw [modify_count_keys]
      exact h2
    · intro k
      show k ∈ List.map Motif.key (List.modify _ found st.motifs) ↔ _
      rw [modify_count_keys, List.mem_append, List.mem_singleton, h3]
      constructor
      · exact fun h => Or.inl h
      · rintro (h | h)
        · exact h
        · rw [h, ← h3]
          exact hk
    · exact modify_count_pos st.motifs found h4
    · show (List.map Motif.count (List.modify _ found st.motifs)).sum
        = st.total_motif_occurrences + 1
      rw [modify_count_sum st.motifs found hlt, h5]
    · show st.total_motif_occurrences + 1 = _
      rw [h6, List.length_append]
      simp
  | none =>
    rw [List.findIdx?_eq_none_iff] at hf
    have hk : key ∉ st.motifs.map Motif.key := by
      rw [List.mem_map]
      rintro ⟨m, hm, e⟩
      have := hf m hm
      simp [e] at this
    have main : motif_inv
        { st with motifs := st.motifs ++ [{ key := key, count := 1 }],
                  total_motif_occurrences := st.total_motif_occurrences + 1 } (ks ++ [key]) ∧
        ∀ c : Nat, motif_inv
        { st with motifs := st.motifs ++ [{ key := key, count := 1 }],
                  motifs_alloc := c,
                  total_motif_occurrences := st.total_motif_occurrences + 1 } (ks ++ [key]) := by
      have core : (List.map Motif.key (st.motifs ++ [{ key := key, count := 1 }])).Nodup ∧
          (∀ k, k ∈ List.map Motif.key (st.motifs ++ [{ key := key, count := 1 }])
            ↔ k ∈ ks ++ [key]) ∧
          (∀ m ∈ st.motifs ++ [({ key := key, count := 1 } : Motif)], 1 ≤ m.count) ∧
          (List.map Motif.count (st.motifs ++ [{ key := key, count := 1 }])).sum
            = st.total_motif_occurrences + 1 ∧
          st.total_motif_occurrences + 1 = ((ks ++ [key]).length : Int) := by
        refine ⟨?_, ?_, ?_, ?_, ?_⟩
        · rw [List.map_append, List.map_singleton]
          apply List.Nodup.append h2 (List.nodup_singleton _)
          intro a ha hb
          rw [List.mem_singleton] at hb
          rw [hb] at ha
          exact hk ha
        · intro k
          simp only [List.map_append, List.map_singleton, List.mem_append, List.mem_singleton, h3]
        · intro m hm
          rw [List.mem_append, List.mem_singleton] at hm
          rcases hm with hm | rfl
          · exact h4 m hm
          · exact le_refl _
        · rw [List.map_append, List.sum_append, h5]
          simp
        · rw [h6, List.length_append]
          simp
      exact ⟨⟨h1, core.1, core.2.1, core.2.2.1, core.2.2.2.1, core.2.2.2.2⟩,
        fun c => ⟨h1, core.1, core.2.1, core.2.2.1, core.2.2.2.1, core.2.2.2.2⟩⟩
    show motif_inv (if st.motifs.length ≥ st.motifs_alloc then _ else _) _
    by_cases hc : st.motifs.length ≥ st.motifs_alloc
    · rw [if_pos hc]
      show motif_inv (if A (16 * _) = false then _ else _) _
      rw [if_neg (by rw [hA]; decide)]
      exact main.2 _
    · rw [if_neg hc]
      exact main.1

theorem motif_fold_inv (A : Nat → Bool) (hA : ∀ k, A k = true) (W : List (List Int)) :
    ∀ (st : MotifState) (ks : List Nat), motif_inv st ks →
      motif_inv (W.foldl (fun ms w => motif_step A (motif_key w) ms) st)
        (ks ++ W.map motif_key) := by
  induction W with
  | nil =>
    intro st ks h
    simpa using h
  | cons w W ih =>
    intro st ks h
    rw [List.foldl_cons, List.map_cons]
    have := ih _ _ (motif_step_inv A hA (motif_key w) st ks h)
    rwa [List.append_assoc, List.singleton_append] at this

theorem motif_scan_inv (A : Nat → Bool) (hA : ∀ k, A k = true) (all_midi : List Int) :
    motif_inv (motif_scan A all_midi) ((motif_windows all_midi).map motif_key) := by
  have h0 : motif_inv {} [] := by
    refine ⟨rfl, List.nodup_nil, ?_, ?_, rfl, rfl⟩
    · intro k
      exact Iff.rfl
    · intro m hm
      exact absurd hm (List.not_mem_nil _)
  have := motif_fold_inv A hA (motif_windows all_midi) {} [] h0
  rwa [List.nil_append] at this

theorem motif_scan_length (A : Nat → Bool) (hA : ∀ k, A k = true) (all_midi : List Int)
    (hr : ∀ x ∈ all_midi, 0 ≤ x ∧ x ≤ 127) :
    (motif_scan A all_midi).motifs.length = (motif_windows all_midi).dedup.length := by
  obtain ⟨_, h2, h3, _, _, _⟩ := motif_scan_inv A hA all_midi
  have hn : ((motif_windows all_midi).dedup.map motif_key).Nodup := by
    apply List.Nodup.map_on _ (List.nodup_dedup _)
    intro x hx y hy
    exact motif_key_inj_on_windows all_midi hr x (List.mem_dedup.mp hx) y (List.mem_dedup.mp hy)
  have hp : ((motif_scan A all_midi).motifs.map Motif.key).Perm
      ((motif_windows all_midi).dedup.map motif_key) := by
    rw [List.perm_ext_iff_of_nodup h2 hn]
    intro k
    rw [h3, List.mem_map, List.mem_map]
    constructor
    · rintro ⟨w, hw, e⟩
      exact ⟨w, List.mem_dedup.mpr hw, e⟩
    · rintro ⟨w, hw, e⟩
      exact ⟨w, List.mem_dedup.mp hw, e⟩
  have := hp.length_eq
  rwa [List.length_map, List.length_map] at this

theorem motif_scan_total (A : Nat → Bool) (hA : ∀ k, A k = true) (all_midi : List Int) :
    (motif_scan A all_midi).total_motif_occurrences = ((motif_windows all_midi).length : Int) := by
  obtain ⟨_, _, _, _, _, h6⟩ := motif_scan_inv A hA all_midi
  rw [h6, List.length_map]

theorem repeated_fold (l : List Motif) (h : ∀ m ∈ l, 1 ≤ m.count) :
    ∀ acc : Int, l.foldl (fun acc m => if m.count > 1 then acc + (m.count - 1) else acc) acc
      = acc + (l.map Motif.count).sum - (l.length : Int) := by
  induction l with
  | nil =>
    intro acc
    simp
  | cons a l ih =>
    intro acc
    rw [List.foldl_cons, ih (fun m hm => h m (List.mem_cons_of_mem _ hm))]
    have ha := h a (List.mem_cons_self _ _)
    rw [List.map_cons, List.sum_cons, List.length_cons]
    push_cast
    split_ifs with hc
    · ring
    · have : a.count = 1 := by omega
      rw [this]
      ring

theorem motif_scan_repeated (A : Nat → Bool) (hA : ∀ k, A k = true) (all_midi : List Int)
    (hr : ∀ x ∈ all_midi, 0 ≤ x ∧ x ≤ 127) :
    (motif_scan A all_midi).motifs.foldl
        (fun acc m => if m.count > 1 then acc + (m.count - 1) else acc) (0 : Int)
      = ((motif_windows all_midi).length : Int) - ((motif_windows all_midi).dedup.length : Int) := by
  obtain ⟨_, _, _, h4, h5, h6⟩ := motif_scan_inv A hA all_midi
  rw [repeated_fold _ h4, h5, h6, motif_scan_length A hA all_midi hr, List.length_map]
  ring

/-! ### The counts in the words of the documentation -/

theorem sum_filter_pred {α : Type} (l : List α) (f : α → Nat) (hf : ∀ x ∈ l, 1 ≤ f x) :
    (((l.filter (fun w => decide (f w > 1))).map (fun w => f w - 1)).sum) + l.length
      = (l.map f).sum := by
  induction l with
  | nil => rfl
  | cons a l ih =>
    have ha := hf a (List.mem_cons_self _ _)
    have := ih (fun x hx => hf x (List.mem_cons_of_mem _ hx))
    by_cases hc : f a > 1
    · rw [List.filter_cons_of_pos (by simpa using hc), List.map_cons, List.sum_cons,
        List.map_cons, List.sum_cons, List.length_cons]
      omega
    · rw [List.filter_cons_of_neg (by simpa using hc), List.map_cons, List.sum_cons,
        List.length_cons]
      omega

theorem ngram_occurrences_eq_count (W : List (List Int)) (w : List Int) :
    ngram_occurrences W w = @List.count _ instBEqOfDecidableEq w W := by
  unfold ngram_occurrences List.count
  rfl

theorem repeated_ngrams_eq (all_midi : List Int) :
    repeated_ngrams all_midi + (motif_windows all_midi).dedup.length
      = (motif_windows all_midi).length := by
  unfold repeated_ngrams
  rw [sum_filter_pred (motif_windows all_midi).dedup
    (fun w => ngram_occurrences (motif_windows all_midi) w)
    (fun x hx => by
      show 0 < List.countP (fun v => decide (v = x)) (motif_windows all_midi)
      exact List.countP_pos_iff.mpr ⟨x, List.mem_dedup.mp hx, by simp⟩)]
  have e : (fun w => ngram_occurrences (motif_windows all_midi) w)
      = (fun w => @List.count _ instBEqOfDecidableEq w (motif_windows all_midi)) :=
    funext (fun w => ngram_occurrences_eq_count _ w)
  rw [e]
  exact List.sum_map_count_dedup_eq_length (motif_windows all_midi)

theorem dedup_length_pos {α : Type} [DecidableEq α] (l : List α) (h : 0 < l.length) :
    0 < l.dedup.length := by
  cases l with
  | nil => simp at h
  | cons a l =>
    have hm : a ∈ (a :: l).dedup := List.mem_dedup.mpr (List.mem_cons_self a l)
    exact List.length_pos_of_mem hm

theorem melody_voiced_stats_motif_count (M : Libm) (A : Nat → Bool)
    (f0_smoothed conf frame_energy : Nat → ℚ) (n_frames : Nat) (sample_rate : Int)
    (voiced_f0_list : List ℚ) (sum_f0 : ℚ) (voiced_count : Int) (f0_confidence : ℚ) :
    (melody_voiced_stats M A f0_smoothed conf frame_energy n_frames sample_rate
        voiced_f0_list sum_f0 voiced_count f0_confidence).motif_count
      = ((motif_scan A (all_midi_notes M f0_smoothed conf n_frames)).motifs.length : Int) :=
  rfl

theorem melody_voiced_stats_motif_rate (M : Libm) (A : Nat → Bool)
    (f0_smoothed conf frame_energy : Nat → ℚ) (n_frames : Nat) (sample_rate : Int)
    (voiced_f0_list : List ℚ) (sum_f0 : ℚ) (voiced_count : Int) (f0_confidence : ℚ) :
    (melody_voiced_stats M A f0_smoothed conf frame_energy n_frames sample_rate
        voiced_f0_list sum_f0 voiced_count f0_confidence).motif_repetition_rate
      = Dbl.fin
          (if (motif_scan A (all_midi_notes M f0_smoothed conf n_frames)).total_motif_occurrences
              > 0 then
            b64r ((((motif_scan A (all_midi_notes M f0_smoothed conf n_frames)).motifs.foldl
                (fun acc m => if m.count > 1 then acc + (m.count - 1) else acc) (0 : Int) : Int)
                  : ℚ)
              / (((motif_scan A (all_midi_notes M f0_smoothed conf n_frames)).total_motif_occurrences
                  : Int) : ℚ))
          else 0) :=
  rfl

/-! ## Motif claims -/

theorem motif_key_lt (w : List Int) (h : w.length = 4) (r : ∀ x ∈ w, 0 ≤ x ∧ x ≤ 127) :
    motif_key w < 2 ^ 32 := by
  match w, h with
  | [a, b, c, d], _ =>
    have ha := r a (by simp)
    have hb := r b (by simp)
    have hc := r c (by simp)
    have hd := r d (by simp)
    rw [motif_key_four a b c d ha hb hc hd]
    omega

theorem motif_rate_lt_one (R D T : Nat) (h : R + D = T) (hD : 0 < D) (hT : T < 2 ^ 30) :
    (R : ℚ) / (T : ℚ) = 1 - (D : ℚ) / (T : ℚ) ∧ 0 ≤ (R : ℚ) / (T : ℚ) ∧
      (R : ℚ) / (T : ℚ) < 1 ∧ 0 ≤ b64r ((R : ℚ) / (T : ℚ)) ∧ b64r ((R : ℚ) / (T : ℚ)) < 1 := by
  have hTpos : (0 : ℚ) < (T : ℚ) := by
    have : 0 < T := by omega
    exact_mod_cast this
  have hDq : (1 : ℚ) ≤ (D : ℚ) := by exact_mod_cast hD
  have hTq : (T : ℚ) ≤ 2 ^ 30 := by
    have : T ≤ 2 ^ 30 := by omega
    exact_mod_cast this
  have e : (R : ℚ) = (T : ℚ) - (D : ℚ) := by
    have : ((R + D : Nat) : ℚ) = (T : ℚ) := by rw [h]
    push_cast at this
    linarith
  have e1 : (R : ℚ) / (T : ℚ) = 1 - (D : ℚ) / (T : ℚ) := by
    rw [e]
    field_simp
  have h0 : 0 ≤ (R : ℚ) / (T : ℚ) := div_nonneg (Nat.cast_nonneg _) (le_of_lt hTpos)
  have hle : (R : ℚ) / (T : ℚ) ≤ 1 - 1 / 2 ^ 30 := by
    rw [e1]
    have : (1 : ℚ) / 2 ^ 30 ≤ (D : ℚ) / (T : ℚ) := by
      rw [div_le_div_iff₀ (by norm_num) hTpos]
      nlinarith
    linarith
  have hrep : b64r (1 - 1 / 2 ^ 30) = 1 - 1 / 2 ^ 30 := by
    have := b64r_of_form (2 ^ 30 - 1) (-30) (by norm_num) (by norm_num)
    have e2 : (((2 ^ 30 - 1 : Int) : ℚ)) * 2 ^ (-30 : Int) = 1 - 1 / 2 ^ 30 := by
      norm_num
    rwa [e2] at this
  refine ⟨e1, h0, by linarith [show (0 : ℚ) < 1 / 2 ^ 30 by norm_num], b64r_nonneg h0, ?_⟩
  have := b64r_le_of_le hrep hle
  linarith [show (0 : ℚ) < 1 / 2 ^ 30 by norm_num]

/-- C40: the motif key of `compute_melody_features`, `key = (key << 8) |
(note & 0xFF)` over four notes, is injective on notes in 0..127: two 4-note
n-grams get the same key exactly when they are the same note sequence, and the
key stays below 2^32. The notes that the function collects lie in 0..127 and
its sliding n-grams hold four notes each, so, with every `realloc` granted,
`motif_count` is the number of distinct 4-grams of the note sequence. -/
theorem C40_motif_key_injective (M : Libm) (A : Nat → Bool)
    (f0_smoothed conf frame_energy : Nat → ℚ) (n_frames : Nat) (sample_rate : Int)
    (voiced_f0_list : List ℚ) (sum_f0 : ℚ) (voiced_count : Int) (f0_confidence : ℚ)
    (w1 w2 : List Int) (hA : ∀ k, A k = true) (h1 : w1.length = 4) (h2 : w2.length = 4)
    (r1 : ∀ x ∈ w1, 0 ≤ x ∧ x ≤ 127) (r2 : ∀ x ∈ w2, 0 ≤ x ∧ x ≤ 127) :
    (motif_key w1 = motif_key w2 ↔ w1 = w2) ∧
    motif_key w1 < 2 ^ 32 ∧
    (∀ x ∈ all_midi_notes M f0_smoothed conf n_frames, 0 ≤ x ∧ x ≤ 127) ∧
    (∀ w ∈ motif_windows (all_midi_notes M f0_smoothed conf n_frames), w.length = 4) ∧
    (melody_voiced_stats M A f0_smoothed conf frame_energy n_frames sample_rate
        voiced_f0_list sum_f0 voiced_count f0_confidence).motif_count
      = ((motif_windows (all_midi_notes M f0_smoothed conf n_frames)).dedup.length : Int) := by
  have hr := all_midi_notes_range M f0_smoothed conf n_frames
  refine ⟨⟨motif_key_inj w1 w2 h1 h2 r1 r2, fun e => by rw [e]⟩, motif_key_lt w1 h1 r1, hr,
    fun w hw => (motif_windows_mem _ hr w hw).1, ?_⟩
  rw [melody_voiced_stats_motif_count, motif_scan_length A hA _ hr]

/-- C40 on the n-grams C-D-E-F and C-D-E-G, which differ in the last note
only, with six voiced frames at 440 Hz. -/
theorem C40_motif_key_injective_witness :
    (motif_key [60, 62, 64, 65] = motif_key [60, 62, 64, 67]
      ↔ ([60, 62, 64, 65] : List Int) = [60, 62, 64, 67]) ∧
    motif_key [60, 62, 64, 65] < 2 ^ 32 ∧
    (melody_voiced_stats libm_model (fun _ => true) (fun _ => 440) (fun _ => 1) (fun _ => 1) 6
        44100 [440, 440, 440, 440, 440, 440] 2640 6 1).motif_count
      = ((motif_windows (all_midi_notes libm_model (fun _ => 440) (fun _ => 1) 6)).dedup.length
          : Int) :=
  ⟨(C40_motif_key_injective libm_model (fun _ => true) (fun _ => 440) (fun _ => 1) (fun _ => 1) 6
      44100 [440, 440, 440, 440, 440, 440] 2640 6 1 [60, 62, 64, 65] [60, 62, 64, 67]
      (fun _ => rfl) rfl rfl (by decide) (by decide)).1,
   (C40_motif_key_injective libm_model (fun _ => true) (fun _ => 440) (fun _ => 1) (fun _ => 1) 6
      44100 [440, 440, 440, 440, 440, 440] 2640 6 1 [60, 62, 64, 65] [60, 62, 64, 67]
      (fun _ => rfl) rfl rfl (by decide) (by decide)).2.1,
   (C40_motif_key_injective libm_model (fun _ => true) (fun _ => 440) (fun _ => 1) (fun _ => 1) 6
      44100 [440, 440, 440, 440, 440, 440] 2640 6 1 [60, 62, 64, 65] [60, 62, 64, 67]
      (fun _ => rfl) rfl rfl (by decide) (by decide)).2.2.2.2⟩

/-- C26: for every voiced note sequence of at least four notes collected by
`compute_melody_features` (fewer than 2^30 frames, every `realloc` granted),
the number of 4-grams is the number of notes minus 3, and
`motif_repetition_rate` is the double quotient of the repeated occurrences
(the sum over the distinct 4-grams occurring more than once of the occurrences
minus one) by the number of 4-gram occurrences; that ratio equals 1 -
motif_count / total_occurrences, and both the ratio and the stored double lie
in [0,1). -/
theorem C26_motif_repetition_rate (M : Libm) (A : Nat → Bool)
    (f0_smoothed conf frame_energy : Nat → ℚ) (n_frames : Nat) (sample_rate : Int)
    (voiced_f0_list : List ℚ) (sum_f0 : ℚ) (voiced_count : Int) (f0_confidence : ℚ)
    (hA : ∀ k, A k = true) (hn : n_frames < 2 ^ 30)
    (h4 : 4 ≤ (all_midi_notes M f0_smoothed conf n_frames).length) :
    (motif_windows (all_midi_notes M f0_smoothed conf n_frames)).length
      = (all_midi_notes M f0_smoothed conf n_frames).length - 3 ∧
    (melody_voiced_stats M A f0_smoothed conf frame_energy n_frames sample_rate
        voiced_f0_list sum_f0 voiced_count f0_confidence).motif_repetition_rate
      = Dbl.fin (b64r ((repeated_ngrams (all_midi_notes M f0_smoothed conf n_frames) : ℚ)
          / ((motif_windows (all_midi_notes M f0_smoothed conf n_frames)).length : ℚ))) ∧
    (repeated_ngrams (all_midi_notes M f0_smoothed conf n_frames) : ℚ)
        / ((motif_windows (all_midi_notes M f0_smoothed conf n_frames)).length : ℚ)
      = 1 - (((melody_voiced_stats M A f0_smoothed conf frame_energy n_frames sample_rate
          voiced_f0_list sum_f0 voiced_count f0_confidence).motif_count : Int) : ℚ)
        / ((motif_windows (all_midi_notes M f0_smoothed conf n_frames)).length : ℚ) ∧
    0 ≤ (repeated_ngrams (all_midi_notes M f0_smoothed conf n_frames) : ℚ)
        / ((motif_windows (all_midi_notes M f0_smoothed conf n_frames)).length : ℚ) ∧
    (repeated_ngrams (all_midi_notes M f0_smoothed conf n_frames) : ℚ)
        / ((motif_windows (all_midi_notes M f0_smoothed conf n_frames)).length : ℚ) < 1 ∧
    0 ≤ b64r ((repeated_ngrams (all_midi_notes M f0_smoothed conf n_frames) : ℚ)
        / ((motif_windows (all_midi_notes M f0_smoothed conf n_frames)).length : ℚ)) ∧
    b64r ((repeated_ngrams (all_midi_notes M f0_smoothed conf n_frames) : ℚ)
        / ((motif_windows (all_midi_notes M f0_smoothed conf n_frames)).length : ℚ)) < 1 := by
  have hr := all_midi_notes_range M f0_smoothed conf n_frames
  have hl := all_midi_notes_length M f0_smoothed conf n_frames
  have hW := motif_windows_length (all_midi_notes M f0_smoothed conf n_frames)
  have hWpos : 0 < (motif_windows (all_midi_notes M f0_smoothed conf n_frames)).length := by
    omega
  have hsum := repeated_ngrams_eq (all_midi_notes M f0_smoothed conf n_frames)
  have hD := dedup_length_pos _ hWpos
  have key := motif_rate_lt_one _ _ _ hsum hD (by omega)
  have hrep := motif_scan_repeated A hA _ hr
  have htot := motif_scan_total A hA (all_midi_notes M f0_smoothed conf n_frames)
  have hcnt : (melody_voiced_stats M A f0_smoothed conf frame_energy n_frames sample_rate
        voiced_f0_list sum_f0 voiced_count f0_confidence).motif_count
      = ((motif_windows (all_midi_notes M f0_smoothed conf n_frames)).dedup.length : Int) := by
    rw [melody_voiced_stats_motif_count, motif_scan_length A hA _ hr]
  refine ⟨by omega, ?_, ?_, key.2.1, key.2.2.1, key.2.2.2.1, key.2.2.2.2⟩
  · rw [melody_voiced_stats_motif_rate, htot,
      if_pos (by exact_mod_cast hWpos), hrep]
    have e : ((((motif_windows (all_midi_notes M f0_smoothed conf n_frames)).length : Int)
        - ((motif_windows (all_midi_notes M f0_smoothed conf n_frames)).dedup.length : Int)
          : Int) : ℚ)
        = (repeated_ngrams (all_midi_notes M f0_smoothed conf n_frames) : ℚ) := by
      rw [← hsum]
      push_cast
      ring
    rw [e]
    rfl
  · rw [hcnt, key.1]
    rfl

/-- C26 on six voiced frames at 440 Hz: the three 4-grams are equal. -/
theorem C26_motif_repetition_rate_witness :
    (melody_voiced_stats libm_model (fun _ => true) (fun _ => 440) (fun _ => 1) (fun _ => 1) 6
        44100 [440, 440, 440, 440, 440, 440] 2640 6 1).motif_repetition_rate
      = Dbl.fin (b64r
          ((repeated_ngrams (all_midi_notes libm_model (fun _ => 440) (fun _ => 1) 6) : ℚ)
          / ((motif_windows (all_midi_notes libm_model (fun _ => 440) (fun _ => 1) 6)).length
              : ℚ))) :=
  (C26_motif_repetition_rate libm_model (fun _ => true) (fun _ => 440) (fun _ => 1) (fun _ => 1) 6
    44100 [440, 440, 440, 440, 440, 440] 2640 6 1 (fun _ => rfl) (by norm_num)
    (by decide!)).2.1

/-! ## Pulse clarity and syncopation -/

theorem b64r_ge_one {q : ℚ} (h : 1 ≤ q) : 1 ≤ b64r q := b64r_ge_of_ge b64r_one h

/-- C32 (counterexample): on 54 frames of the staircase envelope, whose second
half-beats are louder than the first, at 44100 Hz with hops of 512 samples and
the tempo 165375/832 BPM that `estimate_tempo_from_odf` reports for it, both
half-beat averages exceed 1e-6 and the first one over the second one is below
1/2, yet `compute_swing_ratio` returns about 2.08: the second average over the
first. -/
theorem C32_swing_ratio_counterexample :
    (estimate_tempo_from_odf staircase_envelope 54 44100 512).1 = 165375 / 832 ∧
    b64r (1 / 1000000)
      ≤ b64r ((swing_scan staircase_envelope 54 (165375 / 832) 44100 512).half1
          / ((swing_scan staircase_envelope 54 (165375 / 832) 44100 512).count1 : ℚ)) ∧
    b64r (1 / 1000000)
      ≤ b64r ((swing_scan staircase_envelope 54 (165375 / 832) 44100 512).half2
          / ((swing_scan staircase_envelope 54 (165375 / 832) 44100 512).count2 : ℚ)) ∧
    b64r (b64r ((swing_scan staircase_envelope 54 (165375 / 832) 44100 512).half1
          / ((swing_scan staircase_envelope 54 (165375 / 832) 44100 512).count1 : ℚ))
        / b64r ((swing_scan staircase_envelope 54 (165375 / 832) 44100 512).half2
          / ((swing_scan staircase_envelope 54 (165375 / 832) 44100 512).count2 : ℚ)))
      < 1 / 2 ∧
    compute_swing_ratio staircase_envelope 54 (165375 / 832) 44100 512
      = 1170935903116329 / 562949953421312 ∧
    compute_swing_ratio staircase_envelope 54 (165375 / 832) 44100 512 ≠ 1 / 2 := by
  decide!

/-- C32 (amended): for every onset envelope of fewer than 2^31 frames, every
positive hop size and every tempo that is 0 or at least 1 BPM,
`compute_swing_ratio` returns a value in [1,3]. When both half-beat averages
are measurable (the envelope is not empty, the tempo is positive, a beat spans
at least 4 frames, both halves were counted and both averages are at least the
double 1e-6) it is the larger average divided by the smaller one, rounded to
double and capped at 3: the first over the second when the first is larger,
the second over the first otherwise. In every other case it is 1. -/
theorem C32_swing_ratio (odf : Nat → ℚ) (odf_len : Nat) (tempo_bpm : ℚ)
    (sample_rate : Int) (hop_size : Nat) (_hn : odf_len < 2 ^ 31) (_hhop : 0 < hop_size)
    (_ht : tempo_bpm ≤ 0 ∨ 1 ≤ tempo_bpm) :
    (1 ≤ compute_swing_ratio odf odf_len tempo_bpm sample_rate hop_size ∧
      compute_swing_ratio odf odf_len tempo_bpm sample_rate hop_size ≤ 3) ∧
    ((odf_len ≠ 0 ∧ 0 < tempo_bpm ∧ 4 ≤ beat_period_frames tempo_bpm sample_rate hop_size ∧
        (swing_scan odf odf_len tempo_bpm sample_rate hop_size).count1 ≠ 0 ∧
        (swing_scan odf odf_len tempo_bpm sample_rate hop_size).count2 ≠ 0 ∧
        b64r (1 / 1000000)
          ≤ b64r ((swing_scan odf odf_len tempo_bpm sample_rate hop_size).half1
              / ((swing_scan odf odf_len tempo_bpm sample_rate hop_size).count1 : ℚ)) ∧
        b64r (1 / 1000000)
          ≤ b64r ((swing_scan odf odf_len tempo_bpm sample_rate hop_size).half2
              / ((swing_scan odf odf_len tempo_bpm sample_rate hop_size).count2 : ℚ))) →
      compute_swing_ratio odf odf_len tempo_bpm sample_rate hop_size
        = min 3
            (if b64r ((swing_scan odf odf_len tempo_bpm sample_rate hop_size).half1
                  / ((swing_scan odf odf_len tempo_bpm sample_rate hop_size).count1 : ℚ))
                > b64r ((swing_scan odf odf_len tempo_bpm sample_rate hop_size).half2
                  / ((swing_scan odf odf_len tempo_bpm sample_rate hop_size).count2 : ℚ))
             then
              b64r (b64r ((swing_scan odf odf_len tempo_bpm sample_rate hop_size).half1
                    / ((swing_scan odf odf_len tempo_bpm sample_rate hop_size).count1 : ℚ))
                  / b64r ((swing_scan odf odf_len tempo_bpm sample_rate hop_size).half2
                    / ((swing_scan odf odf_len tempo_bpm sample_rate hop_size).count2 : ℚ)))
             else
              b64r (b64r ((swing_scan odf odf_len tempo_bpm sample_rate hop_size).half2
                    / ((swing_scan odf odf_len tempo_bpm sample_rate hop_size).count2 : ℚ))
                  / b64r ((swing_scan odf odf_len tempo_bpm sample_rate hop_size).half1
                    / ((swing_scan odf odf_len tempo_bpm sample_rate hop_size).count1 : ℚ))))) ∧
    (¬ (odf_len ≠ 0 ∧ 0 < tempo_bpm ∧ 4 ≤ beat_period_frames tempo_bpm sample_rate hop_size ∧
        (swing_scan odf odf_len tempo_bpm sample_rate hop_size).count1 ≠ 0 ∧
        (swing_scan odf odf_len tempo_bpm sample_rate hop_size).count2 ≠ 0 ∧
        b64r (1 / 1000000)
          ≤ b64r ((swing_scan odf odf_len tempo_bpm sample_rate hop_size).half1
              / ((swing_scan odf odf_len tempo_bpm sample_rate hop_size).count1 : ℚ)) ∧
        b64r (1 / 1000000)
          ≤ b64r ((swing_scan odf odf_len tempo_bpm sample_rate hop_size).half2
              / ((swing_scan odf odf_len tempo_bpm sample_rate hop_size).count2 : ℚ))) →
      compute_swing_ratio odf odf_len tempo_bpm sample_rate hop_size = 1) := by
  unfold compute_swing_ratio
  generalize swing_scan odf odf_len tempo_bpm sample_rate hop_size = acc
  generalize beat_period_frames tempo_bpm sample_rate hop_size = bpf
  have e6 : (0 : ℚ) < b64r (1 / 1000000) := by
    have hrep : b64r ((1 : ℚ) / 2 ^ 20) = 1 / 2 ^ 20 := by
      have := b64r_of_form 1 (-20) (by norm_num) (by norm_num)
      have e : ((1 : Int) : ℚ) * 2 ^ (-20 : Int) = 1 / 2 ^ 20 := by norm_num
      rwa [e] at this
    have := b64r_ge_of_ge hrep (show (1 : ℚ) / 2 ^ 20 ≤ 1 / 1000000 by norm_num)
    linarith [show (0 : ℚ) < 1 / 2 ^ 20 by norm_num]
  by_cases g1 : odf_len = 0 ∨ tempo_bpm ≤ 0
  · rw [if_pos g1]
    refine ⟨by norm_num, fun h => ?_, fun _ => rfl⟩
    rcases g1 with g | g
    · exact absurd g h.1
    · exact absurd h.2.1 (not_lt.mpr g)
  rw [if_neg g1]
  by_cases g2 : bpf < 4
  · rw [if_pos g2]
    exact ⟨by norm_num, fun h => absurd h.2.2.1 (not_le.mpr g2), fun _ => rfl⟩
  rw [if_neg g2]
  by_cases g3 : acc.count1 = 0 ∨ acc.count2 = 0
  · rw [if_pos g3]
    refine ⟨by norm_num, fun h => ?_, fun _ => rfl⟩
    rcases g3 with g | g
    · exact absurd g h.2.2.2.1
    · exact absurd g h.2.2.2.2.1
  rw [if_neg g3]
  simp only []
  generalize b64r (acc.half1 / (acc.count1 : ℚ)) = a1
  generalize b64r (acc.half2 / (acc.count2 : ℚ)) = a2
  by_cases g4 : a1 < b64r (1 / 1000000) ∨ a2 < b64r (1 / 1000000)
  · rw [if_pos g4]
    refine ⟨by norm_num, fun h => ?_, fun _ => rfl⟩
    rcases g4 with g | g
    · exact absurd h.2.2.2.2.2.1 (not_le.mpr g)
    · exact absurd h.2.2.2.2.2.2 (not_le.mpr g)
  rw [if_neg g4]
  have p1 : b64r (1 / 1000000) ≤ a1 := by
    by_contra hc
    exact g4 (Or.inl (not_le.mp hc))
  have p2 : b64r (1 / 1000000) ≤ a2 := by
    by_contra hc
    exact g4 (Or.inr (not_le.mp hc))
  have q1 : 0 < a1 := lt_of_lt_of_le e6 p1
  have q2 : 0 < a2 := lt_of_lt_of_le e6 p2
  have hr : 1 ≤ (if a1 > a2 then b64r (a1 / a2) else b64r (a2 / a1)) := by
    by_cases g5 : a1 > a2
    · rw [if_pos g5]
      exact b64r_ge_one (by rw [le_div_iff₀ q2]; linarith)
    · rw [if_neg g5]
      exact b64r_ge_one (by rw [le_div_iff₀ q1]; linarith [not_lt.mp g5])
  generalize (if a1 > a2 then b64r (a1 / a2) else b64r (a2 / a1)) = r at hr ⊢
  have h12 : ¬ r < 1 / 2 := by
    rw [not_lt]
    linarith
  rw [if_neg h12]
  have hall : odf_len ≠ 0 ∧ 0 < tempo_bpm ∧ 4 ≤ bpf ∧ acc.count1 ≠ 0 ∧ acc.count2 ≠ 0 ∧
      b64r (1 / 1000000) ≤ a1 ∧ b64r (1 / 1000000) ≤ a2 :=
    ⟨fun h => g1 (Or.inl h), by
      by_contra hc
      exact g1 (Or.inr (not_lt.mp hc)), not_lt.mp g2, fun h => g3 (Or.inl h),
      fun h => g3 (Or.inr h), p1, p2⟩
  by_cases g6 : r > 3
  · rw [if_pos g6]
    refine ⟨by norm_num, fun _ => ?_, fun h => absurd hall h⟩
    rw [min_eq_left (le_of_lt g6)]
  · rw [if_neg g6]
    refine ⟨⟨hr, not_lt.mp g6⟩, fun _ => ?_, fun h => absurd hall h⟩
    rw [min_eq_right (not_lt.mp g6)]

/-- C32 (amended) on 54 frames of the staircase envelope at 165375/832 BPM. -/
theorem C32_swing_ratio_witness :
    1 ≤ compute_swing_ratio staircase_envelope 54 (165375 / 832) 44100 512 ∧
      compute_swing_ratio staircase_envelope 54 (165375 / 832) 44100 512 ≤ 3 :=
  (C32_swing_ratio staircase_envelope 54 (165375 / 832) 44100 512 (by norm_num) (by norm_num)
    (Or.inr (by norm_num))).1

/-! ## Harmonic tension -/

theorem out_notes_fold (scale : List Int) (pcs : List Int) :
    ∀ c0 : Int, pcs.foldl (fun c pc => if pc_in_scale pc scale then c else c + 1) c0
      = c0 + ((pcs.filter (fun pc => !(scale.contains pc))).length : Int) := by
  induction pcs with
  | nil =>
    intro c0
    simp
  | cons p pcs ih =>
    intro c0
    rw [List.foldl_cons, ih]
    by_cases hp : pc_in_scale p scale = true
    · rw [if_pos hp]
      have : (!(scale.contains p)) = false := by
        unfold pc_in_scale at hp
        rw [hp]
        rfl
      have hf : List.filter (fun pc => !(scale.contains pc)) (p :: pcs)
          = List.filter (fun pc => !(scale.contains pc)) pcs :=
        List.filter_cons_of_neg (by rw [this]; decide)
      rw [hf]
    · rw [if_neg hp]
      have : (!(scale.contains p)) = true := by
        unfold pc_in_scale at hp
        simp only [Bool.not_eq_true] at hp
        rw [hp]
        rfl
      have hf : List.filter (fun pc => !(scale.contains pc)) (p :: pcs)
          = p :: List.filter (fun pc => !(scale.contains pc)) pcs :=
        List.filter_cons_of_pos this
      rw [hf, List.length_cons]
      push_cast
      ring

theorem local_tension_eq (scale : List Int) (name : String)
    (h3 : (chord_to_pcset name).length = 3) :
    local_tension scale name (chord_to_pcset name) = chord_tension scale name := by
  unfold local_tension chord_tension
  simp only []
  rw [out_notes_fold, h3, zero_add]
  have e : (((((chord_to_pcset name).filter (fun pc => !(scale.contains pc))).length : Int)) : ℚ)
      = ((((chord_to_pcset name).filter (fun pc => !(scale.contains pc))).length : Nat) : ℚ) := by
    push_cast
    rfl
  rw [e]
  have e3 : ((3 : Nat) : ℚ) = 3 := by norm_num
  rw [e3]
  generalize b64r (b64r ((((chord_to_pcset name).filter
    (fun pc => !(scale.contains pc))).length : ℚ) / 3)
      + (if name.toList.getLast? = some 'm' then b64r (2 / 10) else 0)) = v
  by_cases hv : v > 1
  · rw [if_pos hv, min_eq_left (le_of_lt hv)]
  · rw [if_neg hv, min_eq_right (not_lt.mp hv)]

theorem chord_tension_bounds (scale : List Int) (name : String) :
    0 ≤ chord_tension scale name ∧ chord_tension scale name ≤ 1 := by
  unfold chord_tension
  refine ⟨le_min zero_le_one (b64r_nonneg ?_), min_le_left _ _⟩
  apply add_nonneg (b64r_nonneg (by positivity))
  split_ifs
  · exact b64r_nonneg (by norm_num)
  · exact le_refl _

theorem tension_fold (scale : List Int) (chords : List ChordLabel)
    (hch : ∀ ch ∈ chords, (chord_to_pcset ch.name).length = 3) :
    ∀ st : MotionState,
      chords.foldl
        (fun (st : MotionState) ch =>
          if (chord_to_pcset ch.name).length = 0 then st
          else
            { total := b64r (st.total + local_tension scale ch.name (chord_to_pcset ch.name)),
              steps := st.steps + 1 }) st
      = { total := chords.foldl (fun t ch => b64r (t + chord_tension scale ch.name)) st.total,
          steps := st.steps + (chords.length : Int) } := by
  induction chords with
  | nil =>
    intro st
    simp
  | cons c chords ih =>
    intro st
    have h3 := hch c (List.mem_cons_self _ _)
    rw [List.foldl_cons, List.foldl_cons, if_neg (by rw [h3]; decide),
      ih (fun ch hm => hch ch (List.mem_cons_of_mem _ hm)), local_tension_eq scale c.name h3,
      List.length_cons]
    push_cast
    congr 1
    ring

theorem tension_sum_bounds (scale : List Int) (chords : List ChordLabel) :
    ∀ (t : ℚ) (k : Nat), 0 ≤ t → t ≤ (k : ℚ) → k + chords.length ≤ 2 ^ 53 →
      0 ≤ chords.foldl (fun t ch => b64r (t + chord_tension scale ch.name)) t ∧
      chords.foldl (fun t ch => b64r (t + chord_tension scale ch.name)) t
        ≤ ((k + chords.length : Nat) : ℚ) := by
  induction chords with
  | nil =>
    intro t k h0 h1 _
    exact ⟨h0, by simpa using h1⟩
  | cons c chords ih =>
    intro t k h0 h1 h2
    rw [List.foldl_cons]
    obtain ⟨c0, c1⟩ := chord_tension_bounds scale c.name
    rw [List.length_cons] at h2 ⊢
    have hrep : b64r (((k + 1 : Nat) : ℚ)) = ((k + 1 : Nat) : ℚ) := by
      have := b64r_intCast ((k + 1 : Nat) : Int) (by
        rw [abs_of_nonneg (by positivity)]
        have : k + 1 ≤ 2 ^ 53 := by omega
        exact_mod_cast this)
      exact_mod_cast this
    have hle : b64r (t + chord_tension scale c.name) ≤ ((k + 1 : Nat) : ℚ) := by
      apply b64r_le_of_le hrep
      push_cast
      linarith
    have := ih (b64r (t + chord_tension scale c.name)) (k + 1)
      (b64r_nonneg (add_nonneg h0 c0)) hle (by omega)
    rw [show k + 1 + chords.length = k + (chords.length + 1) by omega] at this
    exact this

theorem build_diatonic_scale_length (key : String) (h : build_diatonic_scale key ≠ []) :
    (build_diatonic_scale key).length = 7 := by
  unfold build_diatonic_scale at h ⊢
  simp only [] at h ⊢
  split_ifs at h ⊢ <;> first | exact absurd rfl h | rfl

/-- C35: for every key name whose tonic parses and every sequence of fewer than
2^31 chords whose names parse to three pitch classes, the scale has 7 notes
and `compute_harmonic_tension` returns 0 for the empty sequence and otherwise
the mean over the chords, summed and divided in double, of min(1, (number of
the chord's three pitch classes outside the scale)/3 + 0.2 if the chord is
minor); the result lies in [0,1]. -/
theorem C35_harmonic_tension (chords : List ChordLabel) (global_key : String)
    (hk : build_diatonic_scale global_key ≠ [])
    (hch : ∀ ch ∈ chords, (chord_to_pcset ch.name).length = 3)
    (hn : chords.length < 2 ^ 31) :
    (build_diatonic_scale global_key).length = 7 ∧
    compute_harmonic_tension chords global_key
      = (if chords.length = 0 then 0
         else mean_chord_tension (build_diatonic_scale global_key) chords) ∧
    0 ≤ compute_harmonic_tension chords global_key ∧
    compute_harmonic_tension chords global_key ≤ 1 ∧
    compute_harmonic_tension [] global_key = 0 := by
  have h7 := build_diatonic_scale_length global_key hk
  have hform : compute_harmonic_tension chords global_key
      = (if chords.length = 0 then 0
         else mean_chord_tension (build_diatonic_scale global_key) chords) := by
    unfold compute_harmonic_tension mean_chord_tension
    by_cases h0 : chords.length = 0
    · rw [if_pos h0, if_pos h0]
    · rw [if_neg h0, if_neg h0]
      simp only []
      rw [if_neg (by rw [h7]; decide), tension_fold _ chords hch]
      have hp : (({} : MotionState).steps + (chords.length : Int)) > 0 := by
        show (0 : Int) + (chords.length : Int) > 0
        omega
      simp only [if_pos hp]
      show b64r (_ / (((0 : Int) + (chords.length : Int) : Int) : ℚ)) = _
      rw [zero_add]
      rfl
  refine ⟨h7, hform, ?_, ?_, rfl⟩
  · rw [hform]
    split_ifs
    · exact le_refl _
    · unfold mean_chord_tension
      obtain ⟨s0, _⟩ := tension_sum_bounds (build_diatonic_scale global_key) chords 0 0
        (le_refl _) (by norm_num) (by omega)
      exact b64r_nonneg (div_nonneg s0 (by positivity))
  · rw [hform]
    split_ifs with h0
    · norm_num
    · unfold mean_chord_tension
      obtain ⟨_, s1⟩ := tension_sum_bounds (build_diatonic_scale global_key) chords 0 0
        (le_refl _) (by norm_num) (by omega)
      apply b64r_le_of_le b64r_one
      have hpos : (0 : ℚ) < (chords.length : ℚ) := by
        have : 0 < chords.length := by omega
        exact_mod_cast this
      rw [div_le_one hpos]
      simpa using s1

/-- C35 on the chords C, Dm and F# in the key of C major. -/
theorem C35_harmonic_tension_witness :
    compute_harmonic_tension [{ name := "C" }, { name := "Dm" }, { name := "F#" }] "C"
      = mean_chord_tension (build_diatonic_scale "C")
          [{ name := "C" }, { name := "Dm" }, { name := "F#" }] ∧
    0 ≤ compute_harmonic_tension [{ name := "C" }, { name := "Dm" }, { name := "F#" }] "C" ∧
    compute_harmonic_tension [{ name := "C" }, { name := "Dm" }, { name := "F#" }] "C" ≤ 1 :=
  ⟨(C35_harmonic_tension [{ name := "C" }, { name := "Dm" }, { name := "F#" }] "C"
      (by decide) (by decide) (by decide)).2.1,
   (C35_harmonic_tension [{ name := "C" }, { name := "Dm" }, { name := "F#" }] "C"
      (by decide) (by decide) (by decide)).2.2.1,
   (C35_harmonic_tension [{ name := "C" }, { name := "Dm" }, { name := "F#" }] "C"
      (by decide) (by decide) (by decide)).2.2.2.1⟩

/-! ## The rolloff of a magnitude frame -/

theorem bin_power_nonneg (mag : Nat → ℚ) (k : Nat) : 0 ≤ bin_power mag k :=
  b64r_nonneg (mul_self_nonneg _)

theorem rolloff_target_le (E : ℚ) (h0 : 0 ≤ E) (hrep : b64r E = E) :
    b64r (b64r (85 / 100) * E) ≤ E := by
  apply b64r_le_of_le hrep
  have h1 : b64r (85 / 100) ≤ 1 := b64r_le_of_le b64r_one (by norm_num)
  nlinarith

theorem rolloff_scan_spec (mag : Nat → ℚ) (nfft sr : Int) (target : ℚ) :
    ∀ (fuel k : Nat),
      (∀ j, j < k → sum_loop64 (j + 1) (bin_power mag) < target) →
      (∃ m, k ≤ m ∧ m < k + fuel ∧ sum_loop64 (m + 1) (bin_power mag) ≥ target) →
      ∃ m, k ≤ m ∧ m < k + fuel ∧
        rolloff_scan mag nfft sr target fuel k (sum_loop64 k (bin_power mag))
          = bin_frequency nfft sr m ∧
        sum_loop64 (m + 1) (bin_power mag) ≥ target ∧
        ∀ j, j < m → sum_loop64 (j + 1) (bin_power mag) < target := by
  intro fuel
  induction fuel with
  | zero =>
    intro k _ ⟨m, h1, h2, _⟩
    omega
  | succ fuel ih =>
    intro k hbelow ⟨m, h1, h2, h3⟩
    unfold rolloff_scan
    simp only []
    rw [← sum_loop64_succ k (bin_power mag)]
    by_cases hk : sum_loop64 (k + 1) (bin_power mag) ≥ target
    · rw [if_pos hk]
      exact ⟨k, Nat.le_refl _, by omega, rfl, hk, hbelow⟩
    · rw [if_neg hk]
      have hne : m ≠ k := by
        intro e
        rw [e] at h3
        exact hk h3
      have hbelow2 : ∀ j, j < k + 1 → sum_loop64 (j + 1) (bin_power mag) < target := by
        intro j hj
        by_cases e : j = k
        · rw [e]
          exact not_le.mp hk
        · exact hbelow j (by omega)
      obtain ⟨m2, g1, g2, g3, g4, g5⟩ := ih (k + 1) hbelow2 ⟨m, by omega, by omega, h3⟩
      exact ⟨m2, by omega, by omega, g3, g4, g5⟩

theorem spectral_rolloff_eq (mag : Nat → ℚ) (nfft sr : Int) :
    (spectral_features_from_frame mag nfft sr).2.1
      = rolloff_scan mag nfft sr
          (b64r (b64r (85 / 100) * sum_loop64 (nfft / 2 + 1).toNat (bin_power mag)))
          (nfft / 2 + 1).toNat 0 0 := rfl

theorem bin_frequency_1024 (sr : Int) (k : Nat) (hk : k < 513) (hsr : |sr| ≤ 2 ^ 31) :
    bin_frequency 1024 sr k = (k : ℚ) * (sr : ℚ) / ((1024 : Int) : ℚ) := by
  unfold bin_frequency
  have hb : |(k : Int) * sr| ≤ 2 ^ 53 := by
    rw [abs_mul, abs_of_nonneg (by positivity)]
    calc (k : Int) * |sr| ≤ 513 * 2 ^ 31 := by
          apply mul_le_mul (by omega) hsr (abs_nonneg _) (by norm_num)
      _ ≤ 2 ^ 53 := by norm_num
  have e1 : b64r ((k : ℚ) * (sr : ℚ)) = (k : ℚ) * (sr : ℚ) := by
    have := b64r_intCast ((k : Int) * sr) hb
    push_cast at this
    exact this
  rw [e1]
  have e2 := b64r_of_form ((k : Int) * sr) (-10) hb (by norm_num)
  have e3 : (((k : Int) * sr : Int) : ℚ) * 2 ^ (-10 : Int)
      = (k : ℚ) * (sr : ℚ) / ((1024 : Int) : ℚ) := by
    push_cast
    rw [zpow_neg]
    norm_num
    ring
  rw [e3] at e2
  exact e2

/-- C36: for every frame of finite magnitudes of a transform of size `nfft >=
0`, the rolloff reported by `spectral_features_from_frame` is the frequency
`k * sr / nfft` (as the code computes it in double) of the smallest bin `k`
among the `nfft / 2 + 1` bins whose cumulative power `mag[0]^2 + ... +
mag[k]^2` is at least 0.85 of the total power of the frame, the powers being
summed in double as the code does and 0.85 being the double of the literal.
For the transform size 1024 of the program the frequency is exactly
`k * sr / nfft`. -/
theorem C36_rolloff_first_bin (mag : Nat → ℚ) (nfft sr : Int) (hn : 0 ≤ nfft) :
    ∃ k, k < (nfft / 2 + 1).toNat ∧
      (spectral_features_from_frame mag nfft sr).2.1 = bin_frequency nfft sr k ∧
      (nfft = 1024 → |sr| ≤ 2 ^ 31 →
        (spectral_features_from_frame mag nfft sr).2.1 = (k : ℚ) * (sr : ℚ) / (nfft : ℚ)) ∧
      sum_loop64 (k + 1) (bin_power mag)
        ≥ b64r (b64r (85 / 100) * sum_loop64 (nfft / 2 + 1).toNat (bin_power mag)) ∧
      ∀ j, j < k → sum_loop64 (j + 1) (bin_power mag)
        < b64r (b64r (85 / 100) * sum_loop64 (nfft / 2 + 1).toNat (bin_power mag)) := by
  have hpos : 0 < (nfft / 2 + 1).toNat := by
    have : 0 ≤ nfft / 2 := Int.ediv_nonneg hn (by decide)
    omega
  have h513 : nfft = 1024 → (nfft / 2 + 1).toNat = 513 := by
    intro e
    rw [e]
    decide
  obtain ⟨n, en⟩ : ∃ n, (nfft / 2 + 1).toNat = n + 1 := ⟨(nfft / 2 + 1).toNat - 1, by omega⟩
  have htot : 0 ≤ sum_loop64 (n + 1) (bin_power mag) :=
    sum_loop64_nonneg _ _ (bin_power_nonneg mag)
  rw [spectral_rolloff_eq, en]
  have h0 : (0 : ℚ) = sum_loop64 0 (bin_power mag) := rfl
  rw [h0]
  obtain ⟨m, _, g2, g3, g4, g5⟩ := rolloff_scan_spec mag nfft sr
    (b64r (b64r (85 / 100) * sum_loop64 (n + 1) (bin_power mag))) (n + 1) 0
    (fun j hj => absurd hj (Nat.not_lt_zero _))
    ⟨n, Nat.zero_le _, by omega, rolloff_target_le _ htot (sum_loop64_rep _ _)⟩
  refine ⟨m, by omega, g3, ?_, g4, g5⟩
  intro e hsr
  rw [g3]
  have hm : m < 513 := by
    have := h513 e
    omega
  rw [e]
  exact bin_frequency_1024 sr m hm hsr

/-- C36 on the constant frame of 513 bins (`nfft = 1024`) at 44100 Hz. -/
theorem C36_rolloff_first_bin_witness :
    ∃ k, k < ((1024 : Int) / 2 + 1).toNat ∧
      (spectral_features_from_frame (fun _ => 1) 1024 44100).2.1 = bin_frequency 1024 44100 k ∧
      ((1024 : Int) = 1024 → |(44100 : Int)| ≤ 2 ^ 31 →
        (spectral_features_from_frame (fun _ => 1) 1024 44100).2.1
          = (k : ℚ) * ((44100 : Int) : ℚ) / ((1024 : Int) : ℚ)) ∧
      sum_loop64 (k + 1) (bin_power (fun _ => 1))
        ≥ b64r (b64r (85 / 100) * sum_loop64 ((1024 : Int) / 2 + 1).toNat
            (bin_power (fun _ => 1))) ∧
      ∀ j, j < k → sum_loop64 (j + 1) (bin_power (fun _ => 1))
        < b64r (b64r (85 / 100) * sum_loop64 ((1024 : Int) / 2 + 1).toNat
            (bin_power (fun _ => 1))) :=
  C36_rolloff_first_bin (fun _ => 1) 1024 44100 (by decide)

/-! ## The percentile indices of the dynamic range -/

theorem b64r_ge_nat_of_near (N k : Nat) (hk : k ≤ 52) (h1 : 2 ^ k < N) (h2 : N < 2 ^ (k + 1))
    (x : ℚ) (hx1 : (N : ℚ) * (1 - 1 / 2 ^ 54) ≤ x) (hx2 : x ≤ (N : ℚ)) : (N : ℚ) ≤ b64r x := by
  have hNq1 : (2 : ℚ) ^ k + 1 ≤ (N : ℚ) := by
    have : 2 ^ k + 1 ≤ N := h1
    exact_mod_cast this
  have hNq2 : (N : ℚ) < 2 ^ (k + 1) := by exact_mod_cast h2
  have hk52 : (2 : ℚ) ^ k ≤ 2 ^ 52 := pow_le_pow_right₀ (by norm_num) hk
  have hkpos : (0 : ℚ) < 2 ^ k := by positivity
  have hxk : (2 : ℚ) ^ k ≤ x := by
    have : ((2 : ℚ) ^ k + 1) * (1 - 1 / 2 ^ 54) ≤ (N : ℚ) * (1 - 1 / 2 ^ 54) :=
      mul_le_mul_of_nonneg_right hNq1 (by norm_num)
    have e : ((2 : ℚ) ^ k + 1) * (1 - 1 / 2 ^ 54)
        = 2 ^ k + (1 - (2 ^ k + 1) / 2 ^ 54) := by ring
    have : ((2 : ℚ) ^ k + 1) / 2 ^ 54 ≤ 1 := by
      rw [div_le_one (by positivity)]
      have : (2 : ℚ) ^ 52 + 1 ≤ 2 ^ 54 := by norm_num
      linarith
    linarith
  have hxpos : 0 < x := lt_of_lt_of_le hkpos hxk
  have hlog : ilog2 x = (k : Int) := by
    apply ilog2_unique
    · rw [abs_of_pos hxpos, zpow_natCast]
      exact hxk
    · rw [abs_of_pos hxpos]
      have : ((k : Int) + 1) = ((k + 1 : Nat) : Int) := by push_cast; rfl
      rw [this, zpow_natCast]
      linarith
  have hexp : fp_exp 53 (-1074) x = (k : Int) - 52 := by
    unfold fp_exp
    rw [hlog]
    have : ((k : Int) - (((53 : Nat) : Int) - 1)) = (k : Int) - 52 := by push_cast; ring
    rw [this, max_eq_left (by omega)]
  have hform : b64r x = (rne (x / 2 ^ ((k : Int) - 52)) : ℚ) * 2 ^ ((k : Int) - 52) := by
    have := fp_round_of_nonneg 53 (-1074) (le_of_lt hxpos)
    rw [hexp] at this
    exact this
  have hP : (2 : ℚ) ^ ((k : Int) - 52) = 2 ^ k / 2 ^ 52 := by
    rw [zpow_sub₀ (by norm_num), zpow_natCast]
    norm_num
  rw [hform, hP]
  have hPpos : (0 : ℚ) < 2 ^ k / 2 ^ 52 := by positivity
  have hZ : ((N * 2 ^ (52 - k) : Nat) : ℚ) = (N : ℚ) / (2 ^ k / 2 ^ 52) := by
    push_cast
    have e : (2 : ℚ) ^ (52 - k) * 2 ^ k = 2 ^ 52 := by
      rw [← pow_add, Nat.sub_add_cancel hk]
    field_simp
    rw [mul_assoc, e]
  have hZlt : ((N * 2 ^ (52 - k) : Nat) : ℚ) < 2 ^ 53 := by
    rw [hZ, div_lt_iff₀ hPpos]
    have e : (2 : ℚ) ^ 53 * (2 ^ k / 2 ^ 52) = 2 ^ (k + 1) := by
      rw [pow_succ]
      field_simp
      ring
    rw [e]
    exact hNq2
  have hq : ((N * 2 ^ (52 - k) : Nat) : ℚ) - 1 / 2 < x / (2 ^ k / 2 ^ 52) := by
    have h3 : (N : ℚ) * (1 - 1 / 2 ^ 54) / (2 ^ k / 2 ^ 52) ≤ x / (2 ^ k / 2 ^ 52) :=
      div_le_div_of_nonneg_right hx1 (le_of_lt hPpos)
    have e : (N : ℚ) * (1 - 1 / 2 ^ 54) / (2 ^ k / 2 ^ 52)
        = (N : ℚ) / (2 ^ k / 2 ^ 52) * (1 - 1 / 2 ^ 54) := by ring
    rw [e, ← hZ] at h3
    have h4 : ((N * 2 ^ (52 - k) : Nat) : ℚ) * (1 / 2 ^ 54) < 1 / 2 := by
      have : ((N * 2 ^ (52 - k) : Nat) : ℚ) * (1 / 2 ^ 54) < 2 ^ 53 * (1 / 2 ^ 54) :=
        mul_lt_mul_of_pos_right hZlt (by norm_num)
      have e2 : (2 : ℚ) ^ 53 * (1 / 2 ^ 54) = 1 / 2 := by norm_num
      linarith
    linarith
  have hr := sub_rne_le (x / (2 ^ k / 2 ^ 52))
  have hge : ((N * 2 ^ (52 - k) : Nat) : Int) ≤ rne (x / (2 ^ k / 2 ^ 52)) := by
    have : (((N * 2 ^ (52 - k) : Nat) : Int) : ℚ) - 1 < (rne (x / (2 ^ k / 2 ^ 52)) : ℚ) := by
      have e : (((N * 2 ^ (52 - k) : Nat) : Int) : ℚ) = ((N * 2 ^ (52 - k) : Nat) : ℚ) := by
        push_cast
        rfl
      rw [e]
      linarith
    have h5 : ((N * 2 ^ (52 - k) : Nat) : Int) - 1 < rne (x / (2 ^ k / 2 ^ 52)) := by
      exact_mod_cast this
    omega
  have hge2 : ((N * 2 ^ (52 - k) : Nat) : ℚ) ≤ (rne (x / (2 ^ k / 2 ^ 52)) : ℚ) := by
    exact_mod_cast hge
  calc (N : ℚ) = ((N * 2 ^ (52 - k) : Nat) : ℚ) * (2 ^ k / 2 ^ 52) := by
        rw [hZ]
        field_simp
    _ ≤ (rne (x / (2 ^ k / 2 ^ 52)) : ℚ) * (2 ^ k / 2 ^ 52) :=
        mul_le_mul_of_nonneg_right hge2 (le_of_lt hPpos)

theorem b64r_nat (m : Nat) (h : m ≤ 2 ^ 53) : b64r (m : ℚ) = (m : ℚ) := by
  have := b64r_intCast (m : Int) (by
    rw [abs_of_nonneg (by positivity)]
    exact_mod_cast h)
  exact_mod_cast this

theorem b64r_nat_add_frac (N : Nat) (h : N < 2 ^ 47) :
    b64r ((N : ℚ) + 31 / 32) = (N : ℚ) + 31 / 32 := by
  have := b64r_of_form (32 * (N : Int) + 31) (-5) (by
    rw [abs_of_nonneg (by positivity)]
    have : (N : Int) < 2 ^ 47 := by exact_mod_cast h
    omega) (by norm_num)
  have e : ((32 * (N : Int) + 31 : Int) : ℚ) * 2 ^ (-5 : Int) = (N : ℚ) + 31 / 32 := by
    push_cast
    rw [zpow_neg]
    norm_num
    ring
  rwa [e] at this

theorem b64r_95 : b64r (95 / 100) = 4278419646001971 / 4503599627370496 := by decide!

theorem b64r_05 : b64r (5 / 100) = 3602879701896397 / 72057594037927936 := by decide!

theorem not_two_pow_of_nineteen (N k : Nat) (h19 : 19 ∣ N) : N ≠ 2 ^ k := by
  intro e
  rw [e] at h19
  have := Nat.Prime.dvd_of_dvd_pow (by norm_num : Nat.Prime 19) h19
  omega

theorem percentile_index_95 (n : Nat) (h1 : 1 ≤ n) (h2 : n ≤ 2 ^ 40) :
    psy_percentile_index (95 / 100) n = 95 * (n - 1) / 100 := by
  unfold psy_percentile_index
  rw [sz_sub_of_le n 1 h1 (by omega), b64r_nat (n - 1) (by omega), b64r_95]
  have hm : n - 1 < 2 ^ 40 := by omega
  generalize n - 1 = m at hm
  have hmq : (m : ℚ) < 2 ^ 40 := by exact_mod_cast hm
  have hm0 : (0 : ℚ) ≤ (m : ℚ) := Nat.cast_nonneg _
  have hdiv : 95 * m / 100 = 19 * m / 20 := by omega
  rw [hdiv]
  have hN : 20 * (19 * m / 20) + 19 * m % 20 = 19 * m := Nat.div_add_mod _ _
  have hr : 19 * m % 20 < 20 := Nat.mod_lt _ (by norm_num)
  have hNq : (20 : ℚ) * ((19 * m / 20 : Nat) : ℚ) + ((19 * m % 20 : Nat) : ℚ) = 19 * (m : ℚ) := by
    exact_mod_cast hN
  have hrq : ((19 * m % 20 : Nat) : ℚ) ≤ 19 := by
    have : 19 * m % 20 ≤ 19 := by omega
    exact_mod_cast this
  have hNlt : 19 * m / 20 < 2 ^ 47 := by omega
  have hx : (4278419646001971 / 4503599627370496 : ℚ) * (m : ℚ)
      = 19 / 20 * (m : ℚ) - (m : ℚ) / 22517998136852480 := by ring
  have hup : b64r (4278419646001971 / 4503599627370496 * (m : ℚ))
      ≤ ((19 * m / 20 : Nat) : ℚ) + 31 / 32 := by
    apply b64r_le_of_le (b64r_nat_add_frac _ hNlt)
    rw [hx]
    have : (0 : ℚ) ≤ (m : ℚ) / 22517998136852480 := by positivity
    linarith
  have hlow : ((19 * m / 20 : Nat) : ℚ)
      ≤ b64r (4278419646001971 / 4503599627370496 * (m : ℚ)) := by
    by_cases hr0 : 19 * m % 20 = 0
    · by_cases hz : 19 * m / 20 = 0
      · rw [hz]
        exact b64r_nonneg (by positivity)
      · have hNpos : 19 * m / 20 ≠ 0 := hz
        have e20 : 19 * m = 20 * (19 * m / 20) := by omega
        have h19 : 19 ∣ 19 * m / 20 := by
          have : 19 ∣ 20 * (19 * m / 20) := by
            rw [← e20]
            exact Dvd.intro _ rfl
          exact (Nat.Coprime.dvd_mul_left (by decide : Nat.Coprime 19 20)).mp this
        have hk1 := nat_log2_self_le hNpos
        have hk2 := nat_lt_log2_self hNpos
        have hne := not_two_pow_of_nineteen _ (nat_log2 (19 * m / 20)) h19
        have hk52 : nat_log2 (19 * m / 20) ≤ 52 := by
          by_contra hc
          have : 2 ^ 53 ≤ 2 ^ nat_log2 (19 * m / 20) :=
            Nat.pow_le_pow_right (by norm_num) (by omega)
          omega
        apply b64r_ge_nat_of_near _ (nat_log2 (19 * m / 20)) hk52
          (lt_of_le_of_ne hk1 (Ne.symm hne)) hk2
        · rw [hx]
          have e : (19 : ℚ) * (m : ℚ) = 20 * ((19 * m / 20 : Nat) : ℚ) := by
            have := hNq
            rw [hr0] at this
            push_cast at this
            linarith
          have em : (m : ℚ) = 20 / 19 * ((19 * m / 20 : Nat) : ℚ) := by linarith
          have hNn : (0 : ℚ) ≤ ((19 * m / 20 : Nat) : ℚ) := Nat.cast_nonneg _
          rw [em]
          have : (19 : ℚ) / 20 * (20 / 19 * ((19 * m / 20 : Nat) : ℚ))
                - 20 / 19 * ((19 * m / 20 : Nat) : ℚ) / 22517998136852480
              = ((19 * m / 20 : Nat) : ℚ) * (1 - 20 / 19 / 22517998136852480) := by ring
          rw [this]
          apply mul_le_mul_of_nonneg_left _ hNn
          norm_num
        · rw [hx]
          have : (0 : ℚ) ≤ (m : ℚ) / 22517998136852480 := by positivity
          have e : (19 : ℚ) * (m : ℚ) = 20 * ((19 * m / 20 : Nat) : ℚ) := by
            have := hNq
            rw [hr0] at this
            push_cast at this
            linarith
          linarith
    · apply b64r_ge_of_ge (b64r_nat _ (by omega))
      rw [hx]
      have hr1 : (1 : ℚ) ≤ ((19 * m % 20 : Nat) : ℚ) := by
        have : 1 ≤ 19 * m % 20 := by omega
        exact_mod_cast this
      have : (m : ℚ) / 22517998136852480 ≤ 1 / 20 := by
        rw [div_le_div_iff₀ (by norm_num) (by norm_num)]
        have : (2 : ℚ) ^ 40 * 20 ≤ 22517998136852480 := by norm_num
        linarith
      linarith
  have hfl : ⌊b64r (4278419646001971 / 4503599627370496 * (m : ℚ))⌋ = ((19 * m / 20 : Nat) : Int) := by
    rw [Int.floor_eq_iff]
    constructor
    · exact_mod_cast hlow
    · have : (((19 * m / 20 : Nat) : Int) : ℚ) = ((19 * m / 20 : Nat) : ℚ) := by
        push_cast
        rfl
      rw [this]
      linarith
  rw [hfl]
  rfl

theorem percentile_index_05 (n : Nat) (h1 : 1 ≤ n) (h2 : n ≤ 2 ^ 40) :
    psy_percentile_index (5 / 100) n = 5 * (n - 1) / 100 := by
  unfold psy_percentile_index
  rw [sz_sub_of_le n 1 h1 (by omega), b64r_nat (n - 1) (by omega), b64r_05]
  have hm : n - 1 < 2 ^ 40 := by omega
  generalize n - 1 = m at hm
  have hmq : (m : ℚ) < 2 ^ 40 := by exact_mod_cast hm
  have hm0 : (0 : ℚ) ≤ (m : ℚ) := Nat.cast_nonneg _
  have hdiv : 5 * m / 100 = m / 20 := by omega
  rw [hdiv]
  have hN : 20 * (m / 20) + m % 20 = m := Nat.div_add_mod _ _
  have hNq : (20 : ℚ) * ((m / 20 : Nat) : ℚ) + ((m % 20 : Nat) : ℚ) = (m : ℚ) := by
    exact_mod_cast hN
  have hrq : ((m % 20 : Nat) : ℚ) ≤ 19 := by
    have : m % 20 ≤ 19 := by omega
    exact_mod_cast this
  have hr0 : (0 : ℚ) ≤ ((m % 20 : Nat) : ℚ) := Nat.cast_nonneg _
  have hNlt : m / 20 < 2 ^ 47 := by omega
  have hx : (3602879701896397 / 72057594037927936 : ℚ) * (m : ℚ)
      = 1 / 20 * (m : ℚ) + (m : ℚ) / 360287970189639680 := by ring
  have hup : b64r (3602879701896397 / 72057594037927936 * (m : ℚ))
      ≤ ((m / 20 : Nat) : ℚ) + 31 / 32 := by
    apply b64r_le_of_le (b64r_nat_add_frac _ hNlt)
    rw [hx]
    have : (m : ℚ) / 360287970189639680 ≤ 1 / 64 := by
      rw [div_le_div_iff₀ (by norm_num) (by norm_num)]
      have : (2 : ℚ) ^ 40 * 64 ≤ 360287970189639680 := by norm_num
      linarith
    linarith
  have hlow : ((m / 20 : Nat) : ℚ)
      ≤ b64r (3602879701896397 / 72057594037927936 * (m : ℚ)) := by
    apply b64r_ge_of_ge (b64r_nat _ (by omega))
    rw [hx]
    have : (0 : ℚ) ≤ (m : ℚ) / 360287970189639680 := by positivity
    linarith
  have hfl : ⌊b64r (3602879701896397 / 72057594037927936 * (m : ℚ))⌋ = ((m / 20 : Nat) : Int) := by
    rw [Int.floor_eq_iff]
    constructor
    · exact_mod_cast hlow
    · have : (((m / 20 : Nat) : Int) : ℚ) = ((m / 20 : Nat) : ℚ) := by
        push_cast
        rfl
      rw [this]
      linarith
  rw [hfl]
  rfl

/-! ## The dynamic range of `compute_psychoacoustics` -/

theorem qsort_double_sorted (l : List ℚ) : List.Sorted (fun x y => x ≤ y) (qsort_double l) :=
  List.sorted_insertionSort (fun x y : ℚ => x ≤ y) l

theorem qsort_double_length (l : List ℚ) : (qsort_double l).length = l.length :=
  List.length_insertionSort _ l

theorem qsort_double_perm (l : List ℚ) : (qsort_double l).Perm l :=
  List.perm_insertionSort _ l

theorem sorted_getD_le (s : List ℚ) (hs : List.Sorted (fun x y => x ≤ y) s) (i j : Nat)
    (hij : i ≤ j) (hj : j < s.length) : s.getD i 0 ≤ s.getD j 0 := by
  have hi : i < s.length := lt_of_le_of_lt hij hj
  rw [List.getD_eq_getElem _ _ hi, List.getD_eq_getElem _ _ hj]
  rcases Nat.eq_or_lt_of_le hij with e | hlt
  · subst e
    exact le_refl _
  · exact (List.pairwise_iff_getElem.mp hs) i j hi hj hlt

theorem psy_frame_count_bounds (frames : Nat) (h : frames < 2 ^ 50) :
    1 ≤ psy_frame_count frames ∧ psy_frame_count frames ≤ 2 ^ 40 := by
  unfold psy_frame_count
  split_ifs <;> omega

theorem psy_sorted_db_length (M : Libm) (mono : Nat → ℚ) (frames : Nat) :
    (psy_sorted_db M mono frames).length = psy_frame_count frames := by
  unfold psy_sorted_db
  rw [qsort_double_length, List.length_map, List.length_range]

/-- C37: for every non-empty signal of fewer than 2^50 samples at a positive
sample rate, with the buffers allocated, `compute_psychoacoustics` succeeds
and, `n` being the number of analysis frames and `s` the ascending sort of the
`n` per-frame dB values, the indices that the code computes in double are
`floor(0.95 * (n - 1))` and `floor(0.05 * (n - 1))`, both below `n`, and
`dynamic_range` is the double difference `s[floor(0.95 * (n - 1))] -
s[floor(0.05 * (n - 1))]`, which is never negative and is 0 when `n = 1`. -/
theorem C37_dynamic_range (M : Libm) (A : Nat → Bool) (mono : Nat → ℚ) (frames : Nat) (sr : Int)
    (hf : 0 < frames) (hsr : 0 < sr) (hlt : frames < 2 ^ 50)
    (hA : A (8 * psy_frame_count frames) = true) :
    ∃ out, compute_psychoacoustics M A mono frames sr = (0, some out) ∧
      (psy_sorted_db M mono frames).length = psy_frame_count frames ∧
      List.Sorted (fun x y => x ≤ y) (psy_sorted_db M mono frames) ∧
      (psy_sorted_db M mono frames).Perm
        ((List.range (psy_frame_count frames)).map (psy_rms_db M mono frames)) ∧
      psy_percentile_index (95 / 100) (psy_frame_count frames)
        = 95 * (psy_frame_count frames - 1) / 100 ∧
      psy_percentile_index (5 / 100) (psy_frame_count frames)
        = 5 * (psy_frame_count frames - 1) / 100 ∧
      95 * (psy_frame_count frames - 1) / 100 < psy_frame_count frames ∧
      5 * (psy_frame_count frames - 1) / 100 < psy_frame_count frames ∧
      out.dynamic_range
        = Dbl.fin (b64r
            ((psy_sorted_db M mono frames).getD (95 * (psy_frame_count frames - 1) / 100) 0
              - (psy_sorted_db M mono frames).getD (5 * (psy_frame_count frames - 1) / 100) 0)) ∧
      0 ≤ b64r
            ((psy_sorted_db M mono frames).getD (95 * (psy_frame_count frames - 1) / 100) 0
              - (psy_sorted_db M mono frames).getD (5 * (psy_frame_count frames - 1) / 100) 0) ∧
      (psy_frame_count frames = 1 → out.dynamic_range = Dbl.fin 0) := by
  obtain ⟨n1, n2⟩ := psy_frame_count_bounds frames hlt
  have h95 := percentile_index_95 (psy_frame_count frames) n1 n2
  have h05 := percentile_index_05 (psy_frame_count frames) n1 n2
  have hs := qsort_double_sorted
    ((List.range (psy_frame_count frames)).map (psy_rms_db M mono frames))
  have hl := psy_sorted_db_length M mono frames
  have i95 : 95 * (psy_frame_count frames - 1) / 100 < psy_frame_count frames := by omega
  have i05 : 5 * (psy_frame_count frames - 1) / 100 < psy_frame_count frames := by omega
  have hle := sorted_getD_le (psy_sorted_db M mono frames) hs
    (5 * (psy_frame_count frames - 1) / 100) (95 * (psy_frame_count frames - 1) / 100)
    (by omega) (by rw [hl]; exact i95)
  have hg : ¬ (frames = 0 ∨ sr ≤ 0) := by
    rintro (h | h) <;> omega
  have hA2 : ¬ (A (8 * psy_frame_count frames) = false) := by
    rw [hA]
    decide
  have hval : compute_psychoacoustics M A mono frames sr
      = (0, some
          { roughness := Dbl.fin (psy_roughness M (psy_rms_db M mono frames)
              (psy_frame_count frames)),
            dissonance := Dbl.fin (psy_dissonance M (psy_rms_db M mono frames)
              (psy_frame_count frames)),
            loudness_lu := Dbl.fin (psy_loudness M (psy_rms M mono frames)
              (psy_rms_db M mono frames) (psy_frame_count frames)),
            dynamic_range := Dbl.fin (b64r
              ((psy_sorted_db M mono frames).getD
                  (psy_percentile_index (95 / 100) (psy_frame_count frames)) 0
                - (psy_sorted_db M mono frames).getD
                  (psy_percentile_index (5 / 100) (psy_frame_count frames)) 0)) }) := by
    unfold compute_psychoacoustics
    rw [if_neg hg]
    simp only []
    rw [if_neg hA2, if_neg hA2]
    rfl
  refine ⟨_, hval, hl, hs, qsort_double_perm _, h95, h05, i95, i05, ?_, ?_, ?_⟩
  · show Dbl.fin _ = Dbl.fin _
    rw [h95, h05]
  · exact b64r_nonneg (by linarith)
  · intro e1
    show Dbl.fin _ = Dbl.fin 0
    rw [h95, h05, e1]
    have : (95 * (1 - 1) / 100 : Nat) = 5 * (1 - 1) / 100 := by decide
    rw [this, sub_self, b64r_zero]

/-- C37 on one second of silence at 44100 Hz (20 analysis frames). -/
theorem C37_dynamic_range_witness :
    ∃ out, compute_psychoacoustics libm_model (fun _ => true) (fun _ => 0) 44100 44100
        = (0, some out) ∧
      out.dynamic_range
        = Dbl.fin (b64r
            ((psy_sorted_db libm_model (fun _ => 0) 44100).getD
                (95 * (psy_frame_count 44100 - 1) / 100) 0
              - (psy_sorted_db libm_model (fun _ => 0) 44100).getD
                (5 * (psy_frame_count 44100 - 1) / 100) 0)) := by
  obtain ⟨out, h1, _, _, _, _, _, _, _, h2, _⟩ :=
    C37_dynamic_range libm_model (fun _ => true) (fun _ => 0) 44100 44100 (by decide)
      (by decide) (by norm_num) rfl
  exact ⟨out, h1, h2⟩

/-! ## The spectral ratios of a short input -/

theorem production_fft_2304_out_of_bounds :
    production_fft_in_bounds 2304 = false ∧ production_blocks_ok 2304 512 2304 0 = false := by
  decide!

/-- C29 (the code departs from it): an input of 2304 frames (two MPEG-1 Layer
III frames) is accepted, is shorter than 4096 frames and is therefore
transformed at its own length 2304, which is not a power of two: the
butterflies of the stage `m = 512` start a block at `k = 2048` and touch the
index `2048 + 0 + 256 = 2304`, outside the buffer of 2304 elements. The
behaviour of `compute_production_features` is then undefined, so nothing bounds
`spectral_balance` or `masking_index`. -/
theorem C29_production_ratios_undefined (M : Libm) (E : ℚ → ℚ) (A : Nat → Bool)
    (stereo : Nat → ℚ) (channels : Nat) (hA : A (16 * 2304) = true) :
    production_fft_size 2304 = 2304 ∧
    production_fft_in_bounds 2304 = false ∧
    production_blocks_ok 2304 512 2304 0 = false ∧
    ¬ (2048 + (512 / 2 - 1) + 512 / 2 < 2304) ∧
    compute_production_features M E A stereo 2304 44100 channels = none :=
  ⟨production_fft_size_of_lt 2304 (by decide), production_fft_2304_out_of_bounds.1,
    production_fft_2304_out_of_bounds.2, by decide,
    production_short_undefined M E A stereo 2304 44100 channels (by decide) (by decide)
      (by decide) hA production_fft_2304_out_of_bounds.1⟩

/-- C29 on 2304 frames of stereo silence with every allocation granted. -/
theorem C29_production_ratios_undefined_witness :
    compute_production_features libm_model exp_model (fun _ => true) (fun _ => 0) 2304 44100 2
      = none :=
  (C29_production_ratios_undefined libm_model exp_model (fun _ => true) (fun _ => 0) 2
    rfl).2.2.2.2

/-! ## Key detection under transposition -/

theorem sum_loop12_congr (f g : Nat → ℚ) (h : ∀ i, i < 12 → f i = g i) :
    sum_loop 12 f = sum_loop 12 g := sum_loop_congr _ _ _ h

end GeniusRater
